import Mathlib

/-!
# WebKit2 `StorageManager`: a shallow embedding

The development follows `UIProcess/Storage/StorageManager.cpp`.

* C++ objects reached through pointers (`StorageArea`) live in a heap that maps an
  address to the object; `RefPtr` ownership is read off the heap and the tables
  that hold the pointers.
* `HashMap` / `HashSet` are association lists / lists without repetition; the
  iteration order of the C++ containers is the list order.
* Everything the manager sends or asks of a collaborator (IPC messages, calls on
  the backing store, failed `ASSERT`s) is appended to a trace of `Effect`s.
* `WTF::String` is `String`; a null `String` is `none` of `Option String`.
-/

namespace WebKit

/-! ## WTF containers -/

namespace WTF

/-- Association-list rendering of `WTF::HashMap<K, V>`. -/
abbrev HashMap (κ : Type) (α : Type) := List (κ × α)

/-- List rendering of `WTF::HashSet<T>`. -/
abbrev HashSet (α : Type) := List α

namespace HashMap

variable {κ α : Type} [DecidableEq κ]

/-- The value stored under a key (`HashMap::get`, `none` for the empty value). -/
def get : HashMap κ α → κ → Option α
  | [], _ => none
  | (k', v) :: m, k => if k' = k then some v else get m k

/-- Membership of a key (`HashMap::contains`). -/
def contains (m : HashMap κ α) (k : κ) : Bool := (get m k).isSome

/-- Insert or overwrite (`HashMap::set`). -/
def set : HashMap κ α → κ → α → HashMap κ α
  | [], k, v => [(k, v)]
  | (k', v') :: m, k, v => if k' = k then (k', v) :: m else (k', v') :: set m k v

/-- Insert when the key is new, keep the table otherwise (`HashMap::add`). -/
def add (m : HashMap κ α) (k : κ) (v : α) : HashMap κ α :=
  if contains m k then m else set m k v

/-- Delete a key (`HashMap::remove`). -/
def remove : HashMap κ α → κ → HashMap κ α
  | [], _ => []
  | (k', v') :: m, k => if k' = k then remove m k else (k', v') :: remove m k

/-- The values of the table in iteration order. -/
def values (m : HashMap κ α) : List α := m.map Prod.snd

/-- The keys of the table in iteration order. -/
def keys (m : HashMap κ α) : List κ := m.map Prod.fst

end HashMap

namespace HashSet

variable {α : Type} [DecidableEq α]

/-- Insert an element once (`HashSet::add`). -/
def add (s : HashSet α) (x : α) : HashSet α := if x ∈ s then s else s ++ [x]

/-- Delete an element (`HashSet::remove`). -/
def remove (s : HashSet α) (x : α) : HashSet α := s.filter (fun y => decide (y ≠ x))

end HashSet

/-- Valid keys of a `HashMap<uint64_t, V>`: the integer hash traits reserve `0`
(empty bucket) and `2^64 - 1` (deleted bucket). -/
def isValidKey (key : Nat) : Bool := decide (key ≠ 0) && decide (key ≠ 2 ^ 64 - 1)

end WTF

/-! ## Identities -/

/-- An `IPC::Connection`, known by its identity. -/
abbrev Connection := Nat

/-- A `WebCore::SecurityOrigin`, compared with `equal`. -/
abbrev SecurityOrigin := String

/-! ## `WebCore::StorageMap` -/

/-- Number of UTF-16 code units of a string (`String::length()`). -/
def utf16Length (s : String) : Nat :=
  (s.data.map fun c => if c.toNat < 65536 then 1 else 2).sum

/-- Serialized size in bytes of a set of key/value pairs: two bytes for each
UTF-16 code unit of each key and each value. -/
def serializedSize (items : WTF.HashMap String String) : Nat :=
  (items.map fun p => 2 * utf16Length p.1 + 2 * utf16Length p.2).sum

/-- Modelled from the spec: `WebCore::StorageMap` is outside this source tree. The
spec gives it as the items mapping of an Origin Quota Map, "string key → string
value, unique keys", under a quota on "the serialized size of all (key,value)
pairs", changed by "copy-on-write replace". A `StorageMap` is therefore an
immutable value here, and a mutation returns the map to install. -/
structure StorageMap where
  /-- quota in bytes the map was created with -/
  quotaSize : Nat
  /-- the items -/
  map : WTF.HashMap String String
deriving DecidableEq, Repr

namespace StorageMap

/-- Modelled from the spec: `StorageMap::create(quota)`, an empty mapping. -/
def create (quota : Nat) : StorageMap := { quotaSize := quota, map := [] }

/-- What `StorageMap::setItem` hands back: the map to install (null when there is
none), the old value (null when the key was absent) and the quota flag. -/
structure SetItemResult where
  newStorageMap : Option StorageMap
  oldValue : Option String
  quotaException : Bool
deriving DecidableEq, Repr

/-- Modelled from the spec: `StorageMap::setItem`. "computes old value, attempts a
copy-on-write replace; if the resulting total size exceeds quota, returns a
quota-exceeded signal and performs no other effect; otherwise commits the new
mapping". -/
def setItem (m : StorageMap) (key value : String) : SetItemResult :=
  let oldValue := WTF.HashMap.get m.map key
  let newMap := WTF.HashMap.set m.map key value
  if m.quotaSize < serializedSize newMap then
    { newStorageMap := none, oldValue := oldValue, quotaException := true }
  else
    { newStorageMap := some { m with map := newMap }, oldValue := oldValue,
      quotaException := false }

/-- Modelled from the spec: `StorageMap::removeItem`, "symmetric to setItem without
quota checks": the old value, and the map without the key when it was present. -/
def removeItem (m : StorageMap) (key : String) : Option StorageMap × Option String :=
  match WTF.HashMap.get m.map key with
  | none => (none, none)
  | some old => (some { m with map := WTF.HashMap.remove m.map key }, some old)

/-- Modelled from the spec: `StorageMap::length()`, the number of items. -/
def length (m : StorageMap) : Nat := m.map.length

/-- Modelled from the spec: `StorageMap::items()`. -/
def items (m : StorageMap) : WTF.HashMap String String := m.map

/-- Modelled from the spec: `StorageMap::importItems`, the "lazy import from the
backing store": every stored pair is added to the map; the spec states no quota
check for it. -/
def importItems (m : StorageMap) (stored : WTF.HashMap String String) : StorageMap :=
  { m with map := stored.foldl (fun acc p => WTF.HashMap.add acc p.1 p.2) m.map }

end StorageMap

/-! ## Collaborators and the trace -/

/-- The messages of `Messages::StorageAreaMap` sent to a web process. -/
inductive Message where
  | DidGetValues (storageMapSeed : Nat)
  | DidSetItem (storageMapSeed : Nat) (key : String) (quotaError : Bool)
  | DidRemoveItem (storageMapSeed : Nat) (key : String)
  | DidClear (storageMapSeed : Nat)
  | DispatchStorageEvent (storageAreaID : Nat) (key oldValue newValue : Option String)
      (urlString : String)
  | ClearCache
deriving DecidableEq, Repr

/-- The calls made on a `LocalStorageDatabase`, the backing store of one origin. -/
inductive DatabaseCall where
  | create
  | importItems
  | setItem (key value : String)
  | removeItem (key : String)
  | clear
  | close
deriving DecidableEq, Repr

/-- The `ASSERT`s of the file, named after the place they guard. -/
inductive Assertion where
  | addListenerNotRegistered
  | removeListenerRegistered
  | destroyedAreaHasNoListeners
  | cloneOfSessionArea
  | cloneToEmptyNamespace
  | setAllowedConnectionSlotFree
  | didDestroyStorageAreaIndexed
  | didDestroyStorageAreaNamespaceRegistered
  | createLocalStorageMapNewEntry
  | createLocalStorageMapValidNamespaceID
  | createLocalStorageMapNamespace
  | createSessionStorageMapValidNamespaceID
  | createSessionStorageMapNewEntry
  | createSessionStorageMapAllowedConnection
  | createSessionStorageNamespaceNew
  | destroySessionStorageNamespaceExists
  | setAllowedSessionStorageNamespaceConnectionExists
  | cloneSessionStorageNamespaceNewExists
deriving DecidableEq, Repr

/-- Everything observable from outside the manager. A failed `ASSERT` is recorded
and execution goes on as in a release build; `nullDereference` records a call
through a null pointer, after which the operation stops. -/
inductive Effect where
  | send (connection : Connection) (message : Message) (destinationID : Nat)
  | database (securityOrigin : SecurityOrigin) (call : DatabaseCall)
  | deleteDatabaseWithOrigin (securityOrigin : SecurityOrigin)
  | deleteAllDatabases
  | assertionFailure (assertion : Assertion)
  | nullDereference
deriving DecidableEq, Repr

/-- Modelled from the spec: `LocalStorageDatabaseTracker` stands for the on-disk
state of the Backing Store collaborator, "one on-disk database per origin". Its
content is an input of the model: the items each origin's database returns when
it is imported. -/
structure LocalStorageDatabaseTracker where
  databases : WTF.HashMap SecurityOrigin (WTF.HashMap String String)
deriving DecidableEq, Repr

/-- The items stored on disk for an origin (none when it has no database). -/
def LocalStorageDatabaseTracker.storedItems (t : LocalStorageDatabaseTracker)
    (origin : SecurityOrigin) : WTF.HashMap String String :=
  (WTF.HashMap.get t.databases origin).getD []

/-- Modelled from the spec: a `LocalStorageDatabase` handle, the "lazily-opened
backing-store handle" of one origin. -/
structure LocalStorageDatabase where
  securityOrigin : SecurityOrigin
deriving DecidableEq, Repr

/-! ## `StorageManager::StorageArea` -/

/-- The members of `StorageManager::StorageArea`. `localStorageNamespace` is the
back pointer to the owning `LocalStorageNamespace`, given by that namespace's
identifier; it is null for a storage area of a session storage namespace. -/
structure StorageArea where
  localStorageNamespace : Option Nat
  localStorageDatabase : Option LocalStorageDatabase
  didImportItemsFromDatabase : Bool
  securityOrigin : SecurityOrigin
  quotaInBytes : Nat
  storageMap : StorageMap
  eventListeners : WTF.HashSet (Connection × Nat)
deriving DecidableEq, Repr

/-- A storage area after a member function ran, what the function returned, and
the effects it had on the collaborators, in order. -/
structure Outcome (ρ : Type) where
  area : StorageArea
  result : ρ
  effects : List Effect

namespace StorageArea

/-- The constructor behind `StorageArea::create`. -/
def create (localStorageNamespace : Option Nat) (securityOrigin : SecurityOrigin)
    (quotaInBytes : Nat) : StorageArea :=
  { localStorageNamespace := localStorageNamespace
    localStorageDatabase := none
    didImportItemsFromDatabase := false
    securityOrigin := securityOrigin
    quotaInBytes := quotaInBytes
    storageMap := StorageMap.create quotaInBytes
    eventListeners := [] }

/-- Source function `StorageArea::addListener`. -/
def addListener (a : StorageArea) (connection : Connection) (storageMapID : Nat) :
    StorageArea × List Effect :=
  ({ a with eventListeners := WTF.HashSet.add a.eventListeners (connection, storageMapID) },
   if (connection, storageMapID) ∈ a.eventListeners then
     [Effect.assertionFailure .addListenerNotRegistered] else [])

/-- Source function `StorageArea::removeListener`. -/
def removeListener (a : StorageArea) (connection : Connection) (storageMapID : Nat) :
    StorageArea × List Effect :=
  ({ a with eventListeners := WTF.HashSet.remove a.eventListeners (connection, storageMapID) },
   if (connection, storageMapID) ∈ a.eventListeners then [] else
     [Effect.assertionFailure .removeListenerRegistered])

/-- Source function `StorageArea::clone`. The new area shares the storage map of this
one. -/
def clone (a : StorageArea) : StorageArea × List Effect :=
  ({ create none a.securityOrigin a.quotaInBytes with storageMap := a.storageMap },
   if a.localStorageNamespace.isSome then [Effect.assertionFailure .cloneOfSessionArea] else [])

/-- Source function `StorageArea::openDatabaseAndImportItemsIfNeeded`. -/
def openDatabaseAndImportItemsIfNeeded (tracker : LocalStorageDatabaseTracker)
    (a : StorageArea) : StorageArea × List Effect :=
  match a.localStorageNamespace with
  | none => (a, [])
  | some _ =>
    let opened : StorageArea × List Effect :=
      match a.localStorageDatabase with
      | some _ => (a, [])
      | none =>
        ({ a with localStorageDatabase := some { securityOrigin := a.securityOrigin } },
         [Effect.database a.securityOrigin .create])
    if opened.1.didImportItemsFromDatabase then opened
    else
      ({ opened.1 with
          storageMap := opened.1.storageMap.importItems (tracker.storedItems a.securityOrigin)
          didImportItemsFromDatabase := true },
       opened.2 ++ [Effect.database a.securityOrigin .importItems])

/-- Source function `StorageArea::dispatchEvents`: one `DispatchStorageEvent` for each
listener. -/
def dispatchEvents (a : StorageArea) (sourceConnection : Connection)
    (sourceStorageAreaID : Nat) (key oldValue newValue : Option String)
    (urlString : String) : List Effect :=
  a.eventListeners.map fun it =>
    let storageAreaID := if it.1 = sourceConnection then sourceStorageAreaID else 0
    Effect.send it.1 (.DispatchStorageEvent storageAreaID key oldValue newValue urlString) it.2

/-- The call on the backing store, made only when its handle is open. -/
def writeThrough (a : StorageArea) (call : DatabaseCall) : List Effect :=
  match a.localStorageDatabase with
  | some db => [Effect.database db.securityOrigin call]
  | none => []

/-- Source function `StorageArea::setItem`; the result is the `quotaException`
out-parameter. -/
def setItem (tracker : LocalStorageDatabaseTracker) (a : StorageArea)
    (sourceConnection : Connection) (sourceStorageAreaID : Nat)
    (key value urlString : String) : Outcome Bool :=
  let opened := a.openDatabaseAndImportItemsIfNeeded tracker
  let r := opened.1.storageMap.setItem key value
  let a1 : StorageArea :=
    match r.newStorageMap with
    | some newStorageMap => { opened.1 with storageMap := newStorageMap }
    | none => opened.1
  if r.quotaException then
    { area := a1, result := true, effects := opened.2 }
  else
    { area := a1, result := false
      effects := opened.2 ++ a1.writeThrough (.setItem key value)
        ++ a1.dispatchEvents sourceConnection sourceStorageAreaID
            (some key) r.oldValue (some value) urlString }

/-- Source function `StorageArea::removeItem`. -/
def removeItem (tracker : LocalStorageDatabaseTracker) (a : StorageArea)
    (sourceConnection : Connection) (sourceStorageAreaID : Nat)
    (key urlString : String) : Outcome Unit :=
  let opened := a.openDatabaseAndImportItemsIfNeeded tracker
  let r := opened.1.storageMap.removeItem key
  let a1 : StorageArea :=
    match r.1 with
    | some newStorageMap => { opened.1 with storageMap := newStorageMap }
    | none => opened.1
  match r.2 with
  | none => { area := a1, result := (), effects := opened.2 }
  | some oldValue =>
    { area := a1, result := ()
      effects := opened.2 ++ a1.writeThrough (.removeItem key)
        ++ a1.dispatchEvents sourceConnection sourceStorageAreaID
            (some key) (some oldValue) none urlString }

/-- Source function `StorageArea::clear(sourceConnection, sourceStorageAreaID,
urlString)`. -/
def clear (tracker : LocalStorageDatabaseTracker) (a : StorageArea)
    (sourceConnection : Connection) (sourceStorageAreaID : Nat)
    (urlString : String) : Outcome Unit :=
  let opened := a.openDatabaseAndImportItemsIfNeeded tracker
  if opened.1.storageMap.length = 0 then
    { area := opened.1, result := (), effects := opened.2 }
  else
    let a1 : StorageArea := { opened.1 with storageMap := StorageMap.create opened.1.quotaInBytes }
    { area := a1, result := ()
      effects := opened.2 ++ a1.writeThrough .clear
        ++ a1.dispatchEvents sourceConnection sourceStorageAreaID none none none urlString }

/-- Source function `StorageArea::items`; the result is the returned item table. -/
def items (tracker : LocalStorageDatabaseTracker) (a : StorageArea) :
    Outcome (WTF.HashMap String String) :=
  let opened := a.openDatabaseAndImportItemsIfNeeded tracker
  { area := opened.1, result := opened.1.storageMap.items, effects := opened.2 }

/-- Source function `StorageArea::clear()`, the overload without arguments (the spec's
`forceClear`). -/
def forceClear (a : StorageArea) : StorageArea × List Effect :=
  ({ a with storageMap := StorageMap.create a.quotaInBytes, localStorageDatabase := none },
   a.writeThrough .close
     ++ a.eventListeners.map fun it => Effect.send it.1 .ClearCache it.2)

end StorageArea

/-! ## Sequences of operations on one storage area -/

namespace StorageArea

/-- The operations of one storage area that read or change its items. -/
inductive Operation where
  | setItem (sourceConnection : Connection) (sourceStorageAreaID : Nat)
      (key value urlString : String)
  | removeItem (sourceConnection : Connection) (sourceStorageAreaID : Nat)
      (key urlString : String)
  | clear (sourceConnection : Connection) (sourceStorageAreaID : Nat) (urlString : String)
  | forceClear
  | items
deriving DecidableEq, Repr

/-- The storage area after one operation. -/
def apply (tracker : LocalStorageDatabaseTracker) (a : StorageArea) : Operation → StorageArea
  | .setItem c i k v u => (a.setItem tracker c i k v u).area
  | .removeItem c i k u => (a.removeItem tracker c i k u).area
  | .clear c i u => (a.clear tracker c i u).area
  | .forceClear => a.forceClear.1
  | .items => (a.items tracker).area

/-- The storage area after a sequence of operations, applied in order. -/
def run (tracker : LocalStorageDatabaseTracker) (a : StorageArea) (ops : List Operation) :
    StorageArea :=
  ops.foldl (apply tracker) a

end StorageArea

/-! ## Namespaces and the manager -/

/-- The members of `StorageManager::LocalStorageNamespace`. The storage areas are
held by raw pointer (heap address): "they are kept alive by the
m_storageAreasByConnection map in StorageManager". -/
structure LocalStorageNamespace where
  storageNamespaceID : Nat
  quotaInBytes : Nat
  storageAreaMap : WTF.HashMap SecurityOrigin Nat
deriving DecidableEq, Repr

/-- The constructor of `LocalStorageNamespace`, with its fixed quota. -/
def LocalStorageNamespace.create (storageNamespaceID : Nat) : LocalStorageNamespace :=
  { storageNamespaceID := storageNamespaceID
    quotaInBytes := 5 * 1024 * 1024
    storageAreaMap := [] }

/-- The members of `StorageManager::SessionStorageNamespace`. The storage areas
are held by `RefPtr` (heap address, counted as an owner). -/
structure SessionStorageNamespace where
  allowedConnection : Option Connection
  quotaInBytes : Nat
  storageAreaMap : WTF.HashMap SecurityOrigin Nat
deriving DecidableEq, Repr

/-- The constructor of `SessionStorageNamespace`. -/
def SessionStorageNamespace.create (allowedConnection : Option Connection)
    (quotaInBytes : Nat) : SessionStorageNamespace :=
  { allowedConnection := allowedConnection, quotaInBytes := quotaInBytes, storageAreaMap := [] }

/-- Source function `SessionStorageNamespace::isEmpty`. -/
def SessionStorageNamespace.isEmpty (n : SessionStorageNamespace) : Bool :=
  n.storageAreaMap.isEmpty

/-- Source function `SessionStorageNamespace::setAllowedConnection`. -/
def SessionStorageNamespace.setAllowedConnection (n : SessionStorageNamespace)
    (allowedConnection : Option Connection) : SessionStorageNamespace × List Effect :=
  ({ n with allowedConnection := allowedConnection },
   if allowedConnection.isSome ∧ n.allowedConnection.isSome then
     [Effect.assertionFailure .setAllowedConnectionSlotFree] else [])

/-- The state of a `StorageManager`, all of it confined to the work queue:
the three tables of the class, the heap of live `StorageArea` objects with the
next free address, the backing store, and the trace of effects so far. -/
structure StorageManager where
  localStorageDatabaseTracker : LocalStorageDatabaseTracker
  localStorageNamespaces : WTF.HashMap Nat LocalStorageNamespace
  sessionStorageNamespaces : WTF.HashMap Nat SessionStorageNamespace
  storageAreasByConnection : WTF.HashMap (Connection × Nat) Nat
  storageAreas : WTF.HashMap Nat StorageArea
  nextAddress : Nat
  trace : List Effect
deriving DecidableEq, Repr

namespace StorageManager

/-- Source function `StorageManager::create`: no namespace, no binding, no storage
area. -/
def create (tracker : LocalStorageDatabaseTracker) : StorageManager :=
  { localStorageDatabaseTracker := tracker
    localStorageNamespaces := []
    sessionStorageNamespaces := []
    storageAreasByConnection := []
    storageAreas := []
    nextAddress := 1
    trace := [] }

/-- Append effects to the trace. -/
def emit (s : StorageManager) (effects : List Effect) : StorageManager :=
  { s with trace := s.trace ++ effects }

/-- The live storage area at an address. -/
def storageArea (s : StorageManager) (address : Nat) : Option StorageArea :=
  WTF.HashMap.get s.storageAreas address

/-- Place a new storage area on the heap (`adoptRef(new StorageArea(...))`). -/
def allocate (s : StorageManager) (a : StorageArea) : StorageManager × Nat :=
  ({ s with storageAreas := WTF.HashMap.set s.storageAreas s.nextAddress a
            nextAddress := s.nextAddress + 1 }, s.nextAddress)

/-- Run a member function on the storage area at an address: the object is
updated in place and the effects join the trace. -/
def callOnStorageArea (s : StorageManager) (address : Nat)
    (f : StorageArea → StorageArea × List Effect) : StorageManager :=
  match s.storageArea address with
  | none => s
  | some a =>
    { s with storageAreas := WTF.HashMap.set s.storageAreas address (f a).1
             trace := s.trace ++ (f a).2 }

/-- The number of `RefPtr<StorageArea>` that hold the address: the entries of
`m_storageAreasByConnection` and of the session storage namespaces. -/
def refCount (s : StorageManager) (address : Nat) : Nat :=
  (WTF.HashMap.values s.storageAreasByConnection).count address
    + ((WTF.HashMap.values s.sessionStorageNamespaces).map
        fun n => (WTF.HashMap.values n.storageAreaMap).count address).sum

/-- Source function `LocalStorageNamespace::didDestroyStorageArea`, on the namespace
registered
under `namespaceAddress`. -/
def didDestroyStorageArea (s : StorageManager) (namespaceAddress : Nat) (a : StorageArea) :
    StorageManager :=
  match WTF.HashMap.get s.localStorageNamespaces namespaceAddress with
  | none => s.emit [Effect.nullDereference]
  | some n =>
    let s1 := s.emit (if WTF.HashMap.contains n.storageAreaMap a.securityOrigin then []
      else [Effect.assertionFailure .didDestroyStorageAreaIndexed])
    let n1 : LocalStorageNamespace :=
      { n with storageAreaMap := WTF.HashMap.remove n.storageAreaMap a.securityOrigin }
    let s2 : StorageManager :=
      { s1 with
        localStorageNamespaces := WTF.HashMap.set s1.localStorageNamespaces namespaceAddress n1 }
    if !n1.storageAreaMap.isEmpty then s2
    else
      let s3 := s2.emit
        (if WTF.HashMap.contains s2.localStorageNamespaces n1.storageNamespaceID then []
          else [Effect.assertionFailure .didDestroyStorageAreaNamespaceRegistered])
      { s3 with
        localStorageNamespaces :=
          WTF.HashMap.remove s3.localStorageNamespaces n1.storageNamespaceID }

/-- Source function `StorageArea::~StorageArea`, run on the object at the address,
which leaves
the heap. -/
def destroyStorageArea (s : StorageManager) (address : Nat) : StorageManager :=
  match s.storageArea address with
  | none => s
  | some a =>
    let s1 := s.emit ((if a.eventListeners.isEmpty then []
      else [Effect.assertionFailure .destroyedAreaHasNoListeners]) ++ a.writeThrough .close)
    let s2 : StorageManager :=
      { s1 with storageAreas := WTF.HashMap.remove s1.storageAreas address }
    match a.localStorageNamespace with
    | none => s2
    | some namespaceAddress => s2.didDestroyStorageArea namespaceAddress a

/-- A `RefPtr<StorageArea>` holding the address has just been dropped: the object
is destroyed when no owner is left. -/
def derefStorageArea (s : StorageManager) (address : Nat) : StorageManager :=
  if s.refCount address = 0 then s.destroyStorageArea address else s

/-- Source function `LocalStorageNamespace::getOrCreateStorageArea`, on the namespace
registered
under `storageNamespaceID`; the result is the address of the storage area, or
`none` when there is no such namespace to call it on. -/
def localGetOrCreateStorageArea (s : StorageManager) (storageNamespaceID : Nat)
    (securityOrigin : SecurityOrigin) : StorageManager × Option Nat :=
  match WTF.HashMap.get s.localStorageNamespaces storageNamespaceID with
  | none => (s, none)
  | some n =>
    match WTF.HashMap.get n.storageAreaMap securityOrigin with
    | some address => (s, some address)
    | none =>
      let r := s.allocate
        (StorageArea.create (some storageNamespaceID) securityOrigin n.quotaInBytes)
      let n1 : LocalStorageNamespace :=
        { n with storageAreaMap := WTF.HashMap.set n.storageAreaMap securityOrigin r.2 }
      let namespaces := WTF.HashMap.set r.1.localStorageNamespaces storageNamespaceID n1
      ({ r.1 with localStorageNamespaces := namespaces }, some r.2)

/-- Source function `SessionStorageNamespace::getOrCreateStorageArea`, on the namespace
registered
under `storageNamespaceID`. -/
def sessionGetOrCreateStorageArea (s : StorageManager) (storageNamespaceID : Nat)
    (securityOrigin : SecurityOrigin) : StorageManager × Option Nat :=
  match WTF.HashMap.get s.sessionStorageNamespaces storageNamespaceID with
  | none => (s, none)
  | some n =>
    match WTF.HashMap.get n.storageAreaMap securityOrigin with
    | some address => (s, some address)
    | none =>
      let r := s.allocate (StorageArea.create none securityOrigin n.quotaInBytes)
      let n1 : SessionStorageNamespace :=
        { n with storageAreaMap := WTF.HashMap.set n.storageAreaMap securityOrigin r.2 }
      let namespaces := WTF.HashMap.set r.1.sessionStorageNamespaces storageNamespaceID n1
      ({ r.1 with sessionStorageNamespaces := namespaces }, some r.2)

/-- Source function `StorageManager::getOrCreateLocalStorageNamespace`; the result
tells whether a
namespace is returned (false for the null pointer of an invalid identifier). -/
def getOrCreateLocalStorageNamespace (s : StorageManager) (storageNamespaceID : Nat) :
    StorageManager × Bool :=
  if !WTF.isValidKey storageNamespaceID then (s, false)
  else
    let namespaces := WTF.HashMap.add s.localStorageNamespaces storageNamespaceID
      (LocalStorageNamespace.create storageNamespaceID)
    ({ s with localStorageNamespaces := namespaces }, true)

/-- Source function `StorageManager::findStorageArea`. A pair with a non-null
connection is always
a valid key of the table, so only the lookup remains. -/
def findStorageArea (s : StorageManager) (connection : Connection) (storageMapID : Nat) :
    Option Nat :=
  WTF.HashMap.get s.storageAreasByConnection (connection, storageMapID)

end StorageManager

namespace StorageManager

/-- Drop one `RefPtr` for each address of the list, in order. -/
def derefStorageAreas (s : StorageManager) (addresses : List Nat) : StorageManager :=
  addresses.foldl derefStorageArea s

/-- Store what a member function of the storage area at `address` left behind and
append its effects, followed by the reply of the manager. -/
def storeOutcome {ρ : Type} (s : StorageManager) (address : Nat) (r : Outcome ρ)
    (reply : List Effect) : StorageManager :=
  { s with storageAreas := WTF.HashMap.set s.storageAreas address r.area
           trace := s.trace ++ r.effects ++ reply }

/-- The end of `createLocalStorageMap` and of `createSessionStorageMap`:
`storageArea->addListener(connection, storageMapID)` and
`result.iterator->value = storageArea.release()`. The table entry is added with a
null value at the start of those functions and receives the storage area here;
the model writes it once, and the pointer an existing entry held is dropped. -/
def bindStorageArea (s : StorageManager) (connection : Connection) (storageMapID : Nat)
    (address : Nat) : StorageManager :=
  let s1 := s.callOnStorageArea address (fun a => a.addListener connection storageMapID)
  let s2 : StorageManager :=
    { s1 with
      storageAreasByConnection :=
        WTF.HashMap.set s1.storageAreasByConnection (connection, storageMapID) address }
  match WTF.HashMap.get s.storageAreasByConnection (connection, storageMapID) with
  | none => s2
  | some old => s2.derefStorageArea old

/-- The assertions `createLocalStorageMap` makes before it looks for the
namespace. -/
def createLocalStorageMapChecks (s : StorageManager) (connection : Connection)
    (storageMapID storageNamespaceID : Nat) : List Effect :=
  (if WTF.HashMap.contains s.storageAreasByConnection (connection, storageMapID)
    then [Effect.assertionFailure .createLocalStorageMapNewEntry] else [])
    ++ (if WTF.isValidKey storageNamespaceID then []
        else [Effect.assertionFailure .createLocalStorageMapValidNamespaceID])

/-- Source function `StorageManager::createLocalStorageMap`. -/
def createLocalStorageMap (s : StorageManager) (connection : Connection)
    (storageMapID storageNamespaceID : Nat) (securityOrigin : SecurityOrigin) :
    StorageManager :=
  let s1 := s.emit (s.createLocalStorageMapChecks connection storageMapID storageNamespaceID)
  let r := s1.getOrCreateLocalStorageNamespace storageNamespaceID
  if r.2 = false then
    r.1.emit [Effect.assertionFailure .createLocalStorageMapNamespace, Effect.nullDereference]
  else
    let g := r.1.localGetOrCreateStorageArea storageNamespaceID securityOrigin
    match g.2 with
    | none => g.1.emit [Effect.nullDereference]
    | some address => g.1.bindStorageArea connection storageMapID address

/-- The assertions `createSessionStorageMap` makes once it has the namespace. -/
def createSessionStorageMapChecks (s : StorageManager) (n : SessionStorageNamespace)
    (connection : Connection) (storageMapID : Nat) : List Effect :=
  (if WTF.HashMap.contains s.storageAreasByConnection (connection, storageMapID)
    then [Effect.assertionFailure .createSessionStorageMapNewEntry] else [])
    ++ (if n.allowedConnection = some connection then []
        else [Effect.assertionFailure .createSessionStorageMapAllowedConnection])

/-- Source function `StorageManager::createSessionStorageMap`. -/
def createSessionStorageMap (s : StorageManager) (connection : Connection)
    (storageMapID storageNamespaceID : Nat) (securityOrigin : SecurityOrigin) :
    StorageManager :=
  let s0 := s.emit (if WTF.isValidKey storageNamespaceID then []
    else [Effect.assertionFailure .createSessionStorageMapValidNamespaceID])
  match WTF.HashMap.get s0.sessionStorageNamespaces storageNamespaceID with
  | none => s0
  | some n =>
    let s1 := s0.emit (s0.createSessionStorageMapChecks n connection storageMapID)
    let g := s1.sessionGetOrCreateStorageArea storageNamespaceID securityOrigin
    match g.2 with
    | none => g.1.emit [Effect.nullDereference]
    | some address => g.1.bindStorageArea connection storageMapID address

/-- Source function `StorageManager::destroyStorageMap`. -/
def destroyStorageMap (s : StorageManager) (connection : Connection) (storageMapID : Nat) :
    StorageManager :=
  match WTF.HashMap.get s.storageAreasByConnection (connection, storageMapID) with
  | none => s
  | some address =>
    let s1 := s.callOnStorageArea address (fun a => a.removeListener connection storageMapID)
    let s2 : StorageManager :=
      { s1 with
        storageAreasByConnection :=
          WTF.HashMap.remove s1.storageAreasByConnection (connection, storageMapID) }
    s2.derefStorageArea address

/-- Source function `StorageManager::getValues`; the second component is the `values`
out-parameter, `none` when nothing was written to it. -/
def getValues (s : StorageManager) (connection : Connection)
    (storageMapID storageMapSeed : Nat) :
    StorageManager × Option (WTF.HashMap String String) :=
  match s.findStorageArea connection storageMapID with
  | none => (s, none)
  | some address =>
    match s.storageArea address with
    | none => (s, none)
    | some a =>
      let r := a.items s.localStorageDatabaseTracker
      (s.storeOutcome address r
        [Effect.send connection (.DidGetValues storageMapSeed) storageMapID], some r.result)

/-- Source function `StorageManager::setItem`. -/
def setItem (s : StorageManager) (connection : Connection)
    (storageMapID sourceStorageAreaID storageMapSeed : Nat) (key value urlString : String) :
    StorageManager :=
  match s.findStorageArea connection storageMapID with
  | none => s
  | some address =>
    match s.storageArea address with
    | none => s
    | some a =>
      let r := a.setItem s.localStorageDatabaseTracker connection sourceStorageAreaID
        key value urlString
      s.storeOutcome address r
        [Effect.send connection (.DidSetItem storageMapSeed key r.result) storageMapID]

/-- Source function `StorageManager::removeItem`. -/
def removeItem (s : StorageManager) (connection : Connection)
    (storageMapID sourceStorageAreaID storageMapSeed : Nat) (key urlString : String) :
    StorageManager :=
  match s.findStorageArea connection storageMapID with
  | none => s
  | some address =>
    match s.storageArea address with
    | none => s
    | some a =>
      let r := a.removeItem s.localStorageDatabaseTracker connection sourceStorageAreaID
        key urlString
      s.storeOutcome address r
        [Effect.send connection (.DidRemoveItem storageMapSeed key) storageMapID]

/-- Source function `StorageManager::clear`. -/
def clear (s : StorageManager) (connection : Connection)
    (storageMapID sourceStorageAreaID storageMapSeed : Nat) (urlString : String) :
    StorageManager :=
  match s.findStorageArea connection storageMapID with
  | none => s
  | some address =>
    match s.storageArea address with
    | none => s
    | some a =>
      let r := a.clear s.localStorageDatabaseTracker connection sourceStorageAreaID urlString
      s.storeOutcome address r [Effect.send connection (.DidClear storageMapSeed) storageMapID]

/-- Source function `StorageManager::createSessionStorageNamespaceInternal`.
`HashMap::set`
overwrites; the storage areas of an overwritten namespace lose that owner. -/
def createSessionStorageNamespaceInternal (s : StorageManager) (storageNamespaceID : Nat)
    (allowedConnection : Option Connection) (quotaInBytes : Nat) : StorageManager :=
  let previous := WTF.HashMap.get s.sessionStorageNamespaces storageNamespaceID
  let s1 := s.emit (if previous.isSome
    then [Effect.assertionFailure .createSessionStorageNamespaceNew] else [])
  let s2 : StorageManager :=
    { s1 with
      sessionStorageNamespaces :=
        WTF.HashMap.set s1.sessionStorageNamespaces storageNamespaceID
          (SessionStorageNamespace.create allowedConnection quotaInBytes) }
  match previous with
  | none => s2
  | some n => s2.derefStorageAreas (WTF.HashMap.values n.storageAreaMap)

/-- Source function `StorageManager::destroySessionStorageNamespaceInternal`. The
namespace leaves
the table; its storage areas lose that owner. -/
def destroySessionStorageNamespaceInternal (s : StorageManager) (storageNamespaceID : Nat) :
    StorageManager :=
  match WTF.HashMap.get s.sessionStorageNamespaces storageNamespaceID with
  | none => s.emit [Effect.assertionFailure .destroySessionStorageNamespaceExists]
  | some n =>
    let s1 : StorageManager :=
      { s with
        sessionStorageNamespaces :=
          WTF.HashMap.remove s.sessionStorageNamespaces storageNamespaceID }
    s1.derefStorageAreas (WTF.HashMap.values n.storageAreaMap)

/-- Source function
`StorageManager::setAllowedSessionStorageNamespaceConnectionInternal`. -/
def setAllowedSessionStorageNamespaceConnectionInternal (s : StorageManager)
    (storageNamespaceID : Nat) (allowedConnection : Option Connection) : StorageManager :=
  match WTF.HashMap.get s.sessionStorageNamespaces storageNamespaceID with
  | none =>
    s.emit [Effect.assertionFailure .setAllowedSessionStorageNamespaceConnectionExists,
      Effect.nullDereference]
  | some n =>
    let r := n.setAllowedConnection allowedConnection
    let s1 : StorageManager :=
      { s with
        sessionStorageNamespaces :=
          WTF.HashMap.set s.sessionStorageNamespaces storageNamespaceID r.1 }
    s1.emit r.2

/-- One round of the loop of `SessionStorageNamespace::cloneTo`:
`newSessionStorageNamespace.m_storageAreaMap.add(it->key, it->value->clone())`.
A clone that `add` does not take is dropped at once. -/
def cloneToStep (newStorageNamespaceID : Nat) (s : StorageManager)
    (it : SecurityOrigin × Nat) : StorageManager :=
  match s.storageArea it.2, WTF.HashMap.get s.sessionStorageNamespaces newStorageNamespaceID with
  | some a, some n =>
    let s1 := s.emit a.clone.2
    if WTF.HashMap.contains n.storageAreaMap it.1 then s1
    else
      let r := s1.allocate a.clone.1
      let n1 : SessionStorageNamespace :=
        { n with storageAreaMap := WTF.HashMap.set n.storageAreaMap it.1 r.2 }
      { r.1 with
        sessionStorageNamespaces :=
          WTF.HashMap.set r.1.sessionStorageNamespaces newStorageNamespaceID n1 }
  | _, _ => s

/-- Source function `SessionStorageNamespace::cloneTo`, from the namespace `n` into the
one
registered under `newStorageNamespaceID`. -/
def cloneTo (s : StorageManager) (n : SessionStorageNamespace) (newStorageNamespaceID : Nat) :
    StorageManager :=
  let s1 := s.emit
    (match WTF.HashMap.get s.sessionStorageNamespaces newStorageNamespaceID with
     | some new => if new.isEmpty then [] else [Effect.assertionFailure .cloneToEmptyNamespace]
     | none => [])
  n.storageAreaMap.foldl (cloneToStep newStorageNamespaceID) s1

/-- Source function `StorageManager::cloneSessionStorageNamespaceInternal`. -/
def cloneSessionStorageNamespaceInternal (s : StorageManager)
    (storageNamespaceID newStorageNamespaceID : Nat) : StorageManager :=
  match WTF.HashMap.get s.sessionStorageNamespaces storageNamespaceID with
  | none => s
  | some n =>
    match WTF.HashMap.get s.sessionStorageNamespaces newStorageNamespaceID with
    | none =>
      s.emit [Effect.assertionFailure .cloneSessionStorageNamespaceNewExists,
        Effect.nullDereference]
    | some _ => s.cloneTo n newStorageNamespaceID

/-- Remove one entry of `m_storageAreasByConnection`, dropping its pointer. -/
def removeStorageAreaByConnection (s : StorageManager) (key : Connection × Nat) :
    StorageManager :=
  match WTF.HashMap.get s.storageAreasByConnection key with
  | none => s
  | some address =>
    let s1 : StorageManager :=
      { s with storageAreasByConnection := WTF.HashMap.remove s.storageAreasByConnection key }
    s1.derefStorageArea address

/-- The work item of `StorageManager::applicationWillTerminate`. -/
def applicationWillTerminate (s : StorageManager) : StorageManager :=
  let s1 := s.storageAreasByConnection.foldl
    (fun acc it => acc.callOnStorageArea it.2 (fun a => a.removeListener it.1.1 it.1.2)) s
  (WTF.HashMap.keys s.storageAreasByConnection).foldl removeStorageAreaByConnection s1

/-- Source function `StorageManager::invalidateConnectionInternal`. The loop runs over
a copy of
the table, which owns the storage areas until the function returns. -/
def invalidateConnectionInternal (s : StorageManager) (connection : Connection) :
    StorageManager :=
  let copy := s.storageAreasByConnection
  let toRemove := copy.filter (fun it => decide (it.1.1 = connection))
  let s1 := toRemove.foldl
    (fun acc it => acc.callOnStorageArea it.2 (fun a => a.removeListener it.1.1 it.1.2)) s
  let s2 : StorageManager :=
    { s1 with
      storageAreasByConnection :=
        (WTF.HashMap.keys toRemove).foldl WTF.HashMap.remove s1.storageAreasByConnection }
  s2.derefStorageAreas (WTF.HashMap.values copy)

/-- Source function `LocalStorageNamespace::clearStorageAreasMatchingOrigin`. -/
def clearStorageAreasMatchingOrigin (s : StorageManager) (n : LocalStorageNamespace)
    (securityOrigin : SecurityOrigin) : StorageManager :=
  n.storageAreaMap.foldl
    (fun acc it =>
      if it.1 = securityOrigin then acc.callOnStorageArea it.2 StorageArea.forceClear else acc) s

/-- Source function `LocalStorageNamespace::clearAllStorageAreas`. -/
def clearAllStorageAreas (s : StorageManager) (n : LocalStorageNamespace) : StorageManager :=
  n.storageAreaMap.foldl (fun acc it => acc.callOnStorageArea it.2 StorageArea.forceClear) s

/-- Source function `StorageManager::deleteEntriesForOriginInternal`. -/
def deleteEntriesForOriginInternal (s : StorageManager) (securityOrigin : SecurityOrigin) :
    StorageManager :=
  ((WTF.HashMap.values s.localStorageNamespaces).foldl
    (fun acc n => acc.clearStorageAreasMatchingOrigin n securityOrigin) s).emit
    [Effect.deleteDatabaseWithOrigin securityOrigin]

/-- Source function `StorageManager::deleteAllEntriesInternal`. -/
def deleteAllEntriesInternal (s : StorageManager) : StorageManager :=
  ((WTF.HashMap.values s.localStorageNamespaces).foldl
    (fun acc n => acc.clearAllStorageAreas n) s).emit [Effect.deleteAllDatabases]

end StorageManager

/-! ## Reading the trace -/

/-- The storage event an effect delivers to the listener `(connection, storageMapID)`,
if it is one. -/
def Effect.storageEventTo (connection : Connection) (storageMapID : Nat) :
    Effect → Option Message
  | .send c (.DispatchStorageEvent i k o n u) d =>
    if c = connection ∧ d = storageMapID then some (.DispatchStorageEvent i k o n u) else none
  | _ => none

/-- The storage events, in order, that a list of effects delivers to one listener. -/
def storageEventsTo (effects : List Effect) (connection : Connection) (storageMapID : Nat) :
    List Message :=
  effects.filterMap (Effect.storageEventTo connection storageMapID)

/-- The effects the manager had between the state `s` and a later state. -/
def StorageManager.effectsSince (s later : StorageManager) : List Effect :=
  later.trace.drop s.trace.length

/-! ## Soundness of a storage area -/

/-- What every storage area the manager builds satisfies: its listeners are a
set, and its storage map enforces the quota of the area. -/
def StorageArea.Sound (a : StorageArea) : Prop :=
  a.eventListeners.Nodup ∧ a.storageMap.quotaSize = a.quotaInBytes

/-- The storage area `b` may stand where `a` stood: it has the same owner, and it
is sound when `a` was. -/
def StorageArea.Keeps (a b : StorageArea) : Prop :=
  b.localStorageNamespace = a.localStorageNamespace ∧ (a.Sound → b.Sound)

/-! ## Requests and reachable states -/

/-- Everything the work queue of the manager is asked to do: the messages of a
web process and the internal functions dispatched by the UI process. -/
inductive Request where
  | createLocalStorageMap (connection : Connection) (storageMapID storageNamespaceID : Nat)
      (securityOrigin : SecurityOrigin)
  | createSessionStorageMap (connection : Connection) (storageMapID storageNamespaceID : Nat)
      (securityOrigin : SecurityOrigin)
  | destroyStorageMap (connection : Connection) (storageMapID : Nat)
  | getValues (connection : Connection) (storageMapID storageMapSeed : Nat)
  | setItem (connection : Connection) (storageMapID sourceStorageAreaID storageMapSeed : Nat)
      (key value urlString : String)
  | removeItem (connection : Connection) (storageMapID sourceStorageAreaID storageMapSeed : Nat)
      (key urlString : String)
  | clear (connection : Connection) (storageMapID sourceStorageAreaID storageMapSeed : Nat)
      (urlString : String)
  | createSessionStorageNamespace (storageNamespaceID : Nat)
      (allowedConnection : Option Connection) (quotaInBytes : Nat)
  | destroySessionStorageNamespace (storageNamespaceID : Nat)
  | setAllowedSessionStorageNamespaceConnection (storageNamespaceID : Nat)
      (allowedConnection : Option Connection)
  | cloneSessionStorageNamespace (storageNamespaceID newStorageNamespaceID : Nat)
  | applicationWillTerminate
  | invalidateConnection (connection : Connection)
  | deleteEntriesForOrigin (securityOrigin : SecurityOrigin)
  | deleteAllEntries
deriving DecidableEq, Repr

namespace StorageManager

/-- The manager after the work queue carried out one request. -/
def handle (s : StorageManager) : Request → StorageManager
  | .createLocalStorageMap c i n o => s.createLocalStorageMap c i n o
  | .createSessionStorageMap c i n o => s.createSessionStorageMap c i n o
  | .destroyStorageMap c i => s.destroyStorageMap c i
  | .getValues c i seed => (s.getValues c i seed).1
  | .setItem c i src seed k v u => s.setItem c i src seed k v u
  | .removeItem c i src seed k u => s.removeItem c i src seed k u
  | .clear c i src seed u => s.clear c i src seed u
  | .createSessionStorageNamespace n c q => s.createSessionStorageNamespaceInternal n c q
  | .destroySessionStorageNamespace n => s.destroySessionStorageNamespaceInternal n
  | .setAllowedSessionStorageNamespaceConnection n c =>
    s.setAllowedSessionStorageNamespaceConnectionInternal n c
  | .cloneSessionStorageNamespace n m => s.cloneSessionStorageNamespaceInternal n m
  | .applicationWillTerminate => s.applicationWillTerminate
  | .invalidateConnection c => s.invalidateConnectionInternal c
  | .deleteEntriesForOrigin o => s.deleteEntriesForOriginInternal o
  | .deleteAllEntries => s.deleteAllEntriesInternal

/-- The manager after a sequence of requests, carried out in order. -/
def run (s : StorageManager) (requests : List Request) : StorageManager :=
  requests.foldl handle s

/-- Invariants of the heap and the registries. They hold in every state the
manager reaches from `create` (`wellFormed_run`): a live storage area has an
address below the next free one and is sound, a storage area held by a session
storage namespace is live and has no local storage namespace, and a local
storage namespace has the quota its constructor gave it. -/
structure WellFormed (s : StorageManager) : Prop where
  heapBound : ∀ p a, s.storageArea p = some a → p < s.nextAddress
  areasSound : ∀ p a, s.storageArea p = some a → a.Sound
  sessionLive : ∀ id n, (id, n) ∈ s.sessionStorageNamespaces →
    ∀ o p, (o, p) ∈ n.storageAreaMap →
      ∃ a, s.storageArea p = some a ∧ a.localStorageNamespace = none
  localQuota : ∀ id n, (id, n) ∈ s.localStorageNamespaces →
    n.quotaInBytes = 5 * 1024 * 1024

end StorageManager

/-! ## The fold of the spec over a pure key/value map -/

/-- The mutations of the fold: write, remove and clear, with the arguments the
storage area receives for them. -/
inductive Mutation where
  | write (sourceConnection : Connection) (sourceStorageAreaID : Nat)
      (key value urlString : String)
  | remove (sourceConnection : Connection) (sourceStorageAreaID : Nat)
      (key urlString : String)
  | clear (sourceConnection : Connection) (sourceStorageAreaID : Nat) (urlString : String)
deriving DecidableEq, Repr

/-- The storage-area operation that carries out a mutation. -/
def Mutation.toOperation : Mutation → StorageArea.Operation
  | .write c i k v u => .setItem c i k v u
  | .remove c i k u => .removeItem c i k u
  | .clear c i u => .clear c i u

/-- Whether the storage area reports the mutation as quota-exceeded: the
`quotaException` of `setItem`; remove and clear report nothing. -/
def StorageArea.reportsQuotaExceeded (tracker : LocalStorageDatabaseTracker) (a : StorageArea) :
    Mutation → Bool
  | .write c i k v u => (a.setItem tracker c i k v u).result
  | .remove _ _ _ _ => false
  | .clear _ _ _ => false

/-- The quota reports of a sequence of mutations applied in order. -/
def StorageArea.reports (tracker : LocalStorageDatabaseTracker) :
    StorageArea → List Mutation → List Bool
  | _, [] => []
  | a, m :: ms =>
    a.reportsQuotaExceeded tracker m :: reports tracker (a.apply tracker m.toOperation) ms

/-- The key/value map of the spec: a key has a value or none. -/
abbrev PureMap := String → Option String

/-- One step of the fold in the words of the spec: "write(k,v) inserts or replaces
k, remove(k) deletes k, clear empties the map, and writes reported as
quota-exceeded are skipped". -/
def PureMap.step (m : PureMap) (op : Mutation × Bool) : PureMap :=
  match op with
  | (.write _ _ k v _, reported) =>
    if reported then m else fun x => if x = k then some v else m x
  | (.remove _ _ k _, _) => fun x => if x = k then none else m x
  | (.clear _ _ _, _) => fun _ => none

/-- The pure left fold of the spec. -/
def PureMap.fold (m : PureMap) (ops : List (Mutation × Bool)) : PureMap :=
  ops.foldl PureMap.step m

/-! ## Mutations carried out on the storage area at an address -/

/-- The effects of one operation of a storage area. -/
def StorageArea.effectsOf (tracker : LocalStorageDatabaseTracker) (a : StorageArea) :
    StorageArea.Operation → List Effect
  | .setItem c i k v u => (a.setItem tracker c i k v u).effects
  | .removeItem c i k u => (a.removeItem tracker c i k u).effects
  | .clear c i u => (a.clear tracker c i u).effects
  | .forceClear => a.forceClear.2
  | .items => (a.items tracker).effects

/-- The call `storageArea->setItem(...)`, `storageArea->removeItem(...)` or
`storageArea->clear(...)` of the message handlers, made on the storage area at
`address`. -/
def StorageManager.mutateStorageArea (s : StorageManager) (address : Nat) (m : Mutation) :
    StorageManager :=
  s.callOnStorageArea address fun a =>
    (a.apply s.localStorageDatabaseTracker m.toOperation,
     a.effectsOf s.localStorageDatabaseTracker m.toOperation)

/-- A sequence of mutations made, in order, on the storage area at `address`. -/
def StorageManager.mutateStorageAreaAll (s : StorageManager) (address : Nat)
    (ms : List Mutation) : StorageManager :=
  ms.foldl (fun acc m => acc.mutateStorageArea address m) s

/-- A session namespace with one written storage area, and an empty one. -/
def cloneExample : StorageManager :=
  (StorageManager.create ⟨[]⟩).run
    [.createSessionStorageNamespace 1 (some 5) 100, .createSessionStorageMap 5 7 1 "o",
     .setItem 5 7 7 0 "k" "v" "u", .createSessionStorageNamespace 2 none 100]

/-! ## Predicates and example states of the statements -/

/-- The quota invariant of one storage area for quota `q`: the storage map
enforces `q`, its items are within `q`, and as long as the items of a persistent
area are not imported the map is empty and the stored items are within `q`. -/
def StorageArea.WithinQuota (t : LocalStorageDatabaseTracker) (q : Nat) (a : StorageArea) :
    Prop :=
  a.storageMap.quotaSize = q ∧ a.quotaInBytes = q ∧ serializedSize a.storageMap.map ≤ q
    ∧ (a.localStorageNamespace ≠ none → a.didImportItemsFromDatabase = false →
        a.storageMap.map = [] ∧ serializedSize (t.storedItems a.securityOrigin) ≤ q)

/-- The backing store of the area needs no opening or import any more. -/
def StorageArea.Opened (a : StorageArea) : Prop :=
  a.localStorageNamespace = none
    ∨ (a.localStorageDatabase ≠ none ∧ a.didImportItemsFromDatabase = true)

/-- The storage area with another item table in its storage map. -/
def StorageArea.withItems (a : StorageArea) (m : WTF.HashMap String String) : StorageArea :=
  { a with storageMap := { a.storageMap with map := m } }

/-- An effect a storage area may have when it is written to: a call on its
backing store, or a storage event for one of its listeners. -/
def StorageArea.OwnEffect (a : StorageArea) (e : Effect) : Prop :=
  (∃ o call, e = Effect.database o call)
    ∨ (∃ c h i k o n u, (c, h) ∈ a.eventListeners
        ∧ e = Effect.send c (.DispatchStorageEvent i k o n u) h)

/-- A step of the manager from `s` to `later` is confined to the storage area `a`
at `address`: every other storage area is as it was, items and listeners
included; the area at `address` keeps its listeners; the registries, the binding
table and the backing store are as they were; and every storage event sent in
the step goes to a listener of `a`. -/
def StorageManager.ConfinedTo (s later : StorageManager) (address : Nat) (a : StorageArea) :
    Prop :=
  (∀ q, q ≠ address → later.storageArea q = s.storageArea q)
    ∧ (∃ a', later.storageArea address = some a' ∧ a'.eventListeners = a.eventListeners)
    ∧ later.localStorageNamespaces = s.localStorageNamespaces
    ∧ later.sessionStorageNamespaces = s.sessionStorageNamespaces
    ∧ later.storageAreasByConnection = s.storageAreasByConnection
    ∧ later.localStorageDatabaseTracker = s.localStorageDatabaseTracker
    ∧ (∀ c h i k o n u, Effect.send c (.DispatchStorageEvent i k o n u) h ∈ s.effectsSince later →
        (c, h) ∈ a.eventListeners)

/-- No session storage namespace holds the address. -/
def StorageManager.Unowned (s : StorageManager) (p : Nat) : Prop :=
  ∀ id n, (id, n) ∈ s.sessionStorageNamespaces → ∀ o q, (o, q) ∈ n.storageAreaMap → q ≠ p

/-- What holds while `cloneTo` copies the storage areas of a session namespace
into the empty namespace registered under `D`: `l` lists the entries copied so
far, `s` is the manager before the loop and `t` the manager now. -/
structure StorageManager.CloneProgress (s : StorageManager) (D : Nat)
    (l : WTF.HashMap SecurityOrigin Nat) (t : StorageManager) : Prop where
  wellFormed : t.WellFormed
  next : s.nextAddress ≤ t.nextAddress
  old : ∀ q, q < s.nextAddress → t.storageArea q = s.storageArea q
  others : ∀ X, X ≠ D → WTF.HashMap.get t.sessionStorageNamespaces X
    = WTF.HashMap.get s.sessionStorageNamespaces X
  locals : t.localStorageNamespaces = s.localStorageNamespaces
  bindings : t.storageAreasByConnection = s.storageAreasByConnection
  tracker : t.localStorageDatabaseTracker = s.localStorageDatabaseTracker
  trace : t.trace = s.trace
  target : ∃ n, WTF.HashMap.get t.sessionStorageNamespaces D = some n
    ∧ (∀ o, WTF.HashMap.get n.storageAreaMap o = none ↔ WTF.HashMap.get l o = none)
    ∧ (∀ o pD, WTF.HashMap.get n.storageAreaMap o = some pD →
        s.nextAddress ≤ pD
        ∧ ∃ pS aS, WTF.HashMap.get l o = some pS ∧ s.storageArea pS = some aS
            ∧ t.storageArea pD = some aS.clone.1)

/-- A session namespace with one bound map, destroyed while the binding `(5, 7)`
made through it is still in the table. -/
def teardownExample : StorageManager :=
  (((StorageManager.create ⟨[]⟩).createSessionStorageNamespaceInternal 1 (some 5) 100
    ).createSessionStorageMap 5 7 1 "o").destroySessionStorageNamespaceInternal 1

/-! ## Errors and acknowledgements in the trace -/

/-- An effect that signals an error: a failed `ASSERT`, or the use of a null
pointer. -/
def Effect.isError : Effect → Bool
  | .assertionFailure _ => true
  | .nullDereference => true
  | _ => false

/-- The acknowledgement an effect delivers, with the connection it is sent to and
the storage map it is addressed to: a `DidGetValues`, `DidSetItem`,
`DidRemoveItem` or `DidClear` message. -/
def Effect.acknowledgement : Effect → Option (Connection × Nat × Message)
  | .send c (.DidGetValues seed) d => some (c, d, .DidGetValues seed)
  | .send c (.DidSetItem seed k q) d => some (c, d, .DidSetItem seed k q)
  | .send c (.DidRemoveItem seed k) d => some (c, d, .DidRemoveItem seed k)
  | .send c (.DidClear seed) d => some (c, d, .DidClear seed)
  | _ => none

/-- The acknowledgements, in order, among a list of effects. -/
def acknowledgements (effects : List Effect) : List (Connection × Nat × Message) :=
  effects.filterMap Effect.acknowledgement

/-! ## Consistency of the tables -/

namespace StorageManager

/-- A session storage namespace holds the address. -/
def SessionOwned (s : StorageManager) (p : Nat) : Prop :=
  ∃ id n o, (id, n) ∈ s.sessionStorageNamespaces ∧ (o, p) ∈ n.storageAreaMap

/-- The tables and the heap fit together: the keys of each table are distinct, a
listener of a live storage area is bound to that storage area, a bound storage
area is live, and a storage area indexed by a local storage namespace is live
and carries the identifier of the namespace and the origin it is indexed
under. -/
structure Coherent (s : StorageManager) : Prop where
  wellFormed : s.WellFormed
  bindingKeys : (WTF.HashMap.keys s.storageAreasByConnection).Nodup
  sessionKeys : (WTF.HashMap.keys s.sessionStorageNamespaces).Nodup
  localKeys : (WTF.HashMap.keys s.localStorageNamespaces).Nodup
  listenersBound : ∀ p a, s.storageArea p = some a →
    ∀ c i, (c, i) ∈ a.eventListeners → s.findStorageArea c i = some p
  boundLive : ∀ c i p, s.findStorageArea c i = some p → (s.storageArea p).isSome
  localLive : ∀ id n, (id, n) ∈ s.localStorageNamespaces →
    ∀ o p, (o, p) ∈ n.storageAreaMap →
      ∃ a, s.storageArea p = some a ∧ a.localStorageNamespace = some id ∧ a.securityOrigin = o

/-- Every binding is registered as a listener of the storage area it is bound
to. -/
def BindingsListen (s : StorageManager) : Prop :=
  ∀ c i p, s.findStorageArea c i = some p →
    ∃ a, s.storageArea p = some a ∧ (c, i) ∈ a.eventListeners

/-- Every live storage area has an owner, except perhaps those at the addresses
of `pending`, whose `RefPtr` has been dropped but not yet released. -/
def OwnedUpTo (s : StorageManager) (pending : List Nat) : Prop :=
  ∀ p a, s.storageArea p = some a → 0 < s.refCount p ∨ p ∈ pending

/-- The state of a manager between two requests when no request so far violated
the protocol of the binding table (`consistent_run`), as is the case when no
assertion has failed so far (`consistent_of_clean`): the tables and the heap fit
together, the listeners of a storage area are exactly the pairs bound to it, and
a live storage area has an owner. -/
structure Consistent (s : StorageManager) : Prop where
  coherent : s.Coherent
  bindingsListen : s.BindingsListen
  owned : ∀ p a, s.storageArea p = some a → 0 < s.refCount p

/-- All live storage areas are without listeners. -/
def Quiet (s : StorageManager) : Prop :=
  ∀ p a, s.storageArea p = some a → a.eventListeners = []

end StorageManager

/-- A request that respects the protocol of the binding table in the state `s`:
a map is created for a pair that is not bound yet, as `ASSERT(result.isNewEntry)`
demands in `createLocalStorageMap` and in `createSessionStorageMap` (which
reaches that assertion only when the session storage namespace exists). -/
def Request.admissible (s : StorageManager) : Request → Bool
  | .createLocalStorageMap c i _ _ => !WTF.HashMap.contains s.storageAreasByConnection (c, i)
  | .createSessionStorageMap c i n _ =>
    !WTF.HashMap.contains s.storageAreasByConnection (c, i)
      || !WTF.HashMap.contains s.sessionStorageNamespaces n
  | _ => true

/-- Every request of the sequence respects the protocol in the state it is
carried out in. -/
def StorageManager.admissibleRun (s : StorageManager) : List Request → Bool
  | [] => true
  | r :: rs => r.admissible s && admissibleRun (s.handle r) rs

/-- A manager with a written map of the session storage namespace 1 bound to
`(5, 7)` and a map of the local storage namespace 2 bound to `(6, 8)`. -/
def shutdownExample : StorageManager :=
  (StorageManager.create ⟨[]⟩).run
    [.createSessionStorageNamespace 1 (some 5) 100, .createSessionStorageMap 5 7 1 "o",
     .setItem 5 7 7 0 "k" "v" "u", .createLocalStorageMap 6 8 2 "o"]

/-! ## Requests that only remove bindings -/

/-- A request that removes bindings and does nothing else to the tables:
`destroyStorageMap`, or the work item of `invalidateConnection`. -/
def Request.removesBindings : Request → Bool
  | .destroyStorageMap _ _ => true
  | .invalidateConnection _ => true
  | _ => false

/-- A session storage namespace 1 whose storage area for the origin `o` holds the
item `(k, v)`, written through the binding `(5, 7)`. -/
def sessionExample : StorageManager :=
  (StorageManager.create ⟨[]⟩).run
    [.createSessionStorageNamespace 1 (some 5) 100, .createSessionStorageMap 5 7 1 "o",
     .setItem 5 7 7 0 "k" "v" "u"]

/-! ## Messages to one listener, and the effects of a sequence of operations -/

/-- The message an effect delivers to the listener `(connection, storageMapID)`,
if it delivers one. -/
def Effect.messageTo (connection : Connection) (storageMapID : Nat) : Effect → Option Message
  | .send c m d => if c = connection ∧ d = storageMapID then some m else none
  | _ => none

/-- The messages, in order, that a list of effects delivers to one listener. -/
def messagesTo (effects : List Effect) (connection : Connection) (storageMapID : Nat) :
    List Message :=
  effects.filterMap (Effect.messageTo connection storageMapID)

/-- A call of `importItems` on a backing store. -/
def Effect.isImport : Effect → Bool
  | .database _ .importItems => true
  | _ => false

/-- A call on a backing store, `LocalStorageDatabase::create` included. -/
def Effect.isDatabase : Effect → Bool
  | .database _ _ => true
  | _ => false

/-- The operations that read or change the items through
`openDatabaseAndImportItemsIfNeeded`: all but `forceClear`. -/
def StorageArea.Operation.usesItems : StorageArea.Operation → Bool
  | .forceClear => false
  | _ => true

/-- The effects, in order, of a sequence of operations on one storage area. -/
def StorageArea.runEffects (tracker : LocalStorageDatabaseTracker) :
    StorageArea → List StorageArea.Operation → List Effect
  | _, [] => []
  | a, op :: ops => a.effectsOf tracker op ++ runEffects tracker (a.apply tracker op) ops

/-- An effect of the part of an operation that follows
`openDatabaseAndImportItemsIfNeeded`: a write to the open backing store, or a
message. -/
def StorageArea.AfterOpen (b : StorageArea) (e : Effect) : Prop :=
  (∃ db call, b.localStorageDatabase = some db ∧ e = Effect.database db.securityOrigin call
      ∧ call ≠ .importItems ∧ call ≠ .create)
    ∨ (∃ c m h, e = Effect.send c m h)

/-- A session storage namespace 1 with quota 100 that holds a written storage
area, and an empty session storage namespace 2 with quota 50. -/
def cloneQuotaExample : StorageManager :=
  (StorageManager.create ⟨[]⟩).run
    [.createSessionStorageNamespace 1 (some 5) 100, .createSessionStorageMap 5 7 1 "o",
     .setItem 5 7 7 0 "k" "v" "u", .createSessionStorageNamespace 2 (some 6) 50]

/-! ## The registries and the heap in every reachable state -/

namespace StorageManager

/-- The tables and the heap account for each other, whatever requests were made
(`settled_run`): the keys of each table are distinct, a bound storage area is
live, a storage area indexed by a local storage namespace is live and carries
the identifier of the namespace and the origin it is indexed under, a local
storage namespace is registered under its own identifier and indexes each origin
once, and a live storage area of a local storage namespace is indexed by it. -/
structure Accounted (s : StorageManager) : Prop where
  bindingKeys : (WTF.HashMap.keys s.storageAreasByConnection).Nodup
  sessionKeys : (WTF.HashMap.keys s.sessionStorageNamespaces).Nodup
  localKeys : (WTF.HashMap.keys s.localStorageNamespaces).Nodup
  boundLive : ∀ c i p, s.findStorageArea c i = some p → (s.storageArea p).isSome
  localLive : ∀ id n, (id, n) ∈ s.localStorageNamespaces →
    ∀ o p, (o, p) ∈ n.storageAreaMap →
      ∃ a, s.storageArea p = some a ∧ a.localStorageNamespace = some id ∧ a.securityOrigin = o
  localIdentifier : ∀ id n, (id, n) ∈ s.localStorageNamespaces → n.storageNamespaceID = id
  localOrigins : ∀ id n, (id, n) ∈ s.localStorageNamespaces →
    (WTF.HashMap.keys n.storageAreaMap).Nodup
  localIndexed : ∀ p a id, s.storageArea p = some a → a.localStorageNamespace = some id →
    ∃ n, (id, n) ∈ s.localStorageNamespaces ∧ (a.securityOrigin, p) ∈ n.storageAreaMap

/-- No registered local storage namespace is without a storage area. -/
def LocalNonEmpty (s : StorageManager) : Prop :=
  ∀ id n, (id, n) ∈ s.localStorageNamespaces → n.storageAreaMap ≠ []

/-- The state of a manager between two requests, whatever the requests were
(`settled_run`): the heap and the registries are well formed and account for each
other, no local storage namespace is empty, and every live storage area has an
owner. -/
structure Settled (s : StorageManager) : Prop where
  wellFormed : s.WellFormed
  accounted : s.Accounted
  nonEmpty : s.LocalNonEmpty
  owned : ∀ p a, s.storageArea p = some a → 0 < s.refCount p

end StorageManager

/-- A request that takes bindings out of the binding table: `destroyStorageMap`,
the work item of `invalidateConnection`, or the work item of
`applicationWillTerminate`. -/
def Request.unbinds : Request → Bool
  | .destroyStorageMap _ _ => true
  | .invalidateConnection _ => true
  | .applicationWillTerminate => true
  | _ => false

/-- The storage areas that the local storage namespaces index under an origin that
`matching` accepts, in the order in which `deleteEntriesForOriginInternal` and
`deleteAllEntriesInternal` visit them. -/
def StorageManager.indexedStorageAreas (s : StorageManager)
    (matching : SecurityOrigin → Bool) : List Nat :=
  (WTF.HashMap.values s.localStorageNamespaces).flatMap fun n =>
    (n.storageAreaMap.filter fun it => matching it.1).map Prod.snd

/-- The effects of one `StorageArea::clear()` on each of the storage areas at the
addresses, in the order of the addresses. -/
def StorageManager.forceClearEffects (s : StorageManager) (addresses : List Nat) :
    List Effect :=
  addresses.flatMap fun p =>
    match s.storageArea p with
    | some a => a.forceClear.2
    | none => []

/-- A local storage namespace with two storage areas, of the origins "o" and "p", and
a session storage namespace with one storage area of the origin "o"; each storage
area holds one item. -/
def deleteExample : StorageManager :=
  (StorageManager.create ⟨[]⟩).run
    [.createLocalStorageMap 5 1 1 "o", .createLocalStorageMap 5 2 1 "p",
     .createSessionStorageNamespace 2 (some 5) 100, .createSessionStorageMap 5 3 2 "o",
     .setItem 5 1 1 0 "k" "v" "u", .setItem 5 2 2 0 "k" "v" "u", .setItem 5 3 3 0 "k" "v" "u"]

/-! ## Lemmas on `WTF::HashMap` -/

namespace WTF.HashMap

variable {κ α : Type} [DecidableEq κ]

theorem get_set (m : HashMap κ α) (k : κ) (v : α) (x : κ) :
    get (set m k v) x = if x = k then some v else get m x := by
  induction m with
  | nil =>
    by_cases hx : x = k
    · simp [set, get, hx]
    · have : ¬ k = x := fun h => hx h.symm
      simp [set, get, hx, this]
  | cons p m ih =>
    rcases p with ⟨k', v'⟩
    by_cases hk : k' = k
    · subst hk
      by_cases hx : x = k'
      · simp [set, get, hx]
      · have : ¬ k' = x := fun h => hx h.symm
        simp [set, get, hx, this]
    · by_cases hx' : k' = x
      · have : ¬ x = k := fun h => hk (hx'.trans h)
        simp [set, get, hk, hx', this]
      · simp [set, get, hk, hx', ih]

theorem get_remove (m : HashMap κ α) (k : κ) (x : κ) :
    get (remove m k) x = if x = k then none else get m x := by
  induction m with
  | nil => simp [remove, get]
  | cons p m ih =>
    rcases p with ⟨k', v'⟩
    by_cases hk : k' = k
    · subst hk
      by_cases hx : x = k'
      · subst hx
        simpa [remove, get] using ih
      · have : ¬ k' = x := fun h => hx h.symm
        simp [remove, get, hx, this, ih]
    · by_cases hx' : k' = x
      · have : ¬ x = k := fun h => hk (hx'.trans h)
        simp [remove, get, hk, hx', this]
      · simp [remove, get, hk, hx', ih]

theorem get_nil (x : κ) : get ([] : HashMap κ α) x = none := rfl

theorem get_eq_none_of_remove_fixed (m : HashMap κ α) (k : κ) (h : get m k = none) :
    remove m k = m := by
  induction m with
  | nil => rfl
  | cons p m ih =>
    rcases p with ⟨k', v'⟩
    by_cases hk : k' = k
    · simp [get, hk] at h
    · simp only [get, hk, if_false] at h
      simp [remove, hk, ih h]

end WTF.HashMap

/-! ## Lemmas on membership in `WTF::HashMap` -/

namespace WTF.HashMap

variable {κ α : Type} [DecidableEq κ]

theorem mem_of_get (m : HashMap κ α) (k : κ) (v : α) (h : get m k = some v) : (k, v) ∈ m := by
  induction m with
  | nil => cases h
  | cons p m ih =>
    rcases p with ⟨k', v'⟩
    by_cases hk : k' = k
    · simp only [get, hk, if_true, Option.some.injEq] at h
      simp [hk, h]
    · simp only [get, hk, if_false] at h
      exact List.mem_cons_of_mem _ (ih h)

theorem mem_set (m : HashMap κ α) (k : κ) (v : α) (x : κ × α) (h : x ∈ set m k v) :
    x ∈ m ∨ x = (k, v) := by
  induction m with
  | nil =>
    simp only [set, List.mem_singleton] at h
    exact Or.inr h
  | cons p m ih =>
    rcases p with ⟨k', v'⟩
    by_cases hk : k' = k
    · simp only [set, hk, if_true, List.mem_cons] at h
      rcases h with h | h
      · exact Or.inr h
      · exact Or.inl (List.mem_cons_of_mem _ h)
    · simp only [set, hk, if_false, List.mem_cons] at h
      rcases h with h | h
      · exact Or.inl (by simp [h])
      · rcases ih h with h | h
        · exact Or.inl (List.mem_cons_of_mem _ h)
        · exact Or.inr h

theorem mem_remove (m : HashMap κ α) (k : κ) (x : κ × α) (h : x ∈ remove m k) : x ∈ m := by
  induction m with
  | nil => cases h
  | cons p m ih =>
    rcases p with ⟨k', v'⟩
    by_cases hk : k' = k
    · simp only [remove, hk, if_true] at h
      exact List.mem_cons_of_mem _ (ih h)
    · simp only [remove, hk, if_false, List.mem_cons] at h
      rcases h with h | h
      · simp [h]
      · exact List.mem_cons_of_mem _ (ih h)

theorem mem_add (m : HashMap κ α) (k : κ) (v : α) (x : κ × α) (h : x ∈ add m k v) :
    x ∈ m ∨ x = (k, v) := by
  unfold add at h
  split at h
  · exact Or.inl h
  · exact mem_set m k v x h

theorem get_add (m : HashMap κ α) (k : κ) (v : α) (x : κ) :
    get (add m k v) x = if x = k then some ((get m k).getD v) else get m x := by
  unfold add contains
  cases hg : get m k with
  | none =>
    simp only [Option.isSome_none, Bool.false_eq_true, if_false, get_set, Option.getD_none]
  | some w =>
    simp only [Option.isSome_some, if_true, Option.getD_some]
    by_cases hx : x = k
    · simp [hx, hg]
    · simp [hx]

end WTF.HashMap

/-! ## Lemmas on `StorageArea` -/

namespace StorageArea

theorem openDatabase_effects (t : LocalStorageDatabaseTracker) (a : StorageArea) :
    ∀ e ∈ (a.openDatabaseAndImportItemsIfNeeded t).2,
      e = Effect.database a.securityOrigin .create
        ∨ e = Effect.database a.securityOrigin .importItems := by
  rcases a with ⟨ns, db, imp, o, q, m, l⟩
  cases ns <;> cases db <;> cases imp <;> simp [openDatabaseAndImportItemsIfNeeded]

theorem openDatabase_idem (t : LocalStorageDatabaseTracker) (a : StorageArea) :
    (a.openDatabaseAndImportItemsIfNeeded t).1.openDatabaseAndImportItemsIfNeeded t
      = ((a.openDatabaseAndImportItemsIfNeeded t).1, []) := by
  rcases a with ⟨ns, db, imp, o, q, m, l⟩
  cases ns <;> cases db <;> cases imp <;> simp [openDatabaseAndImportItemsIfNeeded]

theorem sound_create (ns : Option Nat) (o : SecurityOrigin) (q : Nat) :
    (create ns o q).Sound :=
  ⟨List.nodup_nil, rfl⟩

theorem sound_clone (a : StorageArea) (h : a.Sound) : a.clone.1.Sound :=
  ⟨List.nodup_nil, h.2⟩

theorem items_area (t : LocalStorageDatabaseTracker) (a : StorageArea) :
    (a.items t).area = (a.openDatabaseAndImportItemsIfNeeded t).1 := rfl

theorem items_result (t : LocalStorageDatabaseTracker) (a : StorageArea) :
    (a.items t).result = (a.openDatabaseAndImportItemsIfNeeded t).1.storageMap.map := rfl

theorem items_opened (t : LocalStorageDatabaseTracker) (a : StorageArea) :
    ((a.openDatabaseAndImportItemsIfNeeded t).1.items t).result
      = (a.openDatabaseAndImportItemsIfNeeded t).1.storageMap.map := by
  simp [items, openDatabase_idem, StorageMap.items]

end StorageArea

/-! ## Lemmas on sizes -/

@[simp] theorem serializedSize_nil : serializedSize [] = 0 := rfl

@[simp] theorem serializedSize_cons (p : String × String) (m : WTF.HashMap String String) :
    serializedSize (p :: m) = (2 * utf16Length p.1 + 2 * utf16Length p.2) + serializedSize m := by
  simp [serializedSize]

theorem serializedSize_remove_le (m : WTF.HashMap String String) (k : String) :
    serializedSize (WTF.HashMap.remove m k) ≤ serializedSize m := by
  induction m with
  | nil => simp [WTF.HashMap.remove]
  | cons p m ih =>
    rcases p with ⟨k', v'⟩
    by_cases hk : k' = k
    · simp only [WTF.HashMap.remove, hk, if_true, serializedSize_cons]
      omega
    · simp only [WTF.HashMap.remove, hk, if_false, serializedSize_cons]
      omega

theorem serializedSize_set_le (m : WTF.HashMap String String) (k v : String) :
    serializedSize (WTF.HashMap.set m k v)
      ≤ serializedSize m + (2 * utf16Length k + 2 * utf16Length v) := by
  induction m with
  | nil => simp [WTF.HashMap.set]
  | cons p m ih =>
    rcases p with ⟨k', v'⟩
    by_cases hk : k' = k
    · subst hk
      simp only [WTF.HashMap.set, if_true, serializedSize_cons]
      omega
    · simp only [WTF.HashMap.set, hk, if_false, serializedSize_cons]
      omega

theorem serializedSize_add_le (m : WTF.HashMap String String) (k v : String) :
    serializedSize (WTF.HashMap.add m k v)
      ≤ serializedSize m + (2 * utf16Length k + 2 * utf16Length v) := by
  unfold WTF.HashMap.add
  split
  · omega
  · exact serializedSize_set_le m k v

theorem serializedSize_foldl_add_le (stored m : WTF.HashMap String String) :
    serializedSize (stored.foldl (fun acc p => WTF.HashMap.add acc p.1 p.2) m)
      ≤ serializedSize m + serializedSize stored := by
  induction stored generalizing m with
  | nil => simp
  | cons p stored ih =>
    have h1 := ih (WTF.HashMap.add m p.1 p.2)
    have h2 := serializedSize_add_le m p.1 p.2
    simp only [List.foldl_cons, serializedSize_cons]
    omega

theorem StorageArea.withinQuota_open (t : LocalStorageDatabaseTracker) (q : Nat)
    (a : StorageArea) (h : a.WithinQuota t q) :
    (a.openDatabaseAndImportItemsIfNeeded t).1.WithinQuota t q
      ∧ ((a.openDatabaseAndImportItemsIfNeeded t).1.localStorageNamespace ≠ none →
          (a.openDatabaseAndImportItemsIfNeeded t).1.didImportItemsFromDatabase = true) := by
  rcases a with ⟨ns, db, imp, o, qb, m, l⟩
  rcases h with ⟨h1, h2, h3, h4⟩
  cases ns with
  | none => simp_all [openDatabaseAndImportItemsIfNeeded, WithinQuota]
  | some n =>
    cases imp with
    | true => cases db <;> simp_all [openDatabaseAndImportItemsIfNeeded, WithinQuota]
    | false =>
      have h5 := h4 (by simp) rfl
      simp only at h5
      have h6 := serializedSize_foldl_add_le (t.storedItems o) m.map
      rw [h5.1] at h6
      simp only [serializedSize_nil, Nat.zero_add] at h6
      cases db <;>
        simp_all [openDatabaseAndImportItemsIfNeeded, WithinQuota, StorageMap.importItems] <;>
        omega

theorem StorageArea.withinQuota_setItem (t : LocalStorageDatabaseTracker) (q : Nat)
    (a : StorageArea) (c i : Nat) (k v u : String) (h : a.WithinQuota t q) :
    (a.setItem t c i k v u).area.WithinQuota t q := by
  obtain ⟨⟨h1, h2, h3, h4⟩, h5⟩ := StorageArea.withinQuota_open t q a h
  by_cases hq : (a.openDatabaseAndImportItemsIfNeeded t).1.storageMap.quotaSize
      < serializedSize (WTF.HashMap.set (a.openDatabaseAndImportItemsIfNeeded t).1.storageMap.map k v)
  · simp only [setItem, StorageMap.setItem, hq, if_true]
    exact ⟨h1, h2, h3, h4⟩
  · simp only [setItem, StorageMap.setItem, hq, if_false]
    refine ⟨h1, h2, ?_, ?_⟩
    · show serializedSize (WTF.HashMap.set _ k v) ≤ q
      omega
    · intro hn hi
      exact absurd (h5 hn) (by simpa using hi)

theorem StorageArea.withinQuota_removeItem (t : LocalStorageDatabaseTracker) (q : Nat)
    (a : StorageArea) (c i : Nat) (k u : String) (h : a.WithinQuota t q) :
    (a.removeItem t c i k u).area.WithinQuota t q := by
  obtain ⟨⟨h1, h2, h3, h4⟩, h5⟩ := StorageArea.withinQuota_open t q a h
  cases hg : WTF.HashMap.get (a.openDatabaseAndImportItemsIfNeeded t).1.storageMap.map k with
  | none =>
    simp only [removeItem, StorageMap.removeItem, hg]
    exact ⟨h1, h2, h3, h4⟩
  | some old =>
    simp only [removeItem, StorageMap.removeItem, hg]
    refine ⟨h1, h2, ?_, ?_⟩
    · have := serializedSize_remove_le (a.openDatabaseAndImportItemsIfNeeded t).1.storageMap.map k
      show serializedSize (WTF.HashMap.remove _ k) ≤ q
      omega
    · intro hn hi
      exact absurd (h5 hn) (by simpa using hi)

theorem StorageArea.withinQuota_clear (t : LocalStorageDatabaseTracker) (q : Nat)
    (a : StorageArea) (c i : Nat) (u : String) (h : a.WithinQuota t q) :
    (a.clear t c i u).area.WithinQuota t q := by
  obtain ⟨⟨h1, h2, h3, h4⟩, h5⟩ := StorageArea.withinQuota_open t q a h
  by_cases hl : (a.openDatabaseAndImportItemsIfNeeded t).1.storageMap.length = 0
  · simp only [clear, hl, if_true]
    exact ⟨h1, h2, h3, h4⟩
  · simp only [clear, hl, if_false]
    refine ⟨?_, h2, ?_, ?_⟩
    · simpa [StorageMap.create] using h2
    · simp [StorageMap.create]
    · intro hn hi
      exact absurd (h5 hn) (by simpa using hi)

theorem StorageArea.withinQuota_forceClear (t : LocalStorageDatabaseTracker) (q : Nat)
    (a : StorageArea) (h : a.WithinQuota t q) :
    a.forceClear.1.WithinQuota t q := by
  obtain ⟨h1, h2, h3, h4⟩ := h
  refine ⟨?_, h2, ?_, ?_⟩
  · simpa [forceClear, StorageMap.create] using h2
  · simp [forceClear, StorageMap.create]
  · intro hn hi
    exact ⟨rfl, (h4 hn hi).2⟩

theorem StorageArea.withinQuota_apply (t : LocalStorageDatabaseTracker) (q : Nat)
    (a : StorageArea) (op : StorageArea.Operation) (h : a.WithinQuota t q) :
    (a.apply t op).WithinQuota t q := by
  cases op with
  | setItem c i k v u => exact StorageArea.withinQuota_setItem t q a c i k v u h
  | removeItem c i k u => exact StorageArea.withinQuota_removeItem t q a c i k u h
  | clear c i u => exact StorageArea.withinQuota_clear t q a c i u h
  | forceClear => exact StorageArea.withinQuota_forceClear t q a h
  | items => exact (StorageArea.withinQuota_open t q a h).1

theorem StorageArea.withinQuota_run (t : LocalStorageDatabaseTracker) (q : Nat)
    (ops : List StorageArea.Operation) (a : StorageArea) (h : a.WithinQuota t q) :
    (a.run t ops).WithinQuota t q := by
  induction ops generalizing a with
  | nil => exact h
  | cons op ops ih => exact ih _ (StorageArea.withinQuota_apply t q a op h)


theorem StorageArea.open_of_opened (t : LocalStorageDatabaseTracker) (a : StorageArea)
    (h : a.Opened) : a.openDatabaseAndImportItemsIfNeeded t = (a, []) := by
  rcases a with ⟨ns, db, imp, o, q, m, l⟩
  cases ns <;> cases db <;> cases imp <;>
    simp_all [openDatabaseAndImportItemsIfNeeded, StorageArea.Opened]

theorem StorageArea.opened_open (t : LocalStorageDatabaseTracker) (a : StorageArea) :
    (a.openDatabaseAndImportItemsIfNeeded t).1.Opened := by
  rcases a with ⟨ns, db, imp, o, q, m, l⟩
  cases ns <;> cases db <;> cases imp <;>
    simp [openDatabaseAndImportItemsIfNeeded, StorageArea.Opened]

theorem StorageArea.opened_withStorageMap (a : StorageArea) (m : StorageMap) (h : a.Opened) :
    ({ a with storageMap := m } : StorageArea).Opened := h

theorem StorageArea.items_of_opened (t : LocalStorageDatabaseTracker) (a : StorageArea)
    (h : a.Opened) : (a.items t).result = a.storageMap.map := by
  simp [items, StorageArea.open_of_opened t a h, StorageMap.items]

theorem StorageArea.setItem_over (t : LocalStorageDatabaseTracker) (a : StorageArea)
    (c i : Nat) (k v u : String)
    (hq : (a.openDatabaseAndImportItemsIfNeeded t).1.storageMap.quotaSize
      < serializedSize (WTF.HashMap.set (a.openDatabaseAndImportItemsIfNeeded t).1.storageMap.map k v)) :
    a.setItem t c i k v u
      = { area := (a.openDatabaseAndImportItemsIfNeeded t).1, result := true
          effects := (a.openDatabaseAndImportItemsIfNeeded t).2 } := by
  simp [setItem, StorageMap.setItem, hq]

theorem StorageArea.setItem_fits (t : LocalStorageDatabaseTracker) (a : StorageArea)
    (c i : Nat) (k v u : String)
    (hq : ¬ (a.openDatabaseAndImportItemsIfNeeded t).1.storageMap.quotaSize
      < serializedSize (WTF.HashMap.set (a.openDatabaseAndImportItemsIfNeeded t).1.storageMap.map k v)) :
    a.setItem t c i k v u
      = { area := (a.openDatabaseAndImportItemsIfNeeded t).1.withItems
            (WTF.HashMap.set (a.openDatabaseAndImportItemsIfNeeded t).1.storageMap.map k v)
          result := false
          effects := (a.openDatabaseAndImportItemsIfNeeded t).2
            ++ (a.openDatabaseAndImportItemsIfNeeded t).1.writeThrough (.setItem k v)
            ++ (a.openDatabaseAndImportItemsIfNeeded t).1.dispatchEvents c i (some k)
                (WTF.HashMap.get (a.openDatabaseAndImportItemsIfNeeded t).1.storageMap.map k)
                (some v) u } := by
  simp [setItem, StorageMap.setItem, hq, StorageArea.withItems, writeThrough, dispatchEvents]

theorem StorageArea.removeItem_absent (t : LocalStorageDatabaseTracker) (a : StorageArea)
    (c i : Nat) (k u : String)
    (hg : WTF.HashMap.get (a.openDatabaseAndImportItemsIfNeeded t).1.storageMap.map k = none) :
    a.removeItem t c i k u
      = { area := (a.openDatabaseAndImportItemsIfNeeded t).1, result := ()
          effects := (a.openDatabaseAndImportItemsIfNeeded t).2 } := by
  simp [removeItem, StorageMap.removeItem, hg]

theorem StorageArea.removeItem_present (t : LocalStorageDatabaseTracker) (a : StorageArea)
    (c i : Nat) (k u old : String)
    (hg : WTF.HashMap.get (a.openDatabaseAndImportItemsIfNeeded t).1.storageMap.map k
      = some old) :
    a.removeItem t c i k u
      = { area := (a.openDatabaseAndImportItemsIfNeeded t).1.withItems
            (WTF.HashMap.remove (a.openDatabaseAndImportItemsIfNeeded t).1.storageMap.map k)
          result := ()
          effects := (a.openDatabaseAndImportItemsIfNeeded t).2
            ++ (a.openDatabaseAndImportItemsIfNeeded t).1.writeThrough (.removeItem k)
            ++ (a.openDatabaseAndImportItemsIfNeeded t).1.dispatchEvents c i (some k)
                (some old) none u } := by
  simp [removeItem, StorageMap.removeItem, hg, StorageArea.withItems, writeThrough,
    dispatchEvents]

theorem StorageArea.clear_empty (t : LocalStorageDatabaseTracker) (a : StorageArea)
    (c i : Nat) (u : String)
    (hl : (a.openDatabaseAndImportItemsIfNeeded t).1.storageMap.map = []) :
    a.clear t c i u
      = { area := (a.openDatabaseAndImportItemsIfNeeded t).1, result := ()
          effects := (a.openDatabaseAndImportItemsIfNeeded t).2 } := by
  simp [clear, StorageMap.length, hl]

theorem StorageArea.clear_nonempty (t : LocalStorageDatabaseTracker) (a : StorageArea)
    (c i : Nat) (u : String)
    (hl : (a.openDatabaseAndImportItemsIfNeeded t).1.storageMap.map ≠ []) :
    a.clear t c i u
      = { area := { (a.openDatabaseAndImportItemsIfNeeded t).1 with
            storageMap := StorageMap.create (a.openDatabaseAndImportItemsIfNeeded t).1.quotaInBytes }
          result := ()
          effects := (a.openDatabaseAndImportItemsIfNeeded t).2
            ++ (a.openDatabaseAndImportItemsIfNeeded t).1.writeThrough .clear
            ++ (a.openDatabaseAndImportItemsIfNeeded t).1.dispatchEvents c i none none none u } := by
  simp [clear, StorageMap.length, hl, writeThrough, dispatchEvents]

theorem StorageArea.items_setItem (t : LocalStorageDatabaseTracker) (a : StorageArea)
    (c i : Nat) (k v u : String) :
    ((a.setItem t c i k v u).area.items t).result
      = if (a.setItem t c i k v u).result then (a.items t).result
        else WTF.HashMap.set (a.items t).result k v := by
  have ho := StorageArea.opened_open t a
  rw [StorageArea.items_result t a]
  by_cases hq : (a.openDatabaseAndImportItemsIfNeeded t).1.storageMap.quotaSize
      < serializedSize (WTF.HashMap.set (a.openDatabaseAndImportItemsIfNeeded t).1.storageMap.map k v)
  · rw [StorageArea.setItem_over t a c i k v u hq]
    simpa using StorageArea.items_of_opened t _ ho
  · rw [StorageArea.setItem_fits t a c i k v u hq]
    have := StorageArea.items_of_opened t ((a.openDatabaseAndImportItemsIfNeeded t).1.withItems
      (WTF.HashMap.set (a.openDatabaseAndImportItemsIfNeeded t).1.storageMap.map k v)) ho
    simpa [StorageArea.withItems] using this

theorem StorageArea.items_removeItem (t : LocalStorageDatabaseTracker) (a : StorageArea)
    (c i : Nat) (k u : String) :
    ((a.removeItem t c i k u).area.items t).result = WTF.HashMap.remove (a.items t).result k := by
  have ho := StorageArea.opened_open t a
  rw [StorageArea.items_result t a]
  cases hg : WTF.HashMap.get (a.openDatabaseAndImportItemsIfNeeded t).1.storageMap.map k with
  | none =>
    rw [StorageArea.removeItem_absent t a c i k u hg,
      WTF.HashMap.get_eq_none_of_remove_fixed _ _ hg]
    exact StorageArea.items_of_opened t _ ho
  | some old =>
    rw [StorageArea.removeItem_present t a c i k u old hg]
    have := StorageArea.items_of_opened t ((a.openDatabaseAndImportItemsIfNeeded t).1.withItems
      (WTF.HashMap.remove (a.openDatabaseAndImportItemsIfNeeded t).1.storageMap.map k)) ho
    simpa [StorageArea.withItems] using this

theorem StorageArea.items_clear (t : LocalStorageDatabaseTracker) (a : StorageArea)
    (c i : Nat) (u : String) :
    ((a.clear t c i u).area.items t).result = [] := by
  have ho := StorageArea.opened_open t a
  by_cases hl : (a.openDatabaseAndImportItemsIfNeeded t).1.storageMap.map = []
  · rw [StorageArea.clear_empty t a c i u hl]
    simpa [hl] using StorageArea.items_of_opened t _ ho
  · rw [StorageArea.clear_nonempty t a c i u hl]
    exact StorageArea.items_of_opened t
      { (a.openDatabaseAndImportItemsIfNeeded t).1 with
        storageMap := StorageMap.create (a.openDatabaseAndImportItemsIfNeeded t).1.quotaInBytes } ho

/-- One mutation on the storage area is one step of the fold. -/
theorem StorageArea.items_apply_mutation (t : LocalStorageDatabaseTracker) (a : StorageArea)
    (m : Mutation) :
    WTF.HashMap.get ((a.apply t m.toOperation).items t).result
      = PureMap.step (WTF.HashMap.get (a.items t).result) (m, a.reportsQuotaExceeded t m) := by
  funext x
  cases m with
  | write c i k v u =>
    simp only [Mutation.toOperation, apply, reportsQuotaExceeded, PureMap.step,
      StorageArea.items_setItem]
    by_cases hr : (a.setItem t c i k v u).result = true
    · simp [hr]
    · simp [hr, WTF.HashMap.get_set]
  | remove c i k u =>
    simp only [Mutation.toOperation, apply, PureMap.step, StorageArea.items_removeItem,
      WTF.HashMap.get_remove]
  | clear c i u =>
    simp only [Mutation.toOperation, apply, PureMap.step, StorageArea.items_clear,
      WTF.HashMap.get_nil]

/-! ## Lemmas on the manager -/

namespace StorageManager

theorem storageArea_storeOutcome {ρ : Type} (s : StorageManager) (p q : Nat) (r : Outcome ρ)
    (reply : List Effect) :
    (s.storeOutcome p r reply).storageArea q
      = if q = p then some r.area else s.storageArea q := by
  simp [storeOutcome, storageArea, WTF.HashMap.get_set]

theorem effectsSince_storeOutcome {ρ : Type} (s : StorageManager) (p : Nat) (r : Outcome ρ)
    (reply : List Effect) :
    s.effectsSince (s.storeOutcome p r reply) = r.effects ++ reply := by
  simp [storeOutcome, effectsSince, List.append_assoc]

theorem setItem_eq (s : StorageManager) (c i src seed : Nat) (k v u : String) (p : Nat)
    (a : StorageArea) (hf : s.findStorageArea c i = some p) (ha : s.storageArea p = some a) :
    s.setItem c i src seed k v u
      = s.storeOutcome p (a.setItem s.localStorageDatabaseTracker c src k v u)
          [Effect.send c
            (.DidSetItem seed k (a.setItem s.localStorageDatabaseTracker c src k v u).result) i] := by
  simp [setItem, hf, ha]

theorem removeItem_eq (s : StorageManager) (c i src seed : Nat) (k u : String) (p : Nat)
    (a : StorageArea) (hf : s.findStorageArea c i = some p) (ha : s.storageArea p = some a) :
    s.removeItem c i src seed k u
      = s.storeOutcome p (a.removeItem s.localStorageDatabaseTracker c src k u)
          [Effect.send c (.DidRemoveItem seed k) i] := by
  simp [removeItem, hf, ha]

theorem clear_eq (s : StorageManager) (c i src seed : Nat) (u : String) (p : Nat)
    (a : StorageArea) (hf : s.findStorageArea c i = some p) (ha : s.storageArea p = some a) :
    s.clear c i src seed u
      = s.storeOutcome p (a.clear s.localStorageDatabaseTracker c src u)
          [Effect.send c (.DidClear seed) i] := by
  simp [clear, hf, ha]

end StorageManager

namespace StorageArea

theorem eventListeners_open (t : LocalStorageDatabaseTracker) (a : StorageArea) :
    (a.openDatabaseAndImportItemsIfNeeded t).1.eventListeners = a.eventListeners := by
  rcases a with ⟨ns, db, imp, o, q, m, l⟩
  cases ns <;> cases db <;> cases imp <;> simp [openDatabaseAndImportItemsIfNeeded]

theorem storageEventsTo_open (t : LocalStorageDatabaseTracker) (a : StorageArea) (c h : Nat) :
    storageEventsTo (a.openDatabaseAndImportItemsIfNeeded t).2 c h = [] := by
  rcases a with ⟨ns, db, imp, o, q, m, l⟩
  cases ns <;> cases db <;> cases imp <;>
    simp [openDatabaseAndImportItemsIfNeeded, storageEventsTo, Effect.storageEventTo]

theorem storageEventsTo_writeThrough (a : StorageArea) (call : DatabaseCall) (c h : Nat) :
    storageEventsTo (a.writeThrough call) c h = [] := by
  unfold writeThrough
  cases a.localStorageDatabase <;> simp [storageEventsTo, Effect.storageEventTo]

theorem dispatchEvents_mem (a : StorageArea) (src i : Nat) (k o n : Option String) (u : String)
    (e : Effect) :
    e ∈ a.dispatchEvents src i k o n u ↔
      ∃ c h, (c, h) ∈ a.eventListeners
        ∧ e = Effect.send c (.DispatchStorageEvent (if c = src then i else 0) k o n u) h := by
  simp only [dispatchEvents, List.mem_map, Prod.exists]
  constructor
  · rintro ⟨c, h, hm, rfl⟩
    exact ⟨c, h, hm, rfl⟩
  · rintro ⟨c, h, hm, rfl⟩
    exact ⟨c, h, hm, rfl⟩

/-- How often an element occurs in a list. -/
theorem countP_eq_one_of_nodup {α : Type} [DecidableEq α] (l : List α) (x : α)
    (hl : l.Nodup) (hx : x ∈ l) : l.countP (fun y => decide (y = x)) = 1 := by
  induction l with
  | nil => cases hx
  | cons y l ih =>
    rw [List.nodup_cons] at hl
    by_cases hy : y = x
    · subst hy
      have h0 : l.countP (fun z => decide (z = y)) = 0 := by
        rw [List.countP_eq_zero]
        intro z hz
        have : z ≠ y := fun h => hl.1 (h ▸ hz)
        simpa using this
      simp [List.countP_cons, h0]
    · have hx' : x ∈ l := by
        rcases List.mem_cons.mp hx with h | h
        · exact absurd h.symm hy
        · exact h
      simp [List.countP_cons, hy, ih hl.2 hx']

theorem storageEventsTo_dispatchEvents (l : WTF.HashSet (Connection × Nat)) (a : StorageArea)
    (hl : a.eventListeners = l) (src i : Nat) (k o n : Option String) (u : String) (c h : Nat) :
    storageEventsTo (a.dispatchEvents src i k o n u) c h
      = List.replicate (l.countP (fun x => decide (x = (c, h))))
          (Message.DispatchStorageEvent (if c = src then i else 0) k o n u) := by
  simp only [dispatchEvents, hl, storageEventsTo]
  clear hl
  induction l with
  | nil => simp
  | cons x l ih =>
    rcases x with ⟨c', h'⟩
    by_cases hx : c' = c ∧ h' = h
    · obtain ⟨rfl, rfl⟩ := hx
      simp [List.filterMap_cons, Effect.storageEventTo, List.replicate_succ, ih,
        List.countP_cons]
    · have hne : ¬ ((c', h') = (c, h)) := by
        intro he
        exact hx ⟨congrArg Prod.fst he, congrArg Prod.snd he⟩
      rw [List.map_cons, List.filterMap_cons]
      simp only [Effect.storageEventTo, hx, if_false]
      rw [List.countP_cons, ih]
      simp [hne]

end StorageArea

namespace StorageArea

theorem writeThrough_effects (a : StorageArea) (call : DatabaseCall) :
    ∀ e ∈ a.writeThrough call, ∃ o, e = Effect.database o call := by
  unfold writeThrough
  cases a.localStorageDatabase <;> simp

theorem setItem_not_over_of_result (t : LocalStorageDatabaseTracker) (a : StorageArea)
    (c i : Nat) (k v u : String) (hok : (a.setItem t c i k v u).result = false) :
    ¬ (a.openDatabaseAndImportItemsIfNeeded t).1.storageMap.quotaSize
      < serializedSize
          (WTF.HashMap.set (a.openDatabaseAndImportItemsIfNeeded t).1.storageMap.map k v) := by
  intro hq
  rw [StorageArea.setItem_over t a c i k v u hq] at hok
  cases hok

/-- In the effects of an accepted write, the storage events are those of
`dispatchEvents`. -/
theorem setItem_event_mem (t : LocalStorageDatabaseTracker) (a : StorageArea)
    (c i : Nat) (k v u : String) (hok : (a.setItem t c i k v u).result = false)
    (c' h' i' : Nat) (k' o' n' : Option String) (u' : String) :
    Effect.send c' (.DispatchStorageEvent i' k' o' n' u') h' ∈ (a.setItem t c i k v u).effects ↔
      ((c', h') ∈ a.eventListeners ∧ i' = (if c' = c then i else 0) ∧ k' = some k
        ∧ o' = WTF.HashMap.get (a.items t).result k ∧ n' = some v ∧ u' = u) := by
  rw [StorageArea.setItem_fits t a c i k v u (setItem_not_over_of_result t a c i k v u hok)]
  simp only [List.mem_append, dispatchEvents_mem, eventListeners_open, items_result]
  constructor
  · rintro ((hm | hm) | ⟨c2, h2, hm, he⟩)
    · rcases openDatabase_effects t a _ hm with h1 | h1 <;> cases h1
    · obtain ⟨o, ho⟩ := writeThrough_effects _ _ _ hm
      cases ho
    · cases he
      exact ⟨hm, rfl, rfl, rfl, rfl, rfl⟩
  · rintro ⟨hm, rfl, rfl, rfl, rfl, rfl⟩
    exact Or.inr ⟨c', h', hm, rfl⟩

end StorageArea

theorem storageEventsTo_append (e1 e2 : List Effect) (c h : Nat) :
    storageEventsTo (e1 ++ e2) c h = storageEventsTo e1 c h ++ storageEventsTo e2 c h := by
  simp [storageEventsTo, List.filterMap_append]

/-- The storage events one listener receives from an accepted write. -/
theorem StorageArea.storageEventsTo_setItem (t : LocalStorageDatabaseTracker) (a : StorageArea)
    (c i : Nat) (k v u : String) (hok : (a.setItem t c i k v u).result = false)
    (c' h' : Nat) :
    storageEventsTo (a.setItem t c i k v u).effects c' h'
      = List.replicate (a.eventListeners.countP (fun x => decide (x = (c', h'))))
          (Message.DispatchStorageEvent (if c' = c then i else 0) (some k)
            (WTF.HashMap.get (a.items t).result k) (some v) u) := by
  rw [StorageArea.setItem_fits t a c i k v u (setItem_not_over_of_result t a c i k v u hok)]
  simp only [storageEventsTo_append, storageEventsTo_open, storageEventsTo_writeThrough,
    List.nil_append]
  exact storageEventsTo_dispatchEvents a.eventListeners _ (eventListeners_open t a) _ _ _ _ _ _ _ _

namespace StorageArea

theorem ownEffect_open (t : LocalStorageDatabaseTracker) (a : StorageArea) :
    ∀ e ∈ (a.openDatabaseAndImportItemsIfNeeded t).2, a.OwnEffect e := by
  intro e he
  rcases openDatabase_effects t a e he with h | h
  · exact Or.inl ⟨_, _, h⟩
  · exact Or.inl ⟨_, _, h⟩

theorem ownEffect_writeThrough (a b : StorageArea) (call : DatabaseCall) :
    ∀ e ∈ b.writeThrough call, a.OwnEffect e := by
  intro e he
  obtain ⟨o, ho⟩ := writeThrough_effects b call e he
  exact Or.inl ⟨_, _, ho⟩

theorem ownEffect_dispatchEvents (t : LocalStorageDatabaseTracker) (a : StorageArea)
    (src i : Nat) (k o n : Option String) (u : String) :
    ∀ e ∈ (a.openDatabaseAndImportItemsIfNeeded t).1.dispatchEvents src i k o n u,
      a.OwnEffect e := by
  intro e he
  obtain ⟨c, h, hm, rfl⟩ := (dispatchEvents_mem _ _ _ _ _ _ _ _).mp he
  rw [eventListeners_open] at hm
  exact Or.inr ⟨c, h, _, _, _, _, _, hm, rfl⟩

theorem ownEffect_append3 (a : StorageArea) (e1 e2 e3 : List Effect)
    (h1 : ∀ e ∈ e1, a.OwnEffect e) (h2 : ∀ e ∈ e2, a.OwnEffect e)
    (h3 : ∀ e ∈ e3, a.OwnEffect e) : ∀ e ∈ e1 ++ e2 ++ e3, a.OwnEffect e := by
  intro e he
  rcases List.mem_append.mp he with he | he
  · rcases List.mem_append.mp he with he | he
    · exact h1 e he
    · exact h2 e he
  · exact h3 e he

theorem ownEffect_setItem (t : LocalStorageDatabaseTracker) (a : StorageArea)
    (c i : Nat) (k v u : String) : ∀ e ∈ (a.setItem t c i k v u).effects, a.OwnEffect e := by
  by_cases hq : (a.openDatabaseAndImportItemsIfNeeded t).1.storageMap.quotaSize
      < serializedSize (WTF.HashMap.set (a.openDatabaseAndImportItemsIfNeeded t).1.storageMap.map k v)
  · rw [setItem_over t a c i k v u hq]
    exact ownEffect_open t a
  · rw [setItem_fits t a c i k v u hq]
    exact ownEffect_append3 a _ _ _ (ownEffect_open t a) (ownEffect_writeThrough a _ _)
      (ownEffect_dispatchEvents t a _ _ _ _ _ _)

theorem ownEffect_removeItem (t : LocalStorageDatabaseTracker) (a : StorageArea)
    (c i : Nat) (k u : String) : ∀ e ∈ (a.removeItem t c i k u).effects, a.OwnEffect e := by
  cases hg : WTF.HashMap.get (a.openDatabaseAndImportItemsIfNeeded t).1.storageMap.map k with
  | none =>
    rw [removeItem_absent t a c i k u hg]
    exact ownEffect_open t a
  | some old =>
    rw [removeItem_present t a c i k u old hg]
    exact ownEffect_append3 a _ _ _ (ownEffect_open t a) (ownEffect_writeThrough a _ _)
      (ownEffect_dispatchEvents t a _ _ _ _ _ _)

theorem ownEffect_clear (t : LocalStorageDatabaseTracker) (a : StorageArea)
    (c i : Nat) (u : String) : ∀ e ∈ (a.clear t c i u).effects, a.OwnEffect e := by
  by_cases hl : (a.openDatabaseAndImportItemsIfNeeded t).1.storageMap.map = []
  · rw [clear_empty t a c i u hl]
    exact ownEffect_open t a
  · rw [clear_nonempty t a c i u hl]
    exact ownEffect_append3 a _ _ _ (ownEffect_open t a) (ownEffect_writeThrough a _ _)
      (ownEffect_dispatchEvents t a _ _ _ _ _ _)

theorem eventListeners_setItem (t : LocalStorageDatabaseTracker) (a : StorageArea)
    (c i : Nat) (k v u : String) :
    (a.setItem t c i k v u).area.eventListeners = a.eventListeners := by
  by_cases hq : (a.openDatabaseAndImportItemsIfNeeded t).1.storageMap.quotaSize
      < serializedSize (WTF.HashMap.set (a.openDatabaseAndImportItemsIfNeeded t).1.storageMap.map k v)
  · rw [setItem_over t a c i k v u hq]
    exact eventListeners_open t a
  · rw [setItem_fits t a c i k v u hq]
    exact eventListeners_open t a

theorem eventListeners_removeItem (t : LocalStorageDatabaseTracker) (a : StorageArea)
    (c i : Nat) (k u : String) :
    (a.removeItem t c i k u).area.eventListeners = a.eventListeners := by
  cases hg : WTF.HashMap.get (a.openDatabaseAndImportItemsIfNeeded t).1.storageMap.map k with
  | none =>
    rw [removeItem_absent t a c i k u hg]
    exact eventListeners_open t a
  | some old =>
    rw [removeItem_present t a c i k u old hg]
    exact eventListeners_open t a

theorem eventListeners_clear (t : LocalStorageDatabaseTracker) (a : StorageArea)
    (c i : Nat) (u : String) :
    (a.clear t c i u).area.eventListeners = a.eventListeners := by
  by_cases hl : (a.openDatabaseAndImportItemsIfNeeded t).1.storageMap.map = []
  · rw [clear_empty t a c i u hl]
    exact eventListeners_open t a
  · rw [clear_nonempty t a c i u hl]
    exact eventListeners_open t a

end StorageArea

theorem StorageManager.confinedTo_storeOutcome {ρ : Type} (s : StorageManager) (p : Nat)
    (a : StorageArea) (r : Outcome ρ) (ack : Effect)
    (hl : r.area.eventListeners = a.eventListeners) (he : ∀ e ∈ r.effects, a.OwnEffect e)
    (hack : ∀ c h i k o n u, ack ≠ Effect.send c (.DispatchStorageEvent i k o n u) h) :
    s.ConfinedTo (s.storeOutcome p r [ack]) p a := by
  refine ⟨?_, ⟨r.area, ?_, hl⟩, rfl, rfl, rfl, rfl, ?_⟩
  · intro q hq
    rw [StorageManager.storageArea_storeOutcome, if_neg hq]
  · rw [StorageManager.storageArea_storeOutcome, if_pos rfl]
  · intro c h i k o n u hm
    rw [StorageManager.effectsSince_storeOutcome] at hm
    rcases List.mem_append.mp hm with hm | hm
    · rcases he _ hm with ⟨o', call, h1⟩ | ⟨c', h', i', k', o', n', u', hmem, h1⟩
      · cases h1
      · cases h1
        exact hmem
    · rw [List.mem_singleton] at hm
      exact absurd hm.symm (hack c h i k o n u)

theorem StorageManager.mutation_confined_aux
    (s : StorageManager) (connection : Connection)
    (storageMapID sourceStorageAreaID storageMapSeed : Nat) (key value urlString : String)
    (address : Nat) (a : StorageArea)
    (hf : s.findStorageArea connection storageMapID = some address)
    (ha : s.storageArea address = some a) :
    s.ConfinedTo (s.setItem connection storageMapID sourceStorageAreaID storageMapSeed
        key value urlString) address a := by
  rw [StorageManager.setItem_eq s _ _ _ _ _ _ _ address a hf ha]
  exact StorageManager.confinedTo_storeOutcome s address a _ _
    (StorageArea.eventListeners_setItem _ a _ _ _ _ _) (StorageArea.ownEffect_setItem _ a _ _ _ _ _)
    (by intro c h i k o n u he; cases he)

/-! ## The invariants are preserved -/

namespace StorageManager

theorem wellFormed_create (t : LocalStorageDatabaseTracker) : (create t).WellFormed := by
  refine ⟨?_, ?_, ?_, ?_⟩
  · intro p a h
    cases h
  · intro p a h
    cases h
  · intro id n h
    cases h
  · intro id n h
    cases h

/-- The invariants read four members only. -/
theorem wellFormed_of_same (s s' : StorageManager) (h : s.WellFormed)
    (h1 : s'.storageAreas = s.storageAreas) (h2 : s'.nextAddress = s.nextAddress)
    (h3 : s'.sessionStorageNamespaces = s.sessionStorageNamespaces)
    (h4 : s'.localStorageNamespaces = s.localStorageNamespaces) : s'.WellFormed := by
  refine ⟨?_, ?_, ?_, ?_⟩
  · intro p a hp
    rw [h2]
    exact h.heapBound p a (by simpa [storageArea, h1] using hp)
  · intro p a hp
    exact h.areasSound p a (by simpa [storageArea, h1] using hp)
  · intro id n hn o p hp
    rw [h3] at hn
    obtain ⟨a, ha, hns⟩ := h.sessionLive id n hn o p hp
    exact ⟨a, by simpa [storageArea, h1] using ha, hns⟩
  · intro id n hn
    rw [h4] at hn
    exact h.localQuota id n hn

theorem wellFormed_emit (s : StorageManager) (es : List Effect) (h : s.WellFormed) :
    (s.emit es).WellFormed :=
  wellFormed_of_same s _ h rfl rfl rfl rfl

theorem storageArea_callOnStorageArea (s : StorageManager) (p q : Nat)
    (f : StorageArea → StorageArea × List Effect) :
    (s.callOnStorageArea p f).storageArea q
      = if q = p then (s.storageArea p).map (fun a => (f a).1) else s.storageArea q := by
  unfold callOnStorageArea
  cases ha : s.storageArea p with
  | none =>
    by_cases hq : q = p
    · simp [hq, ha]
    · simp [hq]
  | some a =>
    simp only [storageArea, WTF.HashMap.get_set, Option.map_some']

theorem callOnStorageArea_fields (s : StorageManager) (p : Nat)
    (f : StorageArea → StorageArea × List Effect) :
    (s.callOnStorageArea p f).nextAddress = s.nextAddress
    ∧ (s.callOnStorageArea p f).sessionStorageNamespaces = s.sessionStorageNamespaces
    ∧ (s.callOnStorageArea p f).localStorageNamespaces = s.localStorageNamespaces
    ∧ (s.callOnStorageArea p f).storageAreasByConnection = s.storageAreasByConnection
    ∧ (s.callOnStorageArea p f).localStorageDatabaseTracker = s.localStorageDatabaseTracker := by
  unfold callOnStorageArea
  cases s.storageArea p <;> simp

/-- Replacing the storage area at a live address by one that may stand for it
keeps the invariants. -/
theorem wellFormed_of_update (s s' : StorageManager) (p : Nat) (a a' : StorageArea)
    (h : s.WellFormed) (ha : s.storageArea p = some a) (hk : a.Keeps a')
    (h1 : ∀ q, s'.storageArea q = if q = p then some a' else s.storageArea q)
    (h2 : s'.nextAddress = s.nextAddress)
    (h3 : s'.sessionStorageNamespaces = s.sessionStorageNamespaces)
    (h4 : s'.localStorageNamespaces = s.localStorageNamespaces) : s'.WellFormed := by
  refine ⟨?_, ?_, ?_, ?_⟩
  · intro q b hq
    rw [h2]
    rw [h1] at hq
    by_cases hqp : q = p
    · subst hqp
      exact h.heapBound q a ha
    · rw [if_neg hqp] at hq
      exact h.heapBound q b hq
  · intro q b hq
    rw [h1] at hq
    by_cases hqp : q = p
    · subst hqp
      rw [if_pos rfl] at hq
      cases hq
      exact hk.2 (h.areasSound q a ha)
    · rw [if_neg hqp] at hq
      exact h.areasSound q b hq
  · intro id n hn o q hq
    rw [h3] at hn
    obtain ⟨b, hb, hbn⟩ := h.sessionLive id n hn o q hq
    rw [h1]
    by_cases hqp : q = p
    · subst hqp
      rw [ha] at hb
      cases hb
      exact ⟨a', by simp, hk.1.trans hbn⟩
    · exact ⟨b, by simp [hqp, hb], hbn⟩
  · intro id n hn
    rw [h4] at hn
    exact h.localQuota id n hn

theorem wellFormed_callOnStorageArea (s : StorageManager) (p : Nat)
    (f : StorageArea → StorageArea × List Effect)
    (hf : ∀ a : StorageArea, a.Keeps (f a).1)
    (h : s.WellFormed) : (s.callOnStorageArea p f).WellFormed := by
  obtain ⟨h2, h3, h4, _, _⟩ := callOnStorageArea_fields s p f
  cases ha : s.storageArea p with
  | none =>
    have : s.callOnStorageArea p f = s := by simp [callOnStorageArea, ha]
    rw [this]
    exact h
  | some a =>
    refine wellFormed_of_update s _ p a (f a).1 h ha (hf a) ?_ h2 h3 h4
    intro q
    rw [storageArea_callOnStorageArea, ha]
    rfl

theorem wellFormed_storeOutcome {ρ : Type} (s : StorageManager) (p : Nat) (a : StorageArea)
    (r : Outcome ρ) (reply : List Effect) (h : s.WellFormed) (ha : s.storageArea p = some a)
    (hk : a.Keeps r.area) :
    (s.storeOutcome p r reply).WellFormed :=
  wellFormed_of_update s _ p a r.area h ha hk
    (fun q => storageArea_storeOutcome s p q r reply) rfl rfl rfl

theorem storageArea_allocate (s : StorageManager) (a : StorageArea) (q : Nat) :
    (s.allocate a).1.storageArea q
      = if q = s.nextAddress then some a else s.storageArea q := by
  simp [allocate, storageArea, WTF.HashMap.get_set]

theorem wellFormed_allocate (s : StorageManager) (a : StorageArea) (h : s.WellFormed)
    (hs : a.Sound) : (s.allocate a).1.WellFormed := by
  refine ⟨?_, ?_, ?_, ?_⟩
  · intro q b hq
    rw [storageArea_allocate] at hq
    show q < s.nextAddress + 1
    by_cases hqn : q = s.nextAddress
    · omega
    · rw [if_neg hqn] at hq
      have := h.heapBound q b hq
      omega
  · intro q b hq
    rw [storageArea_allocate] at hq
    by_cases hqn : q = s.nextAddress
    · rw [if_pos hqn] at hq
      cases hq
      exact hs
    · rw [if_neg hqn] at hq
      exact h.areasSound q b hq
  · intro id n hn o q hq
    obtain ⟨b, hb, hbn⟩ := h.sessionLive id n hn o q hq
    have hlt := h.heapBound q b hb
    refine ⟨b, ?_, hbn⟩
    rw [storageArea_allocate, if_neg (by omega)]
    exact hb
  · intro id n hn
    exact h.localQuota id n hn

end StorageManager

namespace StorageManager

/-- A step that leaves the heap and the session namespaces alone keeps the
invariants when every local namespace it leaves has the constructor's quota. -/
theorem wellFormed_of_local (s s' : StorageManager) (h : s.WellFormed)
    (h1 : s'.storageAreas = s.storageAreas) (h2 : s'.nextAddress = s.nextAddress)
    (h3 : s'.sessionStorageNamespaces = s.sessionStorageNamespaces)
    (h4 : ∀ id n, (id, n) ∈ s'.localStorageNamespaces → n.quotaInBytes = 5 * 1024 * 1024) :
    s'.WellFormed := by
  refine ⟨?_, ?_, ?_, h4⟩
  · intro p a hp
    rw [h2]
    exact h.heapBound p a (by simpa [storageArea, h1] using hp)
  · intro p a hp
    exact h.areasSound p a (by simpa [storageArea, h1] using hp)
  · intro id n hn o p hp
    rw [h3] at hn
    obtain ⟨a, ha, hns⟩ := h.sessionLive id n hn o p hp
    exact ⟨a, by simpa [storageArea, h1] using ha, hns⟩

theorem didDestroyStorageArea_fields (s : StorageManager) (namespaceAddress : Nat)
    (a : StorageArea) :
    (s.didDestroyStorageArea namespaceAddress a).storageAreas = s.storageAreas
    ∧ (s.didDestroyStorageArea namespaceAddress a).nextAddress = s.nextAddress
    ∧ (s.didDestroyStorageArea namespaceAddress a).sessionStorageNamespaces
        = s.sessionStorageNamespaces
    ∧ (s.didDestroyStorageArea namespaceAddress a).storageAreasByConnection
        = s.storageAreasByConnection
    ∧ (s.didDestroyStorageArea namespaceAddress a).localStorageDatabaseTracker
        = s.localStorageDatabaseTracker := by
  unfold didDestroyStorageArea
  cases WTF.HashMap.get s.localStorageNamespaces namespaceAddress with
  | none => simp [emit]
  | some n =>
    simp only
    split <;> simp [emit]

theorem wellFormed_didDestroyStorageArea (s : StorageManager) (namespaceAddress : Nat)
    (a : StorageArea) (h : s.WellFormed) :
    (s.didDestroyStorageArea namespaceAddress a).WellFormed := by
  obtain ⟨h1, h2, h3, _, _⟩ := didDestroyStorageArea_fields s namespaceAddress a
  refine wellFormed_of_local s _ h h1 h2 h3 ?_
  intro id n hn
  unfold didDestroyStorageArea at hn
  cases hg : WTF.HashMap.get s.localStorageNamespaces namespaceAddress with
  | none =>
    rw [hg] at hn
    exact h.localQuota id n hn
  | some n0 =>
    rw [hg] at hn
    have hq0 := h.localQuota namespaceAddress n0 (WTF.HashMap.mem_of_get _ _ _ hg)
    simp only at hn
    split at hn
    · rcases WTF.HashMap.mem_set _ _ _ _ hn with hm | hm
      · exact h.localQuota id n hm
      · cases hm
        exact hq0
    · have hm := WTF.HashMap.mem_remove _ _ _ hn
      rcases WTF.HashMap.mem_set _ _ _ _ hm with hm | hm
      · exact h.localQuota id n hm
      · cases hm
        exact hq0

theorem storageArea_remove (s : StorageManager) (p q : Nat) :
    WTF.HashMap.get (WTF.HashMap.remove s.storageAreas p) q
      = if q = p then none else s.storageArea q := by
  simp [storageArea, WTF.HashMap.get_remove]

theorem wellFormed_destroyStorageArea (s : StorageManager) (p : Nat) (h : s.WellFormed)
    (hfree : s.Unowned p) : (s.destroyStorageArea p).WellFormed := by
  unfold destroyStorageArea
  cases ha : s.storageArea p with
  | none => exact h
  | some a =>
    have hmid : ({ s.emit ((if a.eventListeners.isEmpty then []
        else [Effect.assertionFailure .destroyedAreaHasNoListeners]) ++ a.writeThrough .close) with
        storageAreas := WTF.HashMap.remove s.storageAreas p } : StorageManager).WellFormed := by
      refine ⟨?_, ?_, ?_, ?_⟩
      · intro q b hq
        have hq' : WTF.HashMap.get (WTF.HashMap.remove s.storageAreas p) q = some b := hq
        rw [storageArea_remove] at hq'
        by_cases hqp : q = p
        · simp [hqp] at hq'
        · rw [if_neg hqp] at hq'
          exact h.heapBound q b hq'
      · intro q b hq
        have hq' : WTF.HashMap.get (WTF.HashMap.remove s.storageAreas p) q = some b := hq
        rw [storageArea_remove] at hq'
        by_cases hqp : q = p
        · simp [hqp] at hq'
        · rw [if_neg hqp] at hq'
          exact h.areasSound q b hq'
      · intro id n hn o q hq
        obtain ⟨b, hb, hbn⟩ := h.sessionLive id n hn o q hq
        refine ⟨b, ?_, hbn⟩
        show WTF.HashMap.get (WTF.HashMap.remove s.storageAreas p) q = some b
        rw [storageArea_remove, if_neg (hfree id n hn o q hq)]
        exact hb
      · intro id n hn
        exact h.localQuota id n hn
    simp only [emit] at hmid ⊢
    cases a.localStorageNamespace with
    | none => exact hmid
    | some ns => exact wellFormed_didDestroyStorageArea _ ns a hmid

theorem sum_map_eq_zero {α : Type} (l : List α) (f : α → Nat) (h : (l.map f).sum = 0) :
    ∀ x ∈ l, f x = 0 := by
  induction l with
  | nil => intro x hx; cases hx
  | cons y l ih =>
    simp only [List.map_cons, List.sum_cons] at h
    intro x hx
    rcases List.mem_cons.mp hx with hx | hx
    · subst hx
      omega
    · exact ih (by omega) x hx

theorem unowned_of_refCount (s : StorageManager) (p : Nat) (h : s.refCount p = 0) :
    s.Unowned p := by
  intro id n hn o q hq hqp
  unfold refCount at h
  have h0 : ((WTF.HashMap.values s.sessionStorageNamespaces).map
      fun n => (WTF.HashMap.values n.storageAreaMap).count p).sum = 0 := by omega
  have h1 := sum_map_eq_zero _ _ h0 n (by
    simp only [WTF.HashMap.values, List.mem_map]
    exact ⟨(id, n), hn, rfl⟩)
  rw [List.count_eq_zero] at h1
  apply h1
  simp only [WTF.HashMap.values, List.mem_map]
  exact ⟨(o, q), hq, hqp⟩

theorem wellFormed_derefStorageArea (s : StorageManager) (p : Nat) (h : s.WellFormed) :
    (s.derefStorageArea p).WellFormed := by
  unfold derefStorageArea
  split
  · exact wellFormed_destroyStorageArea s p h (unowned_of_refCount s p (by assumption))
  · exact h

theorem wellFormed_derefStorageAreas (ps : List Nat) (s : StorageManager) (h : s.WellFormed) :
    (s.derefStorageAreas ps).WellFormed := by
  induction ps generalizing s with
  | nil => exact h
  | cons p ps ih => exact ih _ (wellFormed_derefStorageArea s p h)

end StorageManager

namespace StorageManager

theorem wellFormed_getOrCreateLocalStorageNamespace (s : StorageManager) (id : Nat)
    (h : s.WellFormed) : (s.getOrCreateLocalStorageNamespace id).1.WellFormed := by
  unfold getOrCreateLocalStorageNamespace
  split
  · exact h
  · refine wellFormed_of_local s _ h rfl rfl rfl ?_
    intro id' n hn
    rcases WTF.HashMap.mem_add _ _ _ _ hn with hm | hm
    · exact h.localQuota id' n hm
    · cases hm
      rfl

theorem localGetOrCreateStorageArea_none (s : StorageManager) (id : Nat) (o : SecurityOrigin)
    (hg : WTF.HashMap.get s.localStorageNamespaces id = none) :
    s.localGetOrCreateStorageArea id o = (s, none) := by
  simp [localGetOrCreateStorageArea, hg]

theorem localGetOrCreateStorageArea_existing (s : StorageManager) (id : Nat)
    (o : SecurityOrigin) (n : LocalStorageNamespace) (p : Nat)
    (hg : WTF.HashMap.get s.localStorageNamespaces id = some n)
    (hp : WTF.HashMap.get n.storageAreaMap o = some p) :
    s.localGetOrCreateStorageArea id o = (s, some p) := by
  simp [localGetOrCreateStorageArea, hg, hp]

theorem localGetOrCreateStorageArea_new (s : StorageManager) (id : Nat)
    (o : SecurityOrigin) (n : LocalStorageNamespace)
    (hg : WTF.HashMap.get s.localStorageNamespaces id = some n)
    (hp : WTF.HashMap.get n.storageAreaMap o = none) :
    s.localGetOrCreateStorageArea id o
      = ({ (s.allocate (StorageArea.create (some id) o n.quotaInBytes)).1 with
            localStorageNamespaces :=
              WTF.HashMap.set s.localStorageNamespaces id
                { n with storageAreaMap := WTF.HashMap.set n.storageAreaMap o s.nextAddress } },
         some s.nextAddress) := by
  simp [localGetOrCreateStorageArea, hg, hp, allocate]

theorem sessionGetOrCreateStorageArea_none (s : StorageManager) (id : Nat)
    (o : SecurityOrigin) (hg : WTF.HashMap.get s.sessionStorageNamespaces id = none) :
    s.sessionGetOrCreateStorageArea id o = (s, none) := by
  simp [sessionGetOrCreateStorageArea, hg]

theorem sessionGetOrCreateStorageArea_existing (s : StorageManager) (id : Nat)
    (o : SecurityOrigin) (n : SessionStorageNamespace) (p : Nat)
    (hg : WTF.HashMap.get s.sessionStorageNamespaces id = some n)
    (hp : WTF.HashMap.get n.storageAreaMap o = some p) :
    s.sessionGetOrCreateStorageArea id o = (s, some p) := by
  simp [sessionGetOrCreateStorageArea, hg, hp]

theorem sessionGetOrCreateStorageArea_new (s : StorageManager) (id : Nat)
    (o : SecurityOrigin) (n : SessionStorageNamespace)
    (hg : WTF.HashMap.get s.sessionStorageNamespaces id = some n)
    (hp : WTF.HashMap.get n.storageAreaMap o = none) :
    s.sessionGetOrCreateStorageArea id o
      = ({ (s.allocate (StorageArea.create none o n.quotaInBytes)).1 with
            sessionStorageNamespaces :=
              WTF.HashMap.set s.sessionStorageNamespaces id
                { n with storageAreaMap := WTF.HashMap.set n.storageAreaMap o s.nextAddress } },
         some s.nextAddress) := by
  simp [sessionGetOrCreateStorageArea, hg, hp, allocate]

theorem wellFormed_localGetOrCreateStorageArea (s : StorageManager) (id : Nat)
    (o : SecurityOrigin) (h : s.WellFormed) :
    (s.localGetOrCreateStorageArea id o).1.WellFormed := by
  cases hg : WTF.HashMap.get s.localStorageNamespaces id with
  | none =>
    rw [localGetOrCreateStorageArea_none s id o hg]
    exact h
  | some n =>
    cases hp : WTF.HashMap.get n.storageAreaMap o with
    | some p =>
      rw [localGetOrCreateStorageArea_existing s id o n p hg hp]
      exact h
    | none =>
      rw [localGetOrCreateStorageArea_new s id o n hg hp]
      have ha := wellFormed_allocate s (StorageArea.create (some id) o n.quotaInBytes) h
        (StorageArea.sound_create _ _ _)
      refine wellFormed_of_local _ _ ha rfl rfl rfl ?_
      intro id' n' hn
      rcases WTF.HashMap.mem_set _ _ _ _ hn with hm | hm
      · exact h.localQuota id' n' hm
      · cases hm
        exact h.localQuota id n (WTF.HashMap.mem_of_get _ _ _ hg)

/-- A step that changes the session namespaces only keeps the invariants when
every storage area the new namespaces hold is live and has no local namespace. -/
theorem wellFormed_of_session (s s' : StorageManager) (h : s.WellFormed)
    (h1 : s'.storageAreas = s.storageAreas) (h2 : s'.nextAddress = s.nextAddress)
    (h3 : ∀ id n, (id, n) ∈ s'.sessionStorageNamespaces → ∀ o p, (o, p) ∈ n.storageAreaMap →
      ∃ a, s.storageArea p = some a ∧ a.localStorageNamespace = none)
    (h4 : s'.localStorageNamespaces = s.localStorageNamespaces) : s'.WellFormed := by
  refine ⟨?_, ?_, ?_, ?_⟩
  · intro p a hp
    rw [h2]
    exact h.heapBound p a (by simpa [storageArea, h1] using hp)
  · intro p a hp
    exact h.areasSound p a (by simpa [storageArea, h1] using hp)
  · intro id n hn o p hp
    obtain ⟨a, ha, hns⟩ := h3 id n hn o p hp
    exact ⟨a, by simpa [storageArea, h1] using ha, hns⟩
  · intro id n hn
    rw [h4] at hn
    exact h.localQuota id n hn

/-- Allocating a storage area without local namespace and entering it in a
session namespace keeps the invariants. -/
theorem wellFormed_allocate_session (s : StorageManager) (a : StorageArea) (id : Nat)
    (n : SessionStorageNamespace) (o : SecurityOrigin) (h : s.WellFormed)
    (hn : WTF.HashMap.get s.sessionStorageNamespaces id = some n)
    (ha : a.localStorageNamespace = none) (hs : a.Sound) :
    ({ (s.allocate a).1 with
        sessionStorageNamespaces :=
          WTF.HashMap.set (s.allocate a).1.sessionStorageNamespaces id
            { n with storageAreaMap := WTF.HashMap.set n.storageAreaMap o (s.allocate a).2 } }
      : StorageManager).WellFormed := by
  have hal := wellFormed_allocate s a h hs
  refine wellFormed_of_session _ _ hal rfl rfl ?_ rfl
  intro id' n' hn' o' p' hp'
  rcases WTF.HashMap.mem_set _ _ _ _ hn' with hm | hm
  · exact hal.sessionLive id' n' hm o' p' hp'
  · cases hm
    rcases WTF.HashMap.mem_set _ _ _ _ hp' with hm | hm
    · exact hal.sessionLive id n (WTF.HashMap.mem_of_get _ _ _ hn) o' p' hm
    · cases hm
      refine ⟨a, ?_, ha⟩
      rw [storageArea_allocate]
      simp [allocate]

theorem wellFormed_sessionGetOrCreateStorageArea (s : StorageManager) (id : Nat)
    (o : SecurityOrigin) (h : s.WellFormed) :
    (s.sessionGetOrCreateStorageArea id o).1.WellFormed := by
  cases hg : WTF.HashMap.get s.sessionStorageNamespaces id with
  | none =>
    rw [sessionGetOrCreateStorageArea_none s id o hg]
    exact h
  | some n =>
    cases hp : WTF.HashMap.get n.storageAreaMap o with
    | some p =>
      rw [sessionGetOrCreateStorageArea_existing s id o n p hg hp]
      exact h
    | none =>
      rw [sessionGetOrCreateStorageArea_new s id o n hg hp]
      exact wellFormed_allocate_session s (StorageArea.create none o n.quotaInBytes) id n o h hg
        rfl (StorageArea.sound_create _ _ _)

theorem wellFormed_setBinding (s : StorageManager) (m : WTF.HashMap (Connection × Nat) Nat)
    (h : s.WellFormed) : ({ s with storageAreasByConnection := m } : StorageManager).WellFormed :=
  wellFormed_of_same s _ h rfl rfl rfl rfl

theorem addListener_keeps (c i : Nat) (a : StorageArea) : a.Keeps (a.addListener c i).1 := by
  refine ⟨rfl, fun h => ⟨?_, h.2⟩⟩
  show (WTF.HashSet.add a.eventListeners (c, i)).Nodup
  unfold WTF.HashSet.add
  split
  · exact h.1
  · rename_i hm
    exact List.Nodup.append h.1 (List.nodup_singleton _) (by
      intro x hx hx'
      rw [List.mem_singleton] at hx'
      exact hm (hx' ▸ hx))

theorem removeListener_keeps (c i : Nat) (a : StorageArea) :
    a.Keeps (a.removeListener c i).1 :=
  ⟨rfl, fun h => ⟨List.Nodup.filter _ h.1, h.2⟩⟩

theorem forceClear_keeps (a : StorageArea) : a.Keeps a.forceClear.1 :=
  ⟨rfl, fun h => ⟨h.1, rfl⟩⟩

theorem wellFormed_bindStorageArea (s : StorageManager) (c i p : Nat) (h : s.WellFormed) :
    (s.bindStorageArea c i p).WellFormed := by
  have h3 := wellFormed_setBinding _
    (WTF.HashMap.set (s.callOnStorageArea p
      (fun a => a.addListener c i)).storageAreasByConnection (c, i) p)
    (wellFormed_callOnStorageArea s p (fun a => a.addListener c i)
      (addListener_keeps c i) h)
  unfold bindStorageArea
  cases WTF.HashMap.get s.storageAreasByConnection (c, i) with
  | none => exact h3
  | some old => exact wellFormed_derefStorageArea _ _ h3

theorem wellFormed_createLocalStorageMap (s : StorageManager) (c i ns : Nat)
    (o : SecurityOrigin) (h : s.WellFormed) : (s.createLocalStorageMap c i ns o).WellFormed := by
  have h1 := wellFormed_getOrCreateLocalStorageNamespace _ ns
    (wellFormed_emit s (s.createLocalStorageMapChecks c i ns) h)
  have h2 := wellFormed_localGetOrCreateStorageArea _ ns o h1
  unfold createLocalStorageMap
  simp only
  split
  · exact wellFormed_emit _ _ h1
  · split
    · exact wellFormed_emit _ _ h2
    · exact wellFormed_bindStorageArea _ _ _ _ h2

theorem wellFormed_createSessionStorageMap (s : StorageManager) (c i ns : Nat)
    (o : SecurityOrigin) (h : s.WellFormed) :
    (s.createSessionStorageMap c i ns o).WellFormed := by
  have h0 := wellFormed_emit s (if WTF.isValidKey ns then []
    else [Effect.assertionFailure .createSessionStorageMapValidNamespaceID]) h
  unfold createSessionStorageMap
  simp only
  split
  · exact h0
  · rename_i n hn
    have h2 := wellFormed_sessionGetOrCreateStorageArea _ ns o
      (wellFormed_emit _ ((s.emit (if WTF.isValidKey ns then []
        else [Effect.assertionFailure .createSessionStorageMapValidNamespaceID])
        ).createSessionStorageMapChecks n c i) h0)
    split
    · exact wellFormed_emit _ _ h2
    · exact wellFormed_bindStorageArea _ _ _ _ h2

end StorageManager

namespace StorageArea

theorem namespace_open (t : LocalStorageDatabaseTracker) (a : StorageArea) :
    (a.openDatabaseAndImportItemsIfNeeded t).1.localStorageNamespace = a.localStorageNamespace := by
  rcases a with ⟨ns, db, imp, o, q, m, l⟩
  cases ns <;> cases db <;> cases imp <;> simp [openDatabaseAndImportItemsIfNeeded]

theorem namespace_setItem (t : LocalStorageDatabaseTracker) (a : StorageArea)
    (c i : Nat) (k v u : String) :
    (a.setItem t c i k v u).area.localStorageNamespace = a.localStorageNamespace := by
  by_cases hq : (a.openDatabaseAndImportItemsIfNeeded t).1.storageMap.quotaSize
      < serializedSize (WTF.HashMap.set (a.openDatabaseAndImportItemsIfNeeded t).1.storageMap.map k v)
  · rw [setItem_over t a c i k v u hq]
    exact namespace_open t a
  · rw [setItem_fits t a c i k v u hq]
    exact namespace_open t a

theorem namespace_removeItem (t : LocalStorageDatabaseTracker) (a : StorageArea)
    (c i : Nat) (k u : String) :
    (a.removeItem t c i k u).area.localStorageNamespace = a.localStorageNamespace := by
  cases hg : WTF.HashMap.get (a.openDatabaseAndImportItemsIfNeeded t).1.storageMap.map k with
  | none =>
    rw [removeItem_absent t a c i k u hg]
    exact namespace_open t a
  | some old =>
    rw [removeItem_present t a c i k u old hg]
    exact namespace_open t a

theorem namespace_clear (t : LocalStorageDatabaseTracker) (a : StorageArea)
    (c i : Nat) (u : String) :
    (a.clear t c i u).area.localStorageNamespace = a.localStorageNamespace := by
  by_cases hl : (a.openDatabaseAndImportItemsIfNeeded t).1.storageMap.map = []
  · rw [clear_empty t a c i u hl]
    exact namespace_open t a
  · rw [clear_nonempty t a c i u hl]
    exact namespace_open t a

theorem quota_open (t : LocalStorageDatabaseTracker) (a : StorageArea) :
    (a.openDatabaseAndImportItemsIfNeeded t).1.storageMap.quotaSize = a.storageMap.quotaSize
    ∧ (a.openDatabaseAndImportItemsIfNeeded t).1.quotaInBytes = a.quotaInBytes := by
  rcases a with ⟨ns, db, imp, o, q, m, l⟩
  cases ns <;> cases db <;> cases imp <;>
    simp [openDatabaseAndImportItemsIfNeeded, StorageMap.importItems]

theorem sound_open (t : LocalStorageDatabaseTracker) (a : StorageArea) (h : a.Sound) :
    (a.openDatabaseAndImportItemsIfNeeded t).1.Sound := by
  refine ⟨?_, ?_⟩
  · rw [eventListeners_open]
    exact h.1
  · rw [(quota_open t a).1, (quota_open t a).2]
    exact h.2

theorem keeps_items (t : LocalStorageDatabaseTracker) (a : StorageArea) :
    a.Keeps (a.items t).area :=
  ⟨namespace_open t a, sound_open t a⟩

theorem keeps_setItem (t : LocalStorageDatabaseTracker) (a : StorageArea)
    (c i : Nat) (k v u : String) : a.Keeps (a.setItem t c i k v u).area := by
  refine ⟨namespace_setItem t a c i k v u, fun h => ?_⟩
  have ho := sound_open t a h
  by_cases hq : (a.openDatabaseAndImportItemsIfNeeded t).1.storageMap.quotaSize
      < serializedSize (WTF.HashMap.set (a.openDatabaseAndImportItemsIfNeeded t).1.storageMap.map k v)
  · rw [setItem_over t a c i k v u hq]
    exact ho
  · rw [setItem_fits t a c i k v u hq]
    exact ho

theorem keeps_removeItem (t : LocalStorageDatabaseTracker) (a : StorageArea)
    (c i : Nat) (k u : String) : a.Keeps (a.removeItem t c i k u).area := by
  refine ⟨namespace_removeItem t a c i k u, fun h => ?_⟩
  have ho := sound_open t a h
  cases hg : WTF.HashMap.get (a.openDatabaseAndImportItemsIfNeeded t).1.storageMap.map k with
  | none =>
    rw [removeItem_absent t a c i k u hg]
    exact ho
  | some old =>
    rw [removeItem_present t a c i k u old hg]
    exact ho

theorem keeps_clear (t : LocalStorageDatabaseTracker) (a : StorageArea)
    (c i : Nat) (u : String) : a.Keeps (a.clear t c i u).area := by
  refine ⟨namespace_clear t a c i u, fun h => ?_⟩
  have ho := sound_open t a h
  by_cases hl : (a.openDatabaseAndImportItemsIfNeeded t).1.storageMap.map = []
  · rw [clear_empty t a c i u hl]
    exact ho
  · rw [clear_nonempty t a c i u hl]
    exact ⟨ho.1, rfl⟩

end StorageArea

namespace StorageManager

theorem wellFormed_destroyStorageMap (s : StorageManager) (c i : Nat) (h : s.WellFormed) :
    (s.destroyStorageMap c i).WellFormed := by
  unfold destroyStorageMap
  cases WTF.HashMap.get s.storageAreasByConnection (c, i) with
  | none => exact h
  | some p =>
    exact wellFormed_derefStorageArea _ _ (wellFormed_setBinding _ _
      (wellFormed_callOnStorageArea s p (fun a => a.removeListener c i)
        (removeListener_keeps c i) h))

theorem getValues_eq (s : StorageManager) (c i seed : Nat) (p : Nat) (a : StorageArea)
    (hf : s.findStorageArea c i = some p) (ha : s.storageArea p = some a) :
    s.getValues c i seed
      = (s.storeOutcome p (a.items s.localStorageDatabaseTracker)
          [Effect.send c (.DidGetValues seed) i],
         some (a.items s.localStorageDatabaseTracker).result) := by
  simp [getValues, hf, ha]

/-- A message for a pair that resolves to no live storage area is ignored. -/
theorem ignored_of_unresolved (s : StorageManager) (c i : Nat)
    (h : s.findStorageArea c i = none
      ∨ ∃ p, s.findStorageArea c i = some p ∧ s.storageArea p = none) :
    (∀ seed, s.getValues c i seed = (s, none))
    ∧ (∀ src seed k v u, s.setItem c i src seed k v u = s)
    ∧ (∀ src seed k u, s.removeItem c i src seed k u = s)
    ∧ (∀ src seed u, s.clear c i src seed u = s) := by
  rcases h with h | ⟨p, h, hp⟩
  · simp [getValues, setItem, removeItem, clear, h]
  · simp [getValues, setItem, removeItem, clear, h, hp]

theorem resolved_or_not (s : StorageManager) (c i : Nat) :
    (s.findStorageArea c i = none
      ∨ ∃ p, s.findStorageArea c i = some p ∧ s.storageArea p = none)
    ∨ ∃ p a, s.findStorageArea c i = some p ∧ s.storageArea p = some a := by
  cases hf : s.findStorageArea c i with
  | none => exact Or.inl (Or.inl rfl)
  | some p =>
    cases ha : s.storageArea p with
    | none => exact Or.inl (Or.inr ⟨p, rfl, ha⟩)
    | some a => exact Or.inr ⟨p, a, rfl, ha⟩

theorem wellFormed_getValues (s : StorageManager) (c i seed : Nat) (h : s.WellFormed) :
    (s.getValues c i seed).1.WellFormed := by
  rcases resolved_or_not s c i with hu | ⟨p, a, hf, ha⟩
  · rw [(ignored_of_unresolved s c i hu).1]
    exact h
  · rw [getValues_eq s c i seed p a hf ha]
    exact wellFormed_storeOutcome s p a _ _ h ha (StorageArea.keeps_items _ a)

theorem wellFormed_setItem (s : StorageManager) (c i src seed : Nat) (k v u : String)
    (h : s.WellFormed) : (s.setItem c i src seed k v u).WellFormed := by
  rcases resolved_or_not s c i with hu | ⟨p, a, hf, ha⟩
  · rw [(ignored_of_unresolved s c i hu).2.1]
    exact h
  · rw [setItem_eq s c i src seed k v u p a hf ha]
    exact wellFormed_storeOutcome s p a _ _ h ha (StorageArea.keeps_setItem _ a _ _ _ _ _)

theorem wellFormed_removeItem (s : StorageManager) (c i src seed : Nat) (k u : String)
    (h : s.WellFormed) : (s.removeItem c i src seed k u).WellFormed := by
  rcases resolved_or_not s c i with hu | ⟨p, a, hf, ha⟩
  · rw [(ignored_of_unresolved s c i hu).2.2.1]
    exact h
  · rw [removeItem_eq s c i src seed k u p a hf ha]
    exact wellFormed_storeOutcome s p a _ _ h ha (StorageArea.keeps_removeItem _ a _ _ _ _)

theorem wellFormed_clear (s : StorageManager) (c i src seed : Nat) (u : String)
    (h : s.WellFormed) : (s.clear c i src seed u).WellFormed := by
  rcases resolved_or_not s c i with hu | ⟨p, a, hf, ha⟩
  · rw [(ignored_of_unresolved s c i hu).2.2.2]
    exact h
  · rw [clear_eq s c i src seed u p a hf ha]
    exact wellFormed_storeOutcome s p a _ _ h ha (StorageArea.keeps_clear _ a _ _ _)

theorem wellFormed_createSessionStorageNamespaceInternal (s : StorageManager) (id : Nat)
    (c : Option Connection) (q : Nat) (h : s.WellFormed) :
    (s.createSessionStorageNamespaceInternal id c q).WellFormed := by
  have h2 : ∀ es, ({ s.emit es with
      sessionStorageNamespaces :=
        WTF.HashMap.set s.sessionStorageNamespaces id (SessionStorageNamespace.create c q) }
      : StorageManager).WellFormed := by
    intro es
    refine wellFormed_of_session s _ h rfl rfl ?_ rfl
    intro id' n hn o p hp
    rcases WTF.HashMap.mem_set _ _ _ _ hn with hm | hm
    · exact h.sessionLive id' n hm o p hp
    · cases hm
      cases hp
  unfold createSessionStorageNamespaceInternal
  cases WTF.HashMap.get s.sessionStorageNamespaces id with
  | none => exact h2 _
  | some n => exact wellFormed_derefStorageAreas _ _ (h2 _)

theorem wellFormed_destroySessionStorageNamespaceInternal (s : StorageManager) (id : Nat)
    (h : s.WellFormed) : (s.destroySessionStorageNamespaceInternal id).WellFormed := by
  unfold destroySessionStorageNamespaceInternal
  cases WTF.HashMap.get s.sessionStorageNamespaces id with
  | none => exact wellFormed_emit _ _ h
  | some n =>
    refine wellFormed_derefStorageAreas _ _ (wellFormed_of_session s _ h rfl rfl ?_ rfl)
    intro id' n' hn o p hp
    exact h.sessionLive id' n' (WTF.HashMap.mem_remove _ _ _ hn) o p hp

theorem wellFormed_setAllowedSessionStorageNamespaceConnectionInternal (s : StorageManager)
    (id : Nat) (c : Option Connection) (h : s.WellFormed) :
    (s.setAllowedSessionStorageNamespaceConnectionInternal id c).WellFormed := by
  unfold setAllowedSessionStorageNamespaceConnectionInternal
  cases hg : WTF.HashMap.get s.sessionStorageNamespaces id with
  | none => exact wellFormed_emit _ _ h
  | some n =>
    refine wellFormed_emit _ _ (wellFormed_of_session s _ h rfl rfl ?_ rfl)
    intro id' n' hn o p hp
    rcases WTF.HashMap.mem_set _ _ _ _ hn with hm | hm
    · exact h.sessionLive id' n' hm o p hp
    · cases hm
      exact h.sessionLive id n (WTF.HashMap.mem_of_get _ _ _ hg) o p hp

theorem wellFormed_cloneToStep (newID : Nat) (s : StorageManager) (it : SecurityOrigin × Nat)
    (h : s.WellFormed) : (cloneToStep newID s it).WellFormed := by
  unfold cloneToStep
  split
  · rename_i a n ha hn
    simp only
    split
    · exact wellFormed_emit _ _ h
    · exact wellFormed_allocate_session (s.emit a.clone.2) a.clone.1 newID n it.1
        (wellFormed_emit _ _ h) hn rfl (StorageArea.sound_clone a (h.areasSound it.2 a ha))
  · exact h

theorem wellFormed_foldl_cloneToStep (newID : Nat) (l : List (SecurityOrigin × Nat))
    (s : StorageManager) (h : s.WellFormed) : (l.foldl (cloneToStep newID) s).WellFormed := by
  induction l generalizing s with
  | nil => exact h
  | cons it l ih => exact ih _ (wellFormed_cloneToStep newID s it h)

theorem wellFormed_cloneSessionStorageNamespaceInternal (s : StorageManager) (id newID : Nat)
    (h : s.WellFormed) : (s.cloneSessionStorageNamespaceInternal id newID).WellFormed := by
  unfold cloneSessionStorageNamespaceInternal
  cases WTF.HashMap.get s.sessionStorageNamespaces id with
  | none => exact h
  | some n =>
    cases WTF.HashMap.get s.sessionStorageNamespaces newID with
    | none => exact wellFormed_emit _ _ h
    | some m => exact wellFormed_foldl_cloneToStep newID _ _ (wellFormed_emit _ _ h)

end StorageManager

namespace StorageManager

theorem wellFormed_removeStorageAreaByConnection (s : StorageManager) (key : Connection × Nat)
    (h : s.WellFormed) : (s.removeStorageAreaByConnection key).WellFormed := by
  unfold removeStorageAreaByConnection
  cases WTF.HashMap.get s.storageAreasByConnection key with
  | none => exact h
  | some p => exact wellFormed_derefStorageArea _ _ (wellFormed_setBinding _ _ h)

theorem wellFormed_foldl {α : Type} (f : StorageManager → α → StorageManager)
    (hf : ∀ s x, s.WellFormed → (f s x).WellFormed) (l : List α) (s : StorageManager)
    (h : s.WellFormed) : (l.foldl f s).WellFormed := by
  induction l generalizing s with
  | nil => exact h
  | cons x l ih => exact ih _ (hf s x h)

theorem wellFormed_applicationWillTerminate (s : StorageManager) (h : s.WellFormed) :
    s.applicationWillTerminate.WellFormed := by
  unfold applicationWillTerminate
  refine wellFormed_foldl _ wellFormed_removeStorageAreaByConnection _ _ ?_
  refine wellFormed_foldl _ ?_ _ _ h
  intro s1 it h1
  exact wellFormed_callOnStorageArea s1 it.2 _ (removeListener_keeps it.1.1 it.1.2) h1

theorem wellFormed_invalidateConnectionInternal (s : StorageManager) (c : Connection)
    (h : s.WellFormed) : (s.invalidateConnectionInternal c).WellFormed := by
  unfold invalidateConnectionInternal
  refine wellFormed_derefStorageAreas _ _ (wellFormed_setBinding _ _ ?_)
  refine wellFormed_foldl _ ?_ _ _ h
  intro s1 it h1
  exact wellFormed_callOnStorageArea s1 it.2 _ (removeListener_keeps it.1.1 it.1.2) h1

theorem wellFormed_clearStorageAreasMatchingOrigin (o : SecurityOrigin) (s : StorageManager)
    (n : LocalStorageNamespace) (h : s.WellFormed) :
    (s.clearStorageAreasMatchingOrigin n o).WellFormed := by
  unfold clearStorageAreasMatchingOrigin
  refine wellFormed_foldl _ ?_ _ _ h
  intro s1 it h1
  split
  · exact wellFormed_callOnStorageArea s1 it.2 _ forceClear_keeps h1
  · exact h1

theorem wellFormed_clearAllStorageAreas (s : StorageManager) (n : LocalStorageNamespace)
    (h : s.WellFormed) : (s.clearAllStorageAreas n).WellFormed := by
  unfold clearAllStorageAreas
  refine wellFormed_foldl _ ?_ _ _ h
  intro s1 it h1
  exact wellFormed_callOnStorageArea s1 it.2 _ forceClear_keeps h1

theorem wellFormed_deleteEntriesForOriginInternal (s : StorageManager) (o : SecurityOrigin)
    (h : s.WellFormed) : (s.deleteEntriesForOriginInternal o).WellFormed := by
  unfold deleteEntriesForOriginInternal
  exact wellFormed_emit _ _
    (wellFormed_foldl _ (wellFormed_clearStorageAreasMatchingOrigin o) _ _ h)

theorem wellFormed_deleteAllEntriesInternal (s : StorageManager) (h : s.WellFormed) :
    s.deleteAllEntriesInternal.WellFormed := by
  unfold deleteAllEntriesInternal
  exact wellFormed_emit _ _ (wellFormed_foldl _ wellFormed_clearAllStorageAreas _ _ h)

theorem wellFormed_handle (s : StorageManager) (r : Request) (h : s.WellFormed) :
    (s.handle r).WellFormed := by
  cases r with
  | createLocalStorageMap c i n o => exact wellFormed_createLocalStorageMap s c i n o h
  | createSessionStorageMap c i n o => exact wellFormed_createSessionStorageMap s c i n o h
  | destroyStorageMap c i => exact wellFormed_destroyStorageMap s c i h
  | getValues c i seed => exact wellFormed_getValues s c i seed h
  | setItem c i src seed k v u => exact wellFormed_setItem s c i src seed k v u h
  | removeItem c i src seed k u => exact wellFormed_removeItem s c i src seed k u h
  | clear c i src seed u => exact wellFormed_clear s c i src seed u h
  | createSessionStorageNamespace n c q =>
    exact wellFormed_createSessionStorageNamespaceInternal s n c q h
  | destroySessionStorageNamespace n =>
    exact wellFormed_destroySessionStorageNamespaceInternal s n h
  | setAllowedSessionStorageNamespaceConnection n c =>
    exact wellFormed_setAllowedSessionStorageNamespaceConnectionInternal s n c h
  | cloneSessionStorageNamespace n m =>
    exact wellFormed_cloneSessionStorageNamespaceInternal s n m h
  | applicationWillTerminate => exact wellFormed_applicationWillTerminate s h
  | invalidateConnection c => exact wellFormed_invalidateConnectionInternal s c h
  | deleteEntriesForOrigin o => exact wellFormed_deleteEntriesForOriginInternal s o h
  | deleteAllEntries => exact wellFormed_deleteAllEntriesInternal s h

/-- Every state the manager reaches from `create` satisfies the invariants. -/
theorem wellFormed_run (t : LocalStorageDatabaseTracker) (requests : List Request) :
    ((create t).run requests).WellFormed :=
  wellFormed_foldl handle wellFormed_handle requests _ (wellFormed_create t)

end StorageManager

/-! ## `cloneTo` -/

namespace WTF.HashMap

variable {κ α : Type} [DecidableEq κ]

theorem get_append (l1 l2 : HashMap κ α) (k : κ) :
    get (l1 ++ l2) k = match get l1 k with
      | some v => some v
      | none => get l2 k := by
  induction l1 with
  | nil => rfl
  | cons p l1 ih =>
    rcases p with ⟨k', v'⟩
    by_cases hk : k' = k
    · simp [get, hk]
    · simp only [List.cons_append, get, hk, if_false]
      exact ih

theorem get_append_singleton_of_some (l : HashMap κ α) (k : κ) (v w : α) (x : κ)
    (h : get l x = some w) : get (l ++ [(k, v)]) x = some w := by
  rw [get_append, h]

theorem get_append_singleton_of_none (l : HashMap κ α) (k : κ) (v : α) (x : κ)
    (h : get l x = none) : get (l ++ [(k, v)]) x = if x = k then some v else none := by
  rw [get_append, h]
  by_cases hx : x = k
  · simp [get, hx]
  · have : ¬ k = x := fun h => hx h.symm
    simp [get, hx, this]

theorem get_append_singleton_of_ne (l : HashMap κ α) (k : κ) (v : α) (x : κ)
    (h : x ≠ k) : get (l ++ [(k, v)]) x = get l x := by
  cases hg : get l x with
  | some w => exact get_append_singleton_of_some l k v w x hg
  | none => rw [get_append_singleton_of_none l k v x hg, if_neg h]

end WTF.HashMap

namespace StorageManager

theorem emit_nil (s : StorageManager) : s.emit [] = s := by
  cases s
  simp [emit]

theorem clone_effects_of_session (a : StorageArea) (h : a.localStorageNamespace = none) :
    a.clone.2 = [] := by
  simp [StorageArea.clone, h]

theorem cloneProgress_step (s : StorageManager) (D : Nat) (l : WTF.HashMap SecurityOrigin Nat)
    (t : StorageManager) (h : CloneProgress s D l t) (o : SecurityOrigin) (pS : Nat)
    (aS : StorageArea) (hlt : pS < s.nextAddress) (ha : s.storageArea pS = some aS)
    (hns : aS.localStorageNamespace = none) :
    CloneProgress s D (l ++ [(o, pS)]) (cloneToStep D t (o, pS)) := by
  obtain ⟨n, hn, hnone, hsome⟩ := h.target
  have hat : t.storageArea pS = some aS := by rw [h.old pS hlt]; exact ha
  cases hg : WTF.HashMap.get n.storageAreaMap o with
  | some p0 =>
    have hstep : cloneToStep D t (o, pS) = t := by
      simp [cloneToStep, hat, hn, WTF.HashMap.contains, hg, clone_effects_of_session aS hns,
        emit_nil]
    rw [hstep]
    have hl : WTF.HashMap.get l o ≠ none := by
      intro hc
      have := (hnone o).mpr hc
      rw [hg] at this
      cases this
    have hsame : ∀ x, WTF.HashMap.get (l ++ [(o, pS)]) x = WTF.HashMap.get l x := by
      intro x
      by_cases hx : x = o
      · subst hx
        cases hlx : WTF.HashMap.get l x with
        | none => exact absurd hlx hl
        | some w => exact WTF.HashMap.get_append_singleton_of_some l x pS w x hlx
      · exact WTF.HashMap.get_append_singleton_of_ne l o pS x hx
    refine { h with target := ⟨n, hn, ?_, ?_⟩ }
    · intro x
      rw [hsame]
      exact hnone x
    · intro x pD hx
      rw [hsame]
      exact hsome x pD hx
  | none =>
    have hl : WTF.HashMap.get l o = none := (hnone o).mp hg
    have hstep : cloneToStep D t (o, pS)
        = { (t.allocate aS.clone.1).1 with
            sessionStorageNamespaces :=
              WTF.HashMap.set (t.allocate aS.clone.1).1.sessionStorageNamespaces D
                { n with
                  storageAreaMap :=
                    WTF.HashMap.set n.storageAreaMap o (t.allocate aS.clone.1).2 } } := by
      simp [cloneToStep, hat, hn, WTF.HashMap.contains, hg, clone_effects_of_session aS hns,
        emit_nil]
    have hwf := wellFormed_allocate_session t aS.clone.1 D n o h.wellFormed hn rfl
      (StorageArea.sound_clone aS (h.wellFormed.areasSound pS aS hat))
    rw [hstep]
    have harea : ∀ q, ({ (t.allocate aS.clone.1).1 with
            sessionStorageNamespaces :=
              WTF.HashMap.set (t.allocate aS.clone.1).1.sessionStorageNamespaces D
                { n with
                  storageAreaMap :=
                    WTF.HashMap.set n.storageAreaMap o (t.allocate aS.clone.1).2 } }
          : StorageManager).storageArea q
        = if q = t.nextAddress then some aS.clone.1 else t.storageArea q :=
      fun q => storageArea_allocate t aS.clone.1 q
    refine ⟨hwf, ?_, ?_, ?_, h.locals, h.bindings, h.tracker, h.trace, ?_⟩
    · show s.nextAddress ≤ t.nextAddress + 1
      have := h.next
      omega
    · intro q hq
      rw [harea, if_neg (by have := h.next; omega)]
      exact h.old q hq
    · intro X hX
      show WTF.HashMap.get (WTF.HashMap.set t.sessionStorageNamespaces D _) X = _
      rw [WTF.HashMap.get_set, if_neg hX]
      exact h.others X hX
    · refine ⟨{ n with storageAreaMap := WTF.HashMap.set n.storageAreaMap o t.nextAddress },
        ?_, ?_, ?_⟩
      · show WTF.HashMap.get (WTF.HashMap.set t.sessionStorageNamespaces D _) D = _
        rw [WTF.HashMap.get_set, if_pos rfl]
        rfl
      · intro x
        show WTF.HashMap.get (WTF.HashMap.set n.storageAreaMap o t.nextAddress) x = none ↔ _
        rw [WTF.HashMap.get_set]
        by_cases hx : x = o
        · subst hx
          rw [WTF.HashMap.get_append_singleton_of_none l x pS x hl]
          simp
        · rw [WTF.HashMap.get_append_singleton_of_ne l o pS x hx, if_neg hx]
          exact hnone x
      · intro x pD hx
        have hx' : WTF.HashMap.get (WTF.HashMap.set n.storageAreaMap o t.nextAddress) x
            = some pD := hx
        rw [WTF.HashMap.get_set] at hx'
        rw [harea]
        by_cases hxo : x = o
        · subst hxo
          rw [if_pos rfl] at hx'
          cases hx'
          refine ⟨h.next, pS, aS, ?_, ha, ?_⟩
          · rw [WTF.HashMap.get_append_singleton_of_none l x pS x hl]
            simp
          · simp
        · rw [if_neg hxo] at hx'
          obtain ⟨hle, pS', aS', h1, h2, h3⟩ := hsome x pD hx'
          have hlt' := h.wellFormed.heapBound pD _ h3
          refine ⟨hle, pS', aS', ?_, h2, ?_⟩
          · rw [WTF.HashMap.get_append_singleton_of_ne l o pS x hxo]
            exact h1
          · rw [if_neg (by omega)]
            exact h3

end StorageManager

namespace StorageManager

theorem cloneProgress_foldl (s : StorageManager) (D : Nat)
    (l2 l1 : WTF.HashMap SecurityOrigin Nat) (t : StorageManager)
    (h : CloneProgress s D l1 t)
    (hl2 : ∀ o p, (o, p) ∈ l2 →
      ∃ a, p < s.nextAddress ∧ s.storageArea p = some a ∧ a.localStorageNamespace = none) :
    CloneProgress s D (l1 ++ l2) (l2.foldl (cloneToStep D) t) := by
  induction l2 generalizing l1 t with
  | nil => simpa using h
  | cons it l2 ih =>
    rcases it with ⟨o, p⟩
    obtain ⟨a, hlt, ha, hns⟩ := hl2 o p (List.mem_cons_self _ _)
    have hstep := cloneProgress_step s D l1 t h o p a hlt ha hns
    have := ih (l1 ++ [(o, p)]) (cloneToStep D t (o, p)) hstep
      (fun o' p' hm => hl2 o' p' (List.mem_cons_of_mem _ hm))
    simpa using this

theorem cloneSessionStorageNamespaceInternal_eq (s : StorageManager) (S D : Nat)
    (nS nD : SessionStorageNamespace)
    (hS : WTF.HashMap.get s.sessionStorageNamespaces S = some nS)
    (hD : WTF.HashMap.get s.sessionStorageNamespaces D = some nD)
    (hE : nD.storageAreaMap = []) :
    s.cloneSessionStorageNamespaceInternal S D = nS.storageAreaMap.foldl (cloneToStep D) s := by
  simp [cloneSessionStorageNamespaceInternal, hS, hD, cloneTo, SessionStorageNamespace.isEmpty,
    hE, emit_nil]

/-- After `cloneSessionStorageNamespaceInternal` into an empty namespace the loop
invariant holds for all entries of the source namespace. -/
theorem cloneProgress_clone (s : StorageManager) (hwf : s.WellFormed) (S D : Nat)
    (nS nD : SessionStorageNamespace)
    (hS : WTF.HashMap.get s.sessionStorageNamespaces S = some nS)
    (hD : WTF.HashMap.get s.sessionStorageNamespaces D = some nD)
    (hE : nD.storageAreaMap = []) :
    CloneProgress s D nS.storageAreaMap (s.cloneSessionStorageNamespaceInternal S D) := by
  rw [cloneSessionStorageNamespaceInternal_eq s S D nS nD hS hD hE]
  have h0 : CloneProgress s D [] s := by
    refine ⟨hwf, Nat.le_refl _, fun _ _ => rfl, fun _ _ => rfl, rfl, rfl, rfl, rfl, nD, hD, ?_, ?_⟩
    · intro o
      simp [hE, WTF.HashMap.get]
    · intro o pD h
      simp [hE, WTF.HashMap.get] at h
  have := cloneProgress_foldl s D nS.storageAreaMap [] s h0 (by
    intro o p hm
    obtain ⟨a, ha, hns⟩ := hwf.sessionLive S nS (WTF.HashMap.mem_of_get _ _ _ hS) o p hm
    exact ⟨a, hwf.heapBound p a ha, ha, hns⟩)
  simpa using this

end StorageManager

namespace StorageManager

/-- The message handlers make their calls through `mutateStorageArea`: a write
through a binding is the mutation of the resolved storage area followed by the
acknowledgement. -/
theorem setItem_eq_mutateStorageArea (s : StorageManager) (c i src seed : Nat)
    (k v u : String) (p : Nat)
    (hf : s.findStorageArea c i = some p) (hp : (s.storageArea p).isSome) :
    ∃ quotaError, s.setItem c i src seed k v u
      = (s.mutateStorageArea p (.write c src k v u)).emit
          [Effect.send c (.DidSetItem seed k quotaError) i] := by
  cases ha : s.storageArea p with
  | none => simp [ha] at hp
  | some a =>
    refine ⟨(a.setItem s.localStorageDatabaseTracker c src k v u).result, ?_⟩
    rw [setItem_eq s c i src seed k v u p a hf ha]
    simp [mutateStorageArea, callOnStorageArea, ha, storeOutcome, emit, Mutation.toOperation,
      StorageArea.apply, StorageArea.effectsOf]

theorem removeItem_eq_mutateStorageArea (s : StorageManager) (c i src seed : Nat)
    (k u : String) (p : Nat)
    (hf : s.findStorageArea c i = some p) (hp : (s.storageArea p).isSome) :
    s.removeItem c i src seed k u
      = (s.mutateStorageArea p (.remove c src k u)).emit
          [Effect.send c (.DidRemoveItem seed k) i] := by
  cases ha : s.storageArea p with
  | none => simp [ha] at hp
  | some a =>
    rw [removeItem_eq s c i src seed k u p a hf ha]
    simp [mutateStorageArea, callOnStorageArea, ha, storeOutcome, emit, Mutation.toOperation,
      StorageArea.apply, StorageArea.effectsOf]

theorem clear_eq_mutateStorageArea (s : StorageManager) (c i src seed : Nat)
    (u : String) (p : Nat)
    (hf : s.findStorageArea c i = some p) (hp : (s.storageArea p).isSome) :
    s.clear c i src seed u
      = (s.mutateStorageArea p (.clear c src u)).emit [Effect.send c (.DidClear seed) i] := by
  cases ha : s.storageArea p with
  | none => simp [ha] at hp
  | some a =>
    rw [clear_eq s c i src seed u p a hf ha]
    simp [mutateStorageArea, callOnStorageArea, ha, storeOutcome, emit, Mutation.toOperation,
      StorageArea.apply, StorageArea.effectsOf]

theorem storageArea_mutateStorageArea_of_ne (s : StorageManager) (p q : Nat) (m : Mutation)
    (h : q ≠ p) : (s.mutateStorageArea p m).storageArea q = s.storageArea q := by
  unfold mutateStorageArea
  rw [storageArea_callOnStorageArea, if_neg h]

theorem storageArea_mutateStorageAreaAll_of_ne (p q : Nat) (ms : List Mutation)
    (s : StorageManager) (h : q ≠ p) :
    (s.mutateStorageAreaAll p ms).storageArea q = s.storageArea q := by
  induction ms generalizing s with
  | nil => rfl
  | cons m ms ih =>
    show ((s.mutateStorageArea p m).mutateStorageAreaAll p ms).storageArea q = _
    rw [ih, storageArea_mutateStorageArea_of_ne s p q m h]

end StorageManager

/-! ## `createLocalStorageMap` -/

namespace StorageManager

theorem getOrCreateLocalStorageNamespace_valid (s : StorageManager) (ns : Nat)
    (hv : WTF.isValidKey ns = true) :
    s.getOrCreateLocalStorageNamespace ns
      = ({ s with
            localStorageNamespaces :=
              WTF.HashMap.add s.localStorageNamespaces ns (LocalStorageNamespace.create ns) },
         true) := by
  simp [getOrCreateLocalStorageNamespace, hv]

theorem getOrCreateLocalStorageNamespace_existing (s : StorageManager) (ns : Nat)
    (hv : WTF.isValidKey ns = true) (n : LocalStorageNamespace)
    (hn : WTF.HashMap.get s.localStorageNamespaces ns = some n) :
    s.getOrCreateLocalStorageNamespace ns = (s, true) := by
  rw [getOrCreateLocalStorageNamespace_valid s ns hv]
  simp [WTF.HashMap.add, WTF.HashMap.contains, hn]

/-- The storage area `getOrCreateLocalStorageNamespace` followed by
`getOrCreateStorageArea` returns, for a valid namespace identifier: the manager
afterwards, the address returned, and the namespace entry that indexes it. -/
theorem getOrCreate_local (s : StorageManager) (ns : Nat) (hv : WTF.isValidKey ns = true)
    (o : SecurityOrigin) :
    ∃ g p n, (s.getOrCreateLocalStorageNamespace ns).1.localGetOrCreateStorageArea ns o
        = (g, some p)
      ∧ WTF.HashMap.get g.localStorageNamespaces ns = some n
      ∧ WTF.HashMap.get n.storageAreaMap o = some p
      ∧ g.storageAreasByConnection = s.storageAreasByConnection
      ∧ g.localStorageDatabaseTracker = s.localStorageDatabaseTracker
      ∧ g.trace = s.trace
      ∧ (∀ n0 p0, WTF.HashMap.get s.localStorageNamespaces ns = some n0 →
          WTF.HashMap.get n0.storageAreaMap o = some p0 → p = p0) := by
  rw [getOrCreateLocalStorageNamespace_valid s ns hv]
  have hget : WTF.HashMap.get
      (WTF.HashMap.add s.localStorageNamespaces ns (LocalStorageNamespace.create ns)) ns
      = some ((WTF.HashMap.get s.localStorageNamespaces ns).getD
          (LocalStorageNamespace.create ns)) := by
    rw [WTF.HashMap.get_add, if_pos rfl]
  have hn0 : ∀ n1, WTF.HashMap.get s.localStorageNamespaces ns = some n1 →
      (WTF.HashMap.get s.localStorageNamespaces ns).getD (LocalStorageNamespace.create ns)
        = n1 := by
    intro n1 h1
    rw [h1]
    rfl
  generalize (WTF.HashMap.get s.localStorageNamespaces ns).getD
    (LocalStorageNamespace.create ns) = n0 at hget hn0
  cases hp : WTF.HashMap.get n0.storageAreaMap o with
  | some p =>
    refine ⟨_, p, n0, localGetOrCreateStorageArea_existing _ ns o n0 p hget hp, hget, hp,
      rfl, rfl, rfl, ?_⟩
    intro n1 p1 h1 h2
    rw [← hn0 n1 h1, hp] at h2
    cases h2
    rfl
  | none =>
    refine ⟨_, _, { n0 with storageAreaMap := WTF.HashMap.set n0.storageAreaMap o s.nextAddress },
      localGetOrCreateStorageArea_new _ ns o n0 hget hp, ?_, ?_, rfl, rfl, rfl, ?_⟩
    · simp [WTF.HashMap.get_set]
    · simp [WTF.HashMap.get_set]
    · intro n1 p1 h1 h2
      rw [← hn0 n1 h1, hp] at h2
      cases h2

theorem createLocalStorageMapChecks_nil (s : StorageManager) (c i ns : Nat)
    (hv : WTF.isValidKey ns = true) (hf : s.findStorageArea c i = none) :
    s.createLocalStorageMapChecks c i ns = [] := by
  simp [createLocalStorageMapChecks, hv, WTF.HashMap.contains,
    show WTF.HashMap.get s.storageAreasByConnection (c, i) = none from hf]

/-- Source function `createLocalStorageMap` for a valid namespace identifier and an
unbound pair:
the pair is bound to the storage area the namespace indexes for the origin. -/
theorem createLocalStorageMap_unbound (s : StorageManager) (c i ns : Nat)
    (hv : WTF.isValidKey ns = true) (o : SecurityOrigin)
    (hf : s.findStorageArea c i = none) :
    ∃ p n, WTF.HashMap.get (s.createLocalStorageMap c i ns o).localStorageNamespaces ns = some n
      ∧ WTF.HashMap.get n.storageAreaMap o = some p
      ∧ (s.createLocalStorageMap c i ns o).storageAreasByConnection
          = WTF.HashMap.set s.storageAreasByConnection (c, i) p
      ∧ (∀ n0 p0, WTF.HashMap.get s.localStorageNamespaces ns = some n0 →
          WTF.HashMap.get n0.storageAreaMap o = some p0 → p = p0) := by
  obtain ⟨g, p, n, hg, hn, hp, hb, _, _, hsame⟩ := getOrCreate_local s ns hv o
  have hr : (s.getOrCreateLocalStorageNamespace ns).2 = true := by
    rw [getOrCreateLocalStorageNamespace_valid s ns hv]
  have hprev : WTF.HashMap.get g.storageAreasByConnection (c, i) = none := by
    rw [hb]
    exact hf
  have hfields := callOnStorageArea_fields g p (fun a => a.addListener c i)
  refine ⟨p, n, ?_, hp, ?_, hsame⟩
  · simp only [createLocalStorageMap, createLocalStorageMapChecks_nil s c i ns hv hf, emit_nil,
      hr, hg, bindStorageArea, hprev]
    simp only [Bool.true_eq_false, if_false]
    rw [hfields.2.2.1]
    exact hn
  · simp only [createLocalStorageMap, createLocalStorageMapChecks_nil s c i ns hv hf, emit_nil,
      hr, hg, bindStorageArea, hprev]
    simp only [Bool.true_eq_false, if_false]
    rw [hfields.2.2.2.1, hb]

end StorageManager

/-! ## Acknowledgements -/

theorem acknowledgements_append (e1 e2 : List Effect) :
    acknowledgements (e1 ++ e2) = acknowledgements e1 ++ acknowledgements e2 := by
  simp [acknowledgements, List.filterMap_append]

theorem StorageArea.acknowledgements_ownEffect (a : StorageArea) (es : List Effect)
    (h : ∀ e ∈ es, a.OwnEffect e) : acknowledgements es = [] := by
  induction es with
  | nil => rfl
  | cons e es ih =>
    have h1 := h e (List.mem_cons_self _ _)
    have h2 := ih (fun x hx => h x (List.mem_cons_of_mem _ hx))
    rcases h1 with ⟨o, call, rfl⟩ | ⟨c, h', i, k, o, n, u, _, rfl⟩
    · simpa [acknowledgements, Effect.acknowledgement] using h2
    · simpa [acknowledgements, Effect.acknowledgement] using h2

theorem StorageArea.setItem_result (t : LocalStorageDatabaseTracker) (a : StorageArea)
    (c i : Nat) (k v u : String) :
    (a.setItem t c i k v u).result
      = decide ((a.items t).area.storageMap.quotaSize
          < serializedSize (WTF.HashMap.set (a.items t).result k v)) := by
  rw [StorageArea.items_area, StorageArea.items_result]
  by_cases hq : (a.openDatabaseAndImportItemsIfNeeded t).1.storageMap.quotaSize
      < serializedSize (WTF.HashMap.set (a.openDatabaseAndImportItemsIfNeeded t).1.storageMap.map k v)
  · rw [StorageArea.setItem_over t a c i k v u hq]
    simp [hq]
  · rw [StorageArea.setItem_fits t a c i k v u hq]
    simp [hq]

/-! ## More lemmas on `WTF::HashMap` -/

theorem WTF.HashMap.keys_filter_nodup {κ α : Type} (m : WTF.HashMap κ α) (P : κ × α → Bool)
    (hn : (WTF.HashMap.keys m).Nodup) : (WTF.HashMap.keys (m.filter P)).Nodup := by
  unfold WTF.HashMap.keys at hn ⊢
  exact hn.sublist ((List.filter_sublist m).map Prod.fst)

theorem WTF.HashMap.mem_values_iff {κ α : Type} (m : WTF.HashMap κ α) (v : α) :
    v ∈ WTF.HashMap.values m ↔ ∃ k, (k, v) ∈ m := by
  simp [WTF.HashMap.values]

namespace WTF.HashMap

variable {κ α : Type} [DecidableEq κ]

theorem get_eq_none_iff (m : HashMap κ α) (k : κ) : get m k = none ↔ k ∉ keys m := by
  induction m with
  | nil => simp [get, keys]
  | cons e m ih =>
    obtain ⟨k', v'⟩ := e
    by_cases h : k' = k
    · simp [get, keys, h]
    · have h' : ¬ k = k' := fun x => h x.symm
      simpa [get, keys, h, h'] using ih

theorem get_of_mem (m : HashMap κ α) (k : κ) (v : α) (hn : (keys m).Nodup) (h : (k, v) ∈ m) :
    get m k = some v := by
  induction m with
  | nil => cases h
  | cons e m ih =>
    obtain ⟨k', v'⟩ := e
    have hn' : k' ∉ keys m ∧ (keys m).Nodup := by simpa [keys] using hn
    rcases List.mem_cons.mp h with h | h
    · cases h
      simp [get]
    · have hk : k ∈ keys m := List.mem_map.mpr ⟨(k, v), h, rfl⟩
      have hne : k' ≠ k := fun x => hn'.1 (x ▸ hk)
      simp only [get, if_neg hne]
      exact ih hn'.2 h

theorem remove_eq_filter (m : HashMap κ α) (k : κ) :
    remove m k = m.filter (fun e => decide (e.1 ≠ k)) := by
  induction m with
  | nil => rfl
  | cons e m ih =>
    obtain ⟨k', v'⟩ := e
    by_cases h : k' = k
    · simp [remove, h, ih]
    · simp [remove, h, ih]

theorem mem_remove_iff (m : HashMap κ α) (k : κ) (x : κ × α) :
    x ∈ remove m k ↔ x ∈ m ∧ x.1 ≠ k := by
  rw [remove_eq_filter]
  simp [List.mem_filter]

theorem foldl_remove_eq_filter (ks : List κ) (m : HashMap κ α) :
    ks.foldl remove m = m.filter (fun e => decide (e.1 ∉ ks)) := by
  induction ks generalizing m with
  | nil => simp
  | cons k ks ih =>
    rw [List.foldl_cons, ih, remove_eq_filter, List.filter_filter]
    congr 1
    funext e
    by_cases h1 : e.1 = k <;> by_cases h2 : e.1 ∈ ks <;> simp [h1, h2]

theorem keys_remove_nodup (m : HashMap κ α) (k : κ) (hn : (keys m).Nodup) :
    (keys (remove m k)).Nodup := by
  rw [remove_eq_filter]
  exact keys_filter_nodup m _ hn

theorem keys_set (m : HashMap κ α) (k : κ) (v : α) :
    keys (set m k v) = if k ∈ keys m then keys m else keys m ++ [k] := by
  induction m with
  | nil => simp [set, keys]
  | cons e m ih =>
    obtain ⟨k', v'⟩ := e
    by_cases h : k' = k
    · simp [set, keys, h]
    · have h' : ¬ k = k' := fun x => h x.symm
      unfold keys at ih
      by_cases hk : k ∈ List.map Prod.fst m
      · simp [set, keys, h, h', ih, hk]
      · simp [set, keys, h, h', ih, hk]

theorem keys_set_nodup (m : HashMap κ α) (k : κ) (v : α) (hn : (keys m).Nodup) :
    (keys (set m k v)).Nodup := by
  rw [keys_set]
  split
  · exact hn
  · rename_i h
    exact List.Nodup.append hn (List.nodup_singleton k) (by simpa using h)

theorem keys_add_nodup (m : HashMap κ α) (k : κ) (v : α) (hn : (keys m).Nodup) :
    (keys (add m k v)).Nodup := by
  unfold add
  split
  · exact hn
  · exact keys_set_nodup m k v hn

theorem mem_set_self (m : HashMap κ α) (k : κ) (v : α) : (k, v) ∈ set m k v :=
  mem_of_get _ _ _ (by rw [get_set, if_pos rfl])

theorem mem_set_of_nodup (m : HashMap κ α) (k : κ) (v : α) (x : κ × α)
    (hn : (keys m).Nodup) (h : x ∈ set m k v) : (x ∈ m ∧ x.1 ≠ k) ∨ x = (k, v) := by
  have hg := get_of_mem _ x.1 x.2 (keys_set_nodup m k v hn) h
  rw [get_set] at hg
  by_cases hk : x.1 = k
  · rw [if_pos hk] at hg
    right
    cases hg
    exact Prod.ext hk rfl
  · rw [if_neg hk] at hg
    exact Or.inl ⟨mem_of_get _ _ _ hg, hk⟩

theorem mem_set_of_mem (m : HashMap κ α) (k : κ) (v : α) (x : κ × α)
    (h : x ∈ m) (hne : x.1 ≠ k) : x ∈ set m k v := by
  induction m with
  | nil => cases h
  | cons e m ih =>
    obtain ⟨k', v'⟩ := e
    by_cases hk : k' = k
    · simp only [set, if_pos hk]
      rcases List.mem_cons.mp h with h | h
      · subst h
        exact absurd hk hne
      · exact List.mem_cons_of_mem _ h
    · simp only [set, if_neg hk]
      rcases List.mem_cons.mp h with h | h
      · subst h
        exact List.mem_cons_self _ _
      · exact List.mem_cons_of_mem _ (ih h)

theorem get_filter_key (m : HashMap κ α) (P : κ → Bool) (k : κ) :
    get (m.filter (fun e => P e.1)) k = if P k then get m k else none := by
  induction m with
  | nil => simp [get]
  | cons e m ih =>
    obtain ⟨k', v'⟩ := e
    by_cases hk : k' = k
    · subst hk
      by_cases hp : P k'
      · simp [List.filter, hp, get]
      · simp [List.filter, hp, ih]
    · by_cases hp : P k'
      · simp [List.filter, hp, get, hk, ih]
      · simp [List.filter, hp, get, hk, ih]

end WTF.HashMap

/-! ## Ownership and release of storage areas -/

namespace StorageManager

theorem refCount_congr (s s' : StorageManager)
    (hb : s'.storageAreasByConnection = s.storageAreasByConnection)
    (hs : s'.sessionStorageNamespaces = s.sessionStorageNamespaces) (p : Nat) :
    s'.refCount p = s.refCount p := by
  unfold refCount
  rw [hb, hs]

theorem sum_map_pos_iff {α : Type} (l : List α) (f : α → Nat) :
    0 < (l.map f).sum ↔ ∃ x ∈ l, 0 < f x := by
  induction l with
  | nil => simp
  | cons y l ih =>
    simp only [List.map_cons, List.sum_cons, List.mem_cons, exists_eq_or_imp]
    rw [← ih]
    omega

theorem refCount_pos_iff (s : StorageManager) (p : Nat) :
    0 < s.refCount p ↔ p ∈ WTF.HashMap.values s.storageAreasByConnection ∨ s.SessionOwned p := by
  unfold refCount SessionOwned
  rw [Nat.add_pos_iff_pos_or_pos, List.count_pos_iff, sum_map_pos_iff]
  apply or_congr Iff.rfl
  constructor
  · rintro ⟨n, hn, hc⟩
    rw [List.count_pos_iff] at hc
    obtain ⟨id, hid⟩ := (WTF.HashMap.mem_values_iff _ _).mp hn
    obtain ⟨o, ho⟩ := (WTF.HashMap.mem_values_iff _ _).mp hc
    exact ⟨id, n, o, hid, ho⟩
  · rintro ⟨id, n, o, hid, ho⟩
    refine ⟨n, (WTF.HashMap.mem_values_iff _ _).mpr ⟨id, hid⟩, ?_⟩
    rw [List.count_pos_iff]
    exact (WTF.HashMap.mem_values_iff _ _).mpr ⟨o, ho⟩

theorem refCount_pos_of_find (s : StorageManager) (c i p : Nat)
    (h : s.findStorageArea c i = some p) : 0 < s.refCount p :=
  (refCount_pos_iff s p).mpr
    (Or.inl ((WTF.HashMap.mem_values_iff _ _).mpr ⟨(c, i), WTF.HashMap.mem_of_get _ _ _ h⟩))

theorem refCount_pos_of_sessionOwned (s : StorageManager) (p : Nat) (h : s.SessionOwned p) :
    0 < s.refCount p :=
  (refCount_pos_iff s p).mpr (Or.inr h)

theorem destroyStorageArea_none (s : StorageManager) (p : Nat) (hp : s.storageArea p = none) :
    s.destroyStorageArea p = s := by
  simp [destroyStorageArea, hp]

theorem destroyStorageArea_session (s : StorageManager) (p : Nat) (a : StorageArea)
    (hp : s.storageArea p = some a) (hns : a.localStorageNamespace = none) :
    s.destroyStorageArea p
      = { s.emit ((if a.eventListeners.isEmpty then []
            else [Effect.assertionFailure .destroyedAreaHasNoListeners]) ++ a.writeThrough .close)
          with storageAreas := WTF.HashMap.remove s.storageAreas p } := by
  simp [destroyStorageArea, hp, hns, emit]

theorem destroyStorageArea_local (s : StorageManager) (p : Nat) (a : StorageArea) (X : Nat)
    (hp : s.storageArea p = some a) (hns : a.localStorageNamespace = some X) :
    s.destroyStorageArea p
      = ({ s.emit ((if a.eventListeners.isEmpty then []
            else [Effect.assertionFailure .destroyedAreaHasNoListeners]) ++ a.writeThrough .close)
          with storageAreas := WTF.HashMap.remove s.storageAreas p }
            : StorageManager).didDestroyStorageArea X a := by
  simp [destroyStorageArea, hp, hns, emit]

theorem destroyStorageArea_fields (s : StorageManager) (p : Nat) :
    (s.destroyStorageArea p).nextAddress = s.nextAddress
    ∧ (s.destroyStorageArea p).sessionStorageNamespaces = s.sessionStorageNamespaces
    ∧ (s.destroyStorageArea p).storageAreasByConnection = s.storageAreasByConnection
    ∧ (s.destroyStorageArea p).localStorageDatabaseTracker = s.localStorageDatabaseTracker := by
  cases hp : s.storageArea p with
  | none =>
    rw [destroyStorageArea_none s p hp]
    exact ⟨rfl, rfl, rfl, rfl⟩
  | some a =>
    cases hns : a.localStorageNamespace with
    | none =>
      rw [destroyStorageArea_session s p a hp hns]
      exact ⟨rfl, rfl, rfl, rfl⟩
    | some X =>
      rw [destroyStorageArea_local s p a X hp hns]
      have h := didDestroyStorageArea_fields
        ({ s.emit ((if a.eventListeners.isEmpty then []
            else [Effect.assertionFailure .destroyedAreaHasNoListeners]) ++ a.writeThrough .close)
            with storageAreas := WTF.HashMap.remove s.storageAreas p } : StorageManager) X a
      exact ⟨h.2.1, h.2.2.1, h.2.2.2.1, h.2.2.2.2⟩

theorem storageArea_destroyStorageArea (s : StorageManager) (p q : Nat) :
    (s.destroyStorageArea p).storageArea q = if q = p then none else s.storageArea q := by
  cases hp : s.storageArea p with
  | none =>
    rw [destroyStorageArea_none s p hp]
    by_cases hq : q = p
    · rw [if_pos hq, hq]
      exact hp
    · rw [if_neg hq]
  | some a =>
    cases hns : a.localStorageNamespace with
    | none =>
      rw [destroyStorageArea_session s p a hp hns]
      exact storageArea_remove s p q
    | some X =>
      rw [destroyStorageArea_local s p a X hp hns]
      have h := (didDestroyStorageArea_fields
        ({ s.emit ((if a.eventListeners.isEmpty then []
            else [Effect.assertionFailure .destroyedAreaHasNoListeners]) ++ a.writeThrough .close)
            with storageAreas := WTF.HashMap.remove s.storageAreas p } : StorageManager) X a).1
      unfold storageArea
      rw [h]
      exact storageArea_remove s p q

theorem derefStorageArea_fields (s : StorageManager) (p : Nat) :
    (s.derefStorageArea p).nextAddress = s.nextAddress
    ∧ (s.derefStorageArea p).sessionStorageNamespaces = s.sessionStorageNamespaces
    ∧ (s.derefStorageArea p).storageAreasByConnection = s.storageAreasByConnection
    ∧ (s.derefStorageArea p).localStorageDatabaseTracker = s.localStorageDatabaseTracker := by
  unfold derefStorageArea
  split
  · exact destroyStorageArea_fields s p
  · exact ⟨rfl, rfl, rfl, rfl⟩

theorem storageArea_derefStorageArea (s : StorageManager) (p q : Nat) :
    (s.derefStorageArea p).storageArea q
      = if q = p ∧ s.refCount p = 0 then none else s.storageArea q := by
  unfold derefStorageArea
  by_cases h : s.refCount p = 0
  · rw [if_pos h, storageArea_destroyStorageArea]
    simp [h]
  · rw [if_neg h]
    simp [h]

theorem refCount_derefStorageArea (s : StorageManager) (p q : Nat) :
    (s.derefStorageArea p).refCount q = s.refCount q :=
  refCount_congr _ _ (derefStorageArea_fields s p).2.2.1 (derefStorageArea_fields s p).2.1 q

theorem derefStorageAreas_fields (ps : List Nat) (s : StorageManager) :
    (s.derefStorageAreas ps).nextAddress = s.nextAddress
    ∧ (s.derefStorageAreas ps).sessionStorageNamespaces = s.sessionStorageNamespaces
    ∧ (s.derefStorageAreas ps).storageAreasByConnection = s.storageAreasByConnection
    ∧ (s.derefStorageAreas ps).localStorageDatabaseTracker = s.localStorageDatabaseTracker := by
  induction ps generalizing s with
  | nil => exact ⟨rfl, rfl, rfl, rfl⟩
  | cons p ps ih =>
    have h1 := derefStorageArea_fields s p
    have h2 := ih (s.derefStorageArea p)
    unfold derefStorageAreas at h2 ⊢
    rw [List.foldl_cons]
    exact ⟨h2.1.trans h1.1, h2.2.1.trans h1.2.1, h2.2.2.1.trans h1.2.2.1,
      h2.2.2.2.trans h1.2.2.2⟩

theorem refCount_derefStorageAreas (ps : List Nat) (s : StorageManager) (q : Nat) :
    (s.derefStorageAreas ps).refCount q = s.refCount q :=
  refCount_congr _ _ (derefStorageAreas_fields ps s).2.2.1 (derefStorageAreas_fields ps s).2.1 q

theorem storageArea_derefStorageAreas (ps : List Nat) (s : StorageManager) (q : Nat) :
    (s.derefStorageAreas ps).storageArea q
      = if q ∈ ps ∧ s.refCount q = 0 then none else s.storageArea q := by
  induction ps generalizing s with
  | nil => simp [derefStorageAreas]
  | cons p ps ih =>
    have h2 := ih (s.derefStorageArea p)
    unfold derefStorageAreas at h2 ⊢
    rw [List.foldl_cons, h2, refCount_derefStorageArea, storageArea_derefStorageArea]
    by_cases hq : q = p
    · subst hq
      by_cases hr : s.refCount q = 0 <;> simp [hr]
    · by_cases hr : s.refCount q = 0 <;> simp [hr, hq]

end StorageManager

/-! ## Coherence is kept when a storage area is released -/

namespace StorageManager

theorem localKeys_didDestroyStorageArea (s : StorageManager) (X : Nat) (a : StorageArea)
    (hn : (WTF.HashMap.keys s.localStorageNamespaces).Nodup) :
    (WTF.HashMap.keys (s.didDestroyStorageArea X a).localStorageNamespaces).Nodup := by
  unfold didDestroyStorageArea
  cases hg : WTF.HashMap.get s.localStorageNamespaces X with
  | none => exact hn
  | some n0 =>
    simp only
    split
    · exact WTF.HashMap.keys_set_nodup _ _ _ hn
    · exact WTF.HashMap.keys_remove_nodup _ _ (WTF.HashMap.keys_set_nodup _ _ _ hn)

theorem mem_didDestroyStorageArea (s : StorageManager) (X : Nat) (a : StorageArea)
    (hn : (WTF.HashMap.keys s.localStorageNamespaces).Nodup) (id : Nat)
    (n' : LocalStorageNamespace)
    (hm : (id, n') ∈ (s.didDestroyStorageArea X a).localStorageNamespaces) :
    ∃ n, (id, n) ∈ s.localStorageNamespaces
      ∧ ∀ o q, (o, q) ∈ n'.storageAreaMap →
          (o, q) ∈ n.storageAreaMap ∧ (id = X → o ≠ a.securityOrigin) := by
  unfold didDestroyStorageArea at hm
  cases hg : WTF.HashMap.get s.localStorageNamespaces X with
  | none =>
    rw [hg] at hm
    refine ⟨n', hm, fun o q hq => ⟨hq, ?_⟩⟩
    intro hid
    exfalso
    have hk : X ∈ WTF.HashMap.keys s.localStorageNamespaces :=
      List.mem_map.mpr ⟨(id, n'), hm, hid⟩
    exact (WTF.HashMap.get_eq_none_iff _ _).mp hg hk
  | some n0 =>
    rw [hg] at hm
    simp only at hm
    have key : ∀ x : Nat × LocalStorageNamespace,
        x ∈ WTF.HashMap.set s.localStorageNamespaces X
          { n0 with storageAreaMap := WTF.HashMap.remove n0.storageAreaMap a.securityOrigin } →
        ∃ n, (x.1, n) ∈ s.localStorageNamespaces
          ∧ ∀ o q, (o, q) ∈ x.2.storageAreaMap →
              (o, q) ∈ n.storageAreaMap ∧ (x.1 = X → o ≠ a.securityOrigin) := by
      intro x hx
      rcases WTF.HashMap.mem_set_of_nodup _ _ _ _ hn hx with ⟨hx1, hx2⟩ | hx1
      · exact ⟨x.2, hx1, fun o q hq => ⟨hq, fun h => absurd h hx2⟩⟩
      · subst hx1
        refine ⟨n0, WTF.HashMap.mem_of_get _ _ _ hg, fun o q hq => ?_⟩
        have := (WTF.HashMap.mem_remove_iff _ _ _).mp hq
        exact ⟨this.1, fun _ => this.2⟩
    split at hm
    · exact key (id, n') hm
    · exact key (id, n') (WTF.HashMap.mem_remove _ _ _ hm)

theorem localStorageNamespaces_destroyStorageArea (s : StorageManager) (p : Nat)
    (hn : (WTF.HashMap.keys s.localStorageNamespaces).Nodup) :
    (WTF.HashMap.keys (s.destroyStorageArea p).localStorageNamespaces).Nodup
    ∧ ∀ id n', (id, n') ∈ (s.destroyStorageArea p).localStorageNamespaces →
        ∃ n, (id, n) ∈ s.localStorageNamespaces
          ∧ ∀ o q, (o, q) ∈ n'.storageAreaMap →
              (o, q) ∈ n.storageAreaMap
              ∧ ∀ a, s.storageArea p = some a → a.localStorageNamespace = some id →
                  o ≠ a.securityOrigin := by
  cases hp : s.storageArea p with
  | none =>
    rw [destroyStorageArea_none s p hp]
    exact ⟨hn, fun id n' h => ⟨n', h, fun o q hq => ⟨hq, fun a ha => (nomatch ha)⟩⟩⟩
  | some a =>
    cases hns : a.localStorageNamespace with
    | none =>
      rw [destroyStorageArea_session s p a hp hns]
      refine ⟨hn, fun id n' h => ⟨n', h, fun o q hq => ⟨hq, fun b hb hbn => ?_⟩⟩⟩
      cases hb
      rw [hns] at hbn
      cases hbn
    | some X =>
      rw [destroyStorageArea_local s p a X hp hns]
      refine ⟨localKeys_didDestroyStorageArea _ X a hn, fun id n' h => ?_⟩
      obtain ⟨n, hn1, hn2⟩ := mem_didDestroyStorageArea _ X a (by exact hn) id n' h
      refine ⟨n, hn1, fun o q hq => ⟨(hn2 o q hq).1, fun b hb hbn => ?_⟩⟩
      cases hb
      rw [hns] at hbn
      cases hbn
      exact (hn2 o q hq).2 rfl

theorem localStorageNamespaces_derefStorageArea (s : StorageManager) (p : Nat)
    (hn : (WTF.HashMap.keys s.localStorageNamespaces).Nodup) :
    (WTF.HashMap.keys (s.derefStorageArea p).localStorageNamespaces).Nodup
    ∧ ∀ id n', (id, n') ∈ (s.derefStorageArea p).localStorageNamespaces →
        ∃ n, (id, n) ∈ s.localStorageNamespaces
          ∧ ∀ o q, (o, q) ∈ n'.storageAreaMap →
              (o, q) ∈ n.storageAreaMap
              ∧ ∀ a, s.storageArea p = some a → s.refCount p = 0 →
                  a.localStorageNamespace = some id → o ≠ a.securityOrigin := by
  unfold derefStorageArea
  split
  · obtain ⟨h1, h2⟩ := localStorageNamespaces_destroyStorageArea s p hn
    refine ⟨h1, fun id n' h => ?_⟩
    obtain ⟨n, hn1, hn2⟩ := h2 id n' h
    exact ⟨n, hn1, fun o q hq => ⟨(hn2 o q hq).1, fun a ha _ hns => (hn2 o q hq).2 a ha hns⟩⟩
  · rename_i hr
    exact ⟨hn, fun id n' h => ⟨n', h, fun o q hq => ⟨hq, fun a _ h0 => absurd h0 hr⟩⟩⟩

theorem coherent_derefStorageArea (s : StorageManager) (p : Nat) (h : s.Coherent) :
    (s.derefStorageArea p).Coherent := by
  obtain ⟨_, hs, hb, _⟩ := derefStorageArea_fields s p
  obtain ⟨hl1, hl2⟩ := localStorageNamespaces_derefStorageArea s p h.localKeys
  have hfind : ∀ c i, (s.derefStorageArea p).findStorageArea c i = s.findStorageArea c i := by
    intro c i
    unfold findStorageArea
    rw [hb]
  refine ⟨wellFormed_derefStorageArea s p h.wellFormed, ?_, ?_, hl1, ?_, ?_, ?_⟩
  · rw [hb]; exact h.bindingKeys
  · rw [hs]; exact h.sessionKeys
  · intro q a hq c i hm
    rw [storageArea_derefStorageArea] at hq
    split at hq
    · cases hq
    · rw [hfind]
      exact h.listenersBound q a hq c i hm
  · intro c i q hf
    rw [hfind] at hf
    rw [storageArea_derefStorageArea]
    have hpos := refCount_pos_of_find s c i q hf
    rw [if_neg]
    · exact h.boundLive c i q hf
    · rintro ⟨rfl, h0⟩
      omega
  · intro id n' hm o q hq
    obtain ⟨n, hn1, hn2⟩ := hl2 id n' hm
    obtain ⟨hq1, hq2⟩ := hn2 o q hq
    obtain ⟨a, ha, hans, hao⟩ := h.localLive id n hn1 o q hq1
    refine ⟨a, ?_, hans, hao⟩
    rw [storageArea_derefStorageArea, if_neg]
    · exact ha
    · rintro ⟨rfl, h0⟩
      exact hq2 a ha h0 hans hao.symm

theorem coherent_derefStorageAreas (ps : List Nat) (s : StorageManager) (h : s.Coherent) :
    (s.derefStorageAreas ps).Coherent := by
  induction ps generalizing s with
  | nil => exact h
  | cons p ps ih => exact ih _ (coherent_derefStorageArea s p h)

theorem bindingsListen_derefStorageAreas (ps : List Nat) (s : StorageManager)
    (h : s.BindingsListen) : (s.derefStorageAreas ps).BindingsListen := by
  intro c i p hf
  have hb := (derefStorageAreas_fields ps s).2.2.1
  have hf' : s.findStorageArea c i = some p := by
    unfold findStorageArea at hf ⊢
    rw [hb] at hf
    exact hf
  obtain ⟨a, ha, hm⟩ := h c i p hf'
  refine ⟨a, ?_, hm⟩
  rw [storageArea_derefStorageAreas, if_neg]
  · exact ha
  · rintro ⟨_, h0⟩
    have := refCount_pos_of_find s c i p hf'
    omega

theorem bindingsListen_derefStorageArea (s : StorageManager) (p : Nat)
    (h : s.BindingsListen) : (s.derefStorageArea p).BindingsListen :=
  bindingsListen_derefStorageAreas [p] s h

theorem ownedUpTo_derefStorageAreas (ps : List Nat) (s : StorageManager)
    (h : s.OwnedUpTo ps) : ∀ q a, (s.derefStorageAreas ps).storageArea q = some a →
      0 < (s.derefStorageAreas ps).refCount q := by
  intro q a hq
  rw [refCount_derefStorageAreas]
  rw [storageArea_derefStorageAreas] at hq
  split at hq
  · cases hq
  · rename_i hne
    rcases h q a hq with h1 | h1
    · exact h1
    · by_cases h0 : s.refCount q = 0
      · exact absurd ⟨h1, h0⟩ hne
      · omega

theorem quiet_derefStorageAreas (ps : List Nat) (s : StorageManager) (h : s.Quiet) :
    (s.derefStorageAreas ps).Quiet := by
  intro q a hq
  rw [storageArea_derefStorageAreas] at hq
  split at hq
  · cases hq
  · exact h q a hq

theorem consistent_derefStorageAreas (ps : List Nat) (s : StorageManager) (hc : s.Coherent)
    (hb : s.BindingsListen) (ho : s.OwnedUpTo ps) : (s.derefStorageAreas ps).Consistent :=
  ⟨coherent_derefStorageAreas ps s hc, bindingsListen_derefStorageAreas ps s hb,
    ownedUpTo_derefStorageAreas ps s ho⟩

theorem consistent_derefStorageArea (s : StorageManager) (p : Nat) (hc : s.Coherent)
    (hb : s.BindingsListen) (ho : s.OwnedUpTo [p]) : (s.derefStorageArea p).Consistent :=
  consistent_derefStorageAreas [p] s hc hb ho

end StorageManager

/-! ## Coherence is kept when a storage area is updated in place -/

namespace StorageManager

theorem findStorageArea_congr (s s' : StorageManager)
    (hb : s'.storageAreasByConnection = s.storageAreasByConnection) (c i : Nat) :
    s'.findStorageArea c i = s.findStorageArea c i := by
  unfold findStorageArea
  rw [hb]

theorem coherent_of_update (s s' : StorageManager) (p : Nat) (a a' : StorageArea)
    (h : s.Coherent) (ha : s.storageArea p = some a) (hk : a.Keeps a')
    (hl : ∀ l ∈ a'.eventListeners, l ∈ a.eventListeners)
    (ho : a'.securityOrigin = a.securityOrigin)
    (h1 : ∀ q, s'.storageArea q = if q = p then some a' else s.storageArea q)
    (h2 : s'.nextAddress = s.nextAddress)
    (h3 : s'.sessionStorageNamespaces = s.sessionStorageNamespaces)
    (h4 : s'.localStorageNamespaces = s.localStorageNamespaces)
    (h5 : s'.storageAreasByConnection = s.storageAreasByConnection) : s'.Coherent := by
  refine ⟨wellFormed_of_update s s' p a a' h.wellFormed ha hk h1 h2 h3 h4, ?_, ?_, ?_, ?_, ?_, ?_⟩
  · rw [h5]; exact h.bindingKeys
  · rw [h3]; exact h.sessionKeys
  · rw [h4]; exact h.localKeys
  · intro q b hq c i hm
    rw [findStorageArea_congr s s' h5]
    rw [h1] at hq
    by_cases hqp : q = p
    · rw [if_pos hqp] at hq
      cases hq
      rw [hqp]
      exact h.listenersBound p a ha c i (hl _ hm)
    · rw [if_neg hqp] at hq
      exact h.listenersBound q b hq c i hm
  · intro c i q hf
    rw [findStorageArea_congr s s' h5] at hf
    rw [h1]
    by_cases hqp : q = p
    · rw [if_pos hqp]; rfl
    · rw [if_neg hqp]
      exact h.boundLive c i q hf
  · intro id n hn o q hq
    rw [h4] at hn
    obtain ⟨b, hb, hbn, hbo⟩ := h.localLive id n hn o q hq
    rw [h1]
    by_cases hqp : q = p
    · rw [if_pos hqp]
      subst hqp
      rw [ha] at hb
      cases hb
      exact ⟨a', rfl, hk.1.trans hbn, ho.trans hbo⟩
    · rw [if_neg hqp]
      exact ⟨b, hb, hbn, hbo⟩

theorem consistent_of_update (s s' : StorageManager) (p : Nat) (a a' : StorageArea)
    (h : s.Consistent) (ha : s.storageArea p = some a) (hk : a.Keeps a')
    (hl : a'.eventListeners = a.eventListeners)
    (ho : a'.securityOrigin = a.securityOrigin)
    (h1 : ∀ q, s'.storageArea q = if q = p then some a' else s.storageArea q)
    (h2 : s'.nextAddress = s.nextAddress)
    (h3 : s'.sessionStorageNamespaces = s.sessionStorageNamespaces)
    (h4 : s'.localStorageNamespaces = s.localStorageNamespaces)
    (h5 : s'.storageAreasByConnection = s.storageAreasByConnection) : s'.Consistent := by
  refine ⟨coherent_of_update s s' p a a' h.coherent ha hk (fun l hm => hl ▸ hm) ho h1 h2 h3 h4 h5,
    ?_, ?_⟩
  · intro c i q hf
    rw [findStorageArea_congr s s' h5] at hf
    obtain ⟨b, hb, hm⟩ := h.bindingsListen c i q hf
    rw [h1]
    by_cases hqp : q = p
    · rw [if_pos hqp]
      subst hqp
      rw [ha] at hb
      cases hb
      exact ⟨a', rfl, hl ▸ hm⟩
    · rw [if_neg hqp]
      exact ⟨b, hb, hm⟩
  · intro q b hq
    rw [refCount_congr s s' h5 h3]
    rw [h1] at hq
    by_cases hqp : q = p
    · rw [hqp]
      exact h.owned p a ha
    · rw [if_neg hqp] at hq
      exact h.owned q b hq

theorem callOnStorageArea_none (s : StorageManager) (p : Nat)
    (f : StorageArea → StorageArea × List Effect) (hp : s.storageArea p = none) :
    s.callOnStorageArea p f = s := by
  simp [callOnStorageArea, hp]

theorem storageArea_callOnStorageArea_of_some (s : StorageManager) (p : Nat) (a : StorageArea)
    (f : StorageArea → StorageArea × List Effect) (hp : s.storageArea p = some a) (q : Nat) :
    (s.callOnStorageArea p f).storageArea q
      = if q = p then some (f a).1 else s.storageArea q := by
  rw [storageArea_callOnStorageArea, hp]
  rfl

theorem coherent_callOnStorageArea (s : StorageManager) (p : Nat)
    (f : StorageArea → StorageArea × List Effect)
    (hk : ∀ a : StorageArea, a.Keeps (f a).1)
    (hl : ∀ a : StorageArea, ∀ l ∈ (f a).1.eventListeners, l ∈ a.eventListeners)
    (ho : ∀ a : StorageArea, (f a).1.securityOrigin = a.securityOrigin)
    (h : s.Coherent) : (s.callOnStorageArea p f).Coherent := by
  cases hp : s.storageArea p with
  | none =>
    rw [callOnStorageArea_none s p f hp]
    exact h
  | some a =>
    obtain ⟨h2, h3, h4, h5, _⟩ := callOnStorageArea_fields s p f
    exact coherent_of_update s _ p a (f a).1 h hp (hk a) (hl a) (ho a)
      (storageArea_callOnStorageArea_of_some s p a f hp) h2 h3 h4 h5

theorem consistent_callOnStorageArea (s : StorageManager) (p : Nat)
    (f : StorageArea → StorageArea × List Effect)
    (hk : ∀ a : StorageArea, a.Keeps (f a).1)
    (hl : ∀ a : StorageArea, (f a).1.eventListeners = a.eventListeners)
    (ho : ∀ a : StorageArea, (f a).1.securityOrigin = a.securityOrigin)
    (h : s.Consistent) : (s.callOnStorageArea p f).Consistent := by
  cases hp : s.storageArea p with
  | none =>
    rw [callOnStorageArea_none s p f hp]
    exact h
  | some a =>
    obtain ⟨h2, h3, h4, h5, _⟩ := callOnStorageArea_fields s p f
    exact consistent_of_update s _ p a (f a).1 h hp (hk a) (hl a) (ho a)
      (storageArea_callOnStorageArea_of_some s p a f hp) h2 h3 h4 h5

theorem consistent_storeOutcome {ρ : Type} (s : StorageManager) (p : Nat) (a : StorageArea)
    (r : Outcome ρ) (reply : List Effect) (h : s.Consistent) (ha : s.storageArea p = some a)
    (hk : a.Keeps r.area) (hl : r.area.eventListeners = a.eventListeners)
    (ho : r.area.securityOrigin = a.securityOrigin) :
    (s.storeOutcome p r reply).Consistent :=
  consistent_of_update s _ p a r.area h ha hk hl ho
    (fun q => storageArea_storeOutcome s p q r reply) rfl rfl rfl rfl

theorem consistent_of_same (s s' : StorageManager) (h : s.Consistent)
    (h1 : s'.storageAreas = s.storageAreas) (h2 : s'.nextAddress = s.nextAddress)
    (h3 : s'.sessionStorageNamespaces = s.sessionStorageNamespaces)
    (h4 : s'.localStorageNamespaces = s.localStorageNamespaces)
    (h5 : s'.storageAreasByConnection = s.storageAreasByConnection) : s'.Consistent := by
  have hA : ∀ q, s'.storageArea q = s.storageArea q := by
    intro q
    unfold storageArea
    rw [h1]
  refine ⟨⟨wellFormed_of_same s s' h.coherent.wellFormed h1 h2 h3 h4, ?_, ?_, ?_, ?_, ?_, ?_⟩,
    ?_, ?_⟩
  · rw [h5]; exact h.coherent.bindingKeys
  · rw [h3]; exact h.coherent.sessionKeys
  · rw [h4]; exact h.coherent.localKeys
  · intro q b hq c i hm
    rw [findStorageArea_congr s s' h5]
    rw [hA] at hq
    exact h.coherent.listenersBound q b hq c i hm
  · intro c i q hf
    rw [findStorageArea_congr s s' h5] at hf
    rw [hA]
    exact h.coherent.boundLive c i q hf
  · intro id n hn o q hq
    rw [h4] at hn
    rw [hA]
    exact h.coherent.localLive id n hn o q hq
  · intro c i q hf
    rw [findStorageArea_congr s s' h5] at hf
    rw [hA]
    exact h.bindingsListen c i q hf
  · intro q b hq
    rw [refCount_congr s s' h5 h3]
    rw [hA] at hq
    exact h.owned q b hq

theorem consistent_emit (s : StorageManager) (es : List Effect) (h : s.Consistent) :
    (s.emit es).Consistent :=
  consistent_of_same s _ h rfl rfl rfl rfl rfl

end StorageManager

namespace StorageArea

theorem securityOrigin_open (t : LocalStorageDatabaseTracker) (a : StorageArea) :
    (a.openDatabaseAndImportItemsIfNeeded t).1.securityOrigin = a.securityOrigin := by
  rcases a with ⟨ns, db, imp, o, q, m, l⟩
  cases ns <;> cases db <;> cases imp <;> simp [openDatabaseAndImportItemsIfNeeded]

theorem securityOrigin_setItem (t : LocalStorageDatabaseTracker) (a : StorageArea)
    (c i : Nat) (k v u : String) :
    (a.setItem t c i k v u).area.securityOrigin = a.securityOrigin := by
  by_cases hq : (a.openDatabaseAndImportItemsIfNeeded t).1.storageMap.quotaSize
      < serializedSize (WTF.HashMap.set (a.openDatabaseAndImportItemsIfNeeded t).1.storageMap.map k v)
  · rw [setItem_over t a c i k v u hq]
    exact securityOrigin_open t a
  · rw [setItem_fits t a c i k v u hq]
    exact securityOrigin_open t a

theorem securityOrigin_removeItem (t : LocalStorageDatabaseTracker) (a : StorageArea)
    (c i : Nat) (k u : String) :
    (a.removeItem t c i k u).area.securityOrigin = a.securityOrigin := by
  cases hg : WTF.HashMap.get (a.openDatabaseAndImportItemsIfNeeded t).1.storageMap.map k with
  | none =>
    rw [removeItem_absent t a c i k u hg]
    exact securityOrigin_open t a
  | some old =>
    rw [removeItem_present t a c i k u old hg]
    exact securityOrigin_open t a

theorem securityOrigin_clear (t : LocalStorageDatabaseTracker) (a : StorageArea)
    (c i : Nat) (u : String) :
    (a.clear t c i u).area.securityOrigin = a.securityOrigin := by
  by_cases hl : (a.openDatabaseAndImportItemsIfNeeded t).1.storageMap.map = []
  · rw [clear_empty t a c i u hl]
    exact securityOrigin_open t a
  · rw [clear_nonempty t a c i u hl]
    exact securityOrigin_open t a

end StorageArea

/-! ## Coherence is kept when a binding is added or removed -/

namespace StorageManager

theorem sessionOwned_congr (s s' : StorageManager)
    (hs : s'.sessionStorageNamespaces = s.sessionStorageNamespaces) (p : Nat) :
    s'.SessionOwned p ↔ s.SessionOwned p := by
  unfold SessionOwned
  rw [hs]

theorem coherent_removeBinding (s : StorageManager) (k : Connection × Nat) (h : s.Coherent)
    (hk : ∀ q a, s.storageArea q = some a → k ∉ a.eventListeners) :
    ({ s with storageAreasByConnection := WTF.HashMap.remove s.storageAreasByConnection k }
      : StorageManager).Coherent := by
  refine ⟨wellFormed_setBinding s _ h.wellFormed, WTF.HashMap.keys_remove_nodup _ _ h.bindingKeys,
    h.sessionKeys, h.localKeys, ?_, ?_, h.localLive⟩
  · intro q a hq c i hm
    have hne : (c, i) ≠ k := fun e => hk q a hq (e ▸ hm)
    show WTF.HashMap.get (WTF.HashMap.remove s.storageAreasByConnection k) (c, i) = some q
    rw [WTF.HashMap.get_remove, if_neg hne]
    exact h.listenersBound q a hq c i hm
  · intro c i q hf
    have hf' : WTF.HashMap.get (WTF.HashMap.remove s.storageAreasByConnection k) (c, i)
        = some q := hf
    rw [WTF.HashMap.get_remove] at hf'
    split at hf'
    · cases hf'
    · exact h.boundLive c i q hf'

theorem ownedUpTo_removeBinding (s : StorageManager) (k : Connection × Nat) (p : Nat)
    (pending : List Nat) (hn : (WTF.HashMap.keys s.storageAreasByConnection).Nodup)
    (hg : WTF.HashMap.get s.storageAreasByConnection k = some p) (ho : s.OwnedUpTo pending) :
    ({ s with storageAreasByConnection := WTF.HashMap.remove s.storageAreasByConnection k }
      : StorageManager).OwnedUpTo (p :: pending) := by
  intro q a hq
  rcases ho q a hq with h1 | h1
  · rcases (refCount_pos_iff s q).mp h1 with h2 | h2
    · obtain ⟨k', hk'⟩ := (WTF.HashMap.mem_values_iff _ _).mp h2
      by_cases hkk : k' = k
      · subst hkk
        have := WTF.HashMap.get_of_mem _ _ _ hn hk'
        rw [hg] at this
        cases this
        exact Or.inr (List.mem_cons_self _ _)
      · left
        apply (refCount_pos_iff _ q).mpr
        left
        exact (WTF.HashMap.mem_values_iff _ _).mpr
          ⟨k', (WTF.HashMap.mem_remove_iff _ _ _).mpr ⟨hk', hkk⟩⟩
    · left
      exact (refCount_pos_iff _ q).mpr (Or.inr h2)
  · exact Or.inr (List.mem_cons_of_mem _ h1)

theorem ownedUpTo_nil (s : StorageManager) (h : ∀ p a, s.storageArea p = some a → 0 < s.refCount p)
    (pending : List Nat) : s.OwnedUpTo pending :=
  fun p a hp => Or.inl (h p a hp)

theorem bindStorageArea_unbound (s : StorageManager) (c i p : Nat)
    (hf : s.findStorageArea c i = none) :
    s.bindStorageArea c i p
      = { s.callOnStorageArea p (fun a => a.addListener c i) with
          storageAreasByConnection :=
            WTF.HashMap.set s.storageAreasByConnection (c, i) p } := by
  unfold findStorageArea at hf
  have hb := (callOnStorageArea_fields s p (fun a => a.addListener c i)).2.2.2.1
  simp only [bindStorageArea, hf, hb]

theorem mem_hashSet_add {α : Type} [DecidableEq α] (l : WTF.HashSet α) (x y : α) :
    y ∈ WTF.HashSet.add l x ↔ y ∈ l ∨ y = x := by
  unfold WTF.HashSet.add
  split
  · constructor
    · exact Or.inl
    · rintro (h | h)
      · exact h
      · subst h; assumption
  · simp

theorem consistent_bindStorageArea (g : StorageManager) (c i p : Nat) (a : StorageArea)
    (hc : g.Coherent) (hb : g.BindingsListen) (ho : g.OwnedUpTo [p])
    (hf : g.findStorageArea c i = none) (ha : g.storageArea p = some a) :
    (g.bindStorageArea c i p).Consistent := by
  have hwf := wellFormed_bindStorageArea g c i p hc.wellFormed
  rw [bindStorageArea_unbound g c i p hf] at hwf ⊢
  obtain ⟨h2, h3, h4, h5, _⟩ := callOnStorageArea_fields g p (fun a => a.addListener c i)
  have hA := storageArea_callOnStorageArea_of_some g p a (fun a => a.addListener c i) ha
  have hfind : ∀ c' i', (c', i') ≠ (c, i) →
      WTF.HashMap.get (WTF.HashMap.set g.storageAreasByConnection (c, i) p) (c', i')
        = g.findStorageArea c' i' := by
    intro c' i' hne
    rw [WTF.HashMap.get_set, if_neg hne]
    rfl
  have hself : WTF.HashMap.get (WTF.HashMap.set g.storageAreasByConnection (c, i) p) (c, i)
      = some p := by
    rw [WTF.HashMap.get_set, if_pos rfl]
  have hbound_ne : ∀ c' i' q, g.findStorageArea c' i' = some q → (c', i') ≠ (c, i) := by
    intro c' i' q hq e
    cases e
    rw [hf] at hq
    cases hq
  refine ⟨⟨hwf, WTF.HashMap.keys_set_nodup _ _ _ hc.bindingKeys, ?_, ?_, ?_, ?_, ?_⟩, ?_, ?_⟩
  · exact h3 ▸ hc.sessionKeys
  · exact h4 ▸ hc.localKeys
  · intro q b hq c' i' hm
    have hq' : (g.callOnStorageArea p (fun a => a.addListener c i)).storageArea q = some b := hq
    rw [hA] at hq'
    show WTF.HashMap.get (WTF.HashMap.set g.storageAreasByConnection (c, i) p) (c', i') = some q
    by_cases hqp : q = p
    · rw [if_pos hqp] at hq'
      cases hq'
      rcases (mem_hashSet_add _ _ _).mp hm with hm | hm
      · have := hc.listenersBound p a ha c' i' hm
        rw [hfind c' i' (hbound_ne c' i' p this), hqp]
        exact this
      · cases hm
        rw [hself, hqp]
    · rw [if_neg hqp] at hq'
      have := hc.listenersBound q b hq' c' i' hm
      rw [hfind c' i' (hbound_ne c' i' q this)]
      exact this
  · intro c' i' q hq
    have hq' : WTF.HashMap.get (WTF.HashMap.set g.storageAreasByConnection (c, i) p) (c', i')
        = some q := hq
    show ((g.callOnStorageArea p (fun a => a.addListener c i)).storageArea q).isSome
    rw [hA]
    by_cases hqp : q = p
    · rw [if_pos hqp]; rfl
    · rw [if_neg hqp]
      by_cases hk : (c', i') = (c, i)
      · rw [hk, hself] at hq'
        cases hq'
        exact absurd rfl hqp
      · rw [hfind c' i' hk] at hq'
        exact hc.boundLive c' i' q hq'
  · intro id n hn o q hq
    have hn' : (id, n) ∈ g.localStorageNamespaces := h4 ▸ hn
    obtain ⟨b, hb1, hb2, hb3⟩ := hc.localLive id n hn' o q hq
    show ∃ a', (g.callOnStorageArea p (fun a => a.addListener c i)).storageArea q = some a' ∧ _
    rw [hA]
    by_cases hqp : q = p
    · rw [if_pos hqp]
      subst hqp
      rw [ha] at hb1
      cases hb1
      exact ⟨_, rfl, hb2, hb3⟩
    · rw [if_neg hqp]
      exact ⟨b, hb1, hb2, hb3⟩
  · intro c' i' q hq
    have hq' : WTF.HashMap.get (WTF.HashMap.set g.storageAreasByConnection (c, i) p) (c', i')
        = some q := hq
    show ∃ a', (g.callOnStorageArea p (fun a => a.addListener c i)).storageArea q = some a' ∧ _
    rw [hA]
    by_cases hk : (c', i') = (c, i)
    · rw [hk, hself] at hq'
      cases hq'
      cases hk
      rw [if_pos rfl]
      exact ⟨_, rfl, (mem_hashSet_add _ _ _).mpr (Or.inr rfl)⟩
    · rw [hfind c' i' hk] at hq'
      obtain ⟨b, hb1, hb2⟩ := hb c' i' q hq'
      by_cases hqp : q = p
      · rw [if_pos hqp]
        subst hqp
        rw [ha] at hb1
        cases hb1
        exact ⟨_, rfl, (mem_hashSet_add _ _ _).mpr (Or.inl hb2)⟩
      · rw [if_neg hqp]
        exact ⟨b, hb1, hb2⟩
  · intro q b hq
    have hq' : (g.callOnStorageArea p (fun a => a.addListener c i)).storageArea q = some b := hq
    rw [hA] at hq'
    apply (refCount_pos_iff _ q).mpr
    by_cases hqp : q = p
    · left
      rw [hqp]
      exact (WTF.HashMap.mem_values_iff _ _).mpr ⟨(c, i), WTF.HashMap.mem_set_self _ _ _⟩
    · rw [if_neg hqp] at hq'
      rcases ho q b hq' with h1 | h1
      · rcases (refCount_pos_iff g q).mp h1 with h6 | h6
        · left
          obtain ⟨k', hk'⟩ := (WTF.HashMap.mem_values_iff _ _).mp h6
          have hne : k' ≠ (c, i) := by
            intro e
            subst e
            have := WTF.HashMap.get_of_mem _ _ _ hc.bindingKeys hk'
            unfold findStorageArea at hf
            rw [hf] at this
            cases this
          exact (WTF.HashMap.mem_values_iff _ _).mpr
            ⟨k', WTF.HashMap.mem_set_of_mem _ _ _ _ hk' hne⟩
        · right
          exact (sessionOwned_congr g _ h3 q).mpr h6
      · simp at h1
        exact absurd h1 hqp

end StorageManager

/-! ## Consistency is kept by the requests on one storage map -/

namespace StorageManager

theorem consistent_foldl {α : Type} (f : StorageManager → α → StorageManager)
    (hf : ∀ s x, s.Consistent → (f s x).Consistent) (l : List α) (s : StorageManager)
    (h : s.Consistent) : (l.foldl f s).Consistent := by
  induction l generalizing s with
  | nil => exact h
  | cons x l ih => exact ih _ (hf s x h)

theorem consistent_getValues (s : StorageManager) (c i seed : Nat) (h : s.Consistent) :
    (s.getValues c i seed).1.Consistent := by
  rcases resolved_or_not s c i with hu | ⟨p, a, hf, ha⟩
  · rw [(ignored_of_unresolved s c i hu).1]
    exact h
  · rw [getValues_eq s c i seed p a hf ha]
    exact consistent_storeOutcome s p a _ _ h ha (StorageArea.keeps_items _ a)
      (StorageArea.eventListeners_open _ a) (StorageArea.securityOrigin_open _ a)

theorem consistent_setItem (s : StorageManager) (c i src seed : Nat) (k v u : String)
    (h : s.Consistent) : (s.setItem c i src seed k v u).Consistent := by
  rcases resolved_or_not s c i with hu | ⟨p, a, hf, ha⟩
  · rw [(ignored_of_unresolved s c i hu).2.1]
    exact h
  · rw [setItem_eq s c i src seed k v u p a hf ha]
    exact consistent_storeOutcome s p a _ _ h ha (StorageArea.keeps_setItem _ a _ _ _ _ _)
      (StorageArea.eventListeners_setItem _ a _ _ _ _ _)
      (StorageArea.securityOrigin_setItem _ a _ _ _ _ _)

theorem consistent_removeItem (s : StorageManager) (c i src seed : Nat) (k u : String)
    (h : s.Consistent) : (s.removeItem c i src seed k u).Consistent := by
  rcases resolved_or_not s c i with hu | ⟨p, a, hf, ha⟩
  · rw [(ignored_of_unresolved s c i hu).2.2.1]
    exact h
  · rw [removeItem_eq s c i src seed k u p a hf ha]
    exact consistent_storeOutcome s p a _ _ h ha (StorageArea.keeps_removeItem _ a _ _ _ _)
      (StorageArea.eventListeners_removeItem _ a _ _ _ _)
      (StorageArea.securityOrigin_removeItem _ a _ _ _ _)

theorem consistent_clear (s : StorageManager) (c i src seed : Nat) (u : String)
    (h : s.Consistent) : (s.clear c i src seed u).Consistent := by
  rcases resolved_or_not s c i with hu | ⟨p, a, hf, ha⟩
  · rw [(ignored_of_unresolved s c i hu).2.2.2]
    exact h
  · rw [clear_eq s c i src seed u p a hf ha]
    exact consistent_storeOutcome s p a _ _ h ha (StorageArea.keeps_clear _ a _ _ _)
      (StorageArea.eventListeners_clear _ a _ _ _) (StorageArea.securityOrigin_clear _ a _ _ _)

theorem consistent_forceClear (s : StorageManager) (p : Nat) (h : s.Consistent) :
    (s.callOnStorageArea p StorageArea.forceClear).Consistent :=
  consistent_callOnStorageArea s p _ forceClear_keeps (fun _ => rfl) (fun _ => rfl) h

theorem consistent_clearStorageAreasMatchingOrigin (o : SecurityOrigin) (s : StorageManager)
    (n : LocalStorageNamespace) (h : s.Consistent) :
    (s.clearStorageAreasMatchingOrigin n o).Consistent := by
  unfold clearStorageAreasMatchingOrigin
  refine consistent_foldl _ ?_ _ _ h
  intro s1 it h1
  split
  · exact consistent_forceClear s1 it.2 h1
  · exact h1

theorem consistent_clearAllStorageAreas (s : StorageManager) (n : LocalStorageNamespace)
    (h : s.Consistent) : (s.clearAllStorageAreas n).Consistent := by
  unfold clearAllStorageAreas
  refine consistent_foldl _ ?_ _ _ h
  intro s1 it h1
  exact consistent_forceClear s1 it.2 h1

theorem consistent_deleteEntriesForOriginInternal (s : StorageManager) (o : SecurityOrigin)
    (h : s.Consistent) : (s.deleteEntriesForOriginInternal o).Consistent := by
  unfold deleteEntriesForOriginInternal
  exact consistent_emit _ _
    (consistent_foldl _ (consistent_clearStorageAreasMatchingOrigin o) _ _ h)

theorem consistent_deleteAllEntriesInternal (s : StorageManager) (h : s.Consistent) :
    s.deleteAllEntriesInternal.Consistent := by
  unfold deleteAllEntriesInternal
  exact consistent_emit _ _ (consistent_foldl _ consistent_clearAllStorageAreas _ _ h)

theorem mem_hashSet_remove {α : Type} [DecidableEq α] (l : WTF.HashSet α) (x y : α) :
    y ∈ WTF.HashSet.remove l x ↔ y ∈ l ∧ y ≠ x := by
  simp [WTF.HashSet.remove, List.mem_filter]

theorem removeListener_subset (c i : Nat) (a : StorageArea) :
    ∀ l ∈ (a.removeListener c i).1.eventListeners, l ∈ a.eventListeners :=
  fun _ hl => ((mem_hashSet_remove _ _ _).mp hl).1

theorem coherent_removeListener (s : StorageManager) (p c i : Nat) (h : s.Coherent) :
    (s.callOnStorageArea p (fun a => a.removeListener c i)).Coherent :=
  coherent_callOnStorageArea s p _ (removeListener_keeps c i) (removeListener_subset c i)
    (fun _ => rfl) h

theorem consistent_destroyStorageMap (s : StorageManager) (c i : Nat) (h : s.Consistent) :
    (s.destroyStorageMap c i).Consistent := by
  unfold destroyStorageMap
  cases hg : WTF.HashMap.get s.storageAreasByConnection (c, i) with
  | none => exact h
  | some p =>
    simp only
    obtain ⟨a, ha, hm⟩ := h.bindingsListen c i p hg
    obtain ⟨h2, h3, h4, h5, _⟩ := callOnStorageArea_fields s p (fun a => a.removeListener c i)
    have hA := storageArea_callOnStorageArea_of_some s p a (fun a => a.removeListener c i) ha
    have hc1 := coherent_removeListener s p c i h.coherent
    have hno : ∀ q b, (s.callOnStorageArea p (fun a => a.removeListener c i)).storageArea q
        = some b → (c, i) ∉ b.eventListeners := by
      intro q b hq hmem
      rw [hA] at hq
      by_cases hqp : q = p
      · rw [if_pos hqp] at hq
        cases hq
        exact ((mem_hashSet_remove _ _ _).mp hmem).2 rfl
      · rw [if_neg hqp] at hq
        have := h.coherent.listenersBound q b hq c i hmem
        unfold findStorageArea at this
        rw [hg] at this
        cases this
        exact hqp rfl
    have hc2 := coherent_removeBinding _ (c, i) hc1 hno
    apply consistent_derefStorageArea _ p hc2
    · intro c' i' q hf
      have hf' : WTF.HashMap.get (WTF.HashMap.remove
          (s.callOnStorageArea p (fun a => a.removeListener c i)).storageAreasByConnection (c, i))
          (c', i') = some q := hf
      rw [h5, WTF.HashMap.get_remove] at hf'
      split at hf'
      · cases hf'
      · rename_i hne
        obtain ⟨b, hb1, hb2⟩ := h.bindingsListen c' i' q hf'
        show ∃ a', (s.callOnStorageArea p (fun a => a.removeListener c i)).storageArea q
          = some a' ∧ _
        rw [hA]
        by_cases hqp : q = p
        · rw [if_pos hqp]
          subst hqp
          rw [ha] at hb1
          cases hb1
          exact ⟨_, rfl, (mem_hashSet_remove _ _ _).mpr ⟨hb2, hne⟩⟩
        · rw [if_neg hqp]
          exact ⟨b, hb1, hb2⟩
    · apply ownedUpTo_removeBinding _ (c, i) p [] hc1.bindingKeys (by rw [h5]; exact hg)
      intro q b hq
      left
      rw [refCount_congr s _ h5 h3]
      rw [hA] at hq
      by_cases hqp : q = p
      · rw [hqp]
        exact h.owned p a ha
      · rw [if_neg hqp] at hq
        exact h.owned q b hq

end StorageManager

/-! ## Consistency is kept when a storage map is created -/

namespace StorageManager

theorem coherent_of_fresh (s s' : StorageManager) (a : StorageArea) (h : s.Coherent)
    (hwf : s'.WellFormed) (hl : a.eventListeners = [])
    (h1 : ∀ q, s'.storageArea q = if q = s.nextAddress then some a else s.storageArea q)
    (h5 : s'.storageAreasByConnection = s.storageAreasByConnection)
    (hsk : (WTF.HashMap.keys s'.sessionStorageNamespaces).Nodup)
    (hlk : (WTF.HashMap.keys s'.localStorageNamespaces).Nodup)
    (hloc : ∀ id n, (id, n) ∈ s'.localStorageNamespaces →
      ∀ o p, (o, p) ∈ n.storageAreaMap →
        ∃ b, s'.storageArea p = some b ∧ b.localStorageNamespace = some id
          ∧ b.securityOrigin = o) : s'.Coherent := by
  refine ⟨hwf, h5 ▸ h.bindingKeys, hsk, hlk, ?_, ?_, hloc⟩
  · intro q b hq c i hm
    rw [findStorageArea_congr s s' h5]
    rw [h1] at hq
    split at hq
    · cases hq
      rw [hl] at hm
      cases hm
    · exact h.listenersBound q b hq c i hm
  · intro c i q hf
    rw [findStorageArea_congr s s' h5] at hf
    rw [h1]
    split
    · rfl
    · exact h.boundLive c i q hf

theorem storageArea_of_fresh (s s' : StorageManager) (a : StorageArea) (h : s.WellFormed)
    (h1 : ∀ q, s'.storageArea q = if q = s.nextAddress then some a else s.storageArea q)
    (q : Nat) (b : StorageArea) (hq : s.storageArea q = some b) : s'.storageArea q = some b := by
  rw [h1, if_neg]
  · exact hq
  · have := h.heapBound q b hq
    omega

theorem bindingsListen_of_fresh (s s' : StorageManager) (a : StorageArea) (h : s.WellFormed)
    (hb : s.BindingsListen)
    (h1 : ∀ q, s'.storageArea q = if q = s.nextAddress then some a else s.storageArea q)
    (h5 : s'.storageAreasByConnection = s.storageAreasByConnection) : s'.BindingsListen := by
  intro c i q hf
  rw [findStorageArea_congr s s' h5] at hf
  obtain ⟨b, hb1, hb2⟩ := hb c i q hf
  exact ⟨b, storageArea_of_fresh s s' a h h1 q b hb1, hb2⟩

theorem consistent_of_local (s s' : StorageManager) (h : s.Consistent)
    (h1 : s'.storageAreas = s.storageAreas) (h2 : s'.nextAddress = s.nextAddress)
    (h3 : s'.sessionStorageNamespaces = s.sessionStorageNamespaces)
    (h5 : s'.storageAreasByConnection = s.storageAreasByConnection)
    (hlk : (WTF.HashMap.keys s'.localStorageNamespaces).Nodup)
    (hq : ∀ id n, (id, n) ∈ s'.localStorageNamespaces → n.quotaInBytes = 5 * 1024 * 1024)
    (hloc : ∀ id n, (id, n) ∈ s'.localStorageNamespaces →
      ∀ o p, (o, p) ∈ n.storageAreaMap →
        ∃ b, s.storageArea p = some b ∧ b.localStorageNamespace = some id
          ∧ b.securityOrigin = o) : s'.Consistent := by
  have hA : ∀ q, s'.storageArea q = s.storageArea q := by
    intro q
    unfold storageArea
    rw [h1]
  refine ⟨⟨wellFormed_of_local s s' h.coherent.wellFormed h1 h2 h3 hq, ?_, ?_, hlk, ?_, ?_, ?_⟩,
    ?_, ?_⟩
  · rw [h5]; exact h.coherent.bindingKeys
  · rw [h3]; exact h.coherent.sessionKeys
  · intro q b hq c i hm
    rw [findStorageArea_congr s s' h5]
    rw [hA] at hq
    exact h.coherent.listenersBound q b hq c i hm
  · intro c i q hf
    rw [findStorageArea_congr s s' h5] at hf
    rw [hA]
    exact h.coherent.boundLive c i q hf
  · intro id n hn o q hq
    rw [hA]
    exact hloc id n hn o q hq
  · intro c i q hf
    rw [findStorageArea_congr s s' h5] at hf
    rw [hA]
    exact h.bindingsListen c i q hf
  · intro q b hq
    rw [refCount_congr s s' h5 h3]
    rw [hA] at hq
    exact h.owned q b hq

theorem consistent_getOrCreateLocalStorageNamespace (s : StorageManager) (id : Nat)
    (h : s.Consistent) : (s.getOrCreateLocalStorageNamespace id).1.Consistent := by
  unfold getOrCreateLocalStorageNamespace
  split
  · exact h
  · refine consistent_of_local s _ h rfl rfl rfl rfl
      (WTF.HashMap.keys_add_nodup _ _ _ h.coherent.localKeys) ?_ ?_
    · intro id' n hn
      rcases WTF.HashMap.mem_add _ _ _ _ hn with hm | hm
      · exact h.coherent.wellFormed.localQuota id' n hm
      · cases hm
        rfl
    · intro id' n hn o p hp
      rcases WTF.HashMap.mem_add _ _ _ _ hn with hm | hm
      · exact h.coherent.localLive id' n hm o p hp
      · cases hm
        cases hp

theorem getOrCreateLocalStorageNamespace_bindings (s : StorageManager) (id : Nat) :
    (s.getOrCreateLocalStorageNamespace id).1.storageAreasByConnection
      = s.storageAreasByConnection := by
  unfold getOrCreateLocalStorageNamespace
  split <;> rfl

theorem mem_set_of_get_none {κ α : Type} [DecidableEq κ] (m : WTF.HashMap κ α) (k : κ) (v : α)
    (x : κ × α) (hg : WTF.HashMap.get m k = none) (hx : x ∈ m) :
    x ∈ WTF.HashMap.set m k v := by
  apply WTF.HashMap.mem_set_of_mem _ _ _ _ hx
  intro e
  have : k ∈ WTF.HashMap.keys m := List.mem_map.mpr ⟨x, hx, e⟩
  exact (WTF.HashMap.get_eq_none_iff _ _).mp hg this

/-- What `LocalStorageNamespace::getOrCreateStorageArea` leaves behind in a
consistent state: the returned storage area is live and is the only one that may
be without an owner. -/
theorem consistent_localGetOrCreateStorageArea (s : StorageManager) (id : Nat)
    (o : SecurityOrigin) (h : s.Consistent) :
    (s.localGetOrCreateStorageArea id o).1.Coherent
    ∧ (s.localGetOrCreateStorageArea id o).1.BindingsListen
    ∧ (s.localGetOrCreateStorageArea id o).1.storageAreasByConnection
        = s.storageAreasByConnection
    ∧ ((s.localGetOrCreateStorageArea id o).2 = none → s.localGetOrCreateStorageArea id o = (s, none))
    ∧ (∀ p, (s.localGetOrCreateStorageArea id o).2 = some p →
        (s.localGetOrCreateStorageArea id o).1.OwnedUpTo [p]
        ∧ ∃ a, (s.localGetOrCreateStorageArea id o).1.storageArea p = some a
            ∧ ((∃ a0, s.storageArea p = some a0 ∧ a.eventListeners = a0.eventListeners)
                ∨ a.eventListeners = [])) := by
  cases hg : WTF.HashMap.get s.localStorageNamespaces id with
  | none =>
    rw [localGetOrCreateStorageArea_none s id o hg]
    exact ⟨h.coherent, h.bindingsListen, rfl, fun _ => rfl, fun p hp => (nomatch hp)⟩
  | some n =>
    cases hp : WTF.HashMap.get n.storageAreaMap o with
    | some p =>
      rw [localGetOrCreateStorageArea_existing s id o n p hg hp]
      refine ⟨h.coherent, h.bindingsListen, rfl, fun hx => (nomatch hx), ?_⟩
      intro p' hp'
      cases hp'
      obtain ⟨a, ha, _⟩ := h.coherent.localLive id n (WTF.HashMap.mem_of_get _ _ _ hg) o p
        (WTF.HashMap.mem_of_get _ _ _ hp)
      exact ⟨ownedUpTo_nil s h.owned _, a, ha, Or.inl ⟨a, ha, rfl⟩⟩
    | none =>
      have hwf := wellFormed_localGetOrCreateStorageArea s id o h.coherent.wellFormed
      rw [localGetOrCreateStorageArea_new s id o n hg hp] at hwf ⊢
      have hA : ∀ q, ({ (s.allocate (StorageArea.create (some id) o n.quotaInBytes)).1 with
            localStorageNamespaces :=
              WTF.HashMap.set s.localStorageNamespaces id
                { n with storageAreaMap := WTF.HashMap.set n.storageAreaMap o s.nextAddress } }
              : StorageManager).storageArea q
          = if q = s.nextAddress then some (StorageArea.create (some id) o n.quotaInBytes)
            else s.storageArea q :=
        fun q => storageArea_allocate s _ q
      refine ⟨?_, ?_, rfl, fun hx => (nomatch hx), ?_⟩
      · refine coherent_of_fresh s _ _ h.coherent hwf rfl hA rfl h.coherent.sessionKeys
          (WTF.HashMap.keys_set_nodup _ _ _ h.coherent.localKeys) ?_
        intro id' n' hn' o' p' hp'
        rw [hA]
        rcases WTF.HashMap.mem_set _ _ _ _ hn' with hm | hm
        · obtain ⟨b, hb1, hb2, hb3⟩ := h.coherent.localLive id' n' hm o' p' hp'
          rw [if_neg]
          · exact ⟨b, hb1, hb2, hb3⟩
          · have := h.coherent.wellFormed.heapBound p' b hb1
            omega
        · cases hm
          rcases WTF.HashMap.mem_set _ _ _ _ hp' with hm | hm
          · obtain ⟨b, hb1, hb2, hb3⟩ := h.coherent.localLive id n
              (WTF.HashMap.mem_of_get _ _ _ hg) o' p' hm
            rw [if_neg]
            · exact ⟨b, hb1, hb2, hb3⟩
            · have := h.coherent.wellFormed.heapBound p' b hb1
              omega
          · cases hm
            rw [if_pos rfl]
            exact ⟨_, rfl, rfl, rfl⟩
      · exact bindingsListen_of_fresh s _ _ h.coherent.wellFormed h.bindingsListen hA rfl
      · intro p' hp'
        cases hp'
        refine ⟨?_, _, (hA s.nextAddress).trans (if_pos rfl), Or.inr rfl⟩
        intro q b hq
        rw [hA] at hq
        by_cases hqn : q = s.nextAddress
        · exact Or.inr (by simp [hqn])
        · rw [if_neg hqn] at hq
          left
          have := h.owned q b hq
          rw [← refCount_congr s _ rfl rfl q] at this
          exact this

/-- What `SessionStorageNamespace::getOrCreateStorageArea` leaves behind in a
consistent state. -/
theorem consistent_allocate_session (s : StorageManager) (a : StorageArea) (id : Nat)
    (n : SessionStorageNamespace) (o : SecurityOrigin) (h : s.Consistent)
    (hn : WTF.HashMap.get s.sessionStorageNamespaces id = some n)
    (ho : WTF.HashMap.get n.storageAreaMap o = none)
    (ha : a.localStorageNamespace = none) (hs : a.Sound) (hl : a.eventListeners = []) :
    ({ (s.allocate a).1 with
        sessionStorageNamespaces :=
          WTF.HashMap.set (s.allocate a).1.sessionStorageNamespaces id
            { n with storageAreaMap := WTF.HashMap.set n.storageAreaMap o (s.allocate a).2 } }
      : StorageManager).Consistent := by
  have hwf := wellFormed_allocate_session s a id n o h.coherent.wellFormed hn ha hs
  have hA : ∀ q, ({ (s.allocate a).1 with
        sessionStorageNamespaces :=
          WTF.HashMap.set (s.allocate a).1.sessionStorageNamespaces id
            { n with storageAreaMap := WTF.HashMap.set n.storageAreaMap o (s.allocate a).2 } }
      : StorageManager).storageArea q
      = if q = s.nextAddress then some a else s.storageArea q :=
    fun q => storageArea_allocate s _ q
  refine ⟨?_, ?_, ?_⟩
  · refine coherent_of_fresh s _ a h.coherent hwf hl hA rfl
      (WTF.HashMap.keys_set_nodup _ _ _ h.coherent.sessionKeys) h.coherent.localKeys ?_
    intro id' n' hn' o' p' hp'
    obtain ⟨b, hb1, hb2, hb3⟩ := h.coherent.localLive id' n' hn' o' p' hp'
    exact ⟨b, storageArea_of_fresh s _ a h.coherent.wellFormed hA p' b hb1, hb2, hb3⟩
  · exact bindingsListen_of_fresh s _ a h.coherent.wellFormed h.bindingsListen hA rfl
  · intro q b hq
    rw [hA] at hq
    apply (refCount_pos_iff _ q).mpr
    by_cases hqn : q = s.nextAddress
    · right
      exact ⟨id, _, o, WTF.HashMap.mem_set_self _ _ _,
        hqn ▸ WTF.HashMap.mem_set_self _ _ _⟩
    · rw [if_neg hqn] at hq
      rcases (refCount_pos_iff s q).mp (h.owned q b hq) with h6 | h6
      · exact Or.inl h6
      · right
        obtain ⟨id', n', o', hm1, hm2⟩ := h6
        by_cases hid : id' = id
        · subst hid
          have := WTF.HashMap.get_of_mem _ _ _ h.coherent.sessionKeys hm1
          rw [hn] at this
          cases this
          exact ⟨id', _, o', WTF.HashMap.mem_set_self _ _ _,
            mem_set_of_get_none _ _ _ _ ho hm2⟩
        · exact ⟨id', n', o', WTF.HashMap.mem_set_of_mem _ _ _ _ hm1 hid, hm2⟩

theorem consistent_sessionGetOrCreateStorageArea (s : StorageManager) (id : Nat)
    (o : SecurityOrigin) (h : s.Consistent) :
    (s.sessionGetOrCreateStorageArea id o).1.Consistent
    ∧ (s.sessionGetOrCreateStorageArea id o).1.storageAreasByConnection
        = s.storageAreasByConnection
    ∧ (∀ p, (s.sessionGetOrCreateStorageArea id o).2 = some p →
        ∃ a, (s.sessionGetOrCreateStorageArea id o).1.storageArea p = some a
          ∧ ((∃ a0, s.storageArea p = some a0 ∧ a.eventListeners = a0.eventListeners)
              ∨ a.eventListeners = [])) := by
  cases hg : WTF.HashMap.get s.sessionStorageNamespaces id with
  | none =>
    rw [sessionGetOrCreateStorageArea_none s id o hg]
    exact ⟨h, rfl, fun p hp => (nomatch hp)⟩
  | some n =>
    cases hp : WTF.HashMap.get n.storageAreaMap o with
    | some p =>
      rw [sessionGetOrCreateStorageArea_existing s id o n p hg hp]
      refine ⟨h, rfl, ?_⟩
      intro p' hp'
      cases hp'
      obtain ⟨a, ha, _⟩ := h.coherent.wellFormed.sessionLive id n
        (WTF.HashMap.mem_of_get _ _ _ hg) o p (WTF.HashMap.mem_of_get _ _ _ hp)
      exact ⟨a, ha, Or.inl ⟨a, ha, rfl⟩⟩
    | none =>
      rw [sessionGetOrCreateStorageArea_new s id o n hg hp]
      refine ⟨consistent_allocate_session s (StorageArea.create none o n.quotaInBytes) id n o h
        hg hp rfl (StorageArea.sound_create _ _ _) rfl, rfl, ?_⟩
      intro p' hp'
      cases hp'
      exact ⟨_, (storageArea_allocate s _ s.nextAddress).trans (if_pos rfl), Or.inr rfl⟩

theorem consistent_createLocalStorageMap (s : StorageManager) (c i ns : Nat)
    (o : SecurityOrigin) (h : s.Consistent) (hf : s.findStorageArea c i = none) :
    (s.createLocalStorageMap c i ns o).Consistent := by
  have h1 := consistent_getOrCreateLocalStorageNamespace _ ns
    (consistent_emit s (s.createLocalStorageMapChecks c i ns) h)
  have hb1 := getOrCreateLocalStorageNamespace_bindings
    (s.emit (s.createLocalStorageMapChecks c i ns)) ns
  obtain ⟨h2, h3, h4, h5, h6⟩ := consistent_localGetOrCreateStorageArea _ ns o h1
  unfold createLocalStorageMap
  simp only
  split
  · exact consistent_emit _ _ h1
  · split
    · rename_i hnone
      rw [h5 hnone]
      exact consistent_emit _ _ h1
    · rename_i p hsome
      obtain ⟨h7, a, ha, _⟩ := h6 p hsome
      refine consistent_bindStorageArea _ c i p a h2 h3 h7 ?_ ha
      rw [findStorageArea_congr _ _ h4, findStorageArea_congr _ _ hb1]
      exact hf

theorem consistent_createSessionStorageMap (s : StorageManager) (c i ns : Nat)
    (o : SecurityOrigin) (h : s.Consistent)
    (hf : s.findStorageArea c i = none
      ∨ WTF.HashMap.get s.sessionStorageNamespaces ns = none) :
    (s.createSessionStorageMap c i ns o).Consistent := by
  have h0 := consistent_emit s (if WTF.isValidKey ns then []
    else [Effect.assertionFailure .createSessionStorageMapValidNamespaceID]) h
  unfold createSessionStorageMap
  simp only
  split
  · exact h0
  · rename_i n hn
    have hf' : s.findStorageArea c i = none := by
      rcases hf with hf | hf
      · exact hf
      · have hn' : WTF.HashMap.get s.sessionStorageNamespaces ns = some n := hn
        rw [hf] at hn'
        cases hn'
    obtain ⟨h2, h4, h6⟩ := consistent_sessionGetOrCreateStorageArea _ ns o
      (consistent_emit _ ((s.emit (if WTF.isValidKey ns then []
        else [Effect.assertionFailure .createSessionStorageMapValidNamespaceID])
        ).createSessionStorageMapChecks n c i) h0)
    split
    · exact consistent_emit _ _ h2
    · rename_i p hsome
      obtain ⟨a, ha, _⟩ := h6 p hsome
      refine consistent_bindStorageArea _ c i p a h2.coherent h2.bindingsListen
        (ownedUpTo_nil _ h2.owned _) ?_ ha
      rw [findStorageArea_congr _ _ h4]
      exact hf'

end StorageManager

/-! ## Consistency is kept by the requests on session storage namespaces -/

namespace StorageManager

theorem coherent_of_session (s s' : StorageManager) (h : s.Coherent)
    (h1 : s'.storageAreas = s.storageAreas) (h2 : s'.nextAddress = s.nextAddress)
    (h4 : s'.localStorageNamespaces = s.localStorageNamespaces)
    (h5 : s'.storageAreasByConnection = s.storageAreasByConnection)
    (hsk : (WTF.HashMap.keys s'.sessionStorageNamespaces).Nodup)
    (hlive : ∀ id n, (id, n) ∈ s'.sessionStorageNamespaces → ∀ o p, (o, p) ∈ n.storageAreaMap →
      ∃ a, s.storageArea p = some a ∧ a.localStorageNamespace = none) : s'.Coherent := by
  have hA : ∀ q, s'.storageArea q = s.storageArea q := by
    intro q
    unfold storageArea
    rw [h1]
  refine ⟨wellFormed_of_session s s' h.wellFormed h1 h2 hlive h4, ?_, hsk, ?_, ?_, ?_, ?_⟩
  · rw [h5]; exact h.bindingKeys
  · rw [h4]; exact h.localKeys
  · intro q b hq c i hm
    rw [findStorageArea_congr s s' h5]
    rw [hA] at hq
    exact h.listenersBound q b hq c i hm
  · intro c i q hf
    rw [findStorageArea_congr s s' h5] at hf
    rw [hA]
    exact h.boundLive c i q hf
  · intro id n hn o q hq
    rw [h4] at hn
    rw [hA]
    exact h.localLive id n hn o q hq

theorem bindingsListen_congr (s s' : StorageManager) (hb : s.BindingsListen)
    (h1 : s'.storageAreas = s.storageAreas)
    (h5 : s'.storageAreasByConnection = s.storageAreasByConnection) : s'.BindingsListen := by
  intro c i q hf
  rw [findStorageArea_congr s s' h5] at hf
  unfold storageArea
  rw [h1]
  exact hb c i q hf

theorem ownedUpTo_of_session (s s' : StorageManager) (pending : List Nat)
    (ho : ∀ p a, s.storageArea p = some a → 0 < s.refCount p)
    (h1 : s'.storageAreas = s.storageAreas)
    (h5 : s'.storageAreasByConnection = s.storageAreasByConnection)
    (hown : ∀ q, s.SessionOwned q → s'.SessionOwned q ∨ q ∈ pending) :
    s'.OwnedUpTo pending := by
  intro q b hq
  have hq' : s.storageArea q = some b := by
    unfold storageArea at hq ⊢
    rw [h1] at hq
    exact hq
  rcases (refCount_pos_iff s q).mp (ho q b hq') with h6 | h6
  · left
    apply (refCount_pos_iff s' q).mpr
    left
    rw [h5]
    exact h6
  · rcases hown q h6 with h7 | h7
    · exact Or.inl ((refCount_pos_iff s' q).mpr (Or.inr h7))
    · exact Or.inr h7

theorem consistent_createSessionStorageNamespaceInternal (s : StorageManager) (id : Nat)
    (c : Option Connection) (q : Nat) (h : s.Consistent) :
    (s.createSessionStorageNamespaceInternal id c q).Consistent := by
  have hc : ∀ es, ({ s.emit es with
      sessionStorageNamespaces :=
        WTF.HashMap.set s.sessionStorageNamespaces id (SessionStorageNamespace.create c q) }
      : StorageManager).Coherent := by
    intro es
    refine coherent_of_session s _ h.coherent rfl rfl rfl rfl
      (WTF.HashMap.keys_set_nodup _ _ _ h.coherent.sessionKeys) ?_
    intro id' n hn o p hp
    rcases WTF.HashMap.mem_set _ _ _ _ hn with hm | hm
    · exact h.coherent.wellFormed.sessionLive id' n hm o p hp
    · cases hm
      cases hp
  have hb : ∀ es, ({ s.emit es with
      sessionStorageNamespaces :=
        WTF.HashMap.set s.sessionStorageNamespaces id (SessionStorageNamespace.create c q) }
      : StorageManager).BindingsListen :=
    fun es => bindingsListen_congr s _ h.bindingsListen rfl rfl
  have ho : ∀ es pending,
      (∀ n, WTF.HashMap.get s.sessionStorageNamespaces id = some n →
        ∀ p ∈ WTF.HashMap.values n.storageAreaMap, p ∈ pending) →
      ({ s.emit es with
      sessionStorageNamespaces :=
        WTF.HashMap.set s.sessionStorageNamespaces id (SessionStorageNamespace.create c q) }
      : StorageManager).OwnedUpTo pending := by
    intro es pending hp
    refine ownedUpTo_of_session s _ pending h.owned rfl rfl ?_
    rintro p ⟨id', n', o', hm1, hm2⟩
    by_cases hid : id' = id
    · subst hid
      right
      exact hp n' (WTF.HashMap.get_of_mem _ _ _ h.coherent.sessionKeys hm1) p
        ((WTF.HashMap.mem_values_iff _ _).mpr ⟨o', hm2⟩)
    · exact Or.inl ⟨id', n', o', WTF.HashMap.mem_set_of_mem _ _ _ _ hm1 hid, hm2⟩
  unfold createSessionStorageNamespaceInternal
  cases hg : WTF.HashMap.get s.sessionStorageNamespaces id with
  | none =>
    refine ⟨hc _, hb _, ?_⟩
    intro p a hp
    rcases ho _ [] (fun n hn => by rw [hg] at hn; cases hn) p a hp with h1 | h1
    · exact h1
    · cases h1
  | some n =>
    exact consistent_derefStorageAreas _ _ (hc _) (hb _)
      (ho _ _ (fun n' hn' => by rw [hg] at hn'; cases hn'; exact fun p hp => hp))

theorem consistent_destroySessionStorageNamespaceInternal (s : StorageManager) (id : Nat)
    (h : s.Consistent) : (s.destroySessionStorageNamespaceInternal id).Consistent := by
  unfold destroySessionStorageNamespaceInternal
  cases hg : WTF.HashMap.get s.sessionStorageNamespaces id with
  | none => exact consistent_emit _ _ h
  | some n =>
    refine consistent_derefStorageAreas _ _ ?_ (bindingsListen_congr s _ h.bindingsListen rfl rfl)
      ?_
    · refine coherent_of_session s _ h.coherent rfl rfl rfl rfl
        (WTF.HashMap.keys_remove_nodup _ _ h.coherent.sessionKeys) ?_
      intro id' n' hn o p hp
      exact h.coherent.wellFormed.sessionLive id' n' (WTF.HashMap.mem_remove _ _ _ hn) o p hp
    · refine ownedUpTo_of_session s _ _ h.owned rfl rfl ?_
      rintro p ⟨id', n', o', hm1, hm2⟩
      by_cases hid : id' = id
      · subst hid
        right
        have := WTF.HashMap.get_of_mem _ _ _ h.coherent.sessionKeys hm1
        rw [hg] at this
        cases this
        exact (WTF.HashMap.mem_values_iff _ _).mpr ⟨o', hm2⟩
      · exact Or.inl ⟨id', n', o', (WTF.HashMap.mem_remove_iff _ _ _).mpr ⟨hm1, hid⟩, hm2⟩

theorem consistent_setAllowedSessionStorageNamespaceConnectionInternal (s : StorageManager)
    (id : Nat) (c : Option Connection) (h : s.Consistent) :
    (s.setAllowedSessionStorageNamespaceConnectionInternal id c).Consistent := by
  unfold setAllowedSessionStorageNamespaceConnectionInternal
  cases hg : WTF.HashMap.get s.sessionStorageNamespaces id with
  | none => exact consistent_emit _ _ h
  | some n =>
    refine consistent_emit _ _ ⟨?_, bindingsListen_congr s _ h.bindingsListen rfl rfl, ?_⟩
    · refine coherent_of_session s _ h.coherent rfl rfl rfl rfl
        (WTF.HashMap.keys_set_nodup _ _ _ h.coherent.sessionKeys) ?_
      intro id' n' hn o p hp
      rcases WTF.HashMap.mem_set _ _ _ _ hn with hm | hm
      · exact h.coherent.wellFormed.sessionLive id' n' hm o p hp
      · cases hm
        exact h.coherent.wellFormed.sessionLive id n (WTF.HashMap.mem_of_get _ _ _ hg) o p hp
    · have := ownedUpTo_of_session s
        ({ s with
            sessionStorageNamespaces :=
              WTF.HashMap.set s.sessionStorageNamespaces id (n.setAllowedConnection c).1 }
          : StorageManager) [] h.owned rfl rfl (by
        rintro p ⟨id', n', o', hm1, hm2⟩
        left
        by_cases hid : id' = id
        · subst hid
          have := WTF.HashMap.get_of_mem _ _ _ h.coherent.sessionKeys hm1
          rw [hg] at this
          cases this
          exact ⟨id', _, o', WTF.HashMap.mem_set_self _ _ _, hm2⟩
        · exact ⟨id', n', o', WTF.HashMap.mem_set_of_mem _ _ _ _ hm1 hid, hm2⟩)
      intro p a hp
      rcases this p a hp with h1 | h1
      · exact h1
      · cases h1

theorem consistent_cloneToStep (newID : Nat) (s : StorageManager) (it : SecurityOrigin × Nat)
    (h : s.Consistent) : (cloneToStep newID s it).Consistent := by
  unfold cloneToStep
  split
  · rename_i a n ha hn
    simp only
    split
    · exact consistent_emit _ _ h
    · rename_i hc
      refine consistent_allocate_session (s.emit a.clone.2) a.clone.1 newID n it.1
        (consistent_emit _ _ h) hn ?_ rfl
        (StorageArea.sound_clone a (h.coherent.wellFormed.areasSound it.2 a ha)) rfl
      unfold WTF.HashMap.contains at hc
      cases hx : WTF.HashMap.get n.storageAreaMap it.1 with
      | none => rfl
      | some v => rw [hx] at hc; exact absurd rfl hc
  · exact h

theorem consistent_cloneSessionStorageNamespaceInternal (s : StorageManager) (id newID : Nat)
    (h : s.Consistent) : (s.cloneSessionStorageNamespaceInternal id newID).Consistent := by
  unfold cloneSessionStorageNamespaceInternal
  cases WTF.HashMap.get s.sessionStorageNamespaces id with
  | none => exact h
  | some n =>
    cases WTF.HashMap.get s.sessionStorageNamespaces newID with
    | none => exact consistent_emit _ _ h
    | some m => exact consistent_foldl _ (consistent_cloneToStep newID) _ _ (consistent_emit _ _ h)

end StorageManager

/-! ## The loops of `applicationWillTerminate` and `invalidateConnectionInternal` -/

namespace StorageManager

theorem foldl_removeListener_fields (E : List ((Connection × Nat) × Nat)) (s : StorageManager) :
    (E.foldl (fun acc it => acc.callOnStorageArea it.2
        (fun a => a.removeListener it.1.1 it.1.2)) s).nextAddress = s.nextAddress
    ∧ (E.foldl (fun acc it => acc.callOnStorageArea it.2
        (fun a => a.removeListener it.1.1 it.1.2)) s).sessionStorageNamespaces
        = s.sessionStorageNamespaces
    ∧ (E.foldl (fun acc it => acc.callOnStorageArea it.2
        (fun a => a.removeListener it.1.1 it.1.2)) s).localStorageNamespaces
        = s.localStorageNamespaces
    ∧ (E.foldl (fun acc it => acc.callOnStorageArea it.2
        (fun a => a.removeListener it.1.1 it.1.2)) s).storageAreasByConnection
        = s.storageAreasByConnection
    ∧ (E.foldl (fun acc it => acc.callOnStorageArea it.2
        (fun a => a.removeListener it.1.1 it.1.2)) s).localStorageDatabaseTracker
        = s.localStorageDatabaseTracker := by
  induction E generalizing s with
  | nil => exact ⟨rfl, rfl, rfl, rfl, rfl⟩
  | cons it E ih =>
    obtain ⟨h1, h2, h3, h4, h5⟩ := callOnStorageArea_fields s it.2
      (fun a => a.removeListener it.1.1 it.1.2)
    obtain ⟨g1, g2, g3, g4, g5⟩ := ih (s.callOnStorageArea it.2
      (fun a => a.removeListener it.1.1 it.1.2))
    rw [List.foldl_cons]
    exact ⟨g1.trans h1, g2.trans h2, g3.trans h3, g4.trans h4, g5.trans h5⟩

/-- The listener-removal loop over the entries `E` leaves, at every address, the
storage area that was there without the listeners `E` binds to that address. -/
theorem storageArea_foldl_removeListener (E : List ((Connection × Nat) × Nat))
    (s : StorageManager) (q : Nat) :
    (E.foldl (fun acc it => acc.callOnStorageArea it.2
        (fun a => a.removeListener it.1.1 it.1.2)) s).storageArea q
      = (s.storageArea q).map (fun a =>
          { a with eventListeners := a.eventListeners.filter (fun l => decide ((l, q) ∉ E)) }) := by
  induction E generalizing s with
  | nil =>
    simp only [List.foldl_nil]
    cases h : s.storageArea q with
    | none => rfl
    | some a => simp
  | cons it E ih =>
    obtain ⟨⟨c, i⟩, p⟩ := it
    rw [List.foldl_cons, ih, storageArea_callOnStorageArea]
    by_cases hq : q = p
    · subst hq
      rw [if_pos rfl]
      cases h : s.storageArea q with
      | none => rfl
      | some a =>
        simp only [Option.map_some', StorageArea.removeListener, WTF.HashSet.remove,
          List.filter_filter]
        congr 2
        apply List.filter_congr
        intro l _
        by_cases h1 : l = (c, i) <;> by_cases h2 : (l, q) ∈ E <;> simp [h1, h2]
    · rw [if_neg hq]
      cases h : s.storageArea q with
      | none => rfl
      | some a =>
        simp only [Option.map_some']
        congr 2
        apply List.filter_congr
        intro l _
        have : ¬ (l = (c, i) ∧ q = p) := fun e => hq e.2
        simp [this]

theorem coherent_foldl_removeListener (E : List ((Connection × Nat) × Nat))
    (s : StorageManager) (h : s.Coherent) :
    (E.foldl (fun acc it => acc.callOnStorageArea it.2
        (fun a => a.removeListener it.1.1 it.1.2)) s).Coherent := by
  induction E generalizing s with
  | nil => exact h
  | cons it E ih => exact ih _ (coherent_removeListener s it.2 it.1.1 it.1.2 h)

theorem removeStorageAreaByConnection_eq (s : StorageManager) (k : Connection × Nat) (p : Nat)
    (hg : WTF.HashMap.get s.storageAreasByConnection k = some p) :
    s.removeStorageAreaByConnection k
      = ({ s with storageAreasByConnection := WTF.HashMap.remove s.storageAreasByConnection k }
          : StorageManager).derefStorageArea p := by
  simp [removeStorageAreaByConnection, hg]

theorem removeStorageAreaByConnection_none (s : StorageManager) (k : Connection × Nat)
    (hg : WTF.HashMap.get s.storageAreasByConnection k = none) :
    s.removeStorageAreaByConnection k = s := by
  simp [removeStorageAreaByConnection, hg]

theorem removeStorageAreaByConnection_fields (s : StorageManager) (k : Connection × Nat) :
    (s.removeStorageAreaByConnection k).storageAreasByConnection
        = WTF.HashMap.remove s.storageAreasByConnection k
    ∧ (s.removeStorageAreaByConnection k).sessionStorageNamespaces = s.sessionStorageNamespaces
    ∧ (s.removeStorageAreaByConnection k).nextAddress = s.nextAddress
    ∧ (s.removeStorageAreaByConnection k).localStorageDatabaseTracker
        = s.localStorageDatabaseTracker := by
  cases hg : WTF.HashMap.get s.storageAreasByConnection k with
  | none =>
    rw [removeStorageAreaByConnection_none s k hg, WTF.HashMap.get_eq_none_of_remove_fixed _ _ hg]
    exact ⟨rfl, rfl, rfl, rfl⟩
  | some p =>
    rw [removeStorageAreaByConnection_eq s k p hg]
    obtain ⟨h1, h2, h3, h4⟩ := derefStorageArea_fields
      ({ s with storageAreasByConnection := WTF.HashMap.remove s.storageAreasByConnection k }
        : StorageManager) p
    exact ⟨h3, h2, h1, h4⟩

theorem foldl_removeStorageAreaByConnection_fields (ks : List (Connection × Nat))
    (s : StorageManager) :
    (ks.foldl removeStorageAreaByConnection s).storageAreasByConnection
        = ks.foldl WTF.HashMap.remove s.storageAreasByConnection
    ∧ (ks.foldl removeStorageAreaByConnection s).sessionStorageNamespaces
        = s.sessionStorageNamespaces
    ∧ (ks.foldl removeStorageAreaByConnection s).nextAddress = s.nextAddress
    ∧ (ks.foldl removeStorageAreaByConnection s).localStorageDatabaseTracker
        = s.localStorageDatabaseTracker := by
  induction ks generalizing s with
  | nil => exact ⟨rfl, rfl, rfl, rfl⟩
  | cons k ks ih =>
    obtain ⟨h1, h2, h3, h4⟩ := removeStorageAreaByConnection_fields s k
    obtain ⟨g1, g2, g3, g4⟩ := ih (s.removeStorageAreaByConnection k)
    rw [List.foldl_cons, List.foldl_cons]
    exact ⟨g1.trans (by rw [h1]), g2.trans h2, g3.trans h3, g4.trans h4⟩

theorem foldl_remove_keys {κ α : Type} [DecidableEq κ] (m : WTF.HashMap κ α) :
    (WTF.HashMap.keys m).foldl WTF.HashMap.remove m = [] := by
  rw [WTF.HashMap.foldl_remove_eq_filter, List.filter_eq_nil_iff]
  intro e he
  have : e.1 ∈ WTF.HashMap.keys m := List.mem_map.mpr ⟨e, he, rfl⟩
  simp [this]

/-- A storage area that is live after a binding was removed was live before,
unchanged. -/
theorem storageArea_removeStorageAreaByConnection (s : StorageManager) (k : Connection × Nat)
    (q : Nat) (a : StorageArea) (h : (s.removeStorageAreaByConnection k).storageArea q = some a) :
    s.storageArea q = some a := by
  cases hg : WTF.HashMap.get s.storageAreasByConnection k with
  | none =>
    rw [removeStorageAreaByConnection_none s k hg] at h
    exact h
  | some p =>
    rw [removeStorageAreaByConnection_eq s k p hg, storageArea_derefStorageArea] at h
    split at h
    · cases h
    · exact h

theorem storageArea_foldl_removeStorageAreaByConnection (ks : List (Connection × Nat))
    (s : StorageManager) (q : Nat) (a : StorageArea)
    (h : (ks.foldl removeStorageAreaByConnection s).storageArea q = some a) :
    s.storageArea q = some a := by
  induction ks generalizing s with
  | nil => exact h
  | cons k ks ih =>
    rw [List.foldl_cons] at h
    exact storageArea_removeStorageAreaByConnection s k q a (ih _ h)

/-- One round of the second loop of `applicationWillTerminate`, in a state whose
storage areas have lost their listeners. -/
theorem quiet_removeStorageAreaByConnection (s : StorageManager) (k : Connection × Nat)
    (hc : s.Coherent) (hq : s.Quiet) (ho : ∀ p a, s.storageArea p = some a → 0 < s.refCount p) :
    (s.removeStorageAreaByConnection k).Coherent ∧ (s.removeStorageAreaByConnection k).Quiet
    ∧ ∀ p a, (s.removeStorageAreaByConnection k).storageArea p = some a →
        0 < (s.removeStorageAreaByConnection k).refCount p := by
  cases hg : WTF.HashMap.get s.storageAreasByConnection k with
  | none =>
    rw [removeStorageAreaByConnection_none s k hg]
    exact ⟨hc, hq, ho⟩
  | some p =>
    rw [removeStorageAreaByConnection_eq s k p hg]
    have hc1 := coherent_removeBinding s k hc (fun q a hqa hm => by
      rw [hq q a hqa] at hm
      cases hm)
    have ho1 := ownedUpTo_removeBinding s k p [] hc.bindingKeys hg (ownedUpTo_nil s ho [])
    exact ⟨coherent_derefStorageArea _ p hc1, quiet_derefStorageAreas [p] _ hq,
      ownedUpTo_derefStorageAreas [p] _ ho1⟩

theorem quiet_foldl_removeStorageAreaByConnection (ks : List (Connection × Nat))
    (s : StorageManager)
    (hc : s.Coherent) (hq : s.Quiet) (ho : ∀ p a, s.storageArea p = some a → 0 < s.refCount p) :
    (ks.foldl removeStorageAreaByConnection s).Coherent
    ∧ (ks.foldl removeStorageAreaByConnection s).Quiet
    ∧ ∀ p a, (ks.foldl removeStorageAreaByConnection s).storageArea p = some a →
        0 < (ks.foldl removeStorageAreaByConnection s).refCount p := by
  induction ks generalizing s with
  | nil => exact ⟨hc, hq, ho⟩
  | cons k ks ih =>
    obtain ⟨h1, h2, h3⟩ := quiet_removeStorageAreaByConnection s k hc hq ho
    exact ih _ h1 h2 h3

theorem applicationWillTerminate_bindings (s : StorageManager) :
    s.applicationWillTerminate.storageAreasByConnection = [] := by
  unfold applicationWillTerminate
  simp only
  rw [(foldl_removeStorageAreaByConnection_fields _ _).1,
    (foldl_removeListener_fields _ s).2.2.2.1]
  exact foldl_remove_keys _

theorem consistent_applicationWillTerminate (s : StorageManager) (h : s.Consistent) :
    s.applicationWillTerminate.Consistent := by
  have hb := applicationWillTerminate_bindings s
  unfold applicationWillTerminate at hb ⊢
  simp only at hb ⊢
  obtain ⟨f1, f2, f3, f4, f5⟩ := foldl_removeListener_fields s.storageAreasByConnection s
  have hc1 := coherent_foldl_removeListener s.storageAreasByConnection s h.coherent
  have hq1 : (s.storageAreasByConnection.foldl (fun acc it => acc.callOnStorageArea it.2
        (fun a => a.removeListener it.1.1 it.1.2)) s).Quiet := by
    intro q a hq
    rw [storageArea_foldl_removeListener] at hq
    cases hs : s.storageArea q with
    | none => rw [hs] at hq; cases hq
    | some b =>
      rw [hs] at hq
      simp only [Option.map_some', Option.some.injEq] at hq
      rw [← hq]
      show b.eventListeners.filter _ = []
      rw [List.filter_eq_nil_iff]
      intro l hl
      have := h.coherent.listenersBound q b hs l.1 l.2 hl
      have hm : (l, q) ∈ s.storageAreasByConnection := WTF.HashMap.mem_of_get _ _ _ this
      simp [hm]
  have ho1 : ∀ p a, (s.storageAreasByConnection.foldl (fun acc it => acc.callOnStorageArea it.2
        (fun a => a.removeListener it.1.1 it.1.2)) s).storageArea p = some a →
      0 < (s.storageAreasByConnection.foldl (fun acc it => acc.callOnStorageArea it.2
        (fun a => a.removeListener it.1.1 it.1.2)) s).refCount p := by
    intro p a hp
    rw [refCount_congr s _ f4 f2]
    rw [storageArea_foldl_removeListener] at hp
    cases hs : s.storageArea p with
    | none => rw [hs] at hp; cases hp
    | some b => exact h.owned p b hs
  obtain ⟨g1, g2, g3⟩ := quiet_foldl_removeStorageAreaByConnection
    (WTF.HashMap.keys s.storageAreasByConnection) _ hc1 hq1 ho1
  refine ⟨g1, ?_, g3⟩
  intro c i p hf
  unfold findStorageArea at hf
  rw [hb] at hf
  cases hf

end StorageManager

namespace StorageManager

theorem foldl_remove_filter_connection (m : WTF.HashMap (Connection × Nat) Nat)
    (c : Connection) :
    (WTF.HashMap.keys (m.filter (fun it => decide (it.1.1 = c)))).foldl WTF.HashMap.remove m
      = m.filter (fun it => decide (it.1.1 ≠ c)) := by
  rw [WTF.HashMap.foldl_remove_eq_filter]
  apply List.filter_congr
  intro e he
  by_cases hc : e.1.1 = c
  · have : e.1 ∈ WTF.HashMap.keys (m.filter (fun it => decide (it.1.1 = c))) :=
      List.mem_map.mpr ⟨e, List.mem_filter.mpr ⟨he, by simp [hc]⟩, rfl⟩
    simp [hc, this]
  · have : e.1 ∉ WTF.HashMap.keys (m.filter (fun it => decide (it.1.1 = c))) := by
      intro hm
      obtain ⟨e', he', hee⟩ := List.mem_map.mp hm
      have := (List.mem_filter.mp he').2
      simp only [decide_eq_true_eq] at this
      rw [hee] at this
      exact hc this
    simp [hc, this]

/-- Source function `invalidateConnectionInternal`, with the table after the second
loop written as a filter. -/
theorem invalidateConnectionInternal_eq (s : StorageManager) (c : Connection) :
    s.invalidateConnectionInternal c
      = ({ (s.storageAreasByConnection.filter (fun it => decide (it.1.1 = c))).foldl
            (fun acc it => acc.callOnStorageArea it.2
              (fun a => a.removeListener it.1.1 it.1.2)) s with
          storageAreasByConnection :=
            s.storageAreasByConnection.filter (fun it => decide (it.1.1 ≠ c)) }
          : StorageManager).derefStorageAreas (WTF.HashMap.values s.storageAreasByConnection) := by
  unfold invalidateConnectionInternal
  simp only
  rw [(foldl_removeListener_fields _ s).2.2.2.1, foldl_remove_filter_connection]

theorem get_filter_connection (m : WTF.HashMap (Connection × Nat) Nat) (c : Connection)
    (k : Connection × Nat) :
    WTF.HashMap.get (m.filter (fun it => decide (it.1.1 ≠ c))) k
      = if k.1 ≠ c then WTF.HashMap.get m k else none := by
  have := WTF.HashMap.get_filter_key m (fun k : Connection × Nat => decide (k.1 ≠ c)) k
  simp only [decide_eq_true_eq] at this
  exact this

theorem mem_filter_connection (m : WTF.HashMap (Connection × Nat) Nat) (c : Connection)
    (l : Connection × Nat) (q : Nat) :
    (l, q) ∈ m.filter (fun it => decide (it.1.1 = c)) ↔ (l, q) ∈ m ∧ l.1 = c := by
  simp [List.mem_filter]

theorem consistent_invalidateConnectionInternal (s : StorageManager) (c : Connection)
    (h : s.Consistent) : (s.invalidateConnectionInternal c).Consistent := by
  rw [invalidateConnectionInternal_eq]
  obtain ⟨f1, f2, f3, f4, f5⟩ := foldl_removeListener_fields
    (s.storageAreasByConnection.filter (fun it => decide (it.1.1 = c))) s
  have hc1 := coherent_foldl_removeListener
    (s.storageAreasByConnection.filter (fun it => decide (it.1.1 = c))) s h.coherent
  have hA := storageArea_foldl_removeListener
    (s.storageAreasByConnection.filter (fun it => decide (it.1.1 = c))) s
  generalize (s.storageAreasByConnection.filter (fun it => decide (it.1.1 = c))).foldl
    (fun acc it => acc.callOnStorageArea it.2 (fun a => a.removeListener it.1.1 it.1.2)) s
    = s1 at f1 f2 f3 f4 f5 hc1 hA
  have hA2 : ∀ q, ({ s1 with
      storageAreasByConnection := s.storageAreasByConnection.filter
        (fun it => decide (it.1.1 ≠ c)) } : StorageManager).storageArea q = s1.storageArea q :=
    fun q => rfl
  refine consistent_derefStorageAreas _ _ ⟨wellFormed_setBinding s1 _ hc1.wellFormed,
    WTF.HashMap.keys_filter_nodup _ _ h.coherent.bindingKeys, hc1.sessionKeys, hc1.localKeys,
    ?_, ?_, hc1.localLive⟩ ?_ ?_
  · intro q a hq l1 l2 hm
    rw [hA2, hA] at hq
    cases hs : s.storageArea q with
    | none => rw [hs] at hq; cases hq
    | some b =>
      rw [hs] at hq
      simp only [Option.map_some', Option.some.injEq] at hq
      rw [← hq] at hm
      have hm' := List.mem_filter.mp hm
      have hb := h.coherent.listenersBound q b hs l1 l2 hm'.1
      have hne : l1 ≠ c := by
        intro e
        have := hm'.2
        simp only [decide_eq_true_eq] at this
        exact this ((mem_filter_connection _ _ _ _).mpr ⟨WTF.HashMap.mem_of_get _ _ _ hb, e⟩)
      show WTF.HashMap.get (s.storageAreasByConnection.filter _) (l1, l2) = some q
      rw [get_filter_connection, if_pos hne]
      exact hb
  · intro l1 l2 q hf
    have hf' : WTF.HashMap.get (s.storageAreasByConnection.filter
        (fun it => decide (it.1.1 ≠ c))) (l1, l2) = some q := hf
    rw [get_filter_connection] at hf'
    split at hf'
    · rw [hA2, hA]
      have := h.coherent.boundLive l1 l2 q hf'
      cases hs : s.storageArea q with
      | none => rw [hs] at this; cases this
      | some b => rfl
    · cases hf'
  · intro l1 l2 q hf
    have hf' : WTF.HashMap.get (s.storageAreasByConnection.filter
        (fun it => decide (it.1.1 ≠ c))) (l1, l2) = some q := hf
    rw [get_filter_connection] at hf'
    split at hf'
    · rename_i hne
      obtain ⟨b, hb1, hb2⟩ := h.bindingsListen l1 l2 q hf'
      rw [hA2, hA, hb1]
      refine ⟨_, rfl, ?_⟩
      apply List.mem_filter.mpr
      refine ⟨hb2, ?_⟩
      simp only [decide_eq_true_eq]
      intro hm
      exact hne ((mem_filter_connection _ _ _ _).mp hm).2
    · cases hf'
  · intro q a hq
    rw [hA2, hA] at hq
    cases hs : s.storageArea q with
    | none => rw [hs] at hq; cases hq
    | some b =>
      rcases (refCount_pos_iff s q).mp (h.owned q b hs) with h6 | h6
      · exact Or.inr h6
      · left
        apply (refCount_pos_iff _ q).mpr
        right
        exact (sessionOwned_congr s _ f2 q).mpr h6

end StorageManager

/-! ## Consistency of the reachable states -/

namespace StorageManager

theorem consistent_create (t : LocalStorageDatabaseTracker) : (create t).Consistent := by
  refine ⟨⟨wellFormed_create t, List.nodup_nil, List.nodup_nil, List.nodup_nil, ?_, ?_, ?_⟩,
    ?_, ?_⟩
  · intro p a h
    cases h
  · intro c i p h
    cases h
  · intro id n h
    cases h
  · intro c i p h
    cases h
  · intro p a h
    cases h

theorem get_eq_none_of_contains {κ α : Type} [DecidableEq κ] (m : WTF.HashMap κ α) (k : κ)
    (h : (!WTF.HashMap.contains m k) = true) : WTF.HashMap.get m k = none := by
  unfold WTF.HashMap.contains at h
  cases hg : WTF.HashMap.get m k with
  | none => rfl
  | some v => rw [hg] at h; cases h

/-- A request that respects the protocol of the binding table keeps the manager
consistent. -/
theorem consistent_handle (s : StorageManager) (r : Request) (h : s.Consistent)
    (ha : r.admissible s = true) : (s.handle r).Consistent := by
  cases r with
  | createLocalStorageMap c i n o =>
    exact consistent_createLocalStorageMap s c i n o h (get_eq_none_of_contains _ _ ha)
  | createSessionStorageMap c i n o =>
    refine consistent_createSessionStorageMap s c i n o h ?_
    simp only [Request.admissible, Bool.or_eq_true] at ha
    rcases ha with ha | ha
    · exact Or.inl (get_eq_none_of_contains _ _ ha)
    · exact Or.inr (get_eq_none_of_contains _ _ ha)
  | destroyStorageMap c i => exact consistent_destroyStorageMap s c i h
  | getValues c i seed => exact consistent_getValues s c i seed h
  | setItem c i src seed k v u => exact consistent_setItem s c i src seed k v u h
  | removeItem c i src seed k u => exact consistent_removeItem s c i src seed k u h
  | clear c i src seed u => exact consistent_clear s c i src seed u h
  | createSessionStorageNamespace n c q =>
    exact consistent_createSessionStorageNamespaceInternal s n c q h
  | destroySessionStorageNamespace n =>
    exact consistent_destroySessionStorageNamespaceInternal s n h
  | setAllowedSessionStorageNamespaceConnection n c =>
    exact consistent_setAllowedSessionStorageNamespaceConnectionInternal s n c h
  | cloneSessionStorageNamespace n m =>
    exact consistent_cloneSessionStorageNamespaceInternal s n m h
  | applicationWillTerminate => exact consistent_applicationWillTerminate s h
  | invalidateConnection c => exact consistent_invalidateConnectionInternal s c h
  | deleteEntriesForOrigin o => exact consistent_deleteEntriesForOriginInternal s o h
  | deleteAllEntries => exact consistent_deleteAllEntriesInternal s h

theorem consistent_run_from (requests : List Request) (s : StorageManager) (h : s.Consistent)
    (ha : s.admissibleRun requests = true) : (s.run requests).Consistent := by
  induction requests generalizing s with
  | nil => exact h
  | cons r rs ih =>
    simp only [admissibleRun, Bool.and_eq_true] at ha
    exact ih _ (consistent_handle s r h ha.1) ha.2

/-- Every state the manager reaches from `create` by requests that respect the
protocol of the binding table is consistent. -/
theorem consistent_run (t : LocalStorageDatabaseTracker) (requests : List Request)
    (ha : (create t).admissibleRun requests = true) :
    ((create t).run requests).Consistent :=
  consistent_run_from requests _ (consistent_create t) ha

end StorageManager

/-! ## The trace only grows -/

namespace StorageManager

theorem trace_callOnStorageArea (s : StorageManager) (p : Nat)
    (f : StorageArea → StorageArea × List Effect) :
    (s.callOnStorageArea p f).trace
      = s.trace ++ (match s.storageArea p with
          | none => []
          | some a => (f a).2) := by
  unfold callOnStorageArea
  cases s.storageArea p with
  | none => simp
  | some a => rfl

theorem trace_emit (s : StorageManager) (es : List Effect) :
    s.trace <+: (s.emit es).trace :=
  List.prefix_append _ _

theorem trace_didDestroyStorageArea (s : StorageManager) (X : Nat) (a : StorageArea) :
    s.trace <+: (s.didDestroyStorageArea X a).trace := by
  unfold didDestroyStorageArea
  cases WTF.HashMap.get s.localStorageNamespaces X with
  | none => exact List.prefix_append _ _
  | some n =>
    simp only
    split
    · exact List.prefix_append _ _
    · exact (List.prefix_append _ _).trans (List.prefix_append _ _)

theorem trace_destroyStorageArea (s : StorageManager) (p : Nat) :
    s.trace <+: (s.destroyStorageArea p).trace := by
  cases hp : s.storageArea p with
  | none =>
    rw [destroyStorageArea_none s p hp]
  | some a =>
    cases hns : a.localStorageNamespace with
    | none =>
      rw [destroyStorageArea_session s p a hp hns]
      exact List.prefix_append _ _
    | some X =>
      rw [destroyStorageArea_local s p a X hp hns]
      refine List.IsPrefix.trans ?_ (trace_didDestroyStorageArea _ X a)
      exact List.prefix_append _ _

theorem trace_derefStorageArea (s : StorageManager) (p : Nat) :
    s.trace <+: (s.derefStorageArea p).trace := by
  unfold derefStorageArea
  split
  · exact trace_destroyStorageArea s p
  · exact List.prefix_refl _

theorem trace_bindStorageArea (s : StorageManager) (c i p : Nat) :
    s.trace <+: (s.bindStorageArea c i p).trace := by
  unfold bindStorageArea
  simp only
  have h1 : s.trace <+: (s.callOnStorageArea p (fun a => a.addListener c i)).trace := by
    rw [trace_callOnStorageArea]
    exact List.prefix_append _ _
  split
  · exact h1
  · rename_i old _
    refine List.IsPrefix.trans ?_ (trace_derefStorageArea _ old)
    exact h1

theorem trace_getOrCreateLocalStorageNamespace (s : StorageManager) (id : Nat) :
    (s.getOrCreateLocalStorageNamespace id).1.trace = s.trace := by
  unfold getOrCreateLocalStorageNamespace
  split <;> rfl

theorem trace_localGetOrCreateStorageArea (s : StorageManager) (id : Nat) (o : SecurityOrigin) :
    (s.localGetOrCreateStorageArea id o).1.trace = s.trace := by
  cases hg : WTF.HashMap.get s.localStorageNamespaces id with
  | none => rw [localGetOrCreateStorageArea_none s id o hg]
  | some n =>
    cases hp : WTF.HashMap.get n.storageAreaMap o with
    | some p => rw [localGetOrCreateStorageArea_existing s id o n p hg hp]
    | none =>
      rw [localGetOrCreateStorageArea_new s id o n hg hp]
      rfl

theorem trace_createLocalStorageMap (s : StorageManager) (c i ns : Nat) (o : SecurityOrigin) :
    (s.trace ++ s.createLocalStorageMapChecks c i ns)
      <+: (s.createLocalStorageMap c i ns o).trace := by
  have h1 := trace_getOrCreateLocalStorageNamespace
    (s.emit (s.createLocalStorageMapChecks c i ns)) ns
  have h2 := trace_localGetOrCreateStorageArea
    ((s.emit (s.createLocalStorageMapChecks c i ns)).getOrCreateLocalStorageNamespace ns).1 ns o
  have h0 : (s.emit (s.createLocalStorageMapChecks c i ns)).trace
      = s.trace ++ s.createLocalStorageMapChecks c i ns := rfl
  rw [← h0, ← h1]
  unfold createLocalStorageMap
  simp only
  split
  · exact trace_emit _ _
  · rw [← h2]
    split
    · exact trace_emit _ _
    · exact trace_bindStorageArea _ _ _ _

theorem mem_effectsSince_of_grows (s s' : StorageManager) (es : List Effect) (e : Effect)
    (h : (s.trace ++ es) <+: s'.trace) (he : e ∈ es) : e ∈ s.effectsSince s' := by
  obtain ⟨t, ht⟩ := h
  unfold effectsSince
  rw [← ht]
  simp [he]

theorem effectsSince_of_trace (s s' : StorageManager) (es : List Effect)
    (h : s'.trace = s.trace ++ es) : s.effectsSince s' = es := by
  simp [effectsSince, h]

/-- In a consistent state, `createLocalStorageMap` for an unbound pair and a valid
namespace identifier has no effect on the trace. -/
theorem trace_createLocalStorageMap_unbound (s : StorageManager) (c i ns : Nat)
    (o : SecurityOrigin) (h : s.Consistent) (hf : s.findStorageArea c i = none)
    (hv : WTF.isValidKey ns = true) :
    (s.createLocalStorageMap c i ns o).trace = s.trace := by
  have hr : (s.getOrCreateLocalStorageNamespace ns).2 = true := by
    rw [getOrCreateLocalStorageNamespace_valid s ns hv]
  have h1 := consistent_getOrCreateLocalStorageNamespace s ns h
  have hb1 := getOrCreateLocalStorageNamespace_bindings s ns
  have ht1 := trace_getOrCreateLocalStorageNamespace s ns
  have hheap : ∀ q, (s.getOrCreateLocalStorageNamespace ns).1.storageArea q = s.storageArea q := by
    intro q
    rw [getOrCreateLocalStorageNamespace_valid s ns hv]
    rfl
  obtain ⟨_, _, h4, _, h6⟩ := consistent_localGetOrCreateStorageArea _ ns o h1
  have ht2 := trace_localGetOrCreateStorageArea (s.getOrCreateLocalStorageNamespace ns).1 ns o
  obtain ⟨g, p, n, hg, _⟩ := getOrCreate_local s ns hv o
  rw [hg] at h4 h6 ht2
  obtain ⟨_, a, ha, hl⟩ := h6 p rfl
  have hfg : g.findStorageArea c i = none := by
    rw [findStorageArea_congr _ _ h4, findStorageArea_congr _ _ hb1]
    exact hf
  have hnot : (c, i) ∉ a.eventListeners := by
    intro hm
    rcases hl with ⟨a0, ha0, hl0⟩ | hl0
    · rw [hl0] at hm
      rw [hheap] at ha0
      have := h.coherent.listenersBound p a0 ha0 c i hm
      rw [hf] at this
      cases this
    · rw [hl0] at hm
      cases hm
  have he : s.createLocalStorageMap c i ns o = g.bindStorageArea c i p := by
    simp only [createLocalStorageMap, createLocalStorageMapChecks_nil s c i ns hv hf, emit_nil,
      hr, hg]
    simp only [Bool.true_eq_false, if_false]
  rw [he, bindStorageArea_unbound g c i p hfg]
  show (g.callOnStorageArea p (fun a => a.addListener c i)).trace = s.trace
  rw [trace_callOnStorageArea, ha]
  simp only [StorageArea.addListener, if_neg hnot, List.append_nil]
  rw [ht2, ht1]

end StorageManager

/-! ## What `invalidateConnectionInternal` leaves behind -/

namespace StorageManager

theorem invalidateConnectionInternal_fields (s : StorageManager) (c : Connection) :
    (s.invalidateConnectionInternal c).storageAreasByConnection
        = s.storageAreasByConnection.filter (fun it => decide (it.1.1 ≠ c))
    ∧ (s.invalidateConnectionInternal c).sessionStorageNamespaces = s.sessionStorageNamespaces
    ∧ (s.invalidateConnectionInternal c).nextAddress = s.nextAddress
    ∧ (s.invalidateConnectionInternal c).localStorageDatabaseTracker
        = s.localStorageDatabaseTracker := by
  rw [invalidateConnectionInternal_eq]
  obtain ⟨h1, h2, h3, h4⟩ := derefStorageAreas_fields (WTF.HashMap.values s.storageAreasByConnection)
    ({ (s.storageAreasByConnection.filter (fun it => decide (it.1.1 = c))).foldl
            (fun acc it => acc.callOnStorageArea it.2
              (fun a => a.removeListener it.1.1 it.1.2)) s with
          storageAreasByConnection :=
            s.storageAreasByConnection.filter (fun it => decide (it.1.1 ≠ c)) }
        : StorageManager)
  obtain ⟨f1, f2, f3, f4, f5⟩ := foldl_removeListener_fields
    (s.storageAreasByConnection.filter (fun it => decide (it.1.1 = c))) s
  exact ⟨h3, h2.trans f2, h1.trans f1, h4.trans f5⟩

/-- The storage area at an address after `invalidateConnectionInternal`: it is
gone when the address was bound and has no owner left, and otherwise it is the
storage area that was there, without the listeners of the connection that were
bound to the address. -/
theorem storageArea_invalidateConnectionInternal (s : StorageManager) (c : Connection)
    (q : Nat) :
    (s.invalidateConnectionInternal c).storageArea q
      = if q ∈ WTF.HashMap.values s.storageAreasByConnection
            ∧ (s.invalidateConnectionInternal c).refCount q = 0 then none
        else (s.storageArea q).map (fun a =>
          { a with
            eventListeners :=
              a.eventListeners.filter
                (fun l => decide (¬ (l.1 = c ∧ (l, q) ∈ s.storageAreasByConnection))) }) := by
  have hr : (s.invalidateConnectionInternal c).refCount q
      = ({ (s.storageAreasByConnection.filter (fun it => decide (it.1.1 = c))).foldl
            (fun acc it => acc.callOnStorageArea it.2
              (fun a => a.removeListener it.1.1 it.1.2)) s with
          storageAreasByConnection :=
            s.storageAreasByConnection.filter (fun it => decide (it.1.1 ≠ c)) }
          : StorageManager).refCount q := by
    rw [invalidateConnectionInternal_eq]
    exact refCount_derefStorageAreas _ _ q
  rw [hr, invalidateConnectionInternal_eq, storageArea_derefStorageAreas]
  have hA := storageArea_foldl_removeListener
    (s.storageAreasByConnection.filter (fun it => decide (it.1.1 = c))) s q
  have hA2 : ({ (s.storageAreasByConnection.filter (fun it => decide (it.1.1 = c))).foldl
            (fun acc it => acc.callOnStorageArea it.2
              (fun a => a.removeListener it.1.1 it.1.2)) s with
          storageAreasByConnection :=
            s.storageAreasByConnection.filter (fun it => decide (it.1.1 ≠ c)) }
          : StorageManager).storageArea q
      = (s.storageArea q).map (fun a =>
          { a with
            eventListeners :=
              a.eventListeners.filter
                (fun l => decide (¬ (l.1 = c ∧ (l, q) ∈ s.storageAreasByConnection))) }) := by
    refine hA.trans ?_
    cases s.storageArea q with
    | none => rfl
    | some a =>
      simp only [Option.map_some']
      congr 2
      apply List.filter_congr
      intro l _
      have := mem_filter_connection s.storageAreasByConnection c l q
      by_cases h1 : (l, q) ∈ s.storageAreasByConnection <;> by_cases h2 : l.1 = c <;>
        simp [h1, h2, this]
  rw [hA2]

end StorageManager

/-! ## What `applicationWillTerminate` leaves behind -/

namespace StorageManager

theorem applicationWillTerminate_fields (s : StorageManager) :
    s.applicationWillTerminate.sessionStorageNamespaces = s.sessionStorageNamespaces
    ∧ s.applicationWillTerminate.nextAddress = s.nextAddress
    ∧ s.applicationWillTerminate.localStorageDatabaseTracker = s.localStorageDatabaseTracker := by
  unfold applicationWillTerminate
  simp only
  obtain ⟨_, g2, g3, g4⟩ := foldl_removeStorageAreaByConnection_fields
    (WTF.HashMap.keys s.storageAreasByConnection)
    (s.storageAreasByConnection.foldl (fun acc it => acc.callOnStorageArea it.2
        (fun a => a.removeListener it.1.1 it.1.2)) s)
  obtain ⟨f1, f2, _, _, f5⟩ := foldl_removeListener_fields s.storageAreasByConnection s
  exact ⟨g2.trans f2, g3.trans f1, g4.trans f5⟩

/-- A storage area that is live after `applicationWillTerminate` is the storage
area that was there, without the listeners that were bound to the address. -/
theorem storageArea_applicationWillTerminate (s : StorageManager) (p : Nat) (a' : StorageArea)
    (h : s.applicationWillTerminate.storageArea p = some a') :
    ∃ a, s.storageArea p = some a
      ∧ a' = { a with
            eventListeners :=
              a.eventListeners.filter (fun l => decide ((l, p) ∉ s.storageAreasByConnection)) } := by
  unfold applicationWillTerminate at h
  simp only at h
  have h1 := storageArea_foldl_removeStorageAreaByConnection _ _ p a' h
  rw [storageArea_foldl_removeListener] at h1
  cases hs : s.storageArea p with
  | none => rw [hs] at h1; cases h1
  | some a =>
    rw [hs] at h1
    simp only [Option.map_some', Option.some.injEq] at h1
    exact ⟨a, rfl, h1.symm⟩

theorem survive_derefStorageArea (s : StorageManager) (p q : Nat) (a : StorageArea)
    (ho : s.SessionOwned q) (ha : s.storageArea q = some a) :
    (s.derefStorageArea p).storageArea q = some a := by
  rw [storageArea_derefStorageArea, if_neg]
  · exact ha
  · rintro ⟨rfl, h0⟩
    have := refCount_pos_of_sessionOwned s q ho
    omega

theorem survive_removeStorageAreaByConnection (s : StorageManager) (k : Connection × Nat)
    (q : Nat) (a : StorageArea) (ho : s.SessionOwned q) (ha : s.storageArea q = some a) :
    (s.removeStorageAreaByConnection k).storageArea q = some a := by
  cases hg : WTF.HashMap.get s.storageAreasByConnection k with
  | none =>
    rw [removeStorageAreaByConnection_none s k hg]
    exact ha
  | some p =>
    rw [removeStorageAreaByConnection_eq s k p hg]
    exact survive_derefStorageArea _ p q a ho ha

theorem survive_foldl_removeStorageAreaByConnection (ks : List (Connection × Nat))
    (s : StorageManager) (q : Nat) (a : StorageArea) (ho : s.SessionOwned q)
    (ha : s.storageArea q = some a) :
    (ks.foldl removeStorageAreaByConnection s).storageArea q = some a := by
  induction ks generalizing s with
  | nil => exact ha
  | cons k ks ih =>
    rw [List.foldl_cons]
    exact ih _ ((sessionOwned_congr s _ (removeStorageAreaByConnection_fields s k).2.1 q).mpr ho)
      (survive_removeStorageAreaByConnection s k q a ho ha)

/-- A storage area held by a session storage namespace outlives
`applicationWillTerminate`, and keeps all but its listeners. -/
theorem survive_applicationWillTerminate (s : StorageManager) (q : Nat) (a : StorageArea)
    (ho : s.SessionOwned q) (ha : s.storageArea q = some a) :
    s.applicationWillTerminate.storageArea q
      = some { a with
          eventListeners :=
            a.eventListeners.filter (fun l => decide ((l, q) ∉ s.storageAreasByConnection)) } := by
  unfold applicationWillTerminate
  simp only
  apply survive_foldl_removeStorageAreaByConnection
  · exact (sessionOwned_congr s _ (foldl_removeListener_fields _ s).2.1 q).mpr ho
  · rw [storageArea_foldl_removeListener, ha]
    rfl

theorem quiet_of_unbound (s : StorageManager) (h : s.Consistent)
    (hb : s.storageAreasByConnection = []) : s.Quiet := by
  intro p a ha
  cases hl : a.eventListeners with
  | nil => rfl
  | cons l ls =>
    have := h.coherent.listenersBound p a ha l.1 l.2 (by rw [hl]; exact List.mem_cons_self _ _)
    unfold findStorageArea at this
    rw [hb] at this
    cases this

theorem sessionOwned_of_unbound (s : StorageManager) (h : s.Consistent)
    (hb : s.storageAreasByConnection = []) (p : Nat) (a : StorageArea)
    (ha : s.storageArea p = some a) : s.SessionOwned p := by
  rcases (refCount_pos_iff s p).mp (h.owned p a ha) with h1 | h1
  · rw [hb] at h1
    cases h1
  · exact h1

theorem invalidateConnectionInternal_shrinks (s : StorageManager) (c : Connection) (q : Nat)
    (a' : StorageArea) (h : (s.invalidateConnectionInternal c).storageArea q = some a') :
    ∃ a, s.storageArea q = some a
      ∧ ({ a' with eventListeners := [] } : StorageArea) = { a with eventListeners := [] } := by
  rw [storageArea_invalidateConnectionInternal] at h
  split at h
  · cases h
  · cases hs : s.storageArea q with
    | none => rw [hs] at h; cases h
    | some a =>
      rw [hs] at h
      simp only [Option.map_some', Option.some.injEq] at h
      refine ⟨a, rfl, ?_⟩
      rw [← h]

theorem survive_invalidateConnectionInternal (s : StorageManager) (c : Connection) (q : Nat)
    (a : StorageArea) (ho : s.SessionOwned q) (ha : s.storageArea q = some a) :
    ∃ a', (s.invalidateConnectionInternal c).storageArea q = some a' := by
  have ho' : (s.invalidateConnectionInternal c).SessionOwned q :=
    (sessionOwned_congr s _ (invalidateConnectionInternal_fields s c).2.1 q).mpr ho
  have := refCount_pos_of_sessionOwned _ q ho'
  rw [storageArea_invalidateConnectionInternal, if_neg (by omega), ha]
  exact ⟨_, rfl⟩

theorem foldl_invalidateConnectionInternal_fields (cs : List Connection) (s : StorageManager) :
    (cs.foldl invalidateConnectionInternal s).storageAreasByConnection
        = s.storageAreasByConnection.filter (fun it => decide (it.1.1 ∉ cs))
    ∧ (cs.foldl invalidateConnectionInternal s).sessionStorageNamespaces
        = s.sessionStorageNamespaces := by
  induction cs generalizing s with
  | nil => simp
  | cons c cs ih =>
    obtain ⟨h1, h2, _⟩ := invalidateConnectionInternal_fields s c
    obtain ⟨g1, g2⟩ := ih (s.invalidateConnectionInternal c)
    rw [List.foldl_cons]
    refine ⟨?_, g2.trans h2⟩
    rw [g1, h1, List.filter_filter]
    apply List.filter_congr
    intro e _
    by_cases h3 : e.1.1 = c <;> by_cases h4 : e.1.1 ∈ cs <;> simp [h3, h4]

theorem foldl_invalidateConnectionInternal_shrinks (cs : List Connection) (s : StorageManager)
    (q : Nat) (a' : StorageArea)
    (h : (cs.foldl invalidateConnectionInternal s).storageArea q = some a') :
    ∃ a, s.storageArea q = some a
      ∧ ({ a' with eventListeners := [] } : StorageArea) = { a with eventListeners := [] } := by
  induction cs generalizing s with
  | nil => exact ⟨a', h, rfl⟩
  | cons c cs ih =>
    rw [List.foldl_cons] at h
    obtain ⟨a1, h1, e1⟩ := ih _ h
    obtain ⟨a, h2, e2⟩ := invalidateConnectionInternal_shrinks s c q a1 h1
    exact ⟨a, h2, e1.trans e2⟩

theorem survive_foldl_invalidateConnectionInternal (cs : List Connection) (s : StorageManager)
    (q : Nat) (a : StorageArea) (ho : s.SessionOwned q) (ha : s.storageArea q = some a) :
    ∃ a', (cs.foldl invalidateConnectionInternal s).storageArea q = some a' := by
  induction cs generalizing s a with
  | nil => exact ⟨a, ha⟩
  | cons c cs ih =>
    rw [List.foldl_cons]
    obtain ⟨a1, h1⟩ := survive_invalidateConnectionInternal s c q a ho ha
    exact ih _ a1
      ((sessionOwned_congr s _ (invalidateConnectionInternal_fields s c).2.1 q).mpr ho) h1

theorem consistent_foldl_invalidateConnectionInternal (cs : List Connection)
    (s : StorageManager) (h : s.Consistent) :
    (cs.foldl invalidateConnectionInternal s).Consistent :=
  consistent_foldl _ (fun s c => consistent_invalidateConnectionInternal s c) cs s h

end StorageManager

theorem StorageArea.eq_of_no_listeners (a b : StorageArea)
    (h : ({ b with eventListeners := [] } : StorageArea) = { a with eventListeners := [] })
    (hb : b.eventListeners = []) : b = { a with eventListeners := [] } := by
  rcases b with ⟨ns, db, imp, o, q, m, l⟩
  simp only at hb
  subst hb
  exact h

theorem StorageArea.items_withListeners (t : LocalStorageDatabaseTracker) (a : StorageArea)
    (l : WTF.HashSet (Connection × Nat)) :
    (({ a with eventListeners := l } : StorageArea).items t).result = (a.items t).result := by
  rcases a with ⟨ns, db, imp, o, q, m, l0⟩
  cases ns <;> cases db <;> cases imp <;>
    simp [StorageArea.items, StorageArea.openDatabaseAndImportItemsIfNeeded]

/-! ## A manager whose trace shows no error is consistent -/

namespace StorageManager

theorem trace_foldl {α : Type} (f : StorageManager → α → StorageManager)
    (hf : ∀ s x, s.trace <+: (f s x).trace) (l : List α) (s : StorageManager) :
    s.trace <+: (l.foldl f s).trace := by
  induction l generalizing s with
  | nil => exact List.prefix_refl _
  | cons x l ih => exact (hf s x).trans (ih _)

theorem trace_callOnStorageArea_grows (s : StorageManager) (p : Nat)
    (f : StorageArea → StorageArea × List Effect) :
    s.trace <+: (s.callOnStorageArea p f).trace := by
  rw [trace_callOnStorageArea]
  exact List.prefix_append _ _

theorem trace_derefStorageAreas (ps : List Nat) (s : StorageManager) :
    s.trace <+: (s.derefStorageAreas ps).trace :=
  trace_foldl _ trace_derefStorageArea ps s

theorem trace_sessionGetOrCreateStorageArea (s : StorageManager) (id : Nat)
    (o : SecurityOrigin) : (s.sessionGetOrCreateStorageArea id o).1.trace = s.trace := by
  cases hg : WTF.HashMap.get s.sessionStorageNamespaces id with
  | none => rw [sessionGetOrCreateStorageArea_none s id o hg]
  | some n =>
    cases hp : WTF.HashMap.get n.storageAreaMap o with
    | some p => rw [sessionGetOrCreateStorageArea_existing s id o n p hg hp]
    | none =>
      rw [sessionGetOrCreateStorageArea_new s id o n hg hp]
      rfl

/-- Source function `createSessionStorageMap` for a registered namespace: its
assertions come first in what it adds to the trace. -/
theorem trace_createSessionStorageMap (s : StorageManager) (c i ns : Nat) (o : SecurityOrigin)
    (n : SessionStorageNamespace)
    (hn : WTF.HashMap.get s.sessionStorageNamespaces ns = some n) :
    (s.trace ++ ((if WTF.isValidKey ns then []
        else [Effect.assertionFailure .createSessionStorageMapValidNamespaceID])
      ++ s.createSessionStorageMapChecks n c i))
      <+: (s.createSessionStorageMap c i ns o).trace := by
  have hn' : WTF.HashMap.get (s.emit (if WTF.isValidKey ns then []
        else [Effect.assertionFailure .createSessionStorageMapValidNamespaceID])
      ).sessionStorageNamespaces ns = some n := hn
  unfold createSessionStorageMap
  simp only [hn']
  generalize (if WTF.isValidKey ns then []
    else [Effect.assertionFailure .createSessionStorageMapValidNamespaceID]) = es0
  have h2 := trace_sessionGetOrCreateStorageArea
    ((s.emit es0).emit ((s.emit es0).createSessionStorageMapChecks n c i)) ns o
  have h0 : ((s.emit es0).emit ((s.emit es0).createSessionStorageMapChecks n c i)).trace
      = s.trace ++ (es0 ++ s.createSessionStorageMapChecks n c i) := by
    simp only [emit, List.append_assoc]
    rfl
  rw [← h0, ← h2]
  split
  · exact trace_emit _ _
  · exact trace_bindStorageArea _ _ _ _

theorem trace_createSessionStorageMap_grows (s : StorageManager) (c i ns : Nat)
    (o : SecurityOrigin) : s.trace <+: (s.createSessionStorageMap c i ns o).trace := by
  cases hn : WTF.HashMap.get s.sessionStorageNamespaces ns with
  | none =>
    have hn' : WTF.HashMap.get (s.emit (if WTF.isValidKey ns then []
        else [Effect.assertionFailure .createSessionStorageMapValidNamespaceID])
      ).sessionStorageNamespaces ns = none := hn
    unfold createSessionStorageMap
    simp only [hn']
    exact trace_emit _ _
  | some n => exact (List.prefix_append _ _).trans (trace_createSessionStorageMap s c i ns o n hn)

theorem trace_storeOutcome {ρ : Type} (s : StorageManager) (p : Nat) (r : Outcome ρ)
    (reply : List Effect) : s.trace <+: (s.storeOutcome p r reply).trace := by
  show s.trace <+: s.trace ++ r.effects ++ reply
  rw [List.append_assoc]
  exact List.prefix_append _ _

theorem trace_cloneToStep (newID : Nat) (s : StorageManager) (it : SecurityOrigin × Nat) :
    s.trace <+: (cloneToStep newID s it).trace := by
  unfold cloneToStep
  split
  · simp only
    split
    · exact trace_emit _ _
    · exact trace_emit _ _
  · exact List.prefix_refl _

theorem trace_removeStorageAreaByConnection (s : StorageManager) (k : Connection × Nat) :
    s.trace <+: (s.removeStorageAreaByConnection k).trace := by
  unfold removeStorageAreaByConnection
  cases WTF.HashMap.get s.storageAreasByConnection k with
  | none => exact List.prefix_refl _
  | some p =>
    simp only
    refine List.IsPrefix.trans ?_ (trace_derefStorageArea _ p)
    exact List.prefix_refl _

/-- A request adds to the trace and takes nothing from it. -/
theorem trace_handle (s : StorageManager) (r : Request) : s.trace <+: (s.handle r).trace := by
  cases r with
  | createLocalStorageMap c i n o =>
    exact (List.prefix_append _ _).trans (trace_createLocalStorageMap s c i n o)
  | createSessionStorageMap c i n o => exact trace_createSessionStorageMap_grows s c i n o
  | destroyStorageMap c i =>
    show s.trace <+: (s.destroyStorageMap c i).trace
    unfold destroyStorageMap
    cases WTF.HashMap.get s.storageAreasByConnection (c, i) with
    | none => exact List.prefix_refl _
    | some p =>
      simp only
      refine List.IsPrefix.trans ?_ (trace_derefStorageArea _ p)
      exact trace_callOnStorageArea_grows s p _
  | getValues c i seed =>
    show s.trace <+: (s.getValues c i seed).1.trace
    rcases resolved_or_not s c i with hu | ⟨p, a, hf, ha⟩
    · rw [(ignored_of_unresolved s c i hu).1]
    · rw [getValues_eq s c i seed p a hf ha]
      exact trace_storeOutcome _ _ _ _
  | setItem c i src seed k v u =>
    show s.trace <+: (s.setItem c i src seed k v u).trace
    rcases resolved_or_not s c i with hu | ⟨p, a, hf, ha⟩
    · rw [(ignored_of_unresolved s c i hu).2.1]
    · rw [setItem_eq s c i src seed k v u p a hf ha]
      exact trace_storeOutcome _ _ _ _
  | removeItem c i src seed k u =>
    show s.trace <+: (s.removeItem c i src seed k u).trace
    rcases resolved_or_not s c i with hu | ⟨p, a, hf, ha⟩
    · rw [(ignored_of_unresolved s c i hu).2.2.1]
    · rw [removeItem_eq s c i src seed k u p a hf ha]
      exact trace_storeOutcome _ _ _ _
  | clear c i src seed u =>
    show s.trace <+: (s.clear c i src seed u).trace
    rcases resolved_or_not s c i with hu | ⟨p, a, hf, ha⟩
    · rw [(ignored_of_unresolved s c i hu).2.2.2]
    · rw [clear_eq s c i src seed u p a hf ha]
      exact trace_storeOutcome _ _ _ _
  | createSessionStorageNamespace n c q =>
    show s.trace <+: (s.createSessionStorageNamespaceInternal n c q).trace
    unfold createSessionStorageNamespaceInternal
    cases WTF.HashMap.get s.sessionStorageNamespaces n with
    | none => exact trace_emit _ _
    | some m =>
      simp only
      refine List.IsPrefix.trans ?_ (trace_derefStorageAreas _ _)
      exact trace_emit _ _
  | destroySessionStorageNamespace n =>
    show s.trace <+: (s.destroySessionStorageNamespaceInternal n).trace
    unfold destroySessionStorageNamespaceInternal
    cases WTF.HashMap.get s.sessionStorageNamespaces n with
    | none => exact trace_emit _ _
    | some m =>
      simp only
      refine List.IsPrefix.trans ?_ (trace_derefStorageAreas _ _)
      exact List.prefix_refl _
  | setAllowedSessionStorageNamespaceConnection n c =>
    show s.trace <+: (s.setAllowedSessionStorageNamespaceConnectionInternal n c).trace
    unfold setAllowedSessionStorageNamespaceConnectionInternal
    cases WTF.HashMap.get s.sessionStorageNamespaces n with
    | none => exact trace_emit _ _
    | some m => exact List.prefix_append _ _
  | cloneSessionStorageNamespace n m =>
    show s.trace <+: (s.cloneSessionStorageNamespaceInternal n m).trace
    unfold cloneSessionStorageNamespaceInternal
    cases WTF.HashMap.get s.sessionStorageNamespaces n with
    | none => exact List.prefix_refl _
    | some x =>
      cases WTF.HashMap.get s.sessionStorageNamespaces m with
      | none => exact trace_emit _ _
      | some y =>
        simp only [cloneTo]
        refine List.IsPrefix.trans ?_ (trace_foldl _ (trace_cloneToStep m) _ _)
        exact trace_emit _ _
  | applicationWillTerminate =>
    show s.trace <+: s.applicationWillTerminate.trace
    unfold applicationWillTerminate
    simp only
    refine List.IsPrefix.trans ?_ (trace_foldl _ trace_removeStorageAreaByConnection _ _)
    exact trace_foldl _
      (fun s1 (it : (Connection × Nat) × Nat) => trace_callOnStorageArea_grows s1 it.2 _) _ _
  | invalidateConnection c =>
    show s.trace <+: (s.invalidateConnectionInternal c).trace
    unfold invalidateConnectionInternal
    simp only
    refine List.IsPrefix.trans ?_ (trace_derefStorageAreas _ _)
    exact trace_foldl _
      (fun s1 (it : (Connection × Nat) × Nat) => trace_callOnStorageArea_grows s1 it.2 _) _ _
  | deleteEntriesForOrigin o =>
    show s.trace <+: (s.deleteEntriesForOriginInternal o).trace
    unfold deleteEntriesForOriginInternal
    refine List.IsPrefix.trans ?_ (trace_emit _ _)
    refine trace_foldl _ (fun s1 n => ?_) _ _
    unfold clearStorageAreasMatchingOrigin
    refine trace_foldl _ (fun s2 it => ?_) _ _
    split
    · exact trace_callOnStorageArea_grows s2 it.2 _
    · exact List.prefix_refl _
  | deleteAllEntries =>
    show s.trace <+: s.deleteAllEntriesInternal.trace
    unfold deleteAllEntriesInternal
    refine List.IsPrefix.trans ?_ (trace_emit _ _)
    refine trace_foldl _ (fun s1 n => ?_) _ _
    unfold clearAllStorageAreas
    exact trace_foldl _
      (fun s2 (it : SecurityOrigin × Nat) => trace_callOnStorageArea_grows s2 it.2 _) _ _

theorem trace_run (requests : List Request) (s : StorageManager) :
    s.trace <+: (s.run requests).trace :=
  trace_foldl _ trace_handle requests s

/-- A request that fails no assertion respects the protocol of the binding
table. -/
theorem admissible_of_clean (s : StorageManager) (r : Request)
    (h : ∀ e ∈ (s.handle r).trace, e.isError = false) : r.admissible s = true := by
  cases r with
  | createLocalStorageMap c i n o =>
    cases hb : WTF.HashMap.contains s.storageAreasByConnection (c, i) with
    | false => simp [Request.admissible, hb]
    | true =>
      exfalso
      obtain ⟨t, ht⟩ := trace_createLocalStorageMap s c i n o
      have := h (Effect.assertionFailure .createLocalStorageMapNewEntry) (by
        show _ ∈ (s.createLocalStorageMap c i n o).trace
        rw [← ht]
        simp [createLocalStorageMapChecks, hb])
      cases this
  | createSessionStorageMap c i n o =>
    cases hb : WTF.HashMap.contains s.storageAreasByConnection (c, i) with
    | false => simp [Request.admissible, hb]
    | true =>
      cases hn : WTF.HashMap.get s.sessionStorageNamespaces n with
      | none => simp [Request.admissible, WTF.HashMap.contains, hn]
      | some m =>
        exfalso
        obtain ⟨t, ht⟩ := trace_createSessionStorageMap s c i n o m hn
        have := h (Effect.assertionFailure .createSessionStorageMapNewEntry) (by
          show _ ∈ (s.createSessionStorageMap c i n o).trace
          rw [← ht]
          simp [createSessionStorageMapChecks, hb])
        cases this
  | destroyStorageMap c i => rfl
  | getValues c i seed => rfl
  | setItem c i src seed k v u => rfl
  | removeItem c i src seed k u => rfl
  | clear c i src seed u => rfl
  | createSessionStorageNamespace n c q => rfl
  | destroySessionStorageNamespace n => rfl
  | setAllowedSessionStorageNamespaceConnection n c => rfl
  | cloneSessionStorageNamespace n m => rfl
  | applicationWillTerminate => rfl
  | invalidateConnection c => rfl
  | deleteEntriesForOrigin o => rfl
  | deleteAllEntries => rfl

theorem consistent_of_clean_from (requests : List Request) (s : StorageManager)
    (hs : s.Consistent) (h : ∀ e ∈ (s.run requests).trace, e.isError = false) :
    (s.run requests).Consistent := by
  induction requests generalizing s with
  | nil => exact hs
  | cons r rs ih =>
    have hstep : ∀ e ∈ (s.handle r).trace, e.isError = false :=
      fun e he => h e ((trace_run rs (s.handle r)).subset he)
    exact ih _ (consistent_handle s r hs (admissible_of_clean s r hstep)) h

/-- Every state the manager reaches from `create` without a failed assertion and
without the use of a null pointer is consistent. -/
theorem consistent_of_clean (t : LocalStorageDatabaseTracker) (requests : List Request)
    (h : ∀ e ∈ ((create t).run requests).trace, e.isError = false) :
    ((create t).run requests).Consistent :=
  consistent_of_clean_from requests _ (consistent_create t) h

end StorageManager

namespace StorageManager

/-- Source function `createLocalStorageMap` for an unbound pair and a valid namespace
identifier: all it can add to the trace is the failed assertion of
`addListener`. -/
theorem effects_createLocalStorageMap_unbound (s : StorageManager) (c i ns : Nat)
    (o : SecurityOrigin) (hf : s.findStorageArea c i = none) (hv : WTF.isValidKey ns = true) :
    ∀ e ∈ s.effectsSince (s.createLocalStorageMap c i ns o),
      e = Effect.assertionFailure .addListenerNotRegistered := by
  have hr : (s.getOrCreateLocalStorageNamespace ns).2 = true := by
    rw [getOrCreateLocalStorageNamespace_valid s ns hv]
  obtain ⟨g, p, n, hg, _, _, hb, _, ht, _⟩ := getOrCreate_local s ns hv o
  have hfg : g.findStorageArea c i = none := by
    rw [findStorageArea_congr _ _ hb]
    exact hf
  have he : s.createLocalStorageMap c i ns o = g.bindStorageArea c i p := by
    simp only [createLocalStorageMap, createLocalStorageMapChecks_nil s c i ns hv hf, emit_nil,
      hr, hg]
    simp only [Bool.true_eq_false, if_false]
  have htr : (s.createLocalStorageMap c i ns o).trace
      = s.trace ++ (match g.storageArea p with
          | none => []
          | some a => (a.addListener c i).2) := by
    rw [he, bindStorageArea_unbound g c i p hfg]
    show (g.callOnStorageArea p (fun a => a.addListener c i)).trace = _
    rw [trace_callOnStorageArea, ht]
  rw [effectsSince_of_trace s _ _ htr]
  intro e he'
  cases hs : g.storageArea p with
  | none => rw [hs] at he'; cases he'
  | some a =>
    rw [hs] at he'
    simp only [StorageArea.addListener] at he'
    split at he'
    · exact List.mem_singleton.mp he'
    · cases he'

end StorageManager

/-! ## Storage areas held by a session storage namespace outlive their bindings -/

namespace StorageManager

theorem destroyStorageMap_fields (s : StorageManager) (c i : Nat) :
    (s.destroyStorageMap c i).sessionStorageNamespaces = s.sessionStorageNamespaces
    ∧ (s.destroyStorageMap c i).nextAddress = s.nextAddress
    ∧ (s.destroyStorageMap c i).localStorageDatabaseTracker = s.localStorageDatabaseTracker
    ∧ (s.destroyStorageMap c i).storageAreasByConnection
        = WTF.HashMap.remove s.storageAreasByConnection (c, i) := by
  unfold destroyStorageMap
  cases hg : WTF.HashMap.get s.storageAreasByConnection (c, i) with
  | none => exact ⟨rfl, rfl, rfl, (WTF.HashMap.get_eq_none_of_remove_fixed _ _ hg).symm⟩
  | some p =>
    simp only
    obtain ⟨h1, h2, h3, h4⟩ := derefStorageArea_fields
      ({ s.callOnStorageArea p (fun a => a.removeListener c i) with
          storageAreasByConnection :=
            WTF.HashMap.remove
              (s.callOnStorageArea p (fun a => a.removeListener c i)).storageAreasByConnection
              (c, i) } : StorageManager) p
    obtain ⟨f1, f2, _, f4, f5⟩ := callOnStorageArea_fields s p (fun a => a.removeListener c i)
    refine ⟨h2.trans f2, h1.trans f1, h4.trans f5, h3.trans ?_⟩
    show WTF.HashMap.remove _ _ = _
    rw [f4]

/-- A storage area held by a session storage namespace outlives `destroyStorageMap`
and keeps all but its listeners. -/
theorem survive_destroyStorageMap (s : StorageManager) (c i q : Nat) (a : StorageArea)
    (ho : s.SessionOwned q) (ha : s.storageArea q = some a) :
    ∃ a', (s.destroyStorageMap c i).storageArea q = some a'
      ∧ ({ a' with eventListeners := [] } : StorageArea) = { a with eventListeners := [] } := by
  unfold destroyStorageMap
  cases hg : WTF.HashMap.get s.storageAreasByConnection (c, i) with
  | none => exact ⟨a, ha, rfl⟩
  | some p =>
    simp only
    obtain ⟨f1, f2, _, f4, f5⟩ := callOnStorageArea_fields s p (fun a => a.removeListener c i)
    have hA := storageArea_callOnStorageArea s p q (fun a => a.removeListener c i)
    have hlive : ∃ a', (s.callOnStorageArea p (fun a => a.removeListener c i)).storageArea q
          = some a'
        ∧ ({ a' with eventListeners := [] } : StorageArea) = { a with eventListeners := [] } := by
      rw [hA]
      by_cases hq : q = p
      · subst hq
        rw [if_pos rfl, ha]
        exact ⟨_, rfl, rfl⟩
      · rw [if_neg hq]
        exact ⟨a, ha, rfl⟩
    obtain ⟨a', ha', he⟩ := hlive
    refine ⟨a', ?_, he⟩
    apply survive_derefStorageArea _ p q a'
    · exact (sessionOwned_congr s _ f2 q).mpr ho
    · exact ha'

/-- A storage area held by a session storage namespace outlives a request that
removes bindings and keeps all but its listeners; the session storage namespaces
and the backing store are as they were. -/
theorem survive_removesBindings (s : StorageManager) (r : Request)
    (hr : r.removesBindings = true) :
    (s.handle r).sessionStorageNamespaces = s.sessionStorageNamespaces
    ∧ (s.handle r).localStorageDatabaseTracker = s.localStorageDatabaseTracker
    ∧ ∀ q a, s.SessionOwned q → s.storageArea q = some a →
        ∃ a', (s.handle r).storageArea q = some a'
          ∧ ({ a' with eventListeners := [] } : StorageArea)
              = { a with eventListeners := [] } := by
  cases r with
  | destroyStorageMap c i =>
    obtain ⟨h1, _, h3, _⟩ := destroyStorageMap_fields s c i
    exact ⟨h1, h3, fun q a ho ha => survive_destroyStorageMap s c i q a ho ha⟩
  | invalidateConnection c =>
    obtain ⟨_, h1, _, h3⟩ := invalidateConnectionInternal_fields s c
    refine ⟨h1, h3, fun q a ho ha => ?_⟩
    obtain ⟨a', ha'⟩ := survive_invalidateConnectionInternal s c q a ho ha
    obtain ⟨a0, h0, he⟩ := invalidateConnectionInternal_shrinks s c q a' ha'
    have h0' : s.storageArea q = some a0 := h0
    rw [ha] at h0'
    cases h0'
    exact ⟨a', ha', he⟩
  | _ => cases hr

theorem survive_removesBindings_run (rs : List Request) (s : StorageManager)
    (hrs : ∀ r ∈ rs, r.removesBindings = true) :
    (s.run rs).sessionStorageNamespaces = s.sessionStorageNamespaces
    ∧ (s.run rs).localStorageDatabaseTracker = s.localStorageDatabaseTracker
    ∧ ∀ q a, s.SessionOwned q → s.storageArea q = some a →
        ∃ a', (s.run rs).storageArea q = some a'
          ∧ ({ a' with eventListeners := [] } : StorageArea)
              = { a with eventListeners := [] } := by
  induction rs generalizing s with
  | nil => exact ⟨rfl, rfl, fun q a _ ha => ⟨a, ha, rfl⟩⟩
  | cons r rs ih =>
    obtain ⟨h1, h2, h3⟩ := survive_removesBindings s r (hrs r (List.mem_cons_self _ _))
    obtain ⟨g1, g2, g3⟩ := ih (s.handle r) (fun x hx => hrs x (List.mem_cons_of_mem _ hx))
    refine ⟨g1.trans h1, g2.trans h2, fun q a ho ha => ?_⟩
    obtain ⟨a1, ha1, he1⟩ := h3 q a ho ha
    obtain ⟨a2, ha2, he2⟩ := g3 q a1 ((sessionOwned_congr s _ h1 q).mpr ho) ha1
    exact ⟨a2, ha2, he2.trans he1⟩

theorem bindStorageArea_fields (s : StorageManager) (c i p : Nat) :
    (s.bindStorageArea c i p).storageAreasByConnection
        = WTF.HashMap.set s.storageAreasByConnection (c, i) p
    ∧ (s.bindStorageArea c i p).sessionStorageNamespaces = s.sessionStorageNamespaces
    ∧ (s.bindStorageArea c i p).localStorageDatabaseTracker = s.localStorageDatabaseTracker
    ∧ (s.bindStorageArea c i p).nextAddress = s.nextAddress := by
  obtain ⟨f1, f2, _, f4, f5⟩ := callOnStorageArea_fields s p (fun a => a.addListener c i)
  unfold bindStorageArea
  simp only
  cases hg : WTF.HashMap.get s.storageAreasByConnection (c, i) with
  | none =>
    simp only
    exact ⟨by rw [f4], f2, f5, f1⟩
  | some old =>
    simp only
    obtain ⟨h1, h2, h3, h4⟩ := derefStorageArea_fields
      ({ s.callOnStorageArea p (fun a => a.addListener c i) with
          storageAreasByConnection :=
            WTF.HashMap.set
              (s.callOnStorageArea p (fun a => a.addListener c i)).storageAreasByConnection
              (c, i) p } : StorageManager) old
    refine ⟨h3.trans ?_, h2.trans f2, h4.trans f5, h1.trans f1⟩
    show WTF.HashMap.set _ _ _ = _
    rw [f4]

/-- The storage area a pair is bound to by `bindStorageArea` is the one that was
at the address, with the pair among its listeners. -/
theorem storageArea_bindStorageArea (s : StorageManager) (c i p : Nat) (a : StorageArea)
    (ha : s.storageArea p = some a) :
    (s.bindStorageArea c i p).storageArea p = some (a.addListener c i).1 := by
  obtain ⟨f1, f2, _, f4, f5⟩ := callOnStorageArea_fields s p (fun a => a.addListener c i)
  have hA : (s.callOnStorageArea p (fun a => a.addListener c i)).storageArea p
      = some (a.addListener c i).1 := by
    rw [storageArea_callOnStorageArea_of_some s p a _ ha, if_pos rfl]
  unfold bindStorageArea
  simp only
  cases hg : WTF.HashMap.get s.storageAreasByConnection (c, i) with
  | none => exact hA
  | some old =>
    simp only
    rw [storageArea_derefStorageArea, if_neg]
    · exact hA
    · rintro ⟨hpo, h0⟩
      have : 0 < ({ s.callOnStorageArea p (fun a => a.addListener c i) with
          storageAreasByConnection :=
            WTF.HashMap.set
              (s.callOnStorageArea p (fun a => a.addListener c i)).storageAreasByConnection
              (c, i) p } : StorageManager).refCount p := by
        apply refCount_pos_of_find _ c i p
        show WTF.HashMap.get (WTF.HashMap.set _ _ _) _ = _
        rw [WTF.HashMap.get_set, if_pos rfl]
      subst hpo
      exact (Nat.ne_of_gt this) h0

/-- Source function `createSessionStorageMap` for an origin the session storage
namespace already holds a storage area for: the pair is bound to that storage
area, which gains the pair as a listener. -/
theorem createSessionStorageMap_existing (s : StorageManager) (c i N : Nat)
    (o : SecurityOrigin) (n : SessionStorageNamespace) (p : Nat) (a : StorageArea)
    (hN : WTF.HashMap.get s.sessionStorageNamespaces N = some n)
    (hp : WTF.HashMap.get n.storageAreaMap o = some p) (ha : s.storageArea p = some a) :
    (s.createSessionStorageMap c i N o).findStorageArea c i = some p
    ∧ (s.createSessionStorageMap c i N o).storageArea p = some (a.addListener c i).1
    ∧ (s.createSessionStorageMap c i N o).localStorageDatabaseTracker
        = s.localStorageDatabaseTracker := by
  have hN' : WTF.HashMap.get (s.emit (if WTF.isValidKey N then []
      else [Effect.assertionFailure .createSessionStorageMapValidNamespaceID])
      ).sessionStorageNamespaces N = some n := hN
  unfold createSessionStorageMap
  simp only [hN']
  rw [sessionGetOrCreateStorageArea_existing _ N o n p (by exact hN) hp]
  simp only
  obtain ⟨h1, _, h3, _⟩ := bindStorageArea_fields
    ((s.emit (if WTF.isValidKey N then []
      else [Effect.assertionFailure .createSessionStorageMapValidNamespaceID])).emit
      ((s.emit (if WTF.isValidKey N then []
      else [Effect.assertionFailure .createSessionStorageMapValidNamespaceID])
        ).createSessionStorageMapChecks n c i)) c i p
  refine ⟨?_, storageArea_bindStorageArea _ c i p a (by exact ha), h3⟩
  unfold findStorageArea
  rw [h1, WTF.HashMap.get_set, if_pos rfl]

end StorageManager

theorem StorageArea.items_of_same (t : LocalStorageDatabaseTracker) (a b : StorageArea)
    (h : ({ b with eventListeners := [] } : StorageArea) = { a with eventListeners := [] }) :
    (b.items t).result = (a.items t).result := by
  rw [← StorageArea.items_withListeners t b [], h, StorageArea.items_withListeners t a []]

theorem StorageArea.storageMap_of_same (a b : StorageArea)
    (h : ({ b with eventListeners := [] } : StorageArea) = { a with eventListeners := [] }) :
    b.storageMap = a.storageMap := by
  have := congrArg StorageArea.storageMap h
  exact this

/-! ## `StorageArea::clear()` and the lazy import -/

theorem messagesTo_append (xs ys : List Effect) (c h : Nat) :
    messagesTo (xs ++ ys) c h = messagesTo xs c h ++ messagesTo ys c h := by
  simp [messagesTo, List.filterMap_append]

theorem messagesTo_writeThrough (a : StorageArea) (call : DatabaseCall) (c h : Nat) :
    messagesTo (a.writeThrough call) c h = [] := by
  unfold StorageArea.writeThrough
  cases a.localStorageDatabase <;> simp [messagesTo, Effect.messageTo]

theorem messagesTo_clearCache (l : WTF.HashSet (Connection × Nat)) (c h : Nat) :
    messagesTo (l.map fun it => Effect.send it.1 .ClearCache it.2) c h
      = List.replicate (l.countP (fun x => decide (x = (c, h)))) Message.ClearCache := by
  simp only [messagesTo]
  induction l with
  | nil => simp
  | cons x l ih =>
    rcases x with ⟨c', h'⟩
    by_cases hx : c' = c ∧ h' = h
    · obtain ⟨rfl, rfl⟩ := hx
      simp [List.filterMap_cons, Effect.messageTo, List.replicate_succ, ih, List.countP_cons]
    · have hne : ¬ ((c', h') = (c, h)) := by
        intro he
        exact hx ⟨congrArg Prod.fst he, congrArg Prod.snd he⟩
      rw [List.map_cons, List.filterMap_cons]
      simp only [Effect.messageTo, hx, if_false]
      rw [List.countP_cons, ih]
      simp [hne]

namespace StorageArea

theorem forceClear_items (t : LocalStorageDatabaseTracker) (a : StorageArea)
    (h : a.localStorageNamespace = none ∨ a.didImportItemsFromDatabase = true
      ∨ t.storedItems a.securityOrigin = []) :
    (a.forceClear.1.items t).result = [] := by
  rcases a with ⟨ns, db, imp, o, q, m, l⟩
  simp only at h
  cases ns with
  | none => simp [forceClear, items, openDatabaseAndImportItemsIfNeeded, StorageMap.create,
      StorageMap.items]
  | some id =>
    cases imp with
    | true => simp [forceClear, items, openDatabaseAndImportItemsIfNeeded, StorageMap.create,
        StorageMap.items]
    | false =>
      have hs : t.storedItems o = [] := by
        rcases h with h | h | h
        · cases h
        · cases h
        · exact h
      simp [forceClear, items, openDatabaseAndImportItemsIfNeeded, StorageMap.create,
        StorageMap.items, StorageMap.importItems, hs]

end StorageArea

/-! ## The lazy import -/

namespace StorageArea

theorem open_session (t : LocalStorageDatabaseTracker) (a : StorageArea)
    (h : a.localStorageNamespace = none) : a.openDatabaseAndImportItemsIfNeeded t = (a, []) :=
  open_of_opened t a (Or.inl h)

/-- What `openDatabaseAndImportItemsIfNeeded` does to a storage area of a local
storage namespace: the backing store is open and the items are imported
afterwards, `LocalStorageDatabase::create` is called when no backing store was
open, and `importItems` is called, once and last, when the items were not
imported. -/
theorem open_local (t : LocalStorageDatabaseTracker) (a : StorageArea) (id : Nat)
    (h : a.localStorageNamespace = some id) :
    (a.openDatabaseAndImportItemsIfNeeded t).1.localStorageDatabase
        = some (a.localStorageDatabase.getD ⟨a.securityOrigin⟩)
    ∧ (a.openDatabaseAndImportItemsIfNeeded t).1.didImportItemsFromDatabase = true
    ∧ (a.openDatabaseAndImportItemsIfNeeded t).1.storageMap
        = (if a.didImportItemsFromDatabase then a.storageMap
            else a.storageMap.importItems (t.storedItems a.securityOrigin))
    ∧ (a.openDatabaseAndImportItemsIfNeeded t).2
        = (if a.localStorageDatabase.isSome then []
            else [Effect.database a.securityOrigin .create])
          ++ (if a.didImportItemsFromDatabase then []
            else [Effect.database a.securityOrigin .importItems]) := by
  rcases a with ⟨ns, db, imp, o, q, m, l⟩
  simp only at h
  subst h
  cases db <;> cases imp <;> simp [openDatabaseAndImportItemsIfNeeded]

theorem countP_isImport_open (t : LocalStorageDatabaseTracker) (a : StorageArea) :
    (a.openDatabaseAndImportItemsIfNeeded t).2.countP Effect.isImport
      = if a.localStorageNamespace.isSome ∧ a.didImportItemsFromDatabase = false then 1 else 0 := by
  rcases a with ⟨ns, db, imp, o, q, m, l⟩
  cases ns <;> cases db <;> cases imp <;>
    simp [openDatabaseAndImportItemsIfNeeded, Effect.isImport]

theorem afterOpen_writeThrough (b : StorageArea) (call : DatabaseCall)
    (h1 : call ≠ .importItems) (h2 : call ≠ .create) :
    ∀ e ∈ b.writeThrough call, b.AfterOpen e := by
  intro e he
  unfold writeThrough at he
  cases hdb : b.localStorageDatabase with
  | none => rw [hdb] at he; cases he
  | some db =>
    rw [hdb] at he
    simp only [List.mem_singleton] at he
    exact Or.inl ⟨db, call, hdb, he, h1, h2⟩

theorem afterOpen_dispatchEvents (b : StorageArea) (src i : Nat) (k o n : Option String)
    (u : String) : ∀ e ∈ b.dispatchEvents src i k o n u, b.AfterOpen e := by
  intro e he
  obtain ⟨c, h, _, rfl⟩ := (dispatchEvents_mem b src i k o n u e).mp he
  exact Or.inr ⟨_, _, _, rfl⟩

theorem afterOpen_isImport (b : StorageArea) (e : Effect) (h : b.AfterOpen e) :
    e.isImport = false := by
  rcases h with ⟨db, call, _, rfl, h1, _⟩ | ⟨c, m, h, rfl⟩
  · cases call <;> first | rfl | exact absurd rfl h1
  · rfl

theorem afterOpen_isDatabase (b : StorageArea) (e : Effect) (h : b.AfterOpen e)
    (hb : b.localStorageDatabase = none) : e.isDatabase = false := by
  rcases h with ⟨db, call, hdb, _⟩ | ⟨c, m, h, rfl⟩
  · rw [hb] at hdb
    cases hdb
  · rfl

/-- An operation that uses the items starts with
`openDatabaseAndImportItemsIfNeeded` and goes on as it does on the storage area
that call leaves: the storage area afterwards is the opened one with some storage
map, and the effects are those of the call followed by writes to the open
backing store and messages. -/
theorem apply_split (t : LocalStorageDatabaseTracker) (a : StorageArea) (op : Operation)
    (h : op.usesItems = true) :
    a.effectsOf t op = (a.openDatabaseAndImportItemsIfNeeded t).2
        ++ (a.openDatabaseAndImportItemsIfNeeded t).1.effectsOf t op
    ∧ a.apply t op = (a.openDatabaseAndImportItemsIfNeeded t).1.apply t op
    ∧ (∃ m, a.apply t op = { (a.openDatabaseAndImportItemsIfNeeded t).1 with storageMap := m })
    ∧ ∀ e ∈ (a.openDatabaseAndImportItemsIfNeeded t).1.effectsOf t op,
        (a.openDatabaseAndImportItemsIfNeeded t).1.AfterOpen e := by
  have hi := openDatabase_idem t a
  generalize hb : (a.openDatabaseAndImportItemsIfNeeded t).1 = b at hi
  cases op with
  | forceClear => cases h
  | items =>
    simp only [effectsOf, apply, items, hb, hi, List.append_nil]
    exact ⟨trivial, trivial, ⟨b.storageMap, rfl⟩, fun e he => (nomatch he)⟩
  | setItem c i k v u =>
    simp only [effectsOf, apply]
    by_cases hq : b.storageMap.quotaSize < serializedSize (WTF.HashMap.set b.storageMap.map k v)
    · rw [setItem_over t a c i k v u (by rw [hb]; exact hq),
        setItem_over t b c i k v u (by rw [hi]; exact hq), hb, hi]
      exact ⟨by simp, rfl, ⟨b.storageMap, rfl⟩, fun e he => (nomatch he)⟩
    · rw [setItem_fits t a c i k v u (by rw [hb]; exact hq),
        setItem_fits t b c i k v u (by rw [hi]; exact hq), hb, hi]
      refine ⟨by simp, rfl, ⟨_, rfl⟩, ?_⟩
      intro e he
      simp only [List.nil_append, List.mem_append] at he
      rcases he with he | he
      · exact afterOpen_writeThrough b _ (by simp) (by simp) e he
      · exact afterOpen_dispatchEvents b _ _ _ _ _ _ e he
  | removeItem c i k u =>
    simp only [effectsOf, apply]
    cases hg : WTF.HashMap.get b.storageMap.map k with
    | none =>
      rw [removeItem_absent t a c i k u (by rw [hb]; exact hg),
        removeItem_absent t b c i k u (by rw [hi]; exact hg), hb, hi]
      exact ⟨by simp, rfl, ⟨b.storageMap, rfl⟩, fun e he => (nomatch he)⟩
    | some old =>
      rw [removeItem_present t a c i k u old (by rw [hb]; exact hg),
        removeItem_present t b c i k u old (by rw [hi]; exact hg), hb, hi]
      refine ⟨by simp, rfl, ⟨_, rfl⟩, ?_⟩
      intro e he
      simp only [List.nil_append, List.mem_append] at he
      rcases he with he | he
      · exact afterOpen_writeThrough b _ (by simp) (by simp) e he
      · exact afterOpen_dispatchEvents b _ _ _ _ _ _ e he
  | clear c i u =>
    simp only [effectsOf, apply]
    by_cases hl : b.storageMap.map = []
    · rw [clear_empty t a c i u (by rw [hb]; exact hl),
        clear_empty t b c i u (by rw [hi]; exact hl), hb, hi]
      exact ⟨by simp, rfl, ⟨b.storageMap, rfl⟩, fun e he => (nomatch he)⟩
    · rw [clear_nonempty t a c i u (by rw [hb]; exact hl),
        clear_nonempty t b c i u (by rw [hi]; exact hl), hb, hi]
      refine ⟨by simp, rfl, ⟨_, rfl⟩, ?_⟩
      intro e he
      simp only [List.nil_append, List.mem_append] at he
      rcases he with he | he
      · exact afterOpen_writeThrough _ _ (by simp) (by simp) e he
      · exact afterOpen_dispatchEvents _ _ _ _ _ _ _ e he

end StorageArea

namespace StorageArea

theorem run_append (t : LocalStorageDatabaseTracker) (a : StorageArea) (ops ops' : List Operation) :
    a.run t (ops ++ ops') = (a.run t ops).run t ops' := by
  simp [run, List.foldl_append]

theorem run_cons (t : LocalStorageDatabaseTracker) (a : StorageArea) (op : Operation)
    (ops : List Operation) : a.run t (op :: ops) = (a.apply t op).run t ops := rfl

/-- The owner, the import flag and the backing store of a storage area after one
operation. -/
theorem apply_fields (t : LocalStorageDatabaseTracker) (a : StorageArea) (op : Operation) :
    (a.apply t op).localStorageNamespace = a.localStorageNamespace
    ∧ (a.didImportItemsFromDatabase = true → (a.apply t op).didImportItemsFromDatabase = true)
    ∧ (a.localStorageNamespace = none →
        (a.apply t op).didImportItemsFromDatabase = a.didImportItemsFromDatabase
        ∧ (a.localStorageDatabase = none → (a.apply t op).localStorageDatabase = none))
    ∧ (op.usesItems = true → a.localStorageNamespace ≠ none →
        (a.apply t op).didImportItemsFromDatabase = true
        ∧ (a.apply t op).localStorageDatabase ≠ none) := by
  cases hop : op.usesItems with
  | false =>
    cases op with
    | forceClear =>
      exact ⟨rfl, fun h => h, fun _ => ⟨rfl, fun _ => rfl⟩, fun h => (nomatch h)⟩
    | _ => cases hop
  | true =>
    obtain ⟨_, _, ⟨m, hm⟩, _⟩ := apply_split t a op hop
    rw [hm]
    simp only
    cases hns : a.localStorageNamespace with
    | none =>
      rw [open_session t a hns]
      exact ⟨hns, fun h => h, fun _ => ⟨rfl, fun h => h⟩, fun _ h => absurd rfl h⟩
    | some id =>
      obtain ⟨h1, h2, _, _⟩ := open_local t a id hns
      refine ⟨(namespace_open t a).trans hns, fun _ => h2, fun h => (nomatch h), fun _ _ => ⟨h2, ?_⟩⟩
      rw [h1]
      simp

theorem countP_isImport_effectsOf (t : LocalStorageDatabaseTracker) (a : StorageArea)
    (op : Operation) :
    (a.effectsOf t op).countP Effect.isImport
      = if op.usesItems = true ∧ a.localStorageNamespace.isSome
          ∧ a.didImportItemsFromDatabase = false then 1 else 0 := by
  cases hop : op.usesItems with
  | false =>
    cases op with
    | forceClear =>
      simp only [effectsOf, forceClear, Bool.false_eq_true, false_and, if_false]
      rw [List.countP_eq_zero]
      intro e he
      rcases List.mem_append.mp he with he | he
      · obtain ⟨o, rfl⟩ := writeThrough_effects a _ e he
        simp [Effect.isImport]
      · obtain ⟨x, _, rfl⟩ := List.mem_map.mp he
        simp [Effect.isImport]
    | _ => cases hop
  | true =>
    obtain ⟨h1, _, _, h4⟩ := apply_split t a op hop
    rw [h1, List.countP_append, countP_isImport_open]
    have : ((a.openDatabaseAndImportItemsIfNeeded t).1.effectsOf t op).countP Effect.isImport
        = 0 := by
      rw [List.countP_eq_zero]
      intro e he
      simp [afterOpen_isImport _ e (h4 e he)]
    rw [this]
    simp

/-- Once the items are imported, no sequence of operations imports them again. -/
theorem countP_isImport_imported (t : LocalStorageDatabaseTracker) (ops : List Operation)
    (a : StorageArea) (h : a.didImportItemsFromDatabase = true) :
    (a.runEffects t ops).countP Effect.isImport = 0
    ∧ (a.run t ops).didImportItemsFromDatabase = true := by
  induction ops generalizing a with
  | nil => exact ⟨rfl, h⟩
  | cons op ops ih =>
    obtain ⟨g1, g2⟩ := ih (a.apply t op) ((apply_fields t a op).2.1 h)
    refine ⟨?_, g2⟩
    rw [runEffects, List.countP_append, g1, countP_isImport_effectsOf]
    simp [h]

theorem countP_isImport_session (t : LocalStorageDatabaseTracker) (ops : List Operation)
    (a : StorageArea) (h : a.localStorageNamespace = none) :
    (a.runEffects t ops).countP Effect.isImport = 0
    ∧ (a.run t ops).localStorageNamespace = none
    ∧ (a.run t ops).didImportItemsFromDatabase = a.didImportItemsFromDatabase := by
  induction ops generalizing a with
  | nil => exact ⟨rfl, h, rfl⟩
  | cons op ops ih =>
    obtain ⟨f1, _, f3, _⟩ := apply_fields t a op
    obtain ⟨g1, g2, g3⟩ := ih (a.apply t op) (f1.trans h)
    refine ⟨?_, g2, g3.trans (f3 h).1⟩
    rw [runEffects, List.countP_append, g1, countP_isImport_effectsOf]
    simp [h]

theorem countP_isImport_le (t : LocalStorageDatabaseTracker) (ops : List Operation)
    (a : StorageArea) : (a.runEffects t ops).countP Effect.isImport ≤ 1 := by
  induction ops generalizing a with
  | nil => exact Nat.zero_le _
  | cons op ops ih =>
    rw [runEffects, List.countP_append, countP_isImport_effectsOf]
    split
    · rename_i hc
      obtain ⟨hop, hns, _⟩ := hc
      have hne : a.localStorageNamespace ≠ none := by
        intro e
        rw [e] at hns
        cases hns
      have := (countP_isImport_imported t ops (a.apply t op)
        (((apply_fields t a op).2.2.2 hop hne).1)).1
      omega
    · have := ih (a.apply t op)
      omega

/-- A storage area of no local storage namespace that has no backing store never
gets one, and no call is made on a backing store. -/
theorem isDatabase_session (t : LocalStorageDatabaseTracker) (ops : List Operation)
    (a : StorageArea) (h : a.localStorageNamespace = none) (hdb : a.localStorageDatabase = none) :
    (a.run t ops).localStorageDatabase = none
    ∧ ∀ e ∈ a.runEffects t ops, e.isDatabase = false := by
  induction ops generalizing a with
  | nil => exact ⟨hdb, fun e he => (nomatch he)⟩
  | cons op ops ih =>
    obtain ⟨f1, _, f3, _⟩ := apply_fields t a op
    obtain ⟨g1, g2⟩ := ih (a.apply t op) (f1.trans h) ((f3 h).2 hdb)
    refine ⟨g1, ?_⟩
    intro e he
    rw [runEffects] at he
    rcases List.mem_append.mp he with he | he
    · cases hop : op.usesItems with
      | false =>
        cases op with
        | forceClear =>
          simp only [effectsOf, forceClear, writeThrough, hdb, List.nil_append] at he
          obtain ⟨x, _, rfl⟩ := List.mem_map.mp he
          rfl
        | _ => cases hop
      | true =>
        obtain ⟨h1, _, _, h4⟩ := apply_split t a op hop
        rw [h1, open_session t a h] at he
        simp only [List.nil_append] at he
        have := h4 e (by rw [open_session t a h]; exact he)
        rw [open_session t a h] at this
        exact afterOpen_isDatabase a e this hdb
    · exact g2 e he

end StorageArea

/-! ## A write that changes nothing -/

theorem WTF.HashMap.set_of_get {κ α : Type} [DecidableEq κ] (m : WTF.HashMap κ α) (k : κ) (v : α)
    (h : WTF.HashMap.get m k = some v) : WTF.HashMap.set m k v = m := by
  induction m with
  | nil => cases h
  | cons x m ih =>
    obtain ⟨k', v'⟩ := x
    unfold WTF.HashMap.get at h
    unfold WTF.HashMap.set
    by_cases hk : k' = k
    · rw [if_pos hk] at h ⊢
      cases h
      rfl
    · rw [if_neg hk] at h ⊢
      rw [ih h]

theorem StorageArea.writeThrough_mem (a : StorageArea) (call : DatabaseCall)
    (db : LocalStorageDatabase) (h : a.localStorageDatabase = some db) :
    Effect.database db.securityOrigin call ∈ a.writeThrough call := by
  simp [StorageArea.writeThrough, h]

/-! ## Storage events of a write through a binding -/

namespace StorageManager

/-- Every storage event of a `setItem`, `removeItem` or `clear` request made
through a binding goes to a listener of the storage area the binding resolves
to. -/
theorem storageEvents_of_mutation (s : StorageManager) (c i src seed : Nat) (k v u : String)
    (p : Nat) (a : StorageArea) (hf : s.findStorageArea c i = some p)
    (ha : s.storageArea p = some a) (c' h i' : Nat) (k' o' n' : Option String) (u' : String)
    (hm : Effect.send c' (.DispatchStorageEvent i' k' o' n' u') h
        ∈ s.effectsSince (s.setItem c i src seed k v u)
      ∨ Effect.send c' (.DispatchStorageEvent i' k' o' n' u') h
        ∈ s.effectsSince (s.removeItem c i src seed k u)
      ∨ Effect.send c' (.DispatchStorageEvent i' k' o' n' u') h
        ∈ s.effectsSince (s.clear c i src seed u)) :
    (c', h) ∈ a.eventListeners := by
  have key : ∀ (es : List Effect) (ack : Effect), (∀ e ∈ es, a.OwnEffect e) →
      (∀ c h i k o n u, ack ≠ Effect.send c (.DispatchStorageEvent i k o n u) h) →
      Effect.send c' (.DispatchStorageEvent i' k' o' n' u') h ∈ es ++ [ack] →
      (c', h) ∈ a.eventListeners := by
    intro es ack hes hack hmem
    rcases List.mem_append.mp hmem with hmem | hmem
    · rcases hes _ hmem with ⟨o1, call, h1⟩ | ⟨c1, h1, i1, k1, o1, n1, u1, hl, h2⟩
      · cases h1
      · cases h2
        exact hl
    · rw [List.mem_singleton] at hmem
      exact absurd hmem.symm (hack _ _ _ _ _ _ _)
  rcases hm with hm | hm | hm
  · rw [setItem_eq s c i src seed k v u p a hf ha, effectsSince_storeOutcome] at hm
    exact key _ _ (StorageArea.ownEffect_setItem _ a _ _ _ _ _)
      (by intro c h i k o n u he; cases he) hm
  · rw [removeItem_eq s c i src seed k u p a hf ha, effectsSince_storeOutcome] at hm
    exact key _ _ (StorageArea.ownEffect_removeItem _ a _ _ _ _)
      (by intro c h i k o n u he; cases he) hm
  · rw [clear_eq s c i src seed u p a hf ha, effectsSince_storeOutcome] at hm
    exact key _ _ (StorageArea.ownEffect_clear _ a _ _ _)
      (by intro c h i k o n u he; cases he) hm

end StorageManager

/-! ## The registries account for the heap when a storage area is updated or released -/

namespace StorageManager

/-- The registries still account for the heap when the local storage namespaces
are as they were and each address holds a storage area of the same owner and
origin as before, or none as before. -/
theorem accounted_of_frame (s s' : StorageManager) (h : s.Accounted)
    (hbk : (WTF.HashMap.keys s'.storageAreasByConnection).Nodup)
    (hsk : (WTF.HashMap.keys s'.sessionStorageNamespaces).Nodup)
    (h4 : s'.localStorageNamespaces = s.localStorageNamespaces)
    (hbl : ∀ c i p, s'.findStorageArea c i = some p → (s.storageArea p).isSome)
    (hh : ∀ q b', s'.storageArea q = some b' →
      ∃ b, s.storageArea q = some b ∧ b'.localStorageNamespace = b.localStorageNamespace
        ∧ b'.securityOrigin = b.securityOrigin)
    (hh' : ∀ q b, s.storageArea q = some b →
      ∃ b', s'.storageArea q = some b' ∧ b'.localStorageNamespace = b.localStorageNamespace
        ∧ b'.securityOrigin = b.securityOrigin) : s'.Accounted := by
  refine ⟨hbk, hsk, h4 ▸ h.localKeys, ?_, ?_, ?_, ?_, ?_⟩
  · intro c i p hf
    cases hp : s.storageArea p with
    | none =>
      have := hbl c i p hf
      rw [hp] at this
      cases this
    | some b =>
      obtain ⟨b', hb', _⟩ := hh' p b hp
      rw [hb']
      rfl
  · intro id n hn o p hp
    rw [h4] at hn
    obtain ⟨b, hb, hbn, hbo⟩ := h.localLive id n hn o p hp
    obtain ⟨b', hb', e1, e2⟩ := hh' p b hb
    exact ⟨b', hb', e1.trans hbn, e2.trans hbo⟩
  · intro id n hn
    rw [h4] at hn
    exact h.localIdentifier id n hn
  · intro id n hn
    rw [h4] at hn
    exact h.localOrigins id n hn
  · intro p b' id hp hns
    obtain ⟨b, hb, e1, e2⟩ := hh p b' hp
    obtain ⟨n, hn, hm⟩ := h.localIndexed p b id hb (e1 ▸ hns)
    rw [h4, e2]
    exact ⟨n, hn, hm⟩

theorem accounted_of_same (s s' : StorageManager) (h : s.Accounted)
    (h1 : s'.storageAreas = s.storageAreas)
    (h3 : s'.sessionStorageNamespaces = s.sessionStorageNamespaces)
    (h4 : s'.localStorageNamespaces = s.localStorageNamespaces)
    (h5 : s'.storageAreasByConnection = s.storageAreasByConnection) : s'.Accounted := by
  have hA : ∀ q, s'.storageArea q = s.storageArea q := by
    intro q
    unfold storageArea
    rw [h1]
  refine accounted_of_frame s s' h (h5 ▸ h.bindingKeys) (h3 ▸ h.sessionKeys) h4 ?_ ?_ ?_
  · intro c i p hf
    rw [findStorageArea_congr s s' h5] at hf
    exact h.boundLive c i p hf
  · intro q b' hq
    exact ⟨b', (hA q) ▸ hq, rfl, rfl⟩
  · intro q b hq
    exact ⟨b, (hA q).trans hq, rfl, rfl⟩

theorem accounted_emit (s : StorageManager) (es : List Effect) (h : s.Accounted) :
    (s.emit es).Accounted :=
  accounted_of_same s _ h rfl rfl rfl rfl

theorem accounted_of_update (s s' : StorageManager) (p : Nat) (a a' : StorageArea)
    (h : s.Accounted) (ha : s.storageArea p = some a)
    (hk : a'.localStorageNamespace = a.localStorageNamespace)
    (ho : a'.securityOrigin = a.securityOrigin)
    (h1 : ∀ q, s'.storageArea q = if q = p then some a' else s.storageArea q)
    (h3 : s'.sessionStorageNamespaces = s.sessionStorageNamespaces)
    (h4 : s'.localStorageNamespaces = s.localStorageNamespaces)
    (h5 : s'.storageAreasByConnection = s.storageAreasByConnection) : s'.Accounted := by
  refine accounted_of_frame s s' h (h5 ▸ h.bindingKeys) (h3 ▸ h.sessionKeys) h4 ?_ ?_ ?_
  · intro c i q hf
    rw [findStorageArea_congr s s' h5] at hf
    exact h.boundLive c i q hf
  · intro q b' hq
    rw [h1] at hq
    by_cases hqp : q = p
    · rw [if_pos hqp] at hq
      cases hq
      exact ⟨a, hqp ▸ ha, hk, ho⟩
    · rw [if_neg hqp] at hq
      exact ⟨b', hq, rfl, rfl⟩
  · intro q b hq
    rw [h1]
    by_cases hqp : q = p
    · rw [if_pos hqp]
      rw [hqp, ha] at hq
      cases hq
      exact ⟨a', rfl, hk, ho⟩
    · rw [if_neg hqp]
      exact ⟨b, hq, rfl, rfl⟩

theorem accounted_callOnStorageArea (s : StorageManager) (p : Nat)
    (f : StorageArea → StorageArea × List Effect)
    (hk : ∀ a : StorageArea, (f a).1.localStorageNamespace = a.localStorageNamespace)
    (ho : ∀ a : StorageArea, (f a).1.securityOrigin = a.securityOrigin)
    (h : s.Accounted) : (s.callOnStorageArea p f).Accounted := by
  cases hp : s.storageArea p with
  | none =>
    rw [callOnStorageArea_none s p f hp]
    exact h
  | some a =>
    obtain ⟨_, h3, h4, h5, _⟩ := callOnStorageArea_fields s p f
    exact accounted_of_update s _ p a (f a).1 h hp (hk a) (ho a)
      (storageArea_callOnStorageArea_of_some s p a f hp) h3 h4 h5

/-- Every live storage area keeps an owner, up to the pending releases, when the
tables that hold the owners are as they were and no storage area was added. -/
theorem ownedUpTo_of_frame (s s' : StorageManager) (pending : List Nat)
    (ho : s.OwnedUpTo pending)
    (h3 : s'.sessionStorageNamespaces = s.sessionStorageNamespaces)
    (h5 : s'.storageAreasByConnection = s.storageAreasByConnection)
    (hh : ∀ q b', s'.storageArea q = some b' → (s.storageArea q).isSome) :
    s'.OwnedUpTo pending := by
  intro q b' hq
  rw [refCount_congr s s' h5 h3]
  cases hs : s.storageArea q with
  | none =>
    have := hh q b' hq
    rw [hs] at this
    cases this
  | some b => exact ho q b hs

theorem settled_callOnStorageArea (s : StorageManager) (p : Nat)
    (f : StorageArea → StorageArea × List Effect)
    (hk : ∀ a : StorageArea, a.Keeps (f a).1)
    (ho : ∀ a : StorageArea, (f a).1.securityOrigin = a.securityOrigin)
    (h : s.Settled) : (s.callOnStorageArea p f).Settled := by
  obtain ⟨_, h3, h4, h5, _⟩ := callOnStorageArea_fields s p f
  refine ⟨wellFormed_callOnStorageArea s p f hk h.wellFormed,
    accounted_callOnStorageArea s p f (fun a => (hk a).1) ho h.accounted, ?_, ?_⟩
  · intro id n hn
    rw [h4] at hn
    exact h.nonEmpty id n hn
  · have := ownedUpTo_of_frame s (s.callOnStorageArea p f) [] (ownedUpTo_nil s h.owned [])
      h3 h5 (by
        intro q b' hq
        rw [storageArea_callOnStorageArea] at hq
        by_cases hqp : q = p
        · rw [if_pos hqp] at hq
          rw [hqp]
          cases hs : s.storageArea p with
          | none => rw [hs] at hq; cases hq
          | some b => rfl
        · rw [if_neg hqp] at hq
          rw [hq]
          rfl)
    intro q b hq
    rcases this q b hq with h1 | h1
    · exact h1
    · cases h1

theorem settled_storeOutcome {ρ : Type} (s : StorageManager) (p : Nat) (a : StorageArea)
    (r : Outcome ρ) (reply : List Effect) (h : s.Settled) (ha : s.storageArea p = some a)
    (hk : a.Keeps r.area) (ho : r.area.securityOrigin = a.securityOrigin) :
    (s.storeOutcome p r reply).Settled := by
  refine ⟨wellFormed_storeOutcome s p a r reply h.wellFormed ha hk,
    accounted_of_update s _ p a r.area h.accounted ha hk.1 ho
      (fun q => storageArea_storeOutcome s p q r reply) rfl rfl rfl, h.nonEmpty, ?_⟩
  intro q b hq
  rw [storageArea_storeOutcome] at hq
  show 0 < s.refCount q
  by_cases hqp : q = p
  · rw [hqp]
    exact h.owned p a ha
  · rw [if_neg hqp] at hq
    exact h.owned q b hq

theorem settled_emit (s : StorageManager) (es : List Effect) (h : s.Settled) :
    (s.emit es).Settled :=
  ⟨wellFormed_emit s es h.wellFormed, accounted_emit s es h.accounted, h.nonEmpty, h.owned⟩

end StorageManager

namespace StorageManager

/-- The local storage namespaces after `didDestroyStorageArea` on a registered
namespace: the other namespaces, and the namespace itself without the origin of
the destroyed storage area unless that leaves it empty. -/
theorem mem_didDestroyStorageArea_iff (s : StorageManager) (X : Nat) (a : StorageArea)
    (n0 : LocalStorageNamespace) (hn : (WTF.HashMap.keys s.localStorageNamespaces).Nodup)
    (hg : WTF.HashMap.get s.localStorageNamespaces X = some n0)
    (hid : n0.storageNamespaceID = X) (id : Nat) (n' : LocalStorageNamespace) :
    (id, n') ∈ (s.didDestroyStorageArea X a).localStorageNamespaces ↔
      ((id, n') ∈ s.localStorageNamespaces ∧ id ≠ X)
      ∨ (id = X
          ∧ n' = { n0 with
                storageAreaMap := WTF.HashMap.remove n0.storageAreaMap a.securityOrigin }
          ∧ WTF.HashMap.remove n0.storageAreaMap a.securityOrigin ≠ []) := by
  have hset : ∀ x : Nat × LocalStorageNamespace,
      x ∈ WTF.HashMap.set s.localStorageNamespaces X
          { n0 with storageAreaMap := WTF.HashMap.remove n0.storageAreaMap a.securityOrigin } ↔
        (x ∈ s.localStorageNamespaces ∧ x.1 ≠ X)
        ∨ x = (X, { n0 with
            storageAreaMap := WTF.HashMap.remove n0.storageAreaMap a.securityOrigin }) := by
    intro x
    constructor
    · exact WTF.HashMap.mem_set_of_nodup _ _ _ _ hn
    · rintro (⟨h1, h2⟩ | h1)
      · exact WTF.HashMap.mem_set_of_mem _ _ _ _ h1 h2
      · rw [h1]
        exact WTF.HashMap.mem_set_self _ _ _
  unfold didDestroyStorageArea
  rw [hg]
  simp only
  by_cases he : WTF.HashMap.remove n0.storageAreaMap a.securityOrigin = []
  · have hc : (!(WTF.HashMap.remove n0.storageAreaMap a.securityOrigin).isEmpty) = false := by
      rw [he]
      rfl
    rw [if_neg (by rw [hc]; exact Bool.false_ne_true)]
    show (id, n') ∈ WTF.HashMap.remove (WTF.HashMap.set s.localStorageNamespaces X _)
      n0.storageNamespaceID ↔ _
    rw [WTF.HashMap.mem_remove_iff, hset, hid]
    constructor
    · rintro ⟨h1 | h1, h2⟩
      · exact Or.inl h1
      · rw [h1] at h2
        exact absurd rfl h2
    · rintro (h1 | ⟨_, _, h1⟩)
      · exact ⟨Or.inl h1, h1.2⟩
      · exact absurd he h1
  · have hc : (!(WTF.HashMap.remove n0.storageAreaMap a.securityOrigin).isEmpty) = true := by
      cases hl : WTF.HashMap.remove n0.storageAreaMap a.securityOrigin with
      | nil => exact absurd hl he
      | cons x l => rfl
    rw [if_pos hc]
    show (id, n') ∈ WTF.HashMap.set s.localStorageNamespaces X _ ↔ _
    rw [hset]
    constructor
    · rintro (h1 | h1)
      · exact Or.inl h1
      · cases h1
        exact Or.inr ⟨rfl, rfl, he⟩
    · rintro (h1 | ⟨h1, h2, _⟩)
      · exact Or.inl h1
      · rw [h1, h2]
        exact Or.inr rfl

theorem didDestroyStorageArea_unregistered (s : StorageManager) (X : Nat) (a : StorageArea)
    (hg : WTF.HashMap.get s.localStorageNamespaces X = none) :
    (s.didDestroyStorageArea X a).localStorageNamespaces = s.localStorageNamespaces := by
  unfold didDestroyStorageArea
  rw [hg]
  rfl

/-- The local storage namespaces after the destructor of the storage area at an
address ran: they are as they were, or the storage area belonged to a registered
local storage namespace, which lost the origin of the storage area, and was
removed if that left it empty. -/
theorem localStorageNamespaces_destroyStorageArea_cases (s : StorageManager) (p : Nat)
    (hn : (WTF.HashMap.keys s.localStorageNamespaces).Nodup)
    (hid : ∀ id n, (id, n) ∈ s.localStorageNamespaces → n.storageNamespaceID = id) :
    (s.destroyStorageArea p).localStorageNamespaces = s.localStorageNamespaces
    ∨ ∃ a X n0, s.storageArea p = some a ∧ a.localStorageNamespace = some X
        ∧ WTF.HashMap.get s.localStorageNamespaces X = some n0
        ∧ ∀ id n', (id, n') ∈ (s.destroyStorageArea p).localStorageNamespaces ↔
            ((id, n') ∈ s.localStorageNamespaces ∧ id ≠ X)
            ∨ (id = X
                ∧ n' = { n0 with
                    storageAreaMap :=
                      WTF.HashMap.remove n0.storageAreaMap a.securityOrigin }
                ∧ WTF.HashMap.remove n0.storageAreaMap a.securityOrigin ≠ []) := by
  cases hp : s.storageArea p with
  | none =>
    rw [destroyStorageArea_none s p hp]
    exact Or.inl rfl
  | some a =>
    cases hns : a.localStorageNamespace with
    | none =>
      rw [destroyStorageArea_session s p a hp hns]
      exact Or.inl rfl
    | some X =>
      rw [destroyStorageArea_local s p a X hp hns]
      cases hg : WTF.HashMap.get s.localStorageNamespaces X with
      | none =>
        left
        exact didDestroyStorageArea_unregistered _ X a hg
      | some n0 =>
        right
        refine ⟨a, X, n0, rfl, hns, hg, ?_⟩
        intro id n'
        exact mem_didDestroyStorageArea_iff
          ({ s.emit ((if a.eventListeners.isEmpty then []
              else [Effect.assertionFailure .destroyedAreaHasNoListeners])
                ++ a.writeThrough .close)
            with storageAreas := WTF.HashMap.remove s.storageAreas p } : StorageManager)
          X a n0 hn hg (hid X n0 (WTF.HashMap.mem_of_get _ _ _ hg)) id n'

theorem accounted_destroyStorageArea (s : StorageManager) (p : Nat) (h : s.Accounted)
    (hr : s.refCount p = 0) :
    (s.destroyStorageArea p).Accounted
    ∧ (s.LocalNonEmpty → (s.destroyStorageArea p).LocalNonEmpty) := by
  obtain ⟨_, hs, hb, _⟩ := destroyStorageArea_fields s p
  have hA := storageArea_destroyStorageArea s p
  have hfind : ∀ c i, (s.destroyStorageArea p).findStorageArea c i = s.findStorageArea c i :=
    fun c i => findStorageArea_congr s _ hb c i
  have hbl : ∀ c i q, (s.destroyStorageArea p).findStorageArea c i = some q →
      ((s.destroyStorageArea p).storageArea q).isSome := by
    intro c i q hf
    rw [hfind] at hf
    rw [hA, if_neg]
    · exact h.boundLive c i q hf
    · intro e
      have := refCount_pos_of_find s c i q hf
      rw [e] at this
      omega
  obtain ⟨hl1, hl2⟩ := localStorageNamespaces_destroyStorageArea s p h.localKeys
  have hlive : ∀ id n', (id, n') ∈ (s.destroyStorageArea p).localStorageNamespaces →
      ∀ o q, (o, q) ∈ n'.storageAreaMap →
        ∃ a, (s.destroyStorageArea p).storageArea q = some a
          ∧ a.localStorageNamespace = some id ∧ a.securityOrigin = o := by
    intro id n' hm o q hq
    obtain ⟨n, hn1, hn2⟩ := hl2 id n' hm
    obtain ⟨hq1, hq2⟩ := hn2 o q hq
    obtain ⟨a, ha, hans, hao⟩ := h.localLive id n hn1 o q hq1
    refine ⟨a, ?_, hans, hao⟩
    rw [hA, if_neg]
    · exact ha
    · intro e
      subst e
      exact hq2 a ha hans hao.symm
  rcases localStorageNamespaces_destroyStorageArea_cases s p h.localKeys h.localIdentifier
    with hsame | ⟨a, X, n0, hp, hns, hg, hiff⟩
  · refine ⟨⟨hb ▸ h.bindingKeys, hs ▸ h.sessionKeys, hl1, hbl, hlive, ?_, ?_, ?_⟩, ?_⟩
    · intro id n hm
      rw [hsame] at hm
      exact h.localIdentifier id n hm
    · intro id n hm
      rw [hsame] at hm
      exact h.localOrigins id n hm
    · intro q b id hq hbn
      rw [hA] at hq
      split at hq
      · cases hq
      · rw [hsame]
        exact h.localIndexed q b id hq hbn
    · intro hne id n hm
      rw [hsame] at hm
      exact hne id n hm
  · refine ⟨⟨hb ▸ h.bindingKeys, hs ▸ h.sessionKeys, hl1, hbl, hlive, ?_, ?_, ?_⟩, ?_⟩
    · intro id n hm
      rcases (hiff id n).mp hm with ⟨h1, _⟩ | ⟨h1, h2, _⟩
      · exact h.localIdentifier id n h1
      · rw [h2, h1]
        exact h.localIdentifier X n0 (WTF.HashMap.mem_of_get _ _ _ hg)
    · intro id n hm
      rcases (hiff id n).mp hm with ⟨h1, _⟩ | ⟨h1, h2, _⟩
      · exact h.localOrigins id n h1
      · rw [h2]
        exact WTF.HashMap.keys_remove_nodup _ _
          (h.localOrigins X n0 (WTF.HashMap.mem_of_get _ _ _ hg))
    · intro q b id hq hbn
      rw [hA] at hq
      split at hq
      · cases hq
      · rename_i hqp
        obtain ⟨n, hn1, hn2⟩ := h.localIndexed q b id hq hbn
        by_cases hidX : id = X
        · subst hidX
          have hnn : n = n0 := by
            have := WTF.HashMap.get_of_mem _ _ _ h.localKeys hn1
            rw [hg] at this
            cases this
            rfl
          subst hnn
          have hne : b.securityOrigin ≠ a.securityOrigin := by
            intro e
            obtain ⟨m, hm1, hm2⟩ := h.localIndexed p a id hp hns
            have hmn : m = n := by
              have := WTF.HashMap.get_of_mem _ _ _ h.localKeys hm1
              rw [hg] at this
              cases this
              rfl
            subst hmn
            have ho := h.localOrigins id m hm1
            have g1 := WTF.HashMap.get_of_mem _ _ _ ho hn2
            have g2 := WTF.HashMap.get_of_mem _ _ _ ho hm2
            rw [e, g2] at g1
            cases g1
            exact hqp rfl
          have hmem : (b.securityOrigin, q)
              ∈ WTF.HashMap.remove n.storageAreaMap a.securityOrigin :=
            (WTF.HashMap.mem_remove_iff _ _ _).mpr ⟨hn2, hne⟩
          refine ⟨_, (hiff id _).mpr (Or.inr ⟨rfl, rfl, ?_⟩), hmem⟩
          intro e
          rw [e] at hmem
          cases hmem
        · exact ⟨n, (hiff id n).mpr (Or.inl ⟨hn1, hidX⟩), hn2⟩
    · intro hne id n hm
      rcases (hiff id n).mp hm with ⟨h1, _⟩ | ⟨_, h2, h3⟩
      · exact hne id n h1
      · rw [h2]
        exact h3

theorem accounted_derefStorageArea (s : StorageManager) (p : Nat) (h : s.Accounted) :
    (s.derefStorageArea p).Accounted
    ∧ (s.LocalNonEmpty → (s.derefStorageArea p).LocalNonEmpty) := by
  unfold derefStorageArea
  split
  · rename_i hr
    exact accounted_destroyStorageArea s p h hr
  · exact ⟨h, fun hne => hne⟩

theorem accounted_derefStorageAreas (ps : List Nat) (s : StorageManager) (h : s.Accounted) :
    (s.derefStorageAreas ps).Accounted
    ∧ (s.LocalNonEmpty → (s.derefStorageAreas ps).LocalNonEmpty) := by
  induction ps generalizing s with
  | nil => exact ⟨h, fun hne => hne⟩
  | cons p ps ih =>
    obtain ⟨h1, h2⟩ := accounted_derefStorageArea s p h
    obtain ⟨g1, g2⟩ := ih _ h1
    exact ⟨g1, fun hne => g2 (h2 hne)⟩

/-- Releasing the pending storage areas settles the manager. -/
theorem settled_derefStorageAreas (ps : List Nat) (s : StorageManager) (hwf : s.WellFormed)
    (h : s.Accounted) (hne : s.LocalNonEmpty) (ho : s.OwnedUpTo ps) :
    (s.derefStorageAreas ps).Settled :=
  ⟨wellFormed_derefStorageAreas ps s hwf, (accounted_derefStorageAreas ps s h).1,
    (accounted_derefStorageAreas ps s h).2 hne, ownedUpTo_derefStorageAreas ps s ho⟩

theorem settled_derefStorageArea (s : StorageManager) (p : Nat) (hwf : s.WellFormed)
    (h : s.Accounted) (hne : s.LocalNonEmpty) (ho : s.OwnedUpTo [p]) :
    (s.derefStorageArea p).Settled :=
  settled_derefStorageAreas [p] s hwf h hne ho

theorem settled_of_ownedUpTo (s : StorageManager) (hwf : s.WellFormed)
    (h : s.Accounted) (hne : s.LocalNonEmpty) (ho : s.OwnedUpTo []) : s.Settled :=
  settled_derefStorageAreas [] s hwf h hne ho

end StorageManager

/-! ## The registries account for the heap when a binding is added or removed -/

namespace StorageManager

theorem accounted_setBindings (s : StorageManager) (m : WTF.HashMap (Connection × Nat) Nat)
    (h : s.Accounted) (hk : (WTF.HashMap.keys m).Nodup)
    (hl : ∀ k p, WTF.HashMap.get m k = some p → (s.storageArea p).isSome) :
    ({ s with storageAreasByConnection := m } : StorageManager).Accounted :=
  accounted_of_frame s _ h hk h.sessionKeys rfl (fun c i p hf => hl (c, i) p hf)
    (fun _ b' hq => ⟨b', hq, rfl, rfl⟩) (fun _ b hq => ⟨b, hq, rfl, rfl⟩)

theorem settled_removeStorageAreaByConnection (s : StorageManager) (k : Connection × Nat)
    (h : s.Settled) : (s.removeStorageAreaByConnection k).Settled := by
  cases hg : WTF.HashMap.get s.storageAreasByConnection k with
  | none =>
    rw [removeStorageAreaByConnection_none s k hg]
    exact h
  | some p =>
    rw [removeStorageAreaByConnection_eq s k p hg]
    refine settled_derefStorageArea _ p (wellFormed_setBinding s _ h.wellFormed) ?_ h.nonEmpty
      (ownedUpTo_removeBinding s k p [] h.accounted.bindingKeys hg (ownedUpTo_nil s h.owned []))
    refine accounted_setBindings s _ h.accounted
      (WTF.HashMap.keys_remove_nodup _ _ h.accounted.bindingKeys) ?_
    intro k' q hq
    rw [WTF.HashMap.get_remove] at hq
    split at hq
    · cases hq
    · exact h.accounted.boundLive k'.1 k'.2 q hq

theorem settled_foldl {α : Type} (f : StorageManager → α → StorageManager)
    (hf : ∀ s x, s.Settled → (f s x).Settled) (l : List α) (s : StorageManager)
    (h : s.Settled) : (l.foldl f s).Settled := by
  induction l generalizing s with
  | nil => exact h
  | cons x l ih => exact ih _ (hf s x h)

theorem settled_removeListener (s : StorageManager) (p c i : Nat) (h : s.Settled) :
    (s.callOnStorageArea p (fun a => a.removeListener c i)).Settled :=
  settled_callOnStorageArea s p _ (removeListener_keeps c i) (fun _ => rfl) h

theorem settled_destroyStorageMap (s : StorageManager) (c i : Nat) (h : s.Settled) :
    (s.destroyStorageMap c i).Settled := by
  unfold destroyStorageMap
  cases hg : WTF.HashMap.get s.storageAreasByConnection (c, i) with
  | none => exact h
  | some p =>
    simp only
    have h5 := (callOnStorageArea_fields s p (fun a => a.removeListener c i)).2.2.2.1
    have := settled_removeStorageAreaByConnection _ (c, i) (settled_removeListener s p c i h)
    rw [removeStorageAreaByConnection_eq _ (c, i) p (by rw [h5]; exact hg)] at this
    exact this

/-- The end of `createLocalStorageMap` and of `createSessionStorageMap`: binding a
pair to a live storage area, the only one that may be without an owner, settles
the manager, whether or not the pair was bound before. -/
theorem settled_bindStorageArea (g : StorageManager) (c i p : Nat) (hwf : g.WellFormed)
    (hA : g.Accounted) (hne : g.LocalNonEmpty) (ho : g.OwnedUpTo [p])
    (hlive : (g.storageArea p).isSome) : (g.bindStorageArea c i p).Settled := by
  obtain ⟨_, f3, f4, f5, _⟩ := callOnStorageArea_fields g p (fun a => a.addListener c i)
  have hwf1 := wellFormed_callOnStorageArea g p (fun a => a.addListener c i)
    (addListener_keeps c i) hwf
  have hA1 := accounted_callOnStorageArea g p (fun a => a.addListener c i)
    (fun a => (addListener_keeps c i a).1) (fun _ => rfl) hA
  have hlive1 : ∀ q, ((g.callOnStorageArea p (fun a => a.addListener c i)).storageArea q).isSome
      = (g.storageArea q).isSome := by
    intro q
    rw [storageArea_callOnStorageArea]
    by_cases hqp : q = p
    · rw [if_pos hqp, hqp]
      cases g.storageArea p <;> rfl
    · rw [if_neg hqp]
  generalize hg1 : g.callOnStorageArea p (fun a => a.addListener c i) = g1
    at f3 f4 f5 hwf1 hA1 hlive1
  have hA2 : ({ g1 with
      storageAreasByConnection := WTF.HashMap.set g1.storageAreasByConnection (c, i) p }
      : StorageManager).Accounted := by
    refine accounted_setBindings g1 _ hA1 (WTF.HashMap.keys_set_nodup _ _ _ hA1.bindingKeys) ?_
    intro k q hq
    rw [WTF.HashMap.get_set] at hq
    split at hq
    · cases hq
      rw [hlive1]
      exact hlive
    · exact hA1.boundLive k.1 k.2 q hq
  have hne2 : ({ g1 with
      storageAreasByConnection := WTF.HashMap.set g1.storageAreasByConnection (c, i) p }
      : StorageManager).LocalNonEmpty := by
    intro id n hn
    have hn' : (id, n) ∈ g1.localStorageNamespaces := hn
    rw [f4] at hn'
    exact hne id n hn'
  have ho2 : ∀ pending : List Nat,
      (∀ old, WTF.HashMap.get g.storageAreasByConnection (c, i) = some old → old ∈ pending) →
      ({ g1 with
        storageAreasByConnection := WTF.HashMap.set g1.storageAreasByConnection (c, i) p }
        : StorageManager).OwnedUpTo pending := by
    intro pending hold q b hq
    have hq' : (g1.storageArea q).isSome := by
      have : g1.storageArea q = some b := hq
      rw [this]
      rfl
    rw [hlive1] at hq'
    by_cases hqp : q = p
    · left
      apply (refCount_pos_iff _ q).mpr
      left
      rw [hqp]
      exact (WTF.HashMap.mem_values_iff _ _).mpr ⟨(c, i), WTF.HashMap.mem_set_self _ _ _⟩
    · cases hs : g.storageArea q with
      | none => rw [hs] at hq'; cases hq'
      | some b0 =>
        rcases ho q b0 hs with h1 | h1
        · rcases (refCount_pos_iff g q).mp h1 with h6 | h6
          · obtain ⟨k', hk'⟩ := (WTF.HashMap.mem_values_iff _ _).mp h6
            by_cases hkk : k' = (c, i)
            · right
              subst hkk
              exact hold q (WTF.HashMap.get_of_mem _ _ _ hA.bindingKeys hk')
            · left
              apply (refCount_pos_iff _ q).mpr
              left
              refine (WTF.HashMap.mem_values_iff _ _).mpr ⟨k', ?_⟩
              show (k', q) ∈ WTF.HashMap.set g1.storageAreasByConnection (c, i) p
              rw [f5]
              exact WTF.HashMap.mem_set_of_mem _ _ _ _ hk' hkk
          · left
            apply (refCount_pos_iff _ q).mpr
            right
            exact (sessionOwned_congr g _ (by exact f3) q).mpr h6
        · simp only [List.mem_singleton] at h1
          exact absurd h1 hqp
  have hwf2 := wellFormed_setBinding g1
    (WTF.HashMap.set g1.storageAreasByConnection (c, i) p) hwf1
  unfold bindStorageArea
  simp only
  rw [hg1]
  cases hold : WTF.HashMap.get g.storageAreasByConnection (c, i) with
  | none =>
    exact settled_of_ownedUpTo _ hwf2 hA2 hne2
      (ho2 [] (fun old h => by rw [hold] at h; cases h))
  | some old =>
    exact settled_derefStorageArea _ old hwf2 hA2 hne2
      (ho2 [old] (fun o h => by rw [hold] at h; cases h; exact List.mem_singleton.mpr rfl))

end StorageManager

/-! ## The registries account for the heap when a storage map is created -/

namespace StorageManager

theorem mem_add_of_mem {κ α : Type} [DecidableEq κ] (m : WTF.HashMap κ α) (k : κ) (v : α)
    (x : κ × α) (hx : x ∈ m) : x ∈ WTF.HashMap.add m k v := by
  unfold WTF.HashMap.add WTF.HashMap.contains
  cases hg : WTF.HashMap.get m k with
  | none => exact mem_set_of_get_none m k v x hg hx
  | some w => exact hx

theorem ne_nil_of_mem {α : Type} (l : List α) (x : α) (h : x ∈ l) : l ≠ [] := by
  intro e
  rw [e] at h
  cases h

/-- Source function `getOrCreateLocalStorageNamespace`: the registries still account
for the heap, and only the namespace asked for may be empty. -/
theorem accounted_getOrCreateLocalStorageNamespace (s : StorageManager) (id : Nat)
    (h : s.Accounted) (hne : s.LocalNonEmpty) :
    (s.getOrCreateLocalStorageNamespace id).1.Accounted
    ∧ (∀ id' n, (id', n) ∈ (s.getOrCreateLocalStorageNamespace id).1.localStorageNamespaces →
        id' ≠ id → n.storageAreaMap ≠ [])
    ∧ (s.getOrCreateLocalStorageNamespace id).1.storageAreas = s.storageAreas
    ∧ (s.getOrCreateLocalStorageNamespace id).1.sessionStorageNamespaces
        = s.sessionStorageNamespaces
    ∧ (s.getOrCreateLocalStorageNamespace id).1.storageAreasByConnection
        = s.storageAreasByConnection
    ∧ ((s.getOrCreateLocalStorageNamespace id).2 = false →
        (s.getOrCreateLocalStorageNamespace id).1 = s)
    ∧ ((s.getOrCreateLocalStorageNamespace id).2 = true →
        (WTF.HashMap.get (s.getOrCreateLocalStorageNamespace id).1.localStorageNamespaces
          id).isSome) := by
  unfold getOrCreateLocalStorageNamespace
  split
  · exact ⟨h, fun id' n hn _ => hne id' n hn, rfl, rfl, rfl, fun _ => rfl, fun e => (nomatch e)⟩
  · refine ⟨⟨h.bindingKeys, h.sessionKeys, WTF.HashMap.keys_add_nodup _ _ _ h.localKeys,
      h.boundLive, ?_, ?_, ?_, ?_⟩, ?_, rfl, rfl, rfl, fun e => (nomatch e), fun _ => ?_⟩
    · intro id' n hn o p hp
      rcases WTF.HashMap.mem_add _ _ _ _ hn with hm | hm
      · exact h.localLive id' n hm o p hp
      · cases hm
        cases hp
    · intro id' n hn
      rcases WTF.HashMap.mem_add _ _ _ _ hn with hm | hm
      · exact h.localIdentifier id' n hm
      · cases hm
        rfl
    · intro id' n hn
      rcases WTF.HashMap.mem_add _ _ _ _ hn with hm | hm
      · exact h.localOrigins id' n hm
      · cases hm
        exact List.nodup_nil
    · intro p a id' hp hns
      obtain ⟨n, hn1, hn2⟩ := h.localIndexed p a id' hp hns
      exact ⟨n, mem_add_of_mem _ _ _ _ hn1, hn2⟩
    · intro id' n hn hid
      rcases WTF.HashMap.mem_add _ _ _ _ hn with hm | hm
      · exact hne id' n hm
      · cases hm
        exact absurd rfl hid
    · show (WTF.HashMap.get (WTF.HashMap.add s.localStorageNamespaces id _) id).isSome
      rw [WTF.HashMap.get_add, if_pos rfl]
      rfl

/-- Source function `LocalStorageNamespace::getOrCreateStorageArea` in a state in which
only the namespace asked for may be empty: afterwards no namespace is empty, the
storage area returned is live, and it is the only one that may be without an
owner. -/
theorem accounted_localGetOrCreateStorageArea (s : StorageManager) (id : Nat)
    (o : SecurityOrigin) (hwf : s.WellFormed) (h : s.Accounted)
    (hne : ∀ id' n, (id', n) ∈ s.localStorageNamespaces → id' ≠ id → n.storageAreaMap ≠ [])
    (ho : ∀ p a, s.storageArea p = some a → 0 < s.refCount p) :
    (s.localGetOrCreateStorageArea id o).1.Accounted
    ∧ (s.localGetOrCreateStorageArea id o).1.storageAreasByConnection
        = s.storageAreasByConnection
    ∧ ((s.localGetOrCreateStorageArea id o).2 = none →
        WTF.HashMap.get s.localStorageNamespaces id = none
        ∧ s.localGetOrCreateStorageArea id o = (s, none))
    ∧ (∀ p, (s.localGetOrCreateStorageArea id o).2 = some p →
        (s.localGetOrCreateStorageArea id o).1.LocalNonEmpty
        ∧ (s.localGetOrCreateStorageArea id o).1.OwnedUpTo [p]
        ∧ ((s.localGetOrCreateStorageArea id o).1.storageArea p).isSome) := by
  cases hg : WTF.HashMap.get s.localStorageNamespaces id with
  | none =>
    rw [localGetOrCreateStorageArea_none s id o hg]
    exact ⟨h, rfl, fun _ => ⟨rfl, rfl⟩, fun p hp => (nomatch hp)⟩
  | some n =>
    have hnm := WTF.HashMap.mem_of_get _ _ _ hg
    cases hp : WTF.HashMap.get n.storageAreaMap o with
    | some p =>
      rw [localGetOrCreateStorageArea_existing s id o n p hg hp]
      refine ⟨h, rfl, fun hx => (nomatch hx), ?_⟩
      intro p' hp'
      cases hp'
      obtain ⟨a, ha, _⟩ := h.localLive id n hnm o p (WTF.HashMap.mem_of_get _ _ _ hp)
      refine ⟨?_, ownedUpTo_nil s ho _, by rw [ha]; rfl⟩
      intro id' n' hn'
      by_cases hid : id' = id
      · subst hid
        have := WTF.HashMap.get_of_mem _ _ _ h.localKeys hn'
        rw [hg] at this
        cases this
        exact ne_nil_of_mem _ _ (WTF.HashMap.mem_of_get _ _ _ hp)
      · exact hne id' n' hn' hid
    | none =>
      rw [localGetOrCreateStorageArea_new s id o n hg hp]
      have hA : ∀ q, ({ (s.allocate (StorageArea.create (some id) o n.quotaInBytes)).1 with
            localStorageNamespaces :=
              WTF.HashMap.set s.localStorageNamespaces id
                { n with storageAreaMap := WTF.HashMap.set n.storageAreaMap o s.nextAddress } }
              : StorageManager).storageArea q
          = if q = s.nextAddress then some (StorageArea.create (some id) o n.quotaInBytes)
            else s.storageArea q :=
        fun q => storageArea_allocate s _ q
      have hold : ∀ q b, s.storageArea q = some b →
          ({ (s.allocate (StorageArea.create (some id) o n.quotaInBytes)).1 with
            localStorageNamespaces :=
              WTF.HashMap.set s.localStorageNamespaces id
                { n with storageAreaMap := WTF.HashMap.set n.storageAreaMap o s.nextAddress } }
              : StorageManager).storageArea q = some b := by
        intro q b hq
        rw [hA, if_neg]
        · exact hq
        · have := hwf.heapBound q b hq
          omega
      refine ⟨⟨h.bindingKeys, h.sessionKeys, WTF.HashMap.keys_set_nodup _ _ _ h.localKeys,
        ?_, ?_, ?_, ?_, ?_⟩, rfl, fun hx => (nomatch hx), ?_⟩
      · intro c i q hf
        have hf' : s.findStorageArea c i = some q := hf
        cases hq : s.storageArea q with
        | none =>
          have := h.boundLive c i q hf'
          rw [hq] at this
          cases this
        | some b =>
          rw [hold q b hq]
          rfl
      · intro id' n' hn' o' p' hp'
        rcases WTF.HashMap.mem_set _ _ _ _ hn' with hm | hm
        · obtain ⟨b, hb1, hb2, hb3⟩ := h.localLive id' n' hm o' p' hp'
          exact ⟨b, hold p' b hb1, hb2, hb3⟩
        · cases hm
          rcases WTF.HashMap.mem_set _ _ _ _ hp' with hm | hm
          · obtain ⟨b, hb1, hb2, hb3⟩ := h.localLive id n hnm o' p' hm
            exact ⟨b, hold p' b hb1, hb2, hb3⟩
          · cases hm
            rw [hA, if_pos rfl]
            exact ⟨_, rfl, rfl, rfl⟩
      · intro id' n' hn'
        rcases WTF.HashMap.mem_set _ _ _ _ hn' with hm | hm
        · exact h.localIdentifier id' n' hm
        · cases hm
          exact h.localIdentifier id n hnm
      · intro id' n' hn'
        rcases WTF.HashMap.mem_set _ _ _ _ hn' with hm | hm
        · exact h.localOrigins id' n' hm
        · cases hm
          exact WTF.HashMap.keys_set_nodup _ _ _ (h.localOrigins id n hnm)
      · intro q b id' hq hbn
        rw [hA] at hq
        by_cases hqn : q = s.nextAddress
        · rw [if_pos hqn] at hq
          cases hq
          cases hbn
          rw [hqn]
          exact ⟨_, WTF.HashMap.mem_set_self _ _ _, WTF.HashMap.mem_set_self _ _ _⟩
        · rw [if_neg hqn] at hq
          obtain ⟨n', hn1, hn2⟩ := h.localIndexed q b id' hq hbn
          by_cases hid : id' = id
          · subst hid
            have := WTF.HashMap.get_of_mem _ _ _ h.localKeys hn1
            rw [hg] at this
            cases this
            exact ⟨_, WTF.HashMap.mem_set_self _ _ _, mem_set_of_get_none _ _ _ _ hp hn2⟩
          · exact ⟨n', WTF.HashMap.mem_set_of_mem _ _ _ _ hn1 hid, hn2⟩
      · intro p' hp'
        cases hp'
        refine ⟨?_, ?_, by rw [hA, if_pos rfl]; rfl⟩
        · intro id' n' hn'
          rcases WTF.HashMap.mem_set_of_nodup _ _ _ _ h.localKeys hn' with ⟨hm, hid⟩ | hm
          · exact hne id' n' hm hid
          · cases hm
            exact ne_nil_of_mem _ _ (WTF.HashMap.mem_set_self _ _ _)
        · intro q b hq
          rw [hA] at hq
          by_cases hqn : q = s.nextAddress
          · exact Or.inr (by simp [hqn])
          · rw [if_neg hqn] at hq
            left
            have := ho q b hq
            rw [← refCount_congr s _ rfl rfl q] at this
            exact this

theorem settled_createLocalStorageMap (s : StorageManager) (c i ns : Nat)
    (o : SecurityOrigin) (h : s.Settled) : (s.createLocalStorageMap c i ns o).Settled := by
  have h0 := settled_emit s (s.createLocalStorageMapChecks c i ns) h
  obtain ⟨h1, h2, h3, h4, h5, h6, h7⟩ := accounted_getOrCreateLocalStorageNamespace
    (s.emit (s.createLocalStorageMapChecks c i ns)) ns h0.accounted h0.nonEmpty
  have hwf1 := wellFormed_getOrCreateLocalStorageNamespace
    (s.emit (s.createLocalStorageMapChecks c i ns)) ns h0.wellFormed
  have ho1 : ∀ p a,
      ((s.emit (s.createLocalStorageMapChecks c i ns)).getOrCreateLocalStorageNamespace
        ns).1.storageArea p = some a →
      0 < ((s.emit (s.createLocalStorageMapChecks c i ns)).getOrCreateLocalStorageNamespace
        ns).1.refCount p := by
    intro p a hp
    rw [refCount_congr _ _ h5 h4]
    unfold storageArea at hp
    rw [h3] at hp
    exact h0.owned p a hp
  unfold createLocalStorageMap
  simp only
  split
  · rename_i hr
    rw [h6 hr]
    exact settled_emit _ _ h0
  · rename_i hr
    have hr' : ((s.emit (s.createLocalStorageMapChecks c i ns)).getOrCreateLocalStorageNamespace
        ns).2 = true := by
      cases hx : ((s.emit (s.createLocalStorageMapChecks c i ns)).getOrCreateLocalStorageNamespace
        ns).2 with
      | true => rfl
      | false => exact absurd hx hr
    obtain ⟨g1, g2, g3, g4⟩ := accounted_localGetOrCreateStorageArea _ ns o hwf1 h1 h2 ho1
    have hwf2 := wellFormed_localGetOrCreateStorageArea _ ns o hwf1
    split
    · rename_i hnone
      have := (g3 hnone).1
      have hsome := h7 hr'
      rw [this] at hsome
      cases hsome
    · rename_i p hsome
      obtain ⟨k1, k2, k3⟩ := g4 p hsome
      exact settled_bindStorageArea _ c i p hwf2 g1 k1 k2 k3

end StorageManager

/-! ## The registries account for the heap through the requests on session storage namespaces -/

namespace StorageManager

theorem settled_allocate_session (s : StorageManager) (a : StorageArea) (id : Nat)
    (n : SessionStorageNamespace) (o : SecurityOrigin) (h : s.Settled)
    (hn : WTF.HashMap.get s.sessionStorageNamespaces id = some n)
    (ho : WTF.HashMap.get n.storageAreaMap o = none)
    (ha : a.localStorageNamespace = none) (hs : a.Sound) :
    ({ (s.allocate a).1 with
        sessionStorageNamespaces :=
          WTF.HashMap.set (s.allocate a).1.sessionStorageNamespaces id
            { n with storageAreaMap := WTF.HashMap.set n.storageAreaMap o (s.allocate a).2 } }
      : StorageManager).Settled := by
  have hwf := wellFormed_allocate_session s a id n o h.wellFormed hn ha hs
  have hA : ∀ q, ({ (s.allocate a).1 with
        sessionStorageNamespaces :=
          WTF.HashMap.set (s.allocate a).1.sessionStorageNamespaces id
            { n with storageAreaMap := WTF.HashMap.set n.storageAreaMap o (s.allocate a).2 } }
      : StorageManager).storageArea q
      = if q = s.nextAddress then some a else s.storageArea q :=
    fun q => storageArea_allocate s _ q
  have hold : ∀ q b, s.storageArea q = some b →
      ({ (s.allocate a).1 with
        sessionStorageNamespaces :=
          WTF.HashMap.set (s.allocate a).1.sessionStorageNamespaces id
            { n with storageAreaMap := WTF.HashMap.set n.storageAreaMap o (s.allocate a).2 } }
      : StorageManager).storageArea q = some b :=
    fun q b hq => storageArea_of_fresh s _ a h.wellFormed hA q b hq
  refine ⟨hwf, ⟨h.accounted.bindingKeys,
    WTF.HashMap.keys_set_nodup _ _ _ h.accounted.sessionKeys, h.accounted.localKeys,
    ?_, ?_, h.accounted.localIdentifier, h.accounted.localOrigins, ?_⟩, h.nonEmpty, ?_⟩
  · intro c i q hf
    have hf' : s.findStorageArea c i = some q := hf
    cases hq : s.storageArea q with
    | none =>
      have := h.accounted.boundLive c i q hf'
      rw [hq] at this
      cases this
    | some b =>
      rw [hold q b hq]
      rfl
  · intro id' n' hn' o' p' hp'
    obtain ⟨b, hb1, hb2, hb3⟩ := h.accounted.localLive id' n' hn' o' p' hp'
    exact ⟨b, hold p' b hb1, hb2, hb3⟩
  · intro q b id' hq hbn
    rw [hA] at hq
    by_cases hqn : q = s.nextAddress
    · rw [if_pos hqn] at hq
      cases hq
      rw [ha] at hbn
      cases hbn
    · rw [if_neg hqn] at hq
      exact h.accounted.localIndexed q b id' hq hbn
  · intro q b hq
    rw [hA] at hq
    apply (refCount_pos_iff _ q).mpr
    by_cases hqn : q = s.nextAddress
    · right
      exact ⟨id, _, o, WTF.HashMap.mem_set_self _ _ _,
        hqn ▸ WTF.HashMap.mem_set_self _ _ _⟩
    · rw [if_neg hqn] at hq
      rcases (refCount_pos_iff s q).mp (h.owned q b hq) with h6 | h6
      · exact Or.inl h6
      · right
        obtain ⟨id', n', o', hm1, hm2⟩ := h6
        by_cases hid : id' = id
        · subst hid
          have := WTF.HashMap.get_of_mem _ _ _ h.accounted.sessionKeys hm1
          rw [hn] at this
          cases this
          exact ⟨id', _, o', WTF.HashMap.mem_set_self _ _ _,
            mem_set_of_get_none _ _ _ _ ho hm2⟩
        · exact ⟨id', n', o', WTF.HashMap.mem_set_of_mem _ _ _ _ hm1 hid, hm2⟩

theorem settled_sessionGetOrCreateStorageArea (s : StorageManager) (id : Nat)
    (o : SecurityOrigin) (h : s.Settled) :
    (s.sessionGetOrCreateStorageArea id o).1.Settled
    ∧ (∀ p, (s.sessionGetOrCreateStorageArea id o).2 = some p →
        ((s.sessionGetOrCreateStorageArea id o).1.storageArea p).isSome) := by
  cases hg : WTF.HashMap.get s.sessionStorageNamespaces id with
  | none =>
    rw [sessionGetOrCreateStorageArea_none s id o hg]
    exact ⟨h, fun p hp => (nomatch hp)⟩
  | some n =>
    cases hp : WTF.HashMap.get n.storageAreaMap o with
    | some p =>
      rw [sessionGetOrCreateStorageArea_existing s id o n p hg hp]
      refine ⟨h, ?_⟩
      intro p' hp'
      cases hp'
      obtain ⟨a, ha, _⟩ := h.wellFormed.sessionLive id n
        (WTF.HashMap.mem_of_get _ _ _ hg) o p (WTF.HashMap.mem_of_get _ _ _ hp)
      rw [ha]
      rfl
    | none =>
      rw [sessionGetOrCreateStorageArea_new s id o n hg hp]
      refine ⟨settled_allocate_session s (StorageArea.create none o n.quotaInBytes) id n o h
        hg hp rfl (StorageArea.sound_create _ _ _), ?_⟩
      intro p' hp'
      cases hp'
      have := (storageArea_allocate s (StorageArea.create none o n.quotaInBytes)
        s.nextAddress).trans (if_pos rfl)
      show (((s.allocate (StorageArea.create none o n.quotaInBytes)).1.storageArea
        s.nextAddress)).isSome
      rw [this]
      rfl

theorem settled_createSessionStorageMap (s : StorageManager) (c i ns : Nat)
    (o : SecurityOrigin) (h : s.Settled) : (s.createSessionStorageMap c i ns o).Settled := by
  have h0 := settled_emit s (if WTF.isValidKey ns then []
    else [Effect.assertionFailure .createSessionStorageMapValidNamespaceID]) h
  unfold createSessionStorageMap
  simp only
  split
  · exact h0
  · rename_i n hn
    obtain ⟨h2, h6⟩ := settled_sessionGetOrCreateStorageArea _ ns o
      (settled_emit _ ((s.emit (if WTF.isValidKey ns then []
        else [Effect.assertionFailure .createSessionStorageMapValidNamespaceID])
        ).createSessionStorageMapChecks n c i) h0)
    split
    · exact settled_emit _ _ h2
    · rename_i p hsome
      exact settled_bindStorageArea _ c i p h2.wellFormed h2.accounted h2.nonEmpty
        (ownedUpTo_nil _ h2.owned _) (h6 p hsome)

/-- The registries still account for the heap when only the session storage
namespaces change. -/
theorem accounted_of_session (s s' : StorageManager) (h : s.Accounted)
    (h1 : s'.storageAreas = s.storageAreas)
    (h4 : s'.localStorageNamespaces = s.localStorageNamespaces)
    (h5 : s'.storageAreasByConnection = s.storageAreasByConnection)
    (hsk : (WTF.HashMap.keys s'.sessionStorageNamespaces).Nodup) : s'.Accounted := by
  have hA : ∀ q, s'.storageArea q = s.storageArea q := by
    intro q
    unfold storageArea
    rw [h1]
  refine accounted_of_frame s s' h (h5 ▸ h.bindingKeys) hsk h4 ?_ ?_ ?_
  · intro c i p hf
    rw [findStorageArea_congr s s' h5] at hf
    exact h.boundLive c i p hf
  · intro q b' hq
    exact ⟨b', (hA q) ▸ hq, rfl, rfl⟩
  · intro q b hq
    exact ⟨b, (hA q).trans hq, rfl, rfl⟩

theorem settled_createSessionStorageNamespaceInternal (s : StorageManager) (id : Nat)
    (c : Option Connection) (q : Nat) (h : s.Settled) :
    (s.createSessionStorageNamespaceInternal id c q).Settled := by
  have hwf : ∀ es, ({ s.emit es with
      sessionStorageNamespaces :=
        WTF.HashMap.set s.sessionStorageNamespaces id (SessionStorageNamespace.create c q) }
      : StorageManager).WellFormed := by
    intro es
    refine wellFormed_of_session s _ h.wellFormed rfl rfl ?_ rfl
    intro id' n hn o p hp
    rcases WTF.HashMap.mem_set _ _ _ _ hn with hm | hm
    · exact h.wellFormed.sessionLive id' n hm o p hp
    · cases hm
      cases hp
  have hc : ∀ es, ({ s.emit es with
      sessionStorageNamespaces :=
        WTF.HashMap.set s.sessionStorageNamespaces id (SessionStorageNamespace.create c q) }
      : StorageManager).Accounted :=
    fun es => accounted_of_session s _ h.accounted rfl rfl rfl
      (WTF.HashMap.keys_set_nodup _ _ _ h.accounted.sessionKeys)
  have ho : ∀ es pending,
      (∀ n, WTF.HashMap.get s.sessionStorageNamespaces id = some n →
        ∀ p ∈ WTF.HashMap.values n.storageAreaMap, p ∈ pending) →
      ({ s.emit es with
      sessionStorageNamespaces :=
        WTF.HashMap.set s.sessionStorageNamespaces id (SessionStorageNamespace.create c q) }
      : StorageManager).OwnedUpTo pending := by
    intro es pending hp
    refine ownedUpTo_of_session s _ pending h.owned rfl rfl ?_
    rintro p ⟨id', n', o', hm1, hm2⟩
    by_cases hid : id' = id
    · subst hid
      right
      exact hp n' (WTF.HashMap.get_of_mem _ _ _ h.accounted.sessionKeys hm1) p
        ((WTF.HashMap.mem_values_iff _ _).mpr ⟨o', hm2⟩)
    · exact Or.inl ⟨id', n', o', WTF.HashMap.mem_set_of_mem _ _ _ _ hm1 hid, hm2⟩
  unfold createSessionStorageNamespaceInternal
  cases hg : WTF.HashMap.get s.sessionStorageNamespaces id with
  | none =>
    exact settled_of_ownedUpTo _ (hwf _) (hc _) h.nonEmpty
      (ho _ [] (fun n hn => by rw [hg] at hn; cases hn))
  | some n =>
    exact settled_derefStorageAreas _ _ (hwf _) (hc _) h.nonEmpty
      (ho _ _ (fun n' hn' => by rw [hg] at hn'; cases hn'; exact fun p hp => hp))

theorem settled_destroySessionStorageNamespaceInternal (s : StorageManager) (id : Nat)
    (h : s.Settled) : (s.destroySessionStorageNamespaceInternal id).Settled := by
  unfold destroySessionStorageNamespaceInternal
  cases hg : WTF.HashMap.get s.sessionStorageNamespaces id with
  | none => exact settled_emit _ _ h
  | some n =>
    refine settled_derefStorageAreas _ _ ?_ ?_ h.nonEmpty ?_
    · refine wellFormed_of_session s _ h.wellFormed rfl rfl ?_ rfl
      intro id' n' hn o p hp
      exact h.wellFormed.sessionLive id' n' (WTF.HashMap.mem_remove _ _ _ hn) o p hp
    · exact accounted_of_session s _ h.accounted rfl rfl rfl
        (WTF.HashMap.keys_remove_nodup _ _ h.accounted.sessionKeys)
    · refine ownedUpTo_of_session s _ _ h.owned rfl rfl ?_
      rintro p ⟨id', n', o', hm1, hm2⟩
      by_cases hid : id' = id
      · subst hid
        right
        have := WTF.HashMap.get_of_mem _ _ _ h.accounted.sessionKeys hm1
        rw [hg] at this
        cases this
        exact (WTF.HashMap.mem_values_iff _ _).mpr ⟨o', hm2⟩
      · exact Or.inl ⟨id', n', o', (WTF.HashMap.mem_remove_iff _ _ _).mpr ⟨hm1, hid⟩, hm2⟩

theorem settled_setAllowedSessionStorageNamespaceConnectionInternal (s : StorageManager)
    (id : Nat) (c : Option Connection) (h : s.Settled) :
    (s.setAllowedSessionStorageNamespaceConnectionInternal id c).Settled := by
  unfold setAllowedSessionStorageNamespaceConnectionInternal
  cases hg : WTF.HashMap.get s.sessionStorageNamespaces id with
  | none => exact settled_emit _ _ h
  | some n =>
    refine settled_emit _ _ (settled_of_ownedUpTo _ ?_ ?_ h.nonEmpty ?_)
    · refine wellFormed_of_session s _ h.wellFormed rfl rfl ?_ rfl
      intro id' n' hn o p hp
      rcases WTF.HashMap.mem_set _ _ _ _ hn with hm | hm
      · exact h.wellFormed.sessionLive id' n' hm o p hp
      · cases hm
        exact h.wellFormed.sessionLive id n (WTF.HashMap.mem_of_get _ _ _ hg) o p hp
    · exact accounted_of_session s _ h.accounted rfl rfl rfl
        (WTF.HashMap.keys_set_nodup _ _ _ h.accounted.sessionKeys)
    · refine ownedUpTo_of_session s _ [] h.owned rfl rfl ?_
      rintro p ⟨id', n', o', hm1, hm2⟩
      left
      by_cases hid : id' = id
      · subst hid
        have := WTF.HashMap.get_of_mem _ _ _ h.accounted.sessionKeys hm1
        rw [hg] at this
        cases this
        exact ⟨id', _, o', WTF.HashMap.mem_set_self _ _ _, hm2⟩
      · exact ⟨id', n', o', WTF.HashMap.mem_set_of_mem _ _ _ _ hm1 hid, hm2⟩

theorem settled_cloneToStep (newID : Nat) (s : StorageManager) (it : SecurityOrigin × Nat)
    (h : s.Settled) : (cloneToStep newID s it).Settled := by
  unfold cloneToStep
  split
  · rename_i a n ha hn
    simp only
    split
    · exact settled_emit _ _ h
    · rename_i hc
      refine settled_allocate_session (s.emit a.clone.2) a.clone.1 newID n it.1
        (settled_emit _ _ h) hn ?_ rfl
        (StorageArea.sound_clone a (h.wellFormed.areasSound it.2 a ha))
      unfold WTF.HashMap.contains at hc
      cases hx : WTF.HashMap.get n.storageAreaMap it.1 with
      | none => rfl
      | some v => rw [hx] at hc; exact absurd rfl hc
  · exact h

theorem settled_cloneSessionStorageNamespaceInternal (s : StorageManager) (id newID : Nat)
    (h : s.Settled) : (s.cloneSessionStorageNamespaceInternal id newID).Settled := by
  unfold cloneSessionStorageNamespaceInternal
  cases WTF.HashMap.get s.sessionStorageNamespaces id with
  | none => exact h
  | some n =>
    cases WTF.HashMap.get s.sessionStorageNamespaces newID with
    | none => exact settled_emit _ _ h
    | some m => exact settled_foldl _ (settled_cloneToStep newID) _ _ (settled_emit _ _ h)

end StorageManager

/-! ## Every reachable state is settled -/

namespace StorageManager

theorem settled_getValues (s : StorageManager) (c i seed : Nat) (h : s.Settled) :
    (s.getValues c i seed).1.Settled := by
  rcases resolved_or_not s c i with hu | ⟨p, a, hf, ha⟩
  · rw [(ignored_of_unresolved s c i hu).1]
    exact h
  · rw [getValues_eq s c i seed p a hf ha]
    exact settled_storeOutcome s p a _ _ h ha (StorageArea.keeps_items _ a)
      (StorageArea.securityOrigin_open _ a)

theorem settled_setItem (s : StorageManager) (c i src seed : Nat) (k v u : String)
    (h : s.Settled) : (s.setItem c i src seed k v u).Settled := by
  rcases resolved_or_not s c i with hu | ⟨p, a, hf, ha⟩
  · rw [(ignored_of_unresolved s c i hu).2.1]
    exact h
  · rw [setItem_eq s c i src seed k v u p a hf ha]
    exact settled_storeOutcome s p a _ _ h ha (StorageArea.keeps_setItem _ a _ _ _ _ _)
      (StorageArea.securityOrigin_setItem _ a _ _ _ _ _)

theorem settled_removeItem (s : StorageManager) (c i src seed : Nat) (k u : String)
    (h : s.Settled) : (s.removeItem c i src seed k u).Settled := by
  rcases resolved_or_not s c i with hu | ⟨p, a, hf, ha⟩
  · rw [(ignored_of_unresolved s c i hu).2.2.1]
    exact h
  · rw [removeItem_eq s c i src seed k u p a hf ha]
    exact settled_storeOutcome s p a _ _ h ha (StorageArea.keeps_removeItem _ a _ _ _ _)
      (StorageArea.securityOrigin_removeItem _ a _ _ _ _)

theorem settled_clear (s : StorageManager) (c i src seed : Nat) (u : String)
    (h : s.Settled) : (s.clear c i src seed u).Settled := by
  rcases resolved_or_not s c i with hu | ⟨p, a, hf, ha⟩
  · rw [(ignored_of_unresolved s c i hu).2.2.2]
    exact h
  · rw [clear_eq s c i src seed u p a hf ha]
    exact settled_storeOutcome s p a _ _ h ha (StorageArea.keeps_clear _ a _ _ _)
      (StorageArea.securityOrigin_clear _ a _ _ _)

theorem settled_forceClear (s : StorageManager) (p : Nat) (h : s.Settled) :
    (s.callOnStorageArea p StorageArea.forceClear).Settled :=
  settled_callOnStorageArea s p _ forceClear_keeps (fun _ => rfl) h

theorem settled_clearStorageAreasMatchingOrigin (o : SecurityOrigin) (s : StorageManager)
    (n : LocalStorageNamespace) (h : s.Settled) :
    (s.clearStorageAreasMatchingOrigin n o).Settled := by
  unfold clearStorageAreasMatchingOrigin
  refine settled_foldl _ ?_ _ _ h
  intro s1 it h1
  split
  · exact settled_forceClear s1 it.2 h1
  · exact h1

theorem settled_clearAllStorageAreas (s : StorageManager) (n : LocalStorageNamespace)
    (h : s.Settled) : (s.clearAllStorageAreas n).Settled := by
  unfold clearAllStorageAreas
  refine settled_foldl _ ?_ _ _ h
  intro s1 it h1
  exact settled_forceClear s1 it.2 h1

theorem settled_deleteEntriesForOriginInternal (s : StorageManager) (o : SecurityOrigin)
    (h : s.Settled) : (s.deleteEntriesForOriginInternal o).Settled := by
  unfold deleteEntriesForOriginInternal
  exact settled_emit _ _ (settled_foldl _ (settled_clearStorageAreasMatchingOrigin o) _ _ h)

theorem settled_deleteAllEntriesInternal (s : StorageManager) (h : s.Settled) :
    s.deleteAllEntriesInternal.Settled := by
  unfold deleteAllEntriesInternal
  exact settled_emit _ _ (settled_foldl _ settled_clearAllStorageAreas _ _ h)

theorem settled_foldl_removeListener (E : List ((Connection × Nat) × Nat))
    (s : StorageManager) (h : s.Settled) :
    (E.foldl (fun acc it => acc.callOnStorageArea it.2
        (fun a => a.removeListener it.1.1 it.1.2)) s).Settled :=
  settled_foldl _
    (fun s1 (it : (Connection × Nat) × Nat) h1 => settled_removeListener s1 it.2 it.1.1 it.1.2 h1)
    E s h

theorem settled_applicationWillTerminate (s : StorageManager) (h : s.Settled) :
    s.applicationWillTerminate.Settled := by
  unfold applicationWillTerminate
  simp only
  exact settled_foldl _ settled_removeStorageAreaByConnection _ _
    (settled_foldl_removeListener _ s h)

theorem settled_invalidateConnectionInternal (s : StorageManager) (c : Connection)
    (h : s.Settled) : (s.invalidateConnectionInternal c).Settled := by
  rw [invalidateConnectionInternal_eq]
  obtain ⟨f1, f2, f3, f4, f5⟩ := foldl_removeListener_fields
    (s.storageAreasByConnection.filter (fun it => decide (it.1.1 = c))) s
  have h1 := settled_foldl_removeListener
    (s.storageAreasByConnection.filter (fun it => decide (it.1.1 = c))) s h
  generalize (s.storageAreasByConnection.filter (fun it => decide (it.1.1 = c))).foldl
    (fun acc it => acc.callOnStorageArea it.2 (fun a => a.removeListener it.1.1 it.1.2)) s
    = s1 at f1 f2 f3 f4 f5 h1
  refine settled_derefStorageAreas _ _ (wellFormed_setBinding s1 _ h1.wellFormed) ?_ h1.nonEmpty ?_
  · refine accounted_setBindings s1 _ h1.accounted ?_ ?_
    · exact WTF.HashMap.keys_filter_nodup _ _ h.accounted.bindingKeys
    · intro k q hq
      rw [get_filter_connection] at hq
      split at hq
      · apply h1.accounted.boundLive k.1 k.2 q
        unfold findStorageArea
        rw [f4]
        exact hq
      · cases hq
  · intro q b hq
    have hq' : s1.storageArea q = some b := hq
    rcases (refCount_pos_iff s1 q).mp (h1.owned q b hq') with h6 | h6
    · right
      rw [f4] at h6
      exact h6
    · left
      apply (refCount_pos_iff _ q).mpr
      right
      exact h6

theorem settled_create (t : LocalStorageDatabaseTracker) : (create t).Settled := by
  refine ⟨wellFormed_create t, ⟨List.nodup_nil, List.nodup_nil, List.nodup_nil, ?_, ?_, ?_, ?_,
    ?_⟩, ?_, ?_⟩
  · intro c i p h
    cases h
  · intro id n h
    cases h
  · intro id n h
    cases h
  · intro id n h
    cases h
  · intro p a id h
    cases h
  · intro id n h
    cases h
  · intro p a h
    cases h

/-- Every request, whether or not it respects the protocol, keeps the manager
settled. -/
theorem settled_handle (s : StorageManager) (r : Request) (h : s.Settled) :
    (s.handle r).Settled := by
  cases r with
  | createLocalStorageMap c i n o => exact settled_createLocalStorageMap s c i n o h
  | createSessionStorageMap c i n o => exact settled_createSessionStorageMap s c i n o h
  | destroyStorageMap c i => exact settled_destroyStorageMap s c i h
  | getValues c i seed => exact settled_getValues s c i seed h
  | setItem c i src seed k v u => exact settled_setItem s c i src seed k v u h
  | removeItem c i src seed k u => exact settled_removeItem s c i src seed k u h
  | clear c i src seed u => exact settled_clear s c i src seed u h
  | createSessionStorageNamespace n c q =>
    exact settled_createSessionStorageNamespaceInternal s n c q h
  | destroySessionStorageNamespace n =>
    exact settled_destroySessionStorageNamespaceInternal s n h
  | setAllowedSessionStorageNamespaceConnection n c =>
    exact settled_setAllowedSessionStorageNamespaceConnectionInternal s n c h
  | cloneSessionStorageNamespace n m =>
    exact settled_cloneSessionStorageNamespaceInternal s n m h
  | applicationWillTerminate => exact settled_applicationWillTerminate s h
  | invalidateConnection c => exact settled_invalidateConnectionInternal s c h
  | deleteEntriesForOrigin o => exact settled_deleteEntriesForOriginInternal s o h
  | deleteAllEntries => exact settled_deleteAllEntriesInternal s h

theorem settled_run_from (requests : List Request) (s : StorageManager) (h : s.Settled) :
    (s.run requests).Settled :=
  settled_foldl _ settled_handle requests s h

/-- Every state the manager reaches from `create` is settled. -/
theorem settled_run (t : LocalStorageDatabaseTracker) (requests : List Request) :
    ((create t).run requests).Settled :=
  settled_run_from requests _ (settled_create t)

end StorageManager

/-! ## Local storage namespaces index the bound storage areas -/

namespace StorageManager

/-- A live storage area of a local storage namespace is bound. -/
theorem bound_of_local (s : StorageManager) (h : s.Settled) (p : Nat) (a : StorageArea)
    (id : Nat) (ha : s.storageArea p = some a) (hns : a.localStorageNamespace = some id) :
    ∃ c i, s.findStorageArea c i = some p := by
  rcases (refCount_pos_iff s p).mp (h.owned p a ha) with h1 | ⟨N, n, o, hN, ho⟩
  · obtain ⟨k, hk⟩ := (WTF.HashMap.mem_values_iff _ _).mp h1
    exact ⟨k.1, k.2, WTF.HashMap.get_of_mem _ _ _ h.accounted.bindingKeys hk⟩
  · obtain ⟨b, hb, hbn⟩ := h.wellFormed.sessionLive N n hN o p ho
    rw [ha] at hb
    cases hb
    rw [hns] at hbn
    cases hbn

/-- A storage area that is live after a request that takes bindings out was live
before, and differs at most in its listeners. -/
theorem storageArea_unbinds (s : StorageManager) (r : Request) (hr : r.unbinds = true)
    (q : Nat) (b' : StorageArea) (h : (s.handle r).storageArea q = some b') :
    ∃ b, s.storageArea q = some b
      ∧ ({ b' with eventListeners := [] } : StorageArea) = { b with eventListeners := [] } := by
  cases r with
  | destroyStorageMap c i =>
    have h' : (s.destroyStorageMap c i).storageArea q = some b' := h
    unfold destroyStorageMap at h'
    cases hg : WTF.HashMap.get s.storageAreasByConnection (c, i) with
    | none =>
      rw [hg] at h'
      exact ⟨b', h', rfl⟩
    | some p =>
      rw [hg] at h'
      simp only at h'
      rw [storageArea_derefStorageArea] at h'
      split at h'
      · cases h'
      · have h2 : (s.callOnStorageArea p (fun a => a.removeListener c i)).storageArea q
            = some b' := h'
        rw [storageArea_callOnStorageArea] at h2
        by_cases hqp : q = p
        · rw [if_pos hqp] at h2
          rw [hqp]
          cases hs : s.storageArea p with
          | none => rw [hs] at h2; cases h2
          | some b =>
            rw [hs] at h2
            simp only [Option.map_some', Option.some.injEq] at h2
            refine ⟨b, rfl, ?_⟩
            rw [← h2]
            rfl
        · rw [if_neg hqp] at h2
          exact ⟨b', h2, rfl⟩
  | invalidateConnection c => exact invalidateConnectionInternal_shrinks s c q b' h
  | applicationWillTerminate =>
    obtain ⟨b, hb, e⟩ := storageArea_applicationWillTerminate s q b' h
    refine ⟨b, hb, ?_⟩
    rw [e]
  | _ => cases hr

end StorageManager

theorem StorageArea.owner_of_same (a b : StorageArea)
    (h : ({ b with eventListeners := [] } : StorageArea) = { a with eventListeners := [] }) :
    b.localStorageNamespace = a.localStorageNamespace ∧ b.securityOrigin = a.securityOrigin := by
  have h1 := congrArg StorageArea.localStorageNamespace h
  have h2 := congrArg StorageArea.securityOrigin h
  exact ⟨h1, h2⟩

/-! ## Deleting the entries of an origin -/

theorem List.foldl_flatMap_eq {α β σ : Type} (g : σ → β → σ) (f : α → List β) (L : List α)
    (s : σ) : (L.flatMap f).foldl g s = L.foldl (fun acc n => (f n).foldl g acc) s := by
  induction L generalizing s with
  | nil => rfl
  | cons x L ih =>
    rw [List.flatMap_cons, List.foldl_append, ih]
    rfl

namespace StorageManager

theorem foldl_forceClear_fields (ps : List Nat) (s : StorageManager) :
    (ps.foldl (fun acc p => acc.callOnStorageArea p StorageArea.forceClear) s).nextAddress
        = s.nextAddress
    ∧ (ps.foldl (fun acc p => acc.callOnStorageArea p StorageArea.forceClear) s
        ).sessionStorageNamespaces = s.sessionStorageNamespaces
    ∧ (ps.foldl (fun acc p => acc.callOnStorageArea p StorageArea.forceClear) s
        ).localStorageNamespaces = s.localStorageNamespaces
    ∧ (ps.foldl (fun acc p => acc.callOnStorageArea p StorageArea.forceClear) s
        ).storageAreasByConnection = s.storageAreasByConnection
    ∧ (ps.foldl (fun acc p => acc.callOnStorageArea p StorageArea.forceClear) s
        ).localStorageDatabaseTracker = s.localStorageDatabaseTracker := by
  induction ps generalizing s with
  | nil => exact ⟨rfl, rfl, rfl, rfl, rfl⟩
  | cons p ps ih =>
    obtain ⟨f1, f2, f3, f4, f5⟩ := callOnStorageArea_fields s p StorageArea.forceClear
    obtain ⟨g1, g2, g3, g4, g5⟩ := ih (s.callOnStorageArea p StorageArea.forceClear)
    exact ⟨g1.trans f1, g2.trans f2, g3.trans f3, g4.trans f4, g5.trans f5⟩

theorem storageArea_foldl_forceClear (ps : List Nat) (s : StorageManager) (q : Nat) :
    (ps.foldl (fun acc p => acc.callOnStorageArea p StorageArea.forceClear) s).storageArea q
      = if q ∈ ps then (s.storageArea q).map (fun a => a.forceClear.1) else s.storageArea q := by
  induction ps generalizing s with
  | nil => simp
  | cons p ps ih =>
    rw [List.foldl_cons, ih, storageArea_callOnStorageArea]
    by_cases hqp : q = p
    · subst hqp
      simp only [if_true, List.mem_cons, true_or]
      cases s.storageArea q with
      | none => simp
      | some a =>
        have e : a.forceClear.1.forceClear.1 = a.forceClear.1 := rfl
        simp only [Option.map_some', e, ite_self]
    · simp only [if_neg hqp, List.mem_cons, hqp, false_or, if_false]

theorem forceClearEffects_congr (s s' : StorageManager) (ps : List Nat)
    (h : ∀ p ∈ ps, s'.storageArea p = s.storageArea p) :
    s'.forceClearEffects ps = s.forceClearEffects ps := by
  induction ps with
  | nil => rfl
  | cons p ps ih =>
    unfold forceClearEffects at ih ⊢
    rw [List.flatMap_cons, List.flatMap_cons, h p (List.mem_cons_self _ _),
      ih (fun q hq => h q (List.mem_cons_of_mem _ hq))]

theorem trace_foldl_forceClear (ps : List Nat) (hnd : ps.Nodup) (s : StorageManager) :
    (ps.foldl (fun acc p => acc.callOnStorageArea p StorageArea.forceClear) s).trace
      = s.trace ++ s.forceClearEffects ps := by
  induction ps generalizing s with
  | nil => simp [forceClearEffects]
  | cons p ps ih =>
    obtain ⟨hp, hnd'⟩ := List.nodup_cons.mp hnd
    rw [List.foldl_cons, ih hnd', trace_callOnStorageArea,
      forceClearEffects_congr s (s.callOnStorageArea p StorageArea.forceClear) ps]
    · unfold forceClearEffects
      rw [List.flatMap_cons, List.append_assoc]
      cases s.storageArea p <;> rfl
    · intro q hq
      rw [storageArea_callOnStorageArea, if_neg]
      rintro rfl
      exact hp hq

theorem clearStorageAreasMatchingOrigin_eq (s : StorageManager) (n : LocalStorageNamespace)
    (o : SecurityOrigin) :
    s.clearStorageAreasMatchingOrigin n o
      = ((n.storageAreaMap.filter fun it => decide (it.1 = o)).map Prod.snd).foldl
          (fun acc p => acc.callOnStorageArea p StorageArea.forceClear) s := by
  unfold clearStorageAreasMatchingOrigin
  generalize n.storageAreaMap = l
  induction l generalizing s with
  | nil => rfl
  | cons it l ih =>
    rw [List.foldl_cons]
    by_cases h : it.1 = o
    · rw [if_pos h, ih, List.filter_cons_of_pos (by simpa using h)]
      rfl
    · rw [if_neg h, ih, List.filter_cons_of_neg (by simpa using h)]

theorem clearAllStorageAreas_eq (s : StorageManager) (n : LocalStorageNamespace) :
    s.clearAllStorageAreas n
      = ((n.storageAreaMap.filter fun _ => true).map Prod.snd).foldl
          (fun acc p => acc.callOnStorageArea p StorageArea.forceClear) s := by
  unfold clearAllStorageAreas
  rw [List.filter_true, List.foldl_map]

theorem deleteEntriesForOriginInternal_eq (s : StorageManager) (o : SecurityOrigin) :
    s.deleteEntriesForOriginInternal o
      = ((s.indexedStorageAreas fun x => decide (x = o)).foldl
          (fun acc p => acc.callOnStorageArea p StorageArea.forceClear) s).emit
          [Effect.deleteDatabaseWithOrigin o] := by
  unfold deleteEntriesForOriginInternal indexedStorageAreas
  rw [List.foldl_flatMap_eq]
  congr 1
  congr 1
  funext acc n
  exact clearStorageAreasMatchingOrigin_eq acc n o

theorem deleteAllEntriesInternal_eq (s : StorageManager) :
    s.deleteAllEntriesInternal
      = ((s.indexedStorageAreas fun _ => true).foldl
          (fun acc p => acc.callOnStorageArea p StorageArea.forceClear) s).emit
          [Effect.deleteAllDatabases] := by
  unfold deleteAllEntriesInternal indexedStorageAreas
  rw [List.foldl_flatMap_eq]
  congr 1
  congr 1
  funext acc n
  exact clearAllStorageAreas_eq acc n

theorem mem_indexedStorageAreas (s : StorageManager) (f : SecurityOrigin → Bool) (p : Nat) :
    p ∈ s.indexedStorageAreas f
      ↔ ∃ id n o, (id, n) ∈ s.localStorageNamespaces ∧ (o, p) ∈ n.storageAreaMap
          ∧ f o = true := by
  unfold indexedStorageAreas
  rw [List.mem_flatMap]
  constructor
  · rintro ⟨n, hn, hp⟩
    obtain ⟨e, he, rfl⟩ := List.mem_map.mp hn
    obtain ⟨x, hx, rfl⟩ := List.mem_map.mp hp
    obtain ⟨hx1, hx2⟩ := List.mem_filter.mp hx
    exact ⟨e.1, e.2, x.1, he, hx1, hx2⟩
  · rintro ⟨id, n, o, hn, hp, hf⟩
    refine ⟨n, List.mem_map.mpr ⟨(id, n), hn, rfl⟩, ?_⟩
    exact List.mem_map.mpr ⟨(o, p), List.mem_filter.mpr ⟨hp, hf⟩, rfl⟩

theorem indexedStorageAreas_nodup (s : StorageManager) (h : s.Accounted)
    (f : SecurityOrigin → Bool) : (s.indexedStorageAreas f).Nodup := by
  unfold indexedStorageAreas WTF.HashMap.values
  rw [List.flatMap_map, List.nodup_flatMap]
  constructor
  · rintro ⟨id, n⟩ hn
    refine List.Nodup.map_on ?_ (List.Nodup.filter _
      (List.Nodup.of_map Prod.fst (h.localOrigins id n hn)))
    rintro ⟨o1, p1⟩ h1 ⟨o2, p2⟩ h2 e
    have e' : p1 = p2 := e
    subst e'
    obtain ⟨a1, ha1, _, ho1⟩ := h.localLive id n hn o1 p1 (List.mem_filter.mp h1).1
    obtain ⟨a2, ha2, _, ho2⟩ := h.localLive id n hn o2 p1 (List.mem_filter.mp h2).1
    rw [ha1] at ha2
    cases ha2
    rw [← ho1, ← ho2]
  · have hk : List.Pairwise (fun x y : Nat × LocalStorageNamespace => x.1 ≠ y.1)
        s.localStorageNamespaces := List.pairwise_map.mp h.localKeys
    refine List.Pairwise.imp_of_mem ?_ hk
    rintro ⟨id1, n1⟩ ⟨id2, n2⟩ hn1 hn2 hne p hp1 hp2
    obtain ⟨x1, hx1, e1⟩ := List.mem_map.mp hp1
    obtain ⟨x2, hx2, e2⟩ := List.mem_map.mp hp2
    obtain ⟨a1, ha1, hs1, _⟩ := h.localLive id1 n1 hn1 x1.1 p
      (by rw [← e1]; exact (List.mem_filter.mp hx1).1)
    obtain ⟨a2, ha2, hs2, _⟩ := h.localLive id2 n2 hn2 x2.1 p
      (by rw [← e2]; exact (List.mem_filter.mp hx2).1)
    rw [ha1] at ha2
    cases ha2
    rw [hs1] at hs2
    exact hne (Option.some.inj hs2)

/-- The storage areas that the local storage namespaces index under an accepted origin
are the live storage areas of a local storage namespace with an accepted origin. -/
theorem mem_indexedStorageAreas_iff (s : StorageManager) (h : s.Accounted)
    (f : SecurityOrigin → Bool) (p : Nat) (a : StorageArea) (ha : s.storageArea p = some a) :
    p ∈ s.indexedStorageAreas f
      ↔ a.localStorageNamespace.isSome = true ∧ f a.securityOrigin = true := by
  rw [mem_indexedStorageAreas]
  constructor
  · rintro ⟨id, n, o, hn, hp, hf⟩
    obtain ⟨b, hb, hs, ho⟩ := h.localLive id n hn o p hp
    rw [ha] at hb
    cases hb
    rw [hs, ho]
    exact ⟨rfl, hf⟩
  · rintro ⟨hs, hf⟩
    cases hid : a.localStorageNamespace with
    | none => rw [hid] at hs; cases hs
    | some id =>
      obtain ⟨n, hn, hp⟩ := h.localIndexed p a id ha hid
      exact ⟨id, n, a.securityOrigin, hn, hp, hf⟩

/-- The state after `callOnStorageArea ... forceClear` on each storage area that the
local storage namespaces index under an accepted origin. -/
theorem forceClear_indexed (s : StorageManager) (h : s.Settled) (f : SecurityOrigin → Bool) :
    ((s.indexedStorageAreas f).foldl
        (fun acc p => acc.callOnStorageArea p StorageArea.forceClear) s).storageAreasByConnection
      = s.storageAreasByConnection
    ∧ ((s.indexedStorageAreas f).foldl
        (fun acc p => acc.callOnStorageArea p StorageArea.forceClear) s).sessionStorageNamespaces
      = s.sessionStorageNamespaces
    ∧ ((s.indexedStorageAreas f).foldl
        (fun acc p => acc.callOnStorageArea p StorageArea.forceClear) s).localStorageNamespaces
      = s.localStorageNamespaces
    ∧ (∀ p, ((s.indexedStorageAreas f).foldl
          (fun acc p => acc.callOnStorageArea p StorageArea.forceClear) s).storageArea p
        = (s.storageArea p).map fun a =>
            if a.localStorageNamespace.isSome = true ∧ f a.securityOrigin = true
            then a.forceClear.1 else a)
    ∧ ((s.indexedStorageAreas f).foldl
        (fun acc p => acc.callOnStorageArea p StorageArea.forceClear) s).trace
      = s.trace ++ s.forceClearEffects (s.indexedStorageAreas f) := by
  obtain ⟨_, f2, f3, f4, _⟩ := foldl_forceClear_fields (s.indexedStorageAreas f) s
  refine ⟨f4, f2, f3, ?_, trace_foldl_forceClear _ (indexedStorageAreas_nodup s h.accounted f) s⟩
  intro p
  rw [storageArea_foldl_forceClear]
  cases ha : s.storageArea p with
  | none => simp
  | some a =>
    simp only [Option.map_some']
    by_cases hm : p ∈ s.indexedStorageAreas f
    · rw [if_pos hm, if_pos ((mem_indexedStorageAreas_iff s h.accounted f p a ha).mp hm)]
    · rw [if_neg hm, if_neg (fun hc => hm ((mem_indexedStorageAreas_iff s h.accounted f p a ha).mpr hc))]

end StorageManager

/-! ## Claims -/

/-- C1: a write whose resulting total size would exceed the quota of the map is
reported as quota-exceeded, leaves `items()` equal to what it was before the call
(an absent key stays absent), sends no message to any listener (so no storage
event), and issues no `setItem` to the backing store. The quota is the one the
storage map of the area enforces (`m_quotaInBytes` for every storage area of a
reachable state, `WellFormed.areasSound`), and the items are those `items()`
returns. -/
theorem StorageArea.setItem_rejected_when_over_quota
    (tracker : LocalStorageDatabaseTracker) (a : StorageArea)
    (sourceConnection : Connection) (sourceStorageAreaID : Nat)
    (key value urlString : String)
    (h : (a.items tracker).area.storageMap.quotaSize
          < serializedSize (WTF.HashMap.set (a.items tracker).result key value)) :
    (a.setItem tracker sourceConnection sourceStorageAreaID key value urlString).result = true
    ∧ ((a.setItem tracker sourceConnection sourceStorageAreaID key value urlString).area.items
          tracker).result = (a.items tracker).result
    ∧ (WTF.HashMap.get (a.items tracker).result key = none →
        WTF.HashMap.get ((a.setItem tracker sourceConnection sourceStorageAreaID key value
          urlString).area.items tracker).result key = none)
    ∧ (∀ c m d, Effect.send c m d ∉
        (a.setItem tracker sourceConnection sourceStorageAreaID key value urlString).effects)
    ∧ (∀ o k v, Effect.database o (.setItem k v) ∉
        (a.setItem tracker sourceConnection sourceStorageAreaID key value urlString).effects) := by
  rw [StorageArea.items_area, StorageArea.items_result] at h
  have hq : ((a.openDatabaseAndImportItemsIfNeeded tracker).1.storageMap.setItem key value)
      = { newStorageMap := none
          oldValue := WTF.HashMap.get (a.openDatabaseAndImportItemsIfNeeded tracker).1.storageMap.map key
          quotaException := true } := by
    simp [StorageMap.setItem, h]
  have hs : a.setItem tracker sourceConnection sourceStorageAreaID key value urlString
      = { area := (a.openDatabaseAndImportItemsIfNeeded tracker).1, result := true
          effects := (a.openDatabaseAndImportItemsIfNeeded tracker).2 } := by
    simp [StorageArea.setItem, hq]
  rw [hs]
  have hi := StorageArea.items_opened tracker a
  refine ⟨rfl, ?_, ?_, ?_, ?_⟩
  · simpa [StorageArea.items_result] using hi
  · intro hk
    rw [hi]
    exact hk
  · intro c m d hmem
    rcases StorageArea.openDatabase_effects tracker a _ hmem with h1 | h1 <;> cases h1
  · intro o k v hmem
    rcases StorageArea.openDatabase_effects tracker a _ hmem with h1 | h1 <;> cases h1

/-- Witness for C1: a session map with quota 10 rejects a 16-byte item. -/
theorem StorageArea.setItem_rejected_when_over_quota_witness :
    ((StorageArea.create none "https://example.com" 10).setItem ⟨[]⟩ 1 7 "key" "value" "u").result
        = true
    ∧ (((StorageArea.create none "https://example.com" 10).setItem ⟨[]⟩ 1 7 "key" "value"
          "u").area.items ⟨[]⟩).result = [] :=
  have h := StorageArea.setItem_rejected_when_over_quota ⟨[]⟩
    (StorageArea.create none "https://example.com" 10) 1 7 "key" "value" "u" (by decide)
  ⟨h.1, h.2.1⟩

/-- C2, as stated, fails: a persistent map created empty with quota 10 whose
backing store holds a 16-byte item returns that item from `items()`, so the
serialized size of `items()` after the operation `items` exceeds the quota. -/
theorem StorageArea.quota_invariant_counterexample :
    10 < serializedSize
        ((((StorageArea.create (some 1) "https://example.com" 10).run
            ⟨[("https://example.com", [("key", "value")])]⟩ [.items]).items
            ⟨[("https://example.com", [("key", "value")])]⟩).result) := by
  decide

/-- C2, amended: for every map created empty with quota `q` that belongs to no
persistent namespace, or whose backing store holds items of serialized size at
most `q`, and every finite sequence of setItem / removeItem / clear / forceClear /
items operations, the serialized size of `items()` afterwards is at most `q`
(every prefix of a sequence is a sequence, so this holds after each operation). -/
theorem StorageArea.quota_invariant
    (tracker : LocalStorageDatabaseTracker) (localStorageNamespace : Option Nat)
    (securityOrigin : SecurityOrigin) (q : Nat) (ops : List StorageArea.Operation)
    (h : localStorageNamespace = none
          ∨ serializedSize (tracker.storedItems securityOrigin) ≤ q) :
    serializedSize
      (((StorageArea.create localStorageNamespace securityOrigin q).run tracker ops).items
        tracker).result ≤ q := by
  have h0 : (StorageArea.create localStorageNamespace securityOrigin q).WithinQuota tracker q := by
    refine ⟨rfl, rfl, by simp [StorageArea.create, StorageMap.create], ?_⟩
    intro hn _
    refine ⟨rfl, ?_⟩
    rcases h with h | h
    · exact absurd h hn
    · exact h
  have h1 := StorageArea.withinQuota_run tracker q ops _ h0
  exact (StorageArea.withinQuota_open tracker q _ h1).1.2.2.1

/-- Witness for C2: a persistent map with quota 20 over a 16-byte backing store. -/
theorem StorageArea.quota_invariant_witness :
    serializedSize
      (((StorageArea.create (some 1) "https://example.com" 20).run
          ⟨[("https://example.com", [("key", "value")])]⟩
          [.setItem 1 7 "a" "b" "u", .removeItem 1 7 "key" "u", .setItem 1 7 "long" "value" "u",
           .forceClear, .clear 1 7 "u", .items]).items
        ⟨[("https://example.com", [("key", "value")])]⟩).result ≤ 20 :=
  StorageArea.quota_invariant ⟨[("https://example.com", [("key", "value")])]⟩ (some 1)
    "https://example.com" 20 _ (Or.inr (by decide))

/-- C3: for every sequence of write / remove / clear applied in order to one
storage area, the value `items()` holds for each key afterwards is the value of
the pure left fold of the sequence over the key/value map `items()` gave before,
where a write inserts or replaces its key, a remove deletes its key, a clear
empties the map, and a write the storage area reported as quota-exceeded is
skipped. -/
theorem StorageArea.items_eq_fold (tracker : LocalStorageDatabaseTracker) (a : StorageArea)
    (ms : List Mutation) (key : String) :
    WTF.HashMap.get ((a.run tracker (ms.map Mutation.toOperation)).items tracker).result key
      = PureMap.fold (WTF.HashMap.get (a.items tracker).result)
          (ms.zip (a.reports tracker ms)) key := by
  induction ms generalizing a with
  | nil => rfl
  | cons m ms ih =>
    have h := ih (a.apply tracker m.toOperation)
    simp only [List.map_cons, StorageArea.run, List.foldl_cons, StorageArea.reports,
      List.zip_cons_cons, PureMap.fold] at h ⊢
    rw [h, StorageArea.items_apply_mutation]

/-- C4, as stated, fails. Connection 5 holds the bindings 7 and 8 on one map and
writes through binding 7 with source handle 9: the event for its own binding
carries 9, not the handle 7 of the binding, and the event for the other binding
carries 9, not 0. -/
theorem StorageManager.self_origin_counterexample :
    (StorageManager.create ⟨[]⟩).effectsSince
      ((((StorageManager.create ⟨[]⟩).createLocalStorageMap 5 7 1 "o").createLocalStorageMap
        5 8 1 "o").setItem 5 7 9 0 "k" "v" "u")
      = [Effect.database "o" .create, Effect.database "o" .importItems,
         Effect.database "o" (.setItem "k" "v"),
         Effect.send 5 (.DispatchStorageEvent 9 (some "k") none (some "v") "u") 7,
         Effect.send 5 (.DispatchStorageEvent 9 (some "k") none (some "v") "u") 8,
         Effect.send 5 (.DidSetItem 0 "k" false) 7] := by
  decide

/-- C4, amended: when a connection issues a successful write on the map its
binding resolves to, the storage event delivered to every listener of the map
that belongs to the writing connection (its own binding included) carries the
`sourceStorageAreaID` argument of the write as source, the event delivered to
every listener of another connection carries source 0, and no other storage
event is sent. -/
theorem StorageManager.setItem_event_source
    (s : StorageManager) (connection : Connection)
    (storageMapID sourceStorageAreaID storageMapSeed : Nat) (key value urlString : String)
    (address : Nat) (a : StorageArea)
    (hf : s.findStorageArea connection storageMapID = some address)
    (ha : s.storageArea address = some a)
    (hok : (a.setItem s.localStorageDatabaseTracker connection sourceStorageAreaID
              key value urlString).result = false) :
    (∀ c h, (c, h) ∈ a.eventListeners →
        ∃ old, Effect.send c
            (.DispatchStorageEvent (if c = connection then sourceStorageAreaID else 0)
              (some key) old (some value) urlString) h
          ∈ s.effectsSince (s.setItem connection storageMapID sourceStorageAreaID
              storageMapSeed key value urlString))
    ∧ (∀ c h i k o n u, Effect.send c (.DispatchStorageEvent i k o n u) h
          ∈ s.effectsSince (s.setItem connection storageMapID sourceStorageAreaID
              storageMapSeed key value urlString) →
        (c, h) ∈ a.eventListeners ∧ i = if c = connection then sourceStorageAreaID else 0) := by
  rw [StorageManager.setItem_eq s connection storageMapID sourceStorageAreaID storageMapSeed
    key value urlString address a hf ha, StorageManager.effectsSince_storeOutcome]
  constructor
  · intro c h hm
    refine ⟨WTF.HashMap.get (a.items s.localStorageDatabaseTracker).result key, ?_⟩
    apply List.mem_append_left
    exact (StorageArea.setItem_event_mem _ a connection sourceStorageAreaID key value urlString
      hok c h _ _ _ _ _).mpr ⟨hm, rfl, rfl, rfl, rfl, rfl⟩
  · intro c h i k o n u hm
    rcases List.mem_append.mp hm with hm | hm
    · have := (StorageArea.setItem_event_mem _ a connection sourceStorageAreaID key value
        urlString hok c h i k o n u).mp hm
      exact ⟨this.1, this.2.1⟩
    · simp at hm

/-- Witness for C4: connections 5 and 6 are bound to one persistent map; the
write of connection 5 with source 9 reaches the listener `(6, 8)` with source 0. -/
theorem StorageManager.setItem_event_source_witness :
    ∃ old, Effect.send 6 (.DispatchStorageEvent (if 6 = 5 then 9 else 0)
        (some "k") old (some "v") "u") 8
      ∈ (((StorageManager.create ⟨[]⟩).createLocalStorageMap 5 7 1 "o").createLocalStorageMap
          6 8 1 "o").effectsSince
        ((((StorageManager.create ⟨[]⟩).createLocalStorageMap 5 7 1 "o").createLocalStorageMap
          6 8 1 "o").setItem 5 7 9 0 "k" "v" "u") :=
  (StorageManager.setItem_event_source
    (((StorageManager.create ⟨[]⟩).createLocalStorageMap 5 7 1 "o").createLocalStorageMap
      6 8 1 "o") 5 7 9 0 "k" "v" "u" 1
    { localStorageNamespace := some 1, localStorageDatabase := none
      didImportItemsFromDatabase := false, securityOrigin := "o", quotaInBytes := 5242880
      storageMap := { quotaSize := 5242880, map := [] }, eventListeners := [(5, 7), (6, 8)] }
    (by decide) (by decide) (by decide)).1 6 8 (by decide)

/-- C5: for a write through a binding that resolves to a map whose listeners are
a set (as they are in every reachable state, `WellFormed.areasSound`), (1) when
the write is accepted, each listener of the map is sent exactly
one storage event, with the written key, the value `items()` held under the key
before the write (null when absent), the written value and the causing URL; and
(2) when the map is empty and the pair fits its quota, a listener `(B, hB)` of
another connection receives exactly the event (key, null, value) with source 0,
and the acknowledgement sent to the writer reports quotaExceeded = false. -/
theorem StorageManager.setItem_fan_out
    (s : StorageManager) (connection : Connection)
    (storageMapID sourceStorageAreaID storageMapSeed : Nat) (key value urlString : String)
    (address : Nat) (a : StorageArea)
    (hf : s.findStorageArea connection storageMapID = some address)
    (ha : s.storageArea address = some a)
    (hset : a.eventListeners.Nodup) :
    ((a.setItem s.localStorageDatabaseTracker connection sourceStorageAreaID
          key value urlString).result = false →
      ∀ c h, (c, h) ∈ a.eventListeners →
        storageEventsTo (s.effectsSince (s.setItem connection storageMapID sourceStorageAreaID
            storageMapSeed key value urlString)) c h
          = [Message.DispatchStorageEvent (if c = connection then sourceStorageAreaID else 0)
              (some key) (WTF.HashMap.get (a.items s.localStorageDatabaseTracker).result key)
              (some value) urlString])
    ∧ ((a.items s.localStorageDatabaseTracker).result = [] →
        serializedSize [(key, value)]
          ≤ (a.items s.localStorageDatabaseTracker).area.storageMap.quotaSize →
        (∀ B hB, B ≠ connection → (B, hB) ∈ a.eventListeners →
          storageEventsTo (s.effectsSince (s.setItem connection storageMapID sourceStorageAreaID
              storageMapSeed key value urlString)) B hB
            = [Message.DispatchStorageEvent 0 (some key) none (some value) urlString])
        ∧ Effect.send connection (.DidSetItem storageMapSeed key false) storageMapID
            ∈ s.effectsSince (s.setItem connection storageMapID sourceStorageAreaID
                storageMapSeed key value urlString)) := by
  rw [StorageManager.setItem_eq s connection storageMapID sourceStorageAreaID storageMapSeed
    key value urlString address a hf ha, StorageManager.effectsSince_storeOutcome]
  have part1 : (a.setItem s.localStorageDatabaseTracker connection sourceStorageAreaID
          key value urlString).result = false →
      ∀ c h, (c, h) ∈ a.eventListeners →
        storageEventsTo ((a.setItem s.localStorageDatabaseTracker connection sourceStorageAreaID
            key value urlString).effects ++ [Effect.send connection
              (.DidSetItem storageMapSeed key (a.setItem s.localStorageDatabaseTracker connection
                sourceStorageAreaID key value urlString).result) storageMapID]) c h
          = [Message.DispatchStorageEvent (if c = connection then sourceStorageAreaID else 0)
              (some key) (WTF.HashMap.get (a.items s.localStorageDatabaseTracker).result key)
              (some value) urlString] := by
    intro hok c h hm
    rw [storageEventsTo_append, StorageArea.storageEventsTo_setItem _ a _ _ _ _ _ hok,
      StorageArea.countP_eq_one_of_nodup _ _ hset hm]
    simp [storageEventsTo, Effect.storageEventTo]
  refine ⟨part1, ?_⟩
  intro hempty hfits
  have hok : (a.setItem s.localStorageDatabaseTracker connection sourceStorageAreaID
      key value urlString).result = false := by
    rw [StorageArea.items_result] at hempty
    rw [StorageArea.items_area] at hfits
    have hq : ¬ (a.openDatabaseAndImportItemsIfNeeded s.localStorageDatabaseTracker).1.storageMap.quotaSize
        < serializedSize (WTF.HashMap.set
            (a.openDatabaseAndImportItemsIfNeeded s.localStorageDatabaseTracker).1.storageMap.map
            key value) := by
      rw [hempty]
      simpa [WTF.HashMap.set] using hfits
    rw [StorageArea.setItem_fits _ a _ _ _ _ _ hq]
  constructor
  · intro B hB hne hm
    have := part1 hok B hB hm
    rw [hempty] at this
    simpa [hne, WTF.HashMap.get] using this
  · rw [hok]
    simp

/-- Witness for C5: connections 5 and 6 bound to one empty persistent map. -/
theorem StorageManager.setItem_fan_out_witness :
    storageEventsTo
      ((((StorageManager.create ⟨[]⟩).createLocalStorageMap 5 7 1 "o").createLocalStorageMap
          6 8 1 "o").effectsSince
        ((((StorageManager.create ⟨[]⟩).createLocalStorageMap 5 7 1 "o").createLocalStorageMap
          6 8 1 "o").setItem 5 7 9 0 "k" "v1" "u")) 6 8
      = [Message.DispatchStorageEvent 0 (some "k") none (some "v1") "u"] :=
  ((StorageManager.setItem_fan_out
    (((StorageManager.create ⟨[]⟩).createLocalStorageMap 5 7 1 "o").createLocalStorageMap
      6 8 1 "o") 5 7 9 0 "k" "v1" "u" 1
    { localStorageNamespace := some 1, localStorageDatabase := none
      didImportItemsFromDatabase := false, securityOrigin := "o", quotaInBytes := 5242880
      storageMap := { quotaSize := 5242880, map := [] }, eventListeners := [(5, 7), (6, 8)] }
    (by decide) (by decide) (by decide)).2 (by decide) (by decide)).1 6 8 (by decide) (by decide)

/-- C6: a write, remove or clear issued through a binding that resolves to the
storage area `a` at `address` is confined to it: every storage area at another
address keeps its items and its listeners, `a` keeps its listeners, both
namespace registries and the binding table are unchanged, and every storage event
the operation sends goes to a listener of `a`. -/
theorem StorageManager.mutation_confined_to_resolved_area
    (s : StorageManager) (connection : Connection)
    (storageMapID sourceStorageAreaID storageMapSeed : Nat) (key value urlString : String)
    (address : Nat) (a : StorageArea)
    (hf : s.findStorageArea connection storageMapID = some address)
    (ha : s.storageArea address = some a) :
    s.ConfinedTo (s.setItem connection storageMapID sourceStorageAreaID storageMapSeed
        key value urlString) address a
    ∧ s.ConfinedTo (s.removeItem connection storageMapID sourceStorageAreaID storageMapSeed
        key urlString) address a
    ∧ s.ConfinedTo (s.clear connection storageMapID sourceStorageAreaID storageMapSeed
        urlString) address a := by
  refine ⟨?_, ?_, ?_⟩
  · rw [StorageManager.setItem_eq s _ _ _ _ _ _ _ address a hf ha]
    exact StorageManager.confinedTo_storeOutcome s address a _ _
      (StorageArea.eventListeners_setItem _ a _ _ _ _ _) (StorageArea.ownEffect_setItem _ a _ _ _ _ _)
      (by intro c h i k o n u he; cases he)
  · rw [StorageManager.removeItem_eq s _ _ _ _ _ _ address a hf ha]
    exact StorageManager.confinedTo_storeOutcome s address a _ _
      (StorageArea.eventListeners_removeItem _ a _ _ _ _) (StorageArea.ownEffect_removeItem _ a _ _ _ _)
      (by intro c h i k o n u he; cases he)
  · rw [StorageManager.clear_eq s _ _ _ _ _ address a hf ha]
    exact StorageManager.confinedTo_storeOutcome s address a _ _
      (StorageArea.eventListeners_clear _ a _ _ _) (StorageArea.ownEffect_clear _ a _ _ _)
      (by intro c h i k o n u he; cases he)

/-- Witness for C6: a write through a binding of persistent namespace 1 leaves the
session map of the same origin at address 3 untouched. -/
theorem StorageManager.mutation_confined_to_resolved_area_witness :
    ((((((StorageManager.create ⟨[]⟩).createLocalStorageMap 5 7 1 "o").createLocalStorageMap
        6 8 1 "p").createSessionStorageNamespaceInternal 3 (some 5) 100).createSessionStorageMap
        5 9 3 "o").setItem 5 7 7 0 "k" "v" "u").storageArea 3
      = (((((StorageManager.create ⟨[]⟩).createLocalStorageMap 5 7 1 "o").createLocalStorageMap
        6 8 1 "p").createSessionStorageNamespaceInternal 3 (some 5) 100).createSessionStorageMap
        5 9 3 "o").storageArea 3 :=
  (StorageManager.mutation_confined_to_resolved_area
    (((((StorageManager.create ⟨[]⟩).createLocalStorageMap 5 7 1 "o").createLocalStorageMap
        6 8 1 "p").createSessionStorageNamespaceInternal 3 (some 5) 100).createSessionStorageMap
        5 9 3 "o") 5 7 7 0 "k" "v" "u" 1
    { localStorageNamespace := some 1, localStorageDatabase := none
      didImportItemsFromDatabase := false, securityOrigin := "o", quotaInBytes := 5242880
      storageMap := { quotaSize := 5242880, map := [] }, eventListeners := [(5, 7)] }
    (by decide) (by decide)).1.1 3 (by decide)

/-- C7: in a well-formed state in which the session namespaces `S` and `D` exist
and `D` holds no storage area (what `cloneTo` requires), after
`cloneSessionStorageNamespaceInternal S D` the storage areas `S` and `D` hold
for an origin are different objects, and every sequence of write / remove /
clear made on the storage area of `D` leaves the storage area of `S`, so its
`items()`, unchanged, and the other way round. -/
theorem StorageManager.clone_independence
    (s : StorageManager) (hwf : s.WellFormed) (S D : Nat) (nS nD nD' : SessionStorageNamespace)
    (hS : WTF.HashMap.get s.sessionStorageNamespaces S = some nS)
    (hD : WTF.HashMap.get s.sessionStorageNamespaces D = some nD)
    (hE : nD.storageAreaMap = [])
    (hD' : WTF.HashMap.get (s.cloneSessionStorageNamespaceInternal S D).sessionStorageNamespaces D
      = some nD')
    (o : SecurityOrigin) (pS pD : Nat)
    (hpS : WTF.HashMap.get nS.storageAreaMap o = some pS)
    (hpD : WTF.HashMap.get nD'.storageAreaMap o = some pD) (ms : List Mutation) :
    pS ≠ pD
    ∧ ((s.cloneSessionStorageNamespaceInternal S D).mutateStorageAreaAll pD ms).storageArea pS
        = (s.cloneSessionStorageNamespaceInternal S D).storageArea pS
    ∧ ((s.cloneSessionStorageNamespaceInternal S D).mutateStorageAreaAll pS ms).storageArea pD
        = (s.cloneSessionStorageNamespaceInternal S D).storageArea pD := by
  have hP := StorageManager.cloneProgress_clone s hwf S D nS nD hS hD hE
  obtain ⟨n, hn, _, hsome⟩ := hP.target
  rw [hn] at hD'
  cases hD'
  obtain ⟨hle, _⟩ := hsome o pD hpD
  obtain ⟨a, ha, _⟩ := hwf.sessionLive S nS (WTF.HashMap.mem_of_get _ _ _ hS) o pS
    (WTF.HashMap.mem_of_get _ _ _ hpS)
  have hlt := hwf.heapBound pS a ha
  have hne : pS ≠ pD := by omega
  exact ⟨hne, StorageManager.storageArea_mutateStorageAreaAll_of_ne pD pS ms _ hne,
    StorageManager.storageArea_mutateStorageAreaAll_of_ne pS pD ms _ (fun h => hne h.symm)⟩

/-- Witness for C7: writes on the clone at address 2 leave the source at address
1 as it was. -/
theorem StorageManager.clone_independence_witness :
    ((cloneExample.cloneSessionStorageNamespaceInternal 1 2).mutateStorageAreaAll 2
        [.write 6 9 "k" "w" "u", .clear 6 9 "u"]).storageArea 1
      = (cloneExample.cloneSessionStorageNamespaceInternal 1 2).storageArea 1 :=
  (StorageManager.clone_independence cloneExample (StorageManager.wellFormed_run _ _) 1 2
    ⟨some 5, 100, [("o", 1)]⟩ ⟨none, 100, []⟩ ⟨none, 100, [("o", 2)]⟩
    (by decide) (by decide) rfl (by decide) "o" 1 2 (by decide) (by decide)
    [.write 6 9 "k" "w" "u", .clear 6 9 "u"]).2.1

/-- C8: in a well-formed state in which the session namespaces `S` and `D` exist
and `D` holds no storage area, `cloneSessionStorageNamespaceInternal S D` makes
`D` hold a storage area for exactly the origins for which `S` holds one, each a
live storage area whose `items()` equal the `items()` of the storage area of `S`
for that origin at the time of the call, and it leaves the storage areas `S`
holds, and those storage areas themselves, unchanged. -/
theorem StorageManager.clone_copies_source_namespace
    (s : StorageManager) (hwf : s.WellFormed) (S D : Nat) (nS nD : SessionStorageNamespace)
    (hS : WTF.HashMap.get s.sessionStorageNamespaces S = some nS)
    (hD : WTF.HashMap.get s.sessionStorageNamespaces D = some nD)
    (hE : nD.storageAreaMap = []) :
    (∃ nD', WTF.HashMap.get (s.cloneSessionStorageNamespaceInternal S D).sessionStorageNamespaces D
          = some nD'
        ∧ (∀ o, WTF.HashMap.contains nD'.storageAreaMap o
            = WTF.HashMap.contains nS.storageAreaMap o)
        ∧ (∀ o pS, WTF.HashMap.get nS.storageAreaMap o = some pS →
            ∃ aS pD aD, s.storageArea pS = some aS
              ∧ WTF.HashMap.get nD'.storageAreaMap o = some pD
              ∧ (s.cloneSessionStorageNamespaceInternal S D).storageArea pD = some aD
              ∧ (aD.items (s.cloneSessionStorageNamespaceInternal S D).localStorageDatabaseTracker
                  ).result = (aS.items s.localStorageDatabaseTracker).result))
    ∧ (∃ nS', WTF.HashMap.get (s.cloneSessionStorageNamespaceInternal S D).sessionStorageNamespaces S
          = some nS' ∧ nS'.storageAreaMap = nS.storageAreaMap)
    ∧ (∀ o pS, WTF.HashMap.get nS.storageAreaMap o = some pS →
        (s.cloneSessionStorageNamespaceInternal S D).storageArea pS = s.storageArea pS) := by
  have hP := StorageManager.cloneProgress_clone s hwf S D nS nD hS hD hE
  obtain ⟨n, hn, hnone, hsome⟩ := hP.target
  have hlive : ∀ o pS, WTF.HashMap.get nS.storageAreaMap o = some pS →
      ∃ a, s.storageArea pS = some a ∧ a.localStorageNamespace = none :=
    fun o pS h => hwf.sessionLive S nS (WTF.HashMap.mem_of_get _ _ _ hS) o pS
      (WTF.HashMap.mem_of_get _ _ _ h)
  refine ⟨⟨n, hn, ?_, ?_⟩, ?_, ?_⟩
  · intro o
    unfold WTF.HashMap.contains
    cases h1 : WTF.HashMap.get n.storageAreaMap o with
    | none => rw [(hnone o).mp h1]
    | some p =>
      cases h2 : WTF.HashMap.get nS.storageAreaMap o with
      | none =>
        rw [(hnone o).mpr h2] at h1
        cases h1
      | some q => rfl
  · intro o pS hpS
    cases h1 : WTF.HashMap.get n.storageAreaMap o with
    | none =>
      rw [(hnone o).mp h1] at hpS
      cases hpS
    | some pD =>
      obtain ⟨_, pS', aS, h2, h3, h4⟩ := hsome o pD h1
      rw [hpS] at h2
      cases h2
      obtain ⟨a, ha, hns⟩ := hlive o pS hpS
      rw [h3] at ha
      cases ha
      refine ⟨aS, pD, aS.clone.1, h3, rfl, h4, ?_⟩
      rw [StorageArea.items_of_opened _ aS.clone.1 (Or.inl rfl),
        StorageArea.items_of_opened _ aS (Or.inl hns)]
      rfl
  · by_cases hne : S = D
    · subst hne
      rw [hS] at hD
      cases hD
      rw [StorageManager.cloneSessionStorageNamespaceInternal_eq s S S nS nS hS hS hE, hE]
      exact ⟨nS, hS, hE⟩
    · refine ⟨nS, ?_, rfl⟩
      rw [hP.others S hne]
      exact hS
  · intro o pS hpS
    obtain ⟨a, ha, _⟩ := hlive o pS hpS
    exact hP.old pS (hwf.heapBound pS a ha)

/-- Witness for C8: the clone of namespace 1 into the empty namespace 2. -/
theorem StorageManager.clone_copies_source_namespace_witness :
    ∃ nS', WTF.HashMap.get
        (cloneExample.cloneSessionStorageNamespaceInternal 1 2).sessionStorageNamespaces 1
          = some nS' ∧ nS'.storageAreaMap = [("o", 1)] :=
  (StorageManager.clone_copies_source_namespace cloneExample (StorageManager.wellFormed_run _ _)
    1 2 ⟨some 5, 100, [("o", 1)]⟩ ⟨none, 100, []⟩ (by decide) (by decide) rfl).2.1

/-- C9: for a well-formed state and a valid namespace identifier,
(1) `getOrCreateLocalStorageNamespace` followed by `getOrCreateStorageArea`
returns the storage area already indexed under (namespace, origin) when there is
one and changes nothing; (2) otherwise it returns a new storage area at the next
free address, with no items and quota 5 * 1024 * 1024 = 5242880, and indexes it;
(3) two bindings created by `createLocalStorageMap` for the same (namespace,
origin) through different unbound pairs resolve to the same storage area, and
(4) a write through the first that is acknowledged with quotaError = false is
returned by `getValues` through the second. -/
theorem StorageManager.local_bindings_share_storage_area
    (s : StorageManager) (hwf : s.WellFormed) (ns : Nat) (hv : WTF.isValidKey ns = true)
    (o : SecurityOrigin) :
    (∀ n p, WTF.HashMap.get s.localStorageNamespaces ns = some n →
        WTF.HashMap.get n.storageAreaMap o = some p →
        (s.getOrCreateLocalStorageNamespace ns).1.localGetOrCreateStorageArea ns o = (s, some p))
    ∧ ((∀ n, WTF.HashMap.get s.localStorageNamespaces ns = some n →
          WTF.HashMap.get n.storageAreaMap o = none) →
        ((s.getOrCreateLocalStorageNamespace ns).1.localGetOrCreateStorageArea ns o).2
            = some s.nextAddress
          ∧ ((s.getOrCreateLocalStorageNamespace ns).1.localGetOrCreateStorageArea ns o
              ).1.storageArea s.nextAddress
              = some (StorageArea.create (some ns) o 5242880)
          ∧ (StorageArea.create (some ns) o 5242880).storageMap = ⟨5242880, []⟩
          ∧ ∃ n', WTF.HashMap.get ((s.getOrCreateLocalStorageNamespace ns).1.localGetOrCreateStorageArea
                ns o).1.localStorageNamespaces ns = some n'
              ∧ WTF.HashMap.get n'.storageAreaMap o = some s.nextAddress)
    ∧ (∀ c1 i1 c2 i2, (c1, i1) ≠ (c2, i2) →
        s.findStorageArea c1 i1 = none → s.findStorageArea c2 i2 = none →
        ∃ p, ((s.createLocalStorageMap c1 i1 ns o).createLocalStorageMap c2 i2 ns o
              ).findStorageArea c1 i1 = some p
          ∧ ((s.createLocalStorageMap c1 i1 ns o).createLocalStorageMap c2 i2 ns o
              ).findStorageArea c2 i2 = some p
          ∧ ∀ src seed k v u seed',
              Effect.send c1 (.DidSetItem seed k false) i1
                ∈ ((s.createLocalStorageMap c1 i1 ns o).createLocalStorageMap c2 i2 ns o
                    ).effectsSince
                  (((s.createLocalStorageMap c1 i1 ns o).createLocalStorageMap c2 i2 ns o
                    ).setItem c1 i1 src seed k v u) →
              ∃ values,
                ((((s.createLocalStorageMap c1 i1 ns o).createLocalStorageMap c2 i2 ns o
                    ).setItem c1 i1 src seed k v u).getValues c2 i2 seed').2 = some values
                ∧ WTF.HashMap.get values k = some v) := by
  refine ⟨?_, ?_, ?_⟩
  · intro n p hn hp
    rw [StorageManager.getOrCreateLocalStorageNamespace_existing s ns hv n hn]
    exact StorageManager.localGetOrCreateStorageArea_existing s ns o n p hn hp
  · intro hnew
    rw [StorageManager.getOrCreateLocalStorageNamespace_valid s ns hv]
    have hget : WTF.HashMap.get
        (WTF.HashMap.add s.localStorageNamespaces ns (LocalStorageNamespace.create ns)) ns
        = some ((WTF.HashMap.get s.localStorageNamespaces ns).getD
            (LocalStorageNamespace.create ns)) := by
      rw [WTF.HashMap.get_add, if_pos rfl]
    have hn0 : WTF.HashMap.get ((WTF.HashMap.get s.localStorageNamespaces ns).getD
          (LocalStorageNamespace.create ns)).storageAreaMap o = none
        ∧ ((WTF.HashMap.get s.localStorageNamespaces ns).getD
          (LocalStorageNamespace.create ns)).quotaInBytes = 5242880 := by
      cases hg : WTF.HashMap.get s.localStorageNamespaces ns with
      | none => exact ⟨rfl, rfl⟩
      | some n =>
        exact ⟨hnew n hg, hwf.localQuota ns n (WTF.HashMap.mem_of_get _ _ _ hg)⟩
    generalize (WTF.HashMap.get s.localStorageNamespaces ns).getD
      (LocalStorageNamespace.create ns) = n0 at hget hn0
    rw [StorageManager.localGetOrCreateStorageArea_new _ ns o n0 hget hn0.1, hn0.2]
    refine ⟨rfl, ?_, rfl,
      { n0 with storageAreaMap := WTF.HashMap.set n0.storageAreaMap o s.nextAddress }, ?_, ?_⟩
    · simp [StorageManager.allocate, StorageManager.storageArea, WTF.HashMap.get_set]
    · simp [WTF.HashMap.get_set, hn0.2]
    · simp [WTF.HashMap.get_set]
  · intro c1 i1 c2 i2 hne hf1 hf2
    obtain ⟨p, n1, hn1, hp1, hb1, _⟩ :=
      StorageManager.createLocalStorageMap_unbound s c1 i1 ns hv o hf1
    have hf2' : (s.createLocalStorageMap c1 i1 ns o).findStorageArea c2 i2 = none := by
      unfold StorageManager.findStorageArea
      rw [hb1, WTF.HashMap.get_set, if_neg (fun h => hne h.symm)]
      exact hf2
    obtain ⟨p', n2, hn2, hp2, hb2, hsame⟩ :=
      StorageManager.createLocalStorageMap_unbound (s.createLocalStorageMap c1 i1 ns o)
        c2 i2 ns hv o hf2'
    have hpp : p' = p := hsame n1 p hn1 hp1
    subst hpp
    generalize (s.createLocalStorageMap c1 i1 ns o).createLocalStorageMap c2 i2 ns o = s2
      at hb2 hn2
    have hfind1 : s2.findStorageArea c1 i1 = some p' := by
      unfold StorageManager.findStorageArea
      rw [hb2, hb1, WTF.HashMap.get_set, if_neg hne, WTF.HashMap.get_set, if_pos rfl]
    have hfind2 : s2.findStorageArea c2 i2 = some p' := by
      unfold StorageManager.findStorageArea
      rw [hb2, WTF.HashMap.get_set, if_pos rfl]
    refine ⟨p', hfind1, hfind2, ?_⟩
    intro src seed k v u seed' hack
    cases ha : s2.storageArea p' with
    | none =>
      rw [(StorageManager.ignored_of_unresolved s2 c1 i1 (Or.inr ⟨p', hfind1, ha⟩)).2.1] at hack
      simp [StorageManager.effectsSince] at hack
    | some a =>
      rw [StorageManager.setItem_eq s2 c1 i1 src seed k v u p' a hfind1 ha] at hack ⊢
      rw [StorageManager.effectsSince_storeOutcome] at hack
      have hres : (a.setItem s2.localStorageDatabaseTracker c1 src k v u).result = false := by
        rcases List.mem_append.mp hack with h | h
        · rcases StorageArea.ownEffect_setItem _ a _ _ _ _ _ _ h with
            ⟨_, _, h1⟩ | ⟨_, _, _, _, _, _, _, _, h1⟩ <;> cases h1
        · rw [List.mem_singleton] at h
          injection h with _ hm _
          injection hm with _ _ hq
          exact hq.symm
      have hfind3 : (s2.storeOutcome p' (a.setItem s2.localStorageDatabaseTracker c1 src k v u)
          [Effect.send c1 (.DidSetItem seed k
            (a.setItem s2.localStorageDatabaseTracker c1 src k v u).result) i1]
          ).findStorageArea c2 i2 = some p' := hfind2
      rw [StorageManager.getValues_eq _ c2 i2 seed' p' _ hfind3
        (by rw [StorageManager.storageArea_storeOutcome, if_pos rfl])]
      refine ⟨_, rfl, ?_⟩
      show WTF.HashMap.get ((a.setItem s2.localStorageDatabaseTracker c1 src k v u).area.items
        s2.localStorageDatabaseTracker).result k = some v
      rw [StorageArea.items_setItem, hres]
      simp [WTF.HashMap.get_set]

/-- Witness for C9: connections 5 and 6 bind the origin "o" of namespace 1; the
value written through the first is read through the second. -/
theorem StorageManager.local_bindings_share_storage_area_witness :
    ∃ values,
      (((((StorageManager.create ⟨[]⟩).createLocalStorageMap 5 7 1 "o").createLocalStorageMap
          6 8 1 "o").setItem 5 7 9 0 "k" "v" "u").getValues 6 8 3).2 = some values
        ∧ WTF.HashMap.get values "k" = some "v" :=
  let h := (StorageManager.local_bindings_share_storage_area (StorageManager.create ⟨[]⟩)
    (StorageManager.wellFormed_create _) 1 (by decide) "o").2.2 5 7 6 8 (by decide) (by decide)
    (by decide)
  h.choose_spec.2.2 9 0 "k" "v" "u" 3 (by decide)

/-- C10, as stated, fails: after the session namespace is destroyed, a write
through the binding made before is carried out on the map the binding keeps
alive: its items change from empty to the written pair, and the write is
acknowledged. -/
theorem StorageManager.teardown_counterexample :
    (teardownExample.getValues 5 7 0).2 = some []
    ∧ ((teardownExample.setItem 5 7 7 0 "k" "v" "u").getValues 5 7 0).2 = some [("k", "v")]
    ∧ teardownExample.effectsSince (teardownExample.setItem 5 7 7 0 "k" "v" "u")
        = [Effect.send 5 (.DispatchStorageEvent 7 (some "k") none (some "v") "u") 7,
           Effect.send 5 (.DidSetItem 0 "k" false) 7] := by
  decide

/-- C10, amended: a write issued after `destroySessionStorageNamespaceInternal`
completes without error: no assertion fails and no null pointer is used. It
changes no storage area other than the one `(connection, storageMapID)` is
still bound to, it leaves the registries and the binding table as they were, and
it is a no-op when `(connection, storageMapID)` is not in the binding table. -/
theorem StorageManager.write_after_teardown
    (s : StorageManager) (storageNamespaceID : Nat) (connection : Connection)
    (storageMapID sourceStorageAreaID storageMapSeed : Nat) (key value urlString : String) :
    (∀ e ∈ (s.destroySessionStorageNamespaceInternal storageNamespaceID).effectsSince
          ((s.destroySessionStorageNamespaceInternal storageNamespaceID).setItem connection
            storageMapID sourceStorageAreaID storageMapSeed key value urlString),
        (∀ x, e ≠ Effect.assertionFailure x) ∧ e ≠ Effect.nullDereference)
    ∧ (∀ q, (s.destroySessionStorageNamespaceInternal storageNamespaceID).findStorageArea
          connection storageMapID ≠ some q →
        ((s.destroySessionStorageNamespaceInternal storageNamespaceID).setItem connection
            storageMapID sourceStorageAreaID storageMapSeed key value urlString).storageArea q
          = (s.destroySessionStorageNamespaceInternal storageNamespaceID).storageArea q)
    ∧ ((s.destroySessionStorageNamespaceInternal storageNamespaceID).setItem connection
          storageMapID sourceStorageAreaID storageMapSeed key value urlString).sessionStorageNamespaces
        = (s.destroySessionStorageNamespaceInternal storageNamespaceID).sessionStorageNamespaces
    ∧ ((s.destroySessionStorageNamespaceInternal storageNamespaceID).setItem connection
          storageMapID sourceStorageAreaID storageMapSeed key value urlString).localStorageNamespaces
        = (s.destroySessionStorageNamespaceInternal storageNamespaceID).localStorageNamespaces
    ∧ ((s.destroySessionStorageNamespaceInternal storageNamespaceID).setItem connection
          storageMapID sourceStorageAreaID storageMapSeed key value urlString).storageAreasByConnection
        = (s.destroySessionStorageNamespaceInternal storageNamespaceID).storageAreasByConnection
    ∧ ((s.destroySessionStorageNamespaceInternal storageNamespaceID).findStorageArea
          connection storageMapID = none →
        (s.destroySessionStorageNamespaceInternal storageNamespaceID).setItem connection
            storageMapID sourceStorageAreaID storageMapSeed key value urlString
          = s.destroySessionStorageNamespaceInternal storageNamespaceID) := by
  generalize s.destroySessionStorageNamespaceInternal storageNamespaceID = s1
  cases hf : s1.findStorageArea connection storageMapID with
  | none =>
    have h0 : s1.setItem connection storageMapID sourceStorageAreaID storageMapSeed key value
        urlString = s1 := by simp [StorageManager.setItem, hf]
    rw [h0]
    simp [StorageManager.effectsSince]
  | some p =>
    cases ha : s1.storageArea p with
    | none =>
      have h0 : s1.setItem connection storageMapID sourceStorageAreaID storageMapSeed key value
          urlString = s1 := by simp [StorageManager.setItem, hf, ha]
      rw [h0]
      simp [StorageManager.effectsSince]
    | some a =>
      have hc := (StorageManager.mutation_confined_aux s1 connection storageMapID
        sourceStorageAreaID storageMapSeed key value urlString p a hf ha)
      rw [StorageManager.setItem_eq s1 _ _ _ _ _ _ _ p a hf ha] at hc ⊢
      refine ⟨?_, ?_, rfl, rfl, rfl, ?_⟩
      · intro e he
        rw [StorageManager.effectsSince_storeOutcome] at he
        rcases List.mem_append.mp he with he | he
        · rcases StorageArea.ownEffect_setItem _ a _ _ _ _ _ e he with
            ⟨o, call, h1⟩ | ⟨c, h, i, k, o, n, u, _, h1⟩
          · subst h1
            exact ⟨fun x hx => (nomatch hx), fun hx => (nomatch hx)⟩
          · subst h1
            exact ⟨fun x hx => (nomatch hx), fun hx => (nomatch hx)⟩
        · rw [List.mem_singleton] at he
          subst he
          exact ⟨fun x hx => (nomatch hx), fun hx => (nomatch hx)⟩
      · intro q hq
        exact hc.1 q (fun h => hq (by rw [h]))
      · intro h
        cases h

/-- Witness for C10: the write of the counterexample state leaves address 2,
to which the pair `(5, 7)` is not bound, as it was. -/
theorem StorageManager.write_after_teardown_witness :
    (teardownExample.setItem 5 7 7 0 "k" "v" "u").storageArea 2 = teardownExample.storageArea 2 :=
  (StorageManager.write_after_teardown
    (((StorageManager.create ⟨[]⟩).createSessionStorageNamespaceInternal 1 (some 5) 100
      ).createSessionStorageMap 5 7 1 "o") 1 5 7 7 0 "k" "v" "u").2.1 2 (by decide)

/-- C11: when `(connection, storageMapID)` is not a key of the binding table,
`getValues`, `setItem`, `removeItem` and `clear` return the manager exactly as it
was: the registries, the binding table, every storage area with its items and
listeners, and the trace, so that no acknowledgement and no storage event is sent
and no error is signalled. `getValues` writes nothing to its out-parameter. -/
theorem StorageManager.unbound_requests_are_ignored
    (s : StorageManager) (connection : Connection) (storageMapID : Nat)
    (h : WTF.HashMap.contains s.storageAreasByConnection (connection, storageMapID) = false) :
    (∀ seed, s.getValues connection storageMapID seed = (s, none))
    ∧ (∀ src seed k v u, s.setItem connection storageMapID src seed k v u = s)
    ∧ (∀ src seed k u, s.removeItem connection storageMapID src seed k u = s)
    ∧ (∀ src seed u, s.clear connection storageMapID src seed u = s) := by
  have hf : s.findStorageArea connection storageMapID = none := by
    unfold WTF.HashMap.contains at h
    unfold StorageManager.findStorageArea
    cases hg : WTF.HashMap.get s.storageAreasByConnection (connection, storageMapID) with
    | none => rfl
    | some p => rw [hg] at h; cases h
  exact StorageManager.ignored_of_unresolved s connection storageMapID (Or.inl hf)

/-- Witness for C11: the pair `(5, 8)` is not bound in a manager that holds the
binding `(5, 7)`; a write through it changes nothing. -/
theorem StorageManager.unbound_requests_are_ignored_witness :
    ((StorageManager.create ⟨[]⟩).createLocalStorageMap 5 7 1 "o").setItem 5 8 9 0 "k" "v" "u"
      = (StorageManager.create ⟨[]⟩).createLocalStorageMap 5 7 1 "o" :=
  (StorageManager.unbound_requests_are_ignored
    ((StorageManager.create ⟨[]⟩).createLocalStorageMap 5 7 1 "o") 5 8 (by decide)).2.1
      9 0 "k" "v" "u"

/-- C12, as stated, fails: the registry of a new manager does not hold the
namespace identifier 0, and `createSessionStorageMap` for it fails the assertion
that the identifier is a valid key. -/
theorem StorageManager.createSessionStorageMap_counterexample :
    WTF.HashMap.contains (StorageManager.create ⟨[]⟩).sessionStorageNamespaces 0 = false
    ∧ (StorageManager.create ⟨[]⟩).effectsSince
        ((StorageManager.create ⟨[]⟩).createSessionStorageMap 5 7 0 "o")
      = [Effect.assertionFailure .createSessionStorageMapValidNamespaceID] := by
  decide

/-- C12, amended: when the session namespace identifier is not in the registry,
`createSessionStorageMap` inserts no binding, creates no storage area, adds no
listener and leaves both registries as they were; when the identifier is
moreover a valid key (neither 0 nor 2^64 - 1) the manager is exactly as it was,
trace included, so no error is signalled; when it is not a valid key the one
effect is the failed assertion on the identifier. -/
theorem StorageManager.createSessionStorageMap_stale_namespace
    (s : StorageManager) (connection : Connection) (storageMapID storageNamespaceID : Nat)
    (securityOrigin : SecurityOrigin)
    (h : WTF.HashMap.contains s.sessionStorageNamespaces storageNamespaceID = false) :
    (WTF.isValidKey storageNamespaceID = true →
        s.createSessionStorageMap connection storageMapID storageNamespaceID securityOrigin = s)
    ∧ (s.createSessionStorageMap connection storageMapID storageNamespaceID
          securityOrigin).storageAreasByConnection = s.storageAreasByConnection
    ∧ (s.createSessionStorageMap connection storageMapID storageNamespaceID
          securityOrigin).storageAreas = s.storageAreas
    ∧ (s.createSessionStorageMap connection storageMapID storageNamespaceID
          securityOrigin).sessionStorageNamespaces = s.sessionStorageNamespaces
    ∧ (s.createSessionStorageMap connection storageMapID storageNamespaceID
          securityOrigin).localStorageNamespaces = s.localStorageNamespaces
    ∧ (WTF.isValidKey storageNamespaceID = false →
        s.effectsSince (s.createSessionStorageMap connection storageMapID storageNamespaceID
          securityOrigin) = [Effect.assertionFailure .createSessionStorageMapValidNamespaceID]) := by
  have hg : WTF.HashMap.get s.sessionStorageNamespaces storageNamespaceID = none := by
    unfold WTF.HashMap.contains at h
    cases hg : WTF.HashMap.get s.sessionStorageNamespaces storageNamespaceID with
    | none => rfl
    | some p => rw [hg] at h; cases h
  have he : s.createSessionStorageMap connection storageMapID storageNamespaceID securityOrigin
      = s.emit (if WTF.isValidKey storageNamespaceID then []
          else [Effect.assertionFailure .createSessionStorageMapValidNamespaceID]) := by
    simp [StorageManager.createSessionStorageMap, StorageManager.emit, hg]
  rw [he]
  refine ⟨?_, rfl, rfl, rfl, rfl, ?_⟩
  · intro hv
    rw [hv]
    exact StorageManager.emit_nil s
  · intro hv
    rw [hv]
    simp [StorageManager.effectsSince, StorageManager.emit]

/-- Witness for C12: a map request for the valid, unregistered namespace 3. -/
theorem StorageManager.createSessionStorageMap_stale_namespace_witness :
    (StorageManager.create ⟨[]⟩).createSessionStorageMap 5 7 3 "o" = StorageManager.create ⟨[]⟩ :=
  (StorageManager.createSessionStorageMap_stale_namespace (StorageManager.create ⟨[]⟩) 5 7 3 "o"
    (by decide)).1 (by decide)

/-- C13, as stated, fails: the registry of a new manager does not hold the
session namespace 3, and `destroySessionStorageNamespaceInternal 3` fails its
assertion that the namespace exists, as do
`setAllowedSessionStorageNamespaceConnectionInternal 3` and, once a namespace 4
exists, `cloneSessionStorageNamespaceInternal 4 3`. -/
theorem StorageManager.stale_namespace_counterexample :
    WTF.HashMap.contains (StorageManager.create ⟨[]⟩).sessionStorageNamespaces 3 = false
    ∧ (StorageManager.create ⟨[]⟩).effectsSince
        ((StorageManager.create ⟨[]⟩).destroySessionStorageNamespaceInternal 3)
      = [Effect.assertionFailure .destroySessionStorageNamespaceExists]
    ∧ (StorageManager.create ⟨[]⟩).effectsSince
        ((StorageManager.create ⟨[]⟩).setAllowedSessionStorageNamespaceConnectionInternal 3 (some 5))
      = [Effect.assertionFailure .setAllowedSessionStorageNamespaceConnectionExists,
         Effect.nullDereference]
    ∧ ((StorageManager.create ⟨[]⟩).createSessionStorageNamespaceInternal 4 none 100).effectsSince
        (((StorageManager.create ⟨[]⟩).createSessionStorageNamespaceInternal 4 none
          100).cloneSessionStorageNamespaceInternal 4 3)
      = [Effect.assertionFailure .cloneSessionStorageNamespaceNewExists,
         Effect.nullDereference] := by
  decide

/-- C13, amended: for a session namespace identifier that is not in the registry,
`cloneSessionStorageNamespaceInternal` with it as source returns the manager
exactly as it was, so no error is signalled; the other lifecycle functions
signal an error: `destroySessionStorageNamespaceInternal` leaves the registries,
the binding table and the storage areas as they were and its one effect is the
failed assertion that the namespace exists, and
`setAllowedSessionStorageNamespaceConnectionInternal`, and
`cloneSessionStorageNamespaceInternal` with an existing source and the
identifier as destination, fail their assertion that the namespace exists. -/
theorem StorageManager.stale_namespace_lifecycle
    (s : StorageManager) (storageNamespaceID : Nat)
    (h : WTF.HashMap.contains s.sessionStorageNamespaces storageNamespaceID = false) :
    (∀ newStorageNamespaceID,
        s.cloneSessionStorageNamespaceInternal storageNamespaceID newStorageNamespaceID = s)
    ∧ s.destroySessionStorageNamespaceInternal storageNamespaceID
        = s.emit [Effect.assertionFailure .destroySessionStorageNamespaceExists]
    ∧ s.effectsSince (s.destroySessionStorageNamespaceInternal storageNamespaceID)
        = [Effect.assertionFailure .destroySessionStorageNamespaceExists]
    ∧ (∀ allowedConnection,
        Effect.assertionFailure .setAllowedSessionStorageNamespaceConnectionExists
          ∈ s.effectsSince (s.setAllowedSessionStorageNamespaceConnectionInternal
              storageNamespaceID allowedConnection))
    ∧ (∀ source, WTF.HashMap.contains s.sessionStorageNamespaces source = true →
        Effect.assertionFailure .cloneSessionStorageNamespaceNewExists
          ∈ s.effectsSince (s.cloneSessionStorageNamespaceInternal source storageNamespaceID)) := by
  have hg : WTF.HashMap.get s.sessionStorageNamespaces storageNamespaceID = none := by
    unfold WTF.HashMap.contains at h
    cases hg : WTF.HashMap.get s.sessionStorageNamespaces storageNamespaceID with
    | none => rfl
    | some p => rw [hg] at h; cases h
  refine ⟨?_, ?_, ?_, ?_, ?_⟩
  · intro D
    simp [StorageManager.cloneSessionStorageNamespaceInternal, hg]
  · simp [StorageManager.destroySessionStorageNamespaceInternal, hg]
  · simp [StorageManager.destroySessionStorageNamespaceInternal, hg, StorageManager.effectsSince,
      StorageManager.emit]
  · intro c
    simp [StorageManager.setAllowedSessionStorageNamespaceConnectionInternal, hg,
      StorageManager.effectsSince, StorageManager.emit]
  · intro S hS
    unfold WTF.HashMap.contains at hS
    cases hS' : WTF.HashMap.get s.sessionStorageNamespaces S with
    | none => rw [hS'] at hS; cases hS
    | some n =>
      simp [StorageManager.cloneSessionStorageNamespaceInternal, hg, hS',
        StorageManager.effectsSince, StorageManager.emit]

/-- Witness for C13: a clone from the unregistered namespace 3 changes nothing. -/
theorem StorageManager.stale_namespace_lifecycle_witness :
    ((StorageManager.create ⟨[]⟩).createSessionStorageNamespaceInternal 4 none
        100).cloneSessionStorageNamespaceInternal 3 4
      = (StorageManager.create ⟨[]⟩).createSessionStorageNamespaceInternal 4 none 100 :=
  (StorageManager.stale_namespace_lifecycle
    ((StorageManager.create ⟨[]⟩).createSessionStorageNamespaceInternal 4 none 100) 3
    (by decide)).1 4

/-- C14: `createLocalStorageMap` for a pair `(connection, storageMapID)` that is
already a key of the binding table fails the assertion `ASSERT(result.isNewEntry)`,
the check its FIXME calls a message check. For a pair that is not bound and a
valid namespace identifier none of the checks of `createLocalStorageMap` fails
and no null pointer is used: the one effect it can have is the failed assertion
of `addListener`, which tells of a listener left behind by an earlier violation;
and in a consistent state (the state of a manager in which no assertion has
failed so far, `consistent_of_clean`) it has no effect on the trace at all. -/
theorem StorageManager.createLocalStorageMap_protocol_error
    (s : StorageManager) (connection : Connection) (storageMapID storageNamespaceID : Nat)
    (securityOrigin : SecurityOrigin) :
    (WTF.HashMap.contains s.storageAreasByConnection (connection, storageMapID) = true →
        Effect.assertionFailure .createLocalStorageMapNewEntry
          ∈ s.effectsSince (s.createLocalStorageMap connection storageMapID storageNamespaceID
              securityOrigin))
    ∧ (WTF.HashMap.contains s.storageAreasByConnection (connection, storageMapID) = false →
        WTF.isValidKey storageNamespaceID = true →
        (∀ e ∈ s.effectsSince (s.createLocalStorageMap connection storageMapID
              storageNamespaceID securityOrigin),
            e = Effect.assertionFailure .addListenerNotRegistered)
        ∧ (s.Consistent →
            s.effectsSince (s.createLocalStorageMap connection storageMapID storageNamespaceID
              securityOrigin) = [])) := by
  constructor
  · intro hb
    apply StorageManager.mem_effectsSince_of_grows s _ _ _
      (StorageManager.trace_createLocalStorageMap s connection storageMapID storageNamespaceID
        securityOrigin)
    simp [StorageManager.createLocalStorageMapChecks, hb]
  · intro hb hv
    have hf : s.findStorageArea connection storageMapID = none := by
      unfold WTF.HashMap.contains at hb
      unfold StorageManager.findStorageArea
      cases hg : WTF.HashMap.get s.storageAreasByConnection (connection, storageMapID) with
      | none => rfl
      | some p => rw [hg] at hb; cases hb
    refine ⟨StorageManager.effects_createLocalStorageMap_unbound s connection storageMapID
      storageNamespaceID securityOrigin hf hv, ?_⟩
    intro hc
    apply StorageManager.effectsSince_of_trace
    rw [StorageManager.trace_createLocalStorageMap_unbound s connection storageMapID
      storageNamespaceID securityOrigin hc hf hv]
    simp

/-- Witness for C14: the pair `(5, 7)` is bound; a second `createLocalStorageMap`
for it fails the assertion, and one for the unbound pair `(6, 8)` has no effect
on the trace. -/
theorem StorageManager.createLocalStorageMap_protocol_error_witness :
    Effect.assertionFailure .createLocalStorageMapNewEntry
      ∈ ((StorageManager.create ⟨[]⟩).run [.createLocalStorageMap 5 7 1 "o"]).effectsSince
          (((StorageManager.create ⟨[]⟩).run [.createLocalStorageMap 5 7 1 "o"]
            ).createLocalStorageMap 5 7 1 "o")
    ∧ ((StorageManager.create ⟨[]⟩).run [.createLocalStorageMap 5 7 1 "o"]).effectsSince
        (((StorageManager.create ⟨[]⟩).run [.createLocalStorageMap 5 7 1 "o"]
          ).createLocalStorageMap 6 8 1 "o") = [] :=
  ⟨(StorageManager.createLocalStorageMap_protocol_error
      ((StorageManager.create ⟨[]⟩).run [.createLocalStorageMap 5 7 1 "o"]) 5 7 1 "o").1
      (by decide),
   ((StorageManager.createLocalStorageMap_protocol_error
      ((StorageManager.create ⟨[]⟩).run [.createLocalStorageMap 5 7 1 "o"]) 6 8 1 "o").2
      (by decide) (by decide)).2 (StorageManager.consistent_run _ _ (by decide))⟩

/-- C15: `setAllowedSessionStorageNamespaceConnectionInternal ns c` on a registered
session namespace whose slot holds `p` fails the assertion of
`setAllowedConnection` exactly when both `c` and `p` are non-null, and has no
effect otherwise; afterwards the slot holds `c` and the namespace holds the same
storage areas (the assertion being no check in a release build, this is so in
the failing case too); the other namespaces, the storage areas, the binding
table and the local namespaces are as they were. -/
theorem StorageManager.setAllowedConnection_slot
    (s : StorageManager) (storageNamespaceID : Nat) (n : SessionStorageNamespace)
    (allowedConnection : Option Connection)
    (hn : WTF.HashMap.get s.sessionStorageNamespaces storageNamespaceID = some n) :
    s.effectsSince (s.setAllowedSessionStorageNamespaceConnectionInternal storageNamespaceID
        allowedConnection)
      = (if allowedConnection.isSome ∧ n.allowedConnection.isSome
          then [Effect.assertionFailure .setAllowedConnectionSlotFree] else [])
    ∧ WTF.HashMap.get (s.setAllowedSessionStorageNamespaceConnectionInternal storageNamespaceID
          allowedConnection).sessionStorageNamespaces storageNamespaceID
        = some { allowedConnection := allowedConnection, quotaInBytes := n.quotaInBytes
                 storageAreaMap := n.storageAreaMap }
    ∧ (∀ other, other ≠ storageNamespaceID →
        WTF.HashMap.get (s.setAllowedSessionStorageNamespaceConnectionInternal storageNamespaceID
            allowedConnection).sessionStorageNamespaces other
          = WTF.HashMap.get s.sessionStorageNamespaces other)
    ∧ (s.setAllowedSessionStorageNamespaceConnectionInternal storageNamespaceID
          allowedConnection).storageAreas = s.storageAreas
    ∧ (s.setAllowedSessionStorageNamespaceConnectionInternal storageNamespaceID
          allowedConnection).storageAreasByConnection = s.storageAreasByConnection
    ∧ (s.setAllowedSessionStorageNamespaceConnectionInternal storageNamespaceID
          allowedConnection).localStorageNamespaces = s.localStorageNamespaces := by
  have he : s.setAllowedSessionStorageNamespaceConnectionInternal storageNamespaceID
      allowedConnection
      = ({ s with
            sessionStorageNamespaces :=
              WTF.HashMap.set s.sessionStorageNamespaces storageNamespaceID
                (n.setAllowedConnection allowedConnection).1 } : StorageManager).emit
          (n.setAllowedConnection allowedConnection).2 := by
    simp [StorageManager.setAllowedSessionStorageNamespaceConnectionInternal, hn]
  rw [he]
  refine ⟨?_, ?_, ?_, rfl, rfl, rfl⟩
  · simp [StorageManager.effectsSince, StorageManager.emit,
      SessionStorageNamespace.setAllowedConnection]
  · show WTF.HashMap.get (WTF.HashMap.set s.sessionStorageNamespaces storageNamespaceID _)
      storageNamespaceID = _
    rw [WTF.HashMap.get_set, if_pos rfl]
    rfl
  · intro other hne
    show WTF.HashMap.get (WTF.HashMap.set s.sessionStorageNamespaces storageNamespaceID _)
      other = _
    rw [WTF.HashMap.get_set, if_neg hne]

/-- Witness for C15: the slot of namespace 4 holds connection 5; setting it to
connection 6 fails the assertion, and the slot then holds 6. -/
theorem StorageManager.setAllowedConnection_slot_witness :
    ((StorageManager.create ⟨[]⟩).createSessionStorageNamespaceInternal 4 (some 5) 100).effectsSince
        (((StorageManager.create ⟨[]⟩).createSessionStorageNamespaceInternal 4 (some 5)
          100).setAllowedSessionStorageNamespaceConnectionInternal 4 (some 6))
      = (if (some 6 : Option Connection).isSome
            ∧ (SessionStorageNamespace.create (some 5) 100).allowedConnection.isSome
          then [Effect.assertionFailure .setAllowedConnectionSlotFree] else []) :=
  (StorageManager.setAllowedConnection_slot
    ((StorageManager.create ⟨[]⟩).createSessionStorageNamespaceInternal 4 (some 5) 100) 4
    (SessionStorageNamespace.create (some 5) 100) (some 6) (by decide)).1

/-- C16: for a pair `(connection, storageMapID)` bound to a live storage area,
each of `setItem`, `removeItem` and `clear` sends exactly one acknowledgement:
it goes to the calling connection, is addressed to `storageMapID` and carries the
caller's seed (`DidSetItem(seed, key, quotaError)`, `DidRemoveItem(seed, key)`,
`DidClear(seed)`), whatever the storage area did with the request; the
`quotaError` of `DidSetItem` is true exactly when the written pair would take
the items over the quota, which is when the storage area rejects the write and
keeps its items. -/
theorem StorageManager.mutation_acknowledged_once
    (s : StorageManager) (connection : Connection)
    (storageMapID sourceStorageAreaID storageMapSeed : Nat) (key value urlString : String)
    (address : Nat) (a : StorageArea)
    (hf : s.findStorageArea connection storageMapID = some address)
    (ha : s.storageArea address = some a) :
    acknowledgements (s.effectsSince (s.setItem connection storageMapID sourceStorageAreaID
        storageMapSeed key value urlString))
      = [(connection, storageMapID, Message.DidSetItem storageMapSeed key
          (decide ((a.items s.localStorageDatabaseTracker).area.storageMap.quotaSize
            < serializedSize
                (WTF.HashMap.set (a.items s.localStorageDatabaseTracker).result key value))))]
    ∧ (((a.setItem s.localStorageDatabaseTracker connection sourceStorageAreaID key value
            urlString).area.items s.localStorageDatabaseTracker).result
        = if (a.items s.localStorageDatabaseTracker).area.storageMap.quotaSize
              < serializedSize
                  (WTF.HashMap.set (a.items s.localStorageDatabaseTracker).result key value)
          then (a.items s.localStorageDatabaseTracker).result
          else WTF.HashMap.set (a.items s.localStorageDatabaseTracker).result key value)
    ∧ acknowledgements (s.effectsSince (s.removeItem connection storageMapID sourceStorageAreaID
        storageMapSeed key urlString))
      = [(connection, storageMapID, Message.DidRemoveItem storageMapSeed key)]
    ∧ acknowledgements (s.effectsSince (s.clear connection storageMapID sourceStorageAreaID
        storageMapSeed urlString))
      = [(connection, storageMapID, Message.DidClear storageMapSeed)] := by
  refine ⟨?_, ?_, ?_, ?_⟩
  · rw [StorageManager.setItem_eq s _ _ _ _ _ _ _ address a hf ha,
      StorageManager.effectsSince_storeOutcome, acknowledgements_append,
      StorageArea.acknowledgements_ownEffect a _ (StorageArea.ownEffect_setItem _ a _ _ _ _ _),
      StorageArea.setItem_result]
    rfl
  · rw [StorageArea.items_setItem, StorageArea.setItem_result]
    simp
  · rw [StorageManager.removeItem_eq s _ _ _ _ _ _ address a hf ha,
      StorageManager.effectsSince_storeOutcome, acknowledgements_append,
      StorageArea.acknowledgements_ownEffect a _ (StorageArea.ownEffect_removeItem _ a _ _ _ _)]
    rfl
  · rw [StorageManager.clear_eq s _ _ _ _ _ address a hf ha,
      StorageManager.effectsSince_storeOutcome, acknowledgements_append,
      StorageArea.acknowledgements_ownEffect a _ (StorageArea.ownEffect_clear _ a _ _ _)]
    rfl

/-- Witness for C16: a session map with quota 10 rejects a 16-byte pair, and the
one acknowledgement of the write says so. -/
theorem StorageManager.mutation_acknowledged_once_witness :
    acknowledgements
      ((((StorageManager.create ⟨[]⟩).createSessionStorageNamespaceInternal 1 (some 5)
          10).createSessionStorageMap 5 7 1 "o").effectsSince
        ((((StorageManager.create ⟨[]⟩).createSessionStorageNamespaceInternal 1 (some 5)
          10).createSessionStorageMap 5 7 1 "o").setItem 5 7 7 3 "key" "value" "u"))
      = [(5, 7, Message.DidSetItem 3 "key" true)] :=
  (StorageManager.mutation_acknowledged_once
    (((StorageManager.create ⟨[]⟩).createSessionStorageNamespaceInternal 1 (some 5)
      10).createSessionStorageMap 5 7 1 "o") 5 7 7 3 "key" "value" "u" 1
    { localStorageNamespace := none, localStorageDatabase := none
      didImportItemsFromDatabase := false, securityOrigin := "o", quotaInBytes := 10
      storageMap := { quotaSize := 10, map := [] }, eventListeners := [(5, 7)] }
    (by decide) (by decide)).1

/-- C17: a `clear` on a storage area whose `items()` are empty leaves them empty,
sends no message (so no storage event) and makes no `clear` call on the backing
store; and after any `clear`, a second `clear` returns the storage area as the
first left it and has no effect at all, so that two clears in a row leave the
items, send the events and make the calls on the backing store of the first
alone. -/
theorem StorageArea.clear_idempotent
    (tracker : LocalStorageDatabaseTracker) (a : StorageArea)
    (sourceConnection : Connection) (sourceStorageAreaID : Nat) (urlString : String)
    (sourceConnection2 : Connection) (sourceStorageAreaID2 : Nat) (urlString2 : String) :
    ((a.items tracker).result = [] →
        ((a.clear tracker sourceConnection sourceStorageAreaID urlString).area.items
            tracker).result = []
        ∧ (∀ c m d, Effect.send c m d
            ∉ (a.clear tracker sourceConnection sourceStorageAreaID urlString).effects)
        ∧ (∀ o, Effect.database o .clear
            ∉ (a.clear tracker sourceConnection sourceStorageAreaID urlString).effects))
    ∧ (a.clear tracker sourceConnection sourceStorageAreaID urlString).area.clear tracker
          sourceConnection2 sourceStorageAreaID2 urlString2
        = { area := (a.clear tracker sourceConnection sourceStorageAreaID urlString).area
            result := (), effects := [] } := by
  constructor
  · intro hempty
    rw [StorageArea.items_result] at hempty
    refine ⟨StorageArea.items_clear _ _ _ _ _, ?_, ?_⟩
    · intro c m d hmem
      rw [StorageArea.clear_empty tracker a _ _ _ hempty] at hmem
      rcases StorageArea.openDatabase_effects tracker a _ hmem with h1 | h1 <;> cases h1
    · intro o hmem
      rw [StorageArea.clear_empty tracker a _ _ _ hempty] at hmem
      rcases StorageArea.openDatabase_effects tracker a _ hmem with h1 | h1 <;> cases h1
  · have key : ∀ b : StorageArea, b.Opened → b.storageMap.map = [] →
        b.clear tracker sourceConnection2 sourceStorageAreaID2 urlString2
          = { area := b, result := (), effects := [] } := by
      intro b hb hm
      have ho := StorageArea.open_of_opened tracker b hb
      have hm' : (b.openDatabaseAndImportItemsIfNeeded tracker).1.storageMap.map = [] := by
        rw [ho]; exact hm
      rw [StorageArea.clear_empty tracker b _ _ _ hm', ho]
    by_cases hl : (a.openDatabaseAndImportItemsIfNeeded tracker).1.storageMap.map = []
    · rw [StorageArea.clear_empty tracker a _ _ _ hl]
      exact key _ (StorageArea.opened_open tracker a) hl
    · rw [StorageArea.clear_nonempty tracker a _ _ _ hl]
      exact key _ (StorageArea.opened_withStorageMap _ _ (StorageArea.opened_open tracker a)) rfl

/-- Witness for C17: a clear of an empty persistent storage area opens and
imports its backing store and leaves the items empty. -/
theorem StorageArea.clear_idempotent_witness :
    (((StorageArea.create (some 1) "o" 100).clear ⟨[]⟩ 5 7 "u").area.items ⟨[]⟩).result = [] :=
  ((StorageArea.clear_idempotent ⟨[]⟩ (StorageArea.create (some 1) "o" 100) 5 7 "u" 5 7 "u").1
    (by decide)).1

/-- C18: `removeItem(key)` on a storage area whose `items()` do not hold the key
leaves `items()` as they were, sends no message (so no storage event) and makes
no `removeItem` call on the backing store; when `items()` hold the key with the
value `old`, the items afterwards are the items before without that key, every
other key keeping its value, and, the listeners being a set (as they are in
every reachable state), each listener is sent exactly one storage event, with
the key, the old value `old` and a null new value. -/
theorem StorageArea.removeItem_absent_or_present
    (tracker : LocalStorageDatabaseTracker) (a : StorageArea)
    (sourceConnection : Connection) (sourceStorageAreaID : Nat) (key urlString : String) :
    (WTF.HashMap.get (a.items tracker).result key = none →
        ((a.removeItem tracker sourceConnection sourceStorageAreaID key urlString).area.items
            tracker).result = (a.items tracker).result
        ∧ (∀ c m d, Effect.send c m d
            ∉ (a.removeItem tracker sourceConnection sourceStorageAreaID key urlString).effects)
        ∧ (∀ o k, Effect.database o (.removeItem k)
            ∉ (a.removeItem tracker sourceConnection sourceStorageAreaID key urlString).effects))
    ∧ (∀ old, WTF.HashMap.get (a.items tracker).result key = some old →
        ((a.removeItem tracker sourceConnection sourceStorageAreaID key urlString).area.items
            tracker).result = WTF.HashMap.remove (a.items tracker).result key
        ∧ (∀ x, WTF.HashMap.get ((a.removeItem tracker sourceConnection sourceStorageAreaID key
              urlString).area.items tracker).result x
            = if x = key then none else WTF.HashMap.get (a.items tracker).result x)
        ∧ (a.eventListeners.Nodup → ∀ c h, (c, h) ∈ a.eventListeners →
            storageEventsTo
                (a.removeItem tracker sourceConnection sourceStorageAreaID key urlString).effects
                c h
              = [Message.DispatchStorageEvent
                  (if c = sourceConnection then sourceStorageAreaID else 0)
                  (some key) (some old) none urlString])) := by
  constructor
  · intro habsent
    rw [StorageArea.items_result] at habsent
    refine ⟨?_, ?_, ?_⟩
    · rw [StorageArea.items_removeItem, StorageArea.items_result,
        WTF.HashMap.get_eq_none_of_remove_fixed _ _ habsent]
    · intro c m d hmem
      rw [StorageArea.removeItem_absent tracker a _ _ _ _ habsent] at hmem
      rcases StorageArea.openDatabase_effects tracker a _ hmem with h1 | h1 <;> cases h1
    · intro o k hmem
      rw [StorageArea.removeItem_absent tracker a _ _ _ _ habsent] at hmem
      rcases StorageArea.openDatabase_effects tracker a _ hmem with h1 | h1 <;> cases h1
  · intro old hpresent
    refine ⟨StorageArea.items_removeItem _ _ _ _ _ _, ?_, ?_⟩
    · intro x
      rw [StorageArea.items_removeItem, WTF.HashMap.get_remove]
    · intro hset c h hm
      rw [StorageArea.items_result] at hpresent
      rw [StorageArea.removeItem_present tracker a _ _ _ _ old hpresent, storageEventsTo_append,
        storageEventsTo_append, StorageArea.storageEventsTo_open,
        StorageArea.storageEventsTo_writeThrough,
        StorageArea.storageEventsTo_dispatchEvents a.eventListeners _
          (StorageArea.eventListeners_open tracker a),
        StorageArea.countP_eq_one_of_nodup _ _ hset hm]
      rfl

/-- Witness for C18: a session storage area that holds `k` and has the listeners
`(5, 7)` and `(6, 8)`; the removal of `k` by connection 5 reaches `(6, 8)` once. -/
theorem StorageArea.removeItem_absent_or_present_witness :
    storageEventsTo
      (({ localStorageNamespace := none, localStorageDatabase := none
          didImportItemsFromDatabase := false, securityOrigin := "o", quotaInBytes := 100
          storageMap := { quotaSize := 100, map := [("k", "v")] }
          eventListeners := [(5, 7), (6, 8)] } : StorageArea).removeItem ⟨[]⟩ 5 7 "k" "u").effects
      6 8
      = [Message.DispatchStorageEvent (if 6 = 5 then 7 else 0) (some "k") (some "v") none "u"] :=
  ((StorageArea.removeItem_absent_or_present ⟨[]⟩
    { localStorageNamespace := none, localStorageDatabase := none
      didImportItemsFromDatabase := false, securityOrigin := "o", quotaInBytes := 100
      storageMap := { quotaSize := 100, map := [("k", "v")] }
      eventListeners := [(5, 7), (6, 8)] } 5 7 "k" "u").2 "v" (by decide)).2.2
    (by decide) 6 8 (by decide)

/-- C19, as stated, fails: connection 6 creates a map for the pair `(6, 8)` twice,
for the origins "o" and "p" of the local storage namespace 1 (the second request
fails `ASSERT(result.isNewEntry)`, no check in a release build), and connection 5
binds `(5, 7)` to the storage area of "o" in between. The storage area of "o" at
address 1 then has the listeners `(6, 8)` and `(5, 7)` while `(6, 8)` is bound to
the storage area of "p" at address 2. `invalidateConnectionInternal 5` removes the
last binding to the storage area at address 1, which is destroyed, and with it the
listener registration `(6, 8)` of the other connection. -/
theorem StorageManager.connectionClosed_counterexample :
    (((StorageManager.create ⟨[]⟩).run
        [.createLocalStorageMap 6 8 1 "o", .createLocalStorageMap 5 7 1 "o",
         .createLocalStorageMap 6 8 1 "p"]).storageArea 1).map StorageArea.eventListeners
      = some [(6, 8), (5, 7)]
    ∧ ((StorageManager.create ⟨[]⟩).run
        [.createLocalStorageMap 6 8 1 "o", .createLocalStorageMap 5 7 1 "o",
         .createLocalStorageMap 6 8 1 "p"]).findStorageArea 6 8 = some 2
    ∧ (((StorageManager.create ⟨[]⟩).run
        [.createLocalStorageMap 6 8 1 "o", .createLocalStorageMap 5 7 1 "o",
         .createLocalStorageMap 6 8 1 "p"]).invalidateConnectionInternal 5).storageArea 1
      = none := by
  decide

/-- C19, amended: in every state, `invalidateConnectionInternal c` (1) leaves in the
binding table exactly the entries of the other connections, in their order, so
that a pair of `c` resolves to nothing afterwards and a pair of another
connection resolves as before; (2) leaves every storage area that is still
live as it was but for its listeners, from which it removed exactly the pairs of
`c` that were bound to that storage area, so that (3) a pair of another connection
is a listener of a storage area that is still live exactly when it was one before;
and (4) a live storage area that a pair of another connection is bound to, and
(5) one that a session storage namespace holds, is still live. In a consistent state
(the state of a manager in which no assertion has failed so far,
`consistent_of_clean`), where the listeners of a storage area are the pairs bound to
it, (6) the listeners of a live storage area afterwards are the listeners before that
belong to another connection, and (7) a storage area with a listener of another
connection is still live and keeps that listener. -/
theorem StorageManager.connectionClosed_removes_bindings
    (s : StorageManager) (connection : Connection) :
    (s.invalidateConnectionInternal connection).storageAreasByConnection
        = s.storageAreasByConnection.filter (fun it => decide (it.1.1 ≠ connection))
    ∧ (∀ c i, (s.invalidateConnectionInternal connection).findStorageArea c i
        = if c = connection then none else s.findStorageArea c i)
    ∧ (∀ p a', (s.invalidateConnectionInternal connection).storageArea p = some a' →
        ∃ a, s.storageArea p = some a
          ∧ a' = { a with
                eventListeners :=
                  a.eventListeners.filter (fun l =>
                    decide (¬ (l.1 = connection ∧ (l, p) ∈ s.storageAreasByConnection))) })
    ∧ (∀ p a a', s.storageArea p = some a →
        (s.invalidateConnectionInternal connection).storageArea p = some a' →
        ∀ c i, c ≠ connection → ((c, i) ∈ a'.eventListeners ↔ (c, i) ∈ a.eventListeners))
    ∧ (∀ p a c i, s.storageArea p = some a → c ≠ connection →
        s.findStorageArea c i = some p →
        ∃ a', (s.invalidateConnectionInternal connection).storageArea p = some a')
    ∧ (∀ p a, s.storageArea p = some a → s.SessionOwned p →
        ∃ a', (s.invalidateConnectionInternal connection).storageArea p = some a')
    ∧ (s.Consistent →
        (∀ p a', (s.invalidateConnectionInternal connection).storageArea p = some a' →
          ∃ a, s.storageArea p = some a
            ∧ a'.eventListeners
                = a.eventListeners.filter (fun l => decide (l.1 ≠ connection)))
        ∧ (∀ p a c i, s.storageArea p = some a → (c, i) ∈ a.eventListeners → c ≠ connection →
            ∃ a', (s.invalidateConnectionInternal connection).storageArea p = some a'
              ∧ (c, i) ∈ a'.eventListeners)) := by
  have hB := (StorageManager.invalidateConnectionInternal_fields s connection).1
  have hfind : ∀ c i, (s.invalidateConnectionInternal connection).findStorageArea c i
      = if c = connection then none else s.findStorageArea c i := by
    intro c i
    unfold StorageManager.findStorageArea
    rw [hB, StorageManager.get_filter_connection]
    by_cases h : c = connection <;> simp [h]
  have hareas : ∀ p a', (s.invalidateConnectionInternal connection).storageArea p = some a' →
      ∃ a, s.storageArea p = some a
        ∧ a' = { a with
              eventListeners :=
                a.eventListeners.filter (fun l =>
                  decide (¬ (l.1 = connection ∧ (l, p) ∈ s.storageAreasByConnection))) } := by
    intro p a' hp
    rw [StorageManager.storageArea_invalidateConnectionInternal] at hp
    split at hp
    · cases hp
    · cases hs : s.storageArea p with
      | none => rw [hs] at hp; cases hp
      | some a =>
        rw [hs] at hp
        simp only [Option.map_some', Option.some.injEq] at hp
        exact ⟨a, rfl, hp.symm⟩
  have hlive : ∀ p a, s.storageArea p = some a →
      0 < (s.invalidateConnectionInternal connection).refCount p →
      ∃ a', (s.invalidateConnectionInternal connection).storageArea p = some a' := by
    intro p a ha hpos
    rw [StorageManager.storageArea_invalidateConnectionInternal, if_neg (by omega), ha]
    exact ⟨_, rfl⟩
  refine ⟨hB, hfind, hareas, ?_, ?_, ?_, ?_⟩
  · intro p a a' ha hp c i hne
    obtain ⟨b, hb, ha'⟩ := hareas p a' hp
    rw [ha] at hb
    cases hb
    rw [ha']
    show (c, i) ∈ a.eventListeners.filter _ ↔ _
    rw [List.mem_filter]
    constructor
    · exact fun h => h.1
    · intro h
      refine ⟨h, ?_⟩
      simp [hne]
  · intro p a c i ha hne hb
    apply hlive p a ha
    apply StorageManager.refCount_pos_of_find _ c i p
    rw [hfind, if_neg hne]
    exact hb
  · intro p a ha hso
    apply hlive p a ha
    apply StorageManager.refCount_pos_of_sessionOwned
    obtain ⟨id, n, o, hn, ho⟩ := hso
    refine ⟨id, n, o, ?_, ho⟩
    rw [(StorageManager.invalidateConnectionInternal_fields s connection).2.1]
    exact hn
  intro hc
  constructor
  · intro p a' hp
    obtain ⟨a, ha, ha'⟩ := hareas p a' hp
    refine ⟨a, ha, ?_⟩
    rw [ha']
    show a.eventListeners.filter _ = _
    apply List.filter_congr
    intro l hl
    have hm : (l, p) ∈ s.storageAreasByConnection :=
      WTF.HashMap.mem_of_get _ _ _ (hc.coherent.listenersBound p a ha l.1 l.2 hl)
    simp [hm]
  · intro p a c i ha hm hne
    have hb := hc.coherent.listenersBound p a ha c i hm
    have hb' : (s.invalidateConnectionInternal connection).findStorageArea c i = some p := by
      rw [hfind, if_neg hne]
      exact hb
    have hpos := StorageManager.refCount_pos_of_find _ c i p hb'
    rw [StorageManager.storageArea_invalidateConnectionInternal, if_neg (by omega), ha]
    refine ⟨_, rfl, ?_⟩
    apply List.mem_filter.mpr
    refine ⟨hm, ?_⟩
    simp [hne]

/-- Witness for C19: connections 5 and 6 are bound to one storage area; after
connection 5 is closed, the listener `(6, 8)` is still registered. -/
theorem StorageManager.connectionClosed_removes_bindings_witness :
    ∃ a', (((StorageManager.create ⟨[]⟩).run
          [.createLocalStorageMap 5 7 1 "o", .createLocalStorageMap 6 8 1 "o"]
          ).invalidateConnectionInternal 5).storageArea 1 = some a'
      ∧ (6, 8) ∈ a'.eventListeners :=
  ((StorageManager.connectionClosed_removes_bindings
    ((StorageManager.create ⟨[]⟩).run
      [.createLocalStorageMap 5 7 1 "o", .createLocalStorageMap 6 8 1 "o"]) 5).2.2.2.2.2.2
    (StorageManager.consistent_run _ _ (by decide))).2 1
    { localStorageNamespace := some 1, localStorageDatabase := none
      didImportItemsFromDatabase := false, securityOrigin := "o", quotaInBytes := 5242880
      storageMap := { quotaSize := 5242880, map := [] }, eventListeners := [(5, 7), (6, 8)] }
    6 8 (by decide) (by decide) (by decide)

/-- C20, as stated, fails: connection 5 creates a map for the pair `(5, 7)` twice,
for the origins "o" and "p" of the session storage namespace 1 (which fails
`ASSERT(result.isNewEntry)`, no check in a release build); the storage area of
"o" at address 1 keeps the listener `(5, 7)` while the pair is bound to the one
of "p", and after `applicationWillTerminate` it is still live and still has that
listener. -/
theorem StorageManager.shutdown_counterexample :
    ((StorageManager.create ⟨[]⟩).run
        [.createSessionStorageNamespace 1 (some 5) 100, .createSessionStorageMap 5 7 1 "o",
         .createSessionStorageMap 5 7 1 "p"]).applicationWillTerminate.storageAreasByConnection
      = []
    ∧ (((StorageManager.create ⟨[]⟩).run
        [.createSessionStorageNamespace 1 (some 5) 100, .createSessionStorageMap 5 7 1 "o",
         .createSessionStorageMap 5 7 1 "p"]).applicationWillTerminate.storageArea 1).map
          StorageArea.eventListeners
      = some [(5, 7)] := by
  decide

/-- C20, amended: after `applicationWillTerminate` (1) the binding table is empty
and the session storage namespaces are as they were; (2) a storage area that is
still live is the one that was there, without the listeners that were bound to
it; (3) a storage area held by a session storage namespace is still live, with
the storage map and the `items()` it had; and in a consistent state (the state of
a manager in which no assertion has failed so far, `consistent_of_clean`)
(4) every live storage area has no listener left, and (5) running
`invalidateConnectionInternal` for the connection of every entry of the binding
table gives the same binding table, the same session storage namespaces and, at
every address, the same storage area (the traces, which order the effects of the
two differently, are not compared, nor are the local storage namespaces). -/
theorem StorageManager.shutdown_unbinds_everything (s : StorageManager) :
    s.applicationWillTerminate.storageAreasByConnection = []
    ∧ s.applicationWillTerminate.sessionStorageNamespaces = s.sessionStorageNamespaces
    ∧ (∀ p a', s.applicationWillTerminate.storageArea p = some a' →
        ∃ a, s.storageArea p = some a
          ∧ a' = { a with
                eventListeners :=
                  a.eventListeners.filter
                    (fun l => decide ((l, p) ∉ s.storageAreasByConnection)) })
    ∧ (∀ p a, s.SessionOwned p → s.storageArea p = some a →
        ∃ a', s.applicationWillTerminate.storageArea p = some a'
          ∧ a'.storageMap = a.storageMap
          ∧ (a'.items s.localStorageDatabaseTracker).result
              = (a.items s.localStorageDatabaseTracker).result)
    ∧ (s.Consistent →
        (∀ p a', s.applicationWillTerminate.storageArea p = some a' → a'.eventListeners = [])
        ∧ (((WTF.HashMap.keys s.storageAreasByConnection).map Prod.fst).foldl
              StorageManager.invalidateConnectionInternal s).storageAreasByConnection
            = s.applicationWillTerminate.storageAreasByConnection
        ∧ (((WTF.HashMap.keys s.storageAreasByConnection).map Prod.fst).foldl
              StorageManager.invalidateConnectionInternal s).sessionStorageNamespaces
            = s.applicationWillTerminate.sessionStorageNamespaces
        ∧ ∀ p, (((WTF.HashMap.keys s.storageAreasByConnection).map Prod.fst).foldl
              StorageManager.invalidateConnectionInternal s).storageArea p
            = s.applicationWillTerminate.storageArea p) := by
  have hB := StorageManager.applicationWillTerminate_bindings s
  have hS := (StorageManager.applicationWillTerminate_fields s).1
  refine ⟨hB, hS, StorageManager.storageArea_applicationWillTerminate s, ?_, ?_⟩
  · intro p a ho ha
    refine ⟨_, StorageManager.survive_applicationWillTerminate s p a ho ha, rfl, ?_⟩
    exact StorageArea.items_withListeners _ a _
  · intro hc
    have hcT := StorageManager.consistent_applicationWillTerminate s hc
    have hqT := StorageManager.quiet_of_unbound _ hcT hB
    obtain ⟨fB, fS⟩ := StorageManager.foldl_invalidateConnectionInternal_fields
      ((WTF.HashMap.keys s.storageAreasByConnection).map Prod.fst) s
    have hcF := StorageManager.consistent_foldl_invalidateConnectionInternal
      ((WTF.HashMap.keys s.storageAreasByConnection).map Prod.fst) s hc
    have hFs := StorageManager.foldl_invalidateConnectionInternal_shrinks
      ((WTF.HashMap.keys s.storageAreasByConnection).map Prod.fst) s
    have hFv := StorageManager.survive_foldl_invalidateConnectionInternal
      ((WTF.HashMap.keys s.storageAreasByConnection).map Prod.fst) s
    have hBF : (((WTF.HashMap.keys s.storageAreasByConnection).map Prod.fst).foldl
        StorageManager.invalidateConnectionInternal s).storageAreasByConnection = [] := by
      rw [fB, List.filter_eq_nil_iff]
      intro e he
      have : e.1.1 ∈ (WTF.HashMap.keys s.storageAreasByConnection).map Prod.fst :=
        List.mem_map.mpr ⟨e.1, List.mem_map.mpr ⟨e, he, rfl⟩, rfl⟩
      simp [this]
    generalize ((WTF.HashMap.keys s.storageAreasByConnection).map Prod.fst).foldl
      StorageManager.invalidateConnectionInternal s = F at fB fS hcF hFs hFv hBF
    have hqF := StorageManager.quiet_of_unbound _ hcF hBF
    refine ⟨hqT, hBF.trans hB.symm, fS.trans hS.symm, ?_⟩
    intro p
    cases hT : s.applicationWillTerminate.storageArea p with
    | none =>
      cases hF : F.storageArea p with
      | none => rfl
      | some a'' =>
        exfalso
        obtain ⟨a, ha, _⟩ := hFs p a'' hF
        have ho : s.SessionOwned p :=
          (StorageManager.sessionOwned_congr s F fS p).mp
            (StorageManager.sessionOwned_of_unbound F hcF hBF p a'' hF)
        rw [StorageManager.survive_applicationWillTerminate s p a ho ha] at hT
        cases hT
    | some a' =>
      obtain ⟨a, ha, ha'⟩ := StorageManager.storageArea_applicationWillTerminate s p a' hT
      have ho : s.SessionOwned p :=
        (StorageManager.sessionOwned_congr s _ hS p).mp
          (StorageManager.sessionOwned_of_unbound _ hcT hB p a' hT)
      obtain ⟨a'', hF⟩ := hFv p a ho ha
      obtain ⟨a2, ha2, e2⟩ := hFs p a'' hF
      rw [ha] at ha2
      cases ha2
      have h1 := StorageArea.eq_of_no_listeners a a'' e2 (hqF p a'' hF)
      have h2 : a' = { a with eventListeners := [] } := by
        have hl := hqT p a' hT
        rw [ha'] at hl ⊢
        have hl' : a.eventListeners.filter
            (fun l => decide ((l, p) ∉ s.storageAreasByConnection)) = [] := hl
        rw [hl']
      rw [hF, h1, h2]

/-- Witness for C20: the map of the session storage namespace outlives the
shutdown, the map of the local storage namespace does not, and closing the
connections 5 and 6 one after the other leaves the same storage area at
address 1. -/
theorem StorageManager.shutdown_unbinds_everything_witness :
    (((WTF.HashMap.keys shutdownExample.storageAreasByConnection).map Prod.fst).foldl
        StorageManager.invalidateConnectionInternal shutdownExample).storageArea 1
      = shutdownExample.applicationWillTerminate.storageArea 1 :=
  ((StorageManager.shutdown_unbinds_everything shutdownExample).2.2.2.2
    (StorageManager.consistent_run _ _ (by decide))).2.2.2 1

/-- C21: a storage area that a session storage namespace holds for an origin
stays in the namespace, live and with its storage map (so with its items),
through every sequence of `destroyStorageMap` and `invalidateConnection`
requests, whether or not a binding to it is left; a `createSessionStorageMap`
for the same namespace and origin made afterwards binds its pair to that storage
area, and `getValues` through the new binding returns the items the storage area
held before the bindings were removed. -/
theorem StorageManager.session_namespace_owns_storage_area
    (s : StorageManager) (N : Nat) (n : SessionStorageNamespace) (o : SecurityOrigin)
    (p : Nat) (a : StorageArea)
    (hN : WTF.HashMap.get s.sessionStorageNamespaces N = some n)
    (hp : WTF.HashMap.get n.storageAreaMap o = some p)
    (ha : s.storageArea p = some a)
    (rs : List Request) (hrs : ∀ r ∈ rs, r.removesBindings = true) :
    WTF.HashMap.get (s.run rs).sessionStorageNamespaces N = some n
    ∧ (∃ a', (s.run rs).storageArea p = some a' ∧ a'.storageMap = a.storageMap
        ∧ (a'.items (s.run rs).localStorageDatabaseTracker).result
            = (a.items s.localStorageDatabaseTracker).result)
    ∧ ∀ c i seed,
        ((s.run rs).createSessionStorageMap c i N o).findStorageArea c i = some p
        ∧ (((s.run rs).createSessionStorageMap c i N o).getValues c i seed).2
            = some (a.items s.localStorageDatabaseTracker).result := by
  obtain ⟨h1, h2, h3⟩ := StorageManager.survive_removesBindings_run rs s hrs
  have ho : s.SessionOwned p :=
    ⟨N, n, o, WTF.HashMap.mem_of_get _ _ _ hN, WTF.HashMap.mem_of_get _ _ _ hp⟩
  obtain ⟨a', ha', he⟩ := h3 p a ho ha
  have hN' : WTF.HashMap.get (s.run rs).sessionStorageNamespaces N = some n := by
    rw [h1]
    exact hN
  refine ⟨hN', ⟨a', ha', StorageArea.storageMap_of_same a a' he, ?_⟩, ?_⟩
  · rw [h2]
    exact StorageArea.items_of_same _ a a' he
  · intro c i seed
    obtain ⟨g1, g2, g3⟩ := StorageManager.createSessionStorageMap_existing (s.run rs) c i N o n p a'
      hN' hp ha'
    refine ⟨g1, ?_⟩
    rw [StorageManager.getValues_eq _ c i seed p _ g1 g2, g3, h2]
    simp only
    congr 1
    refine (StorageArea.items_of_same _ a' _ ?_).trans (StorageArea.items_of_same _ a a' he)
    rfl

/-- Witness for C21: the binding `(5, 7)` of `sessionExample` is destroyed, and
the connection then reads the item through a new binding `(5, 9)`. -/
theorem StorageManager.session_namespace_owns_storage_area_witness :
    (((sessionExample.run [.destroyStorageMap 5 7]).createSessionStorageMap 5 9 1 "o").getValues
        5 9 0).2 = some [("k", "v")] :=
  ((StorageManager.session_namespace_owns_storage_area sessionExample 1 ⟨some 5, 100, [("o", 1)]⟩
    "o" 1
    { localStorageNamespace := none, localStorageDatabase := none
      didImportItemsFromDatabase := false, securityOrigin := "o", quotaInBytes := 100
      storageMap := { quotaSize := 100, map := [("k", "v")] }, eventListeners := [(5, 7)] }
    (by decide) (by decide) (by decide) [.destroyStorageMap 5 7] (by decide)).2.2 5 9 0).2

/-- C22: in every state the manager reaches from `create`, whatever the requests
were, `deleteEntriesForOriginInternal o` (the spec's deleteOrigin) (1) leaves the
binding table and both namespace registries as they were, (2) replaces each live
storage area of a local storage namespace whose origin is `o` by the result of
`StorageArea::clear()` on it (the spec's forceClear) and leaves every other live
storage area as it was, nothing being created or destroyed, (3) the replaced storage
areas being exactly those that some local storage namespace indexes under `o`, so
that (4) the storage areas of other origins and (5) the storage areas held by session
storage namespaces are unchanged, items included, and (6) the trace grows by the
effects of one `StorageArea::clear()` on each storage area indexed under `o`, no
storage area being visited twice, followed by the request `deleteDatabaseWithOrigin o`
to the tracker, which comes last. `deleteAllEntriesInternal` (the spec's deleteAll) does
the same with every storage area of a local storage namespace and the request
`deleteAllDatabases`. -/
theorem StorageManager.delete_entries_force_clears
    (tracker : LocalStorageDatabaseTracker) (requests : List Request) :
    (∀ o : SecurityOrigin,
      (((StorageManager.create tracker).run requests).deleteEntriesForOriginInternal o
          ).storageAreasByConnection
        = ((StorageManager.create tracker).run requests).storageAreasByConnection
      ∧ (((StorageManager.create tracker).run requests).deleteEntriesForOriginInternal o
          ).sessionStorageNamespaces
        = ((StorageManager.create tracker).run requests).sessionStorageNamespaces
      ∧ (((StorageManager.create tracker).run requests).deleteEntriesForOriginInternal o
          ).localStorageNamespaces
        = ((StorageManager.create tracker).run requests).localStorageNamespaces
      ∧ (∀ p,
          (((StorageManager.create tracker).run requests).deleteEntriesForOriginInternal o
              ).storageArea p
            = (((StorageManager.create tracker).run requests).storageArea p).map fun a =>
                if a.localStorageNamespace.isSome = true ∧ a.securityOrigin = o
                then a.forceClear.1 else a)
      ∧ (∀ p a, ((StorageManager.create tracker).run requests).storageArea p = some a →
          ((a.localStorageNamespace.isSome = true ∧ a.securityOrigin = o)
            ↔ ∃ id n, (id, n) ∈ ((StorageManager.create tracker).run requests
                  ).localStorageNamespaces
                ∧ (o, p) ∈ n.storageAreaMap))
      ∧ (∀ p a, ((StorageManager.create tracker).run requests).storageArea p = some a →
          a.securityOrigin ≠ o →
          (((StorageManager.create tracker).run requests).deleteEntriesForOriginInternal o
              ).storageArea p = some a)
      ∧ (∀ id n o2 p,
          (id, n) ∈ ((StorageManager.create tracker).run requests).sessionStorageNamespaces →
          (o2, p) ∈ n.storageAreaMap →
          ∃ a, ((StorageManager.create tracker).run requests).storageArea p = some a
            ∧ (((StorageManager.create tracker).run requests).deleteEntriesForOriginInternal o
                ).storageArea p = some a)
      ∧ (((StorageManager.create tracker).run requests).indexedStorageAreas
            fun x => decide (x = o)).Nodup
      ∧ (((StorageManager.create tracker).run requests).deleteEntriesForOriginInternal o).trace
        = ((StorageManager.create tracker).run requests).trace
          ++ ((StorageManager.create tracker).run requests).forceClearEffects
              (((StorageManager.create tracker).run requests).indexedStorageAreas
                fun x => decide (x = o))
          ++ [Effect.deleteDatabaseWithOrigin o])
    ∧ (((StorageManager.create tracker).run requests).deleteAllEntriesInternal
          ).storageAreasByConnection
        = ((StorageManager.create tracker).run requests).storageAreasByConnection
    ∧ (((StorageManager.create tracker).run requests).deleteAllEntriesInternal
          ).sessionStorageNamespaces
        = ((StorageManager.create tracker).run requests).sessionStorageNamespaces
    ∧ (((StorageManager.create tracker).run requests).deleteAllEntriesInternal
          ).localStorageNamespaces
        = ((StorageManager.create tracker).run requests).localStorageNamespaces
    ∧ (∀ p,
        ((StorageManager.create tracker).run requests).deleteAllEntriesInternal.storageArea p
          = (((StorageManager.create tracker).run requests).storageArea p).map fun a =>
              if a.localStorageNamespace.isSome = true then a.forceClear.1 else a)
    ∧ (∀ p a, ((StorageManager.create tracker).run requests).storageArea p = some a →
        (a.localStorageNamespace.isSome = true
          ↔ ∃ id n o, (id, n) ∈ ((StorageManager.create tracker).run requests
                ).localStorageNamespaces
              ∧ (o, p) ∈ n.storageAreaMap))
    ∧ (∀ id n o2 p,
        (id, n) ∈ ((StorageManager.create tracker).run requests).sessionStorageNamespaces →
        (o2, p) ∈ n.storageAreaMap →
        ∃ a, ((StorageManager.create tracker).run requests).storageArea p = some a
          ∧ (((StorageManager.create tracker).run requests).deleteAllEntriesInternal
              ).storageArea p = some a)
    ∧ (((StorageManager.create tracker).run requests).indexedStorageAreas fun _ => true).Nodup
    ∧ ((StorageManager.create tracker).run requests).deleteAllEntriesInternal.trace
      = ((StorageManager.create tracker).run requests).trace
        ++ ((StorageManager.create tracker).run requests).forceClearEffects
            (((StorageManager.create tracker).run requests).indexedStorageAreas fun _ => true)
        ++ [Effect.deleteAllDatabases] := by
  have hS := StorageManager.settled_run tracker requests
  generalize (StorageManager.create tracker).run requests = s at hS
  constructor
  · intro o
    obtain ⟨g1, g2, g3, g4, g5⟩ := StorageManager.forceClear_indexed s hS fun x => decide (x = o)
    rw [StorageManager.deleteEntriesForOriginInternal_eq]
    have hheap : ∀ p,
        (((s.indexedStorageAreas fun x => decide (x = o)).foldl
            (fun acc p => acc.callOnStorageArea p StorageArea.forceClear) s).emit
            [Effect.deleteDatabaseWithOrigin o]).storageArea p
          = (s.storageArea p).map fun a =>
              if a.localStorageNamespace.isSome = true ∧ a.securityOrigin = o
              then a.forceClear.1 else a := by
      intro p
      refine (g4 p).trans ?_
      cases s.storageArea p with
      | none => rfl
      | some a =>
        simp only [Option.map_some', decide_eq_true_eq]
    refine ⟨g1, g2, g3, hheap, ?_, ?_, ?_,
      StorageManager.indexedStorageAreas_nodup s hS.accounted _, ?_⟩
    · intro p a ha
      have hiff := StorageManager.mem_indexedStorageAreas_iff s hS.accounted
        (fun x => decide (x = o)) p a ha
      constructor
      · intro hc
        obtain ⟨id, n, o2, hn, hp, hf⟩ := (StorageManager.mem_indexedStorageAreas s _ p).mp
          (hiff.mpr ⟨hc.1, decide_eq_true hc.2⟩)
        have e : o2 = o := of_decide_eq_true hf
        subst e
        exact ⟨id, n, hn, hp⟩
      · rintro ⟨id, n, hn, hp⟩
        have hc := hiff.mp ((StorageManager.mem_indexedStorageAreas s _ p).mpr
          ⟨id, n, o, hn, hp, decide_eq_true rfl⟩)
        exact ⟨hc.1, of_decide_eq_true hc.2⟩
    · intro p a ha hne
      rw [hheap p, ha, Option.map_some', if_neg (fun hc => hne hc.2)]
    · intro id n o2 p hn hp
      obtain ⟨a, ha, hns⟩ := hS.wellFormed.sessionLive id n hn o2 p hp
      refine ⟨a, ha, ?_⟩
      rw [hheap p, ha, Option.map_some', if_neg]
      rw [hns]
      rintro ⟨hc, _⟩
      cases hc
    · show _ ++ _ = _
      rw [g5]
  · obtain ⟨g1, g2, g3, g4, g5⟩ := StorageManager.forceClear_indexed s hS fun _ => true
    rw [StorageManager.deleteAllEntriesInternal_eq]
    have hheap : ∀ p,
        (((s.indexedStorageAreas fun _ => true).foldl
            (fun acc p => acc.callOnStorageArea p StorageArea.forceClear) s).emit
            [Effect.deleteAllDatabases]).storageArea p
          = (s.storageArea p).map fun a =>
              if a.localStorageNamespace.isSome = true then a.forceClear.1 else a := by
      intro p
      refine (g4 p).trans ?_
      cases s.storageArea p with
      | none => rfl
      | some a =>
        simp only [Option.map_some', and_true]
    refine ⟨g1, g2, g3, hheap, ?_, ?_,
      StorageManager.indexedStorageAreas_nodup s hS.accounted _, ?_⟩
    · intro p a ha
      have hiff := StorageManager.mem_indexedStorageAreas_iff s hS.accounted (fun _ => true) p a ha
      constructor
      · intro hc
        obtain ⟨id, n, o2, hn, hp, _⟩ := (StorageManager.mem_indexedStorageAreas s _ p).mp
          (hiff.mpr ⟨hc, rfl⟩)
        exact ⟨id, n, o2, hn, hp⟩
      · rintro ⟨id, n, o2, hn, hp⟩
        exact (hiff.mp ((StorageManager.mem_indexedStorageAreas s _ p).mpr
          ⟨id, n, o2, hn, hp, rfl⟩)).1
    · intro id n o2 p hn hp
      obtain ⟨a, ha, hns⟩ := hS.wellFormed.sessionLive id n hn o2 p hp
      refine ⟨a, ha, ?_⟩
      rw [hheap p, ha, Option.map_some', if_neg]
      rw [hns]
      intro hc
      cases hc
    · show _ ++ _ = _
      rw [g5]

/-- Witness for C22: in `deleteExample`, deleting the entries of the origin "o" empties
the storage area of the local storage namespace for "o", leaves the items of the one
for "p" and of the session storage area for "o", and ends with the request to the
tracker. -/
theorem StorageManager.delete_entries_force_clears_witness :
    ((deleteExample.deleteEntriesForOriginInternal "o").storageArea 1).map
        (fun a => a.storageMap.items) = some []
    ∧ ((deleteExample.deleteEntriesForOriginInternal "o").storageArea 2).map
        (fun a => a.storageMap.items) = some [("k", "v")]
    ∧ ((deleteExample.deleteEntriesForOriginInternal "o").storageArea 3).map
        (fun a => a.storageMap.items) = some [("k", "v")]
    ∧ (deleteExample.deleteEntriesForOriginInternal "o").trace
        = deleteExample.trace
          ++ [Effect.database "o" .close, Effect.send 5 .ClearCache 1,
              Effect.deleteDatabaseWithOrigin "o"] := by
  have h := (StorageManager.delete_entries_force_clears ⟨[]⟩
    [.createLocalStorageMap 5 1 1 "o", .createLocalStorageMap 5 2 1 "p",
     .createSessionStorageNamespace 2 (some 5) 100, .createSessionStorageMap 5 3 2 "o",
     .setItem 5 1 1 0 "k" "v" "u", .setItem 5 2 2 0 "k" "v" "u",
     .setItem 5 3 3 0 "k" "v" "u"]).1 "o"
  have h4 : ∀ p, (deleteExample.deleteEntriesForOriginInternal "o").storageArea p
      = (deleteExample.storageArea p).map fun a =>
          if a.localStorageNamespace.isSome = true ∧ a.securityOrigin = "o"
          then a.forceClear.1 else a := h.2.2.2.1
  have h9 : (deleteExample.deleteEntriesForOriginInternal "o").trace
      = deleteExample.trace
        ++ deleteExample.forceClearEffects
            (deleteExample.indexedStorageAreas fun x => decide (x = "o"))
        ++ [Effect.deleteDatabaseWithOrigin "o"] := h.2.2.2.2.2.2.2.2
  refine ⟨?_, ?_, ?_, ?_⟩
  · rw [h4 1]
    decide
  · rw [h4 2]
    decide
  · rw [h4 3]
    decide
  · rw [h9]
    decide

/-- C23: in every state the manager reaches from `create`, whatever the requests
were, (1) no registered local storage namespace has an empty origin index and
(2) every storage area a local storage namespace indexes is bound by at least one
entry of the binding table; and when a `destroyStorageMap`, the work item of
`invalidateConnection` or the work item of `applicationWillTerminate` made in
such a state leaves no binding to a storage area that the namespace `id` indexed
under the origin `o`, then afterwards (3) the storage area is destroyed, (4) the
namespace `id`, if it is still registered, indexes nothing under `o` and its
index is not empty, so that the namespace is unregistered when the index became
empty, and (5) every storage area of the namespace that is still bound is still
indexed by it. -/
theorem StorageManager.local_namespace_lifecycle
    (tracker : LocalStorageDatabaseTracker) (requests : List Request) :
    (∀ id n, (id, n) ∈ ((StorageManager.create tracker).run requests).localStorageNamespaces →
        n.storageAreaMap ≠ []
        ∧ ∀ o p, (o, p) ∈ n.storageAreaMap →
            ∃ c i, ((StorageManager.create tracker).run requests).findStorageArea c i = some p)
    ∧ ∀ r : Request, r.unbinds = true →
        ∀ id n o p,
          (id, n) ∈ ((StorageManager.create tracker).run requests).localStorageNamespaces →
          (o, p) ∈ n.storageAreaMap →
          (∀ c i, (((StorageManager.create tracker).run requests).handle r).findStorageArea c i
              ≠ some p) →
          (((StorageManager.create tracker).run requests).handle r).storageArea p = none
          ∧ (∀ n', (id, n')
                ∈ (((StorageManager.create tracker).run requests).handle r).localStorageNamespaces →
              n'.storageAreaMap ≠ [] ∧ ∀ q, (o, q) ∉ n'.storageAreaMap)
          ∧ (∀ o2 p2, (o2, p2) ∈ n.storageAreaMap →
              (∃ c i, (((StorageManager.create tracker).run requests).handle r).findStorageArea
                  c i = some p2) →
              ∃ n', (id, n')
                  ∈ (((StorageManager.create tracker).run requests).handle r
                      ).localStorageNamespaces
                ∧ (o2, p2) ∈ n'.storageAreaMap) := by
  have hS := StorageManager.settled_run tracker requests
  generalize (StorageManager.create tracker).run requests = s at hS
  constructor
  · intro id n hn
    refine ⟨hS.nonEmpty id n hn, ?_⟩
    intro o p hp
    obtain ⟨a, ha, hns, _⟩ := hS.accounted.localLive id n hn o p hp
    exact StorageManager.bound_of_local s hS p a id ha hns
  · intro r hr id n o p hn hp hunbound
    have hS' := StorageManager.settled_handle s r hS
    have hshrink := StorageManager.storageArea_unbinds s r hr
    have hgone : (s.handle r).storageArea p = none := by
      cases hp' : (s.handle r).storageArea p with
      | none => rfl
      | some b' =>
        exfalso
        obtain ⟨b, hb, e⟩ := hshrink p b' hp'
        obtain ⟨a, ha, hns, _⟩ := hS.accounted.localLive id n hn o p hp
        rw [hb] at ha
        cases ha
        obtain ⟨c, i, hf⟩ := StorageManager.bound_of_local (s.handle r) hS' p b' id hp'
          ((StorageArea.owner_of_same b b' e).1.trans hns)
        exact hunbound c i hf
    refine ⟨hgone, ?_, ?_⟩
    · intro n' hn'
      refine ⟨hS'.nonEmpty id n' hn', ?_⟩
      intro q hq
      obtain ⟨b', hb', hns', ho'⟩ := hS'.accounted.localLive id n' hn' o q hq
      obtain ⟨b, hb, e⟩ := hshrink q b' hb'
      obtain ⟨e1, e2⟩ := StorageArea.owner_of_same b b' e
      obtain ⟨m, hm1, hm2⟩ := hS.accounted.localIndexed q b id hb (e1 ▸ hns')
      have g1 := WTF.HashMap.get_of_mem _ _ _ hS.accounted.localKeys hm1
      have g2 := WTF.HashMap.get_of_mem _ _ _ hS.accounted.localKeys hn
      rw [g2] at g1
      cases g1
      have ho := hS.accounted.localOrigins id n hn
      rw [← e2, ho'] at hm2
      have k1 := WTF.HashMap.get_of_mem _ _ _ ho hm2
      have k2 := WTF.HashMap.get_of_mem _ _ _ ho hp
      rw [k2] at k1
      cases k1
      rw [hgone] at hb'
      cases hb'
    · rintro o2 p2 hp2 ⟨c, i, hf⟩
      have hl := hS'.accounted.boundLive c i p2 hf
      cases hb' : (s.handle r).storageArea p2 with
      | none => rw [hb'] at hl; cases hl
      | some b' =>
        obtain ⟨b, hb, e⟩ := hshrink p2 b' hb'
        obtain ⟨e1, e2⟩ := StorageArea.owner_of_same b b' e
        obtain ⟨a, ha, hns, hao⟩ := hS.accounted.localLive id n hn o2 p2 hp2
        rw [hb] at ha
        cases ha
        obtain ⟨n', hn1, hn2⟩ := hS'.accounted.localIndexed p2 b' id hb' (e1.trans hns)
        rw [e2, hao] at hn2
        exact ⟨n', hn1, hn2⟩

/-- Witness for C23: the local storage namespace 1 indexes one storage area, bound
to `(5, 7)`; after `destroyStorageMap 5 7` the storage area is destroyed. -/
theorem StorageManager.local_namespace_lifecycle_witness :
    (((StorageManager.create ⟨[]⟩).run [.createLocalStorageMap 5 7 1 "o"]).handle
        (.destroyStorageMap 5 7)).storageArea 1 = none :=
  ((StorageManager.local_namespace_lifecycle ⟨[]⟩ [.createLocalStorageMap 5 7 1 "o"]).2
    (.destroyStorageMap 5 7) rfl 1 ⟨1, 5242880, [("o", 1)]⟩ "o" 1 (by decide) (by decide)
    (fun c i h => by
      have e : (((StorageManager.create ⟨[]⟩).run [.createLocalStorageMap 5 7 1 "o"]).handle
          (.destroyStorageMap 5 7)).storageAreasByConnection = [] := by decide
      unfold StorageManager.findStorageArea at h
      rw [e] at h
      cases h)).1

/-- C24, as stated, fails: a persistent map that never imported its items, over a
backing store that holds the item `(k, v)`, returns that item from `items()`
after `forceClear()`. -/
theorem StorageArea.forceClear_counterexample :
    ((StorageArea.create (some 1) "o" 100).forceClear.1.items ⟨[("o", [("k", "v")])]⟩).result
      = [("k", "v")] := by
  decide

/-- C24, amended: for every storage area whose listeners are a set, `forceClear()`
(the source's `StorageArea::clear()`) leaves the storage map empty, so that
`items()` is empty afterwards when the area belongs to no persistent namespace,
when its items had been imported before, or when the backing store holds no item
for its origin; it closes an open backing-store handle and leaves none; it sends
each listener exactly one `ClearCache` message, addressed to its map handle, and
nothing else, and sends nothing to a pair that is no listener; and it leaves the
listeners, the quota and the origin unchanged. Nothing of this depends on the
map holding items before. -/
theorem StorageArea.forceClear_invalidates (tracker : LocalStorageDatabaseTracker)
    (a : StorageArea) (hset : a.eventListeners.Nodup) :
    a.forceClear.1.storageMap.map = []
    ∧ ((a.localStorageNamespace = none ∨ a.didImportItemsFromDatabase = true
          ∨ tracker.storedItems a.securityOrigin = []) →
        (a.forceClear.1.items tracker).result = [])
    ∧ a.forceClear.1.localStorageDatabase = none
    ∧ (∀ db, a.localStorageDatabase = some db →
        Effect.database db.securityOrigin .close ∈ a.forceClear.2)
    ∧ (∀ c h, (c, h) ∈ a.eventListeners → messagesTo a.forceClear.2 c h = [Message.ClearCache])
    ∧ (∀ c h, (c, h) ∉ a.eventListeners → messagesTo a.forceClear.2 c h = [])
    ∧ a.forceClear.1.eventListeners = a.eventListeners
    ∧ a.forceClear.1.quotaInBytes = a.quotaInBytes
    ∧ a.forceClear.1.storageMap.quotaSize = a.quotaInBytes
    ∧ a.forceClear.1.securityOrigin = a.securityOrigin := by
  have hm : ∀ c h, messagesTo a.forceClear.2 c h
      = List.replicate (a.eventListeners.countP (fun x => decide (x = (c, h))))
          Message.ClearCache := by
    intro c h
    unfold StorageArea.forceClear
    simp only
    rw [messagesTo_append, messagesTo_writeThrough, messagesTo_clearCache]
    rfl
  refine ⟨rfl, StorageArea.forceClear_items tracker a, rfl, ?_, ?_, ?_, rfl, rfl, rfl, rfl⟩
  · intro db hdb
    unfold StorageArea.forceClear StorageArea.writeThrough
    simp [hdb]
  · intro c h hl
    rw [hm, StorageArea.countP_eq_one_of_nodup _ _ hset hl]
    rfl
  · intro c h hl
    rw [hm]
    have : a.eventListeners.countP (fun x => decide (x = (c, h))) = 0 := by
      rw [List.countP_eq_zero]
      intro x hx
      simp only [decide_eq_true_eq]
      intro e
      exact hl (e ▸ hx)
    rw [this]
    rfl

/-- Witness for C24: an empty persistent map with an open backing store and the
listeners `(5, 7)` and `(6, 8)`. -/
theorem StorageArea.forceClear_invalidates_witness :
    messagesTo
      (({ localStorageNamespace := some 1, localStorageDatabase := some ⟨"o"⟩
          didImportItemsFromDatabase := true, securityOrigin := "o", quotaInBytes := 100
          storageMap := { quotaSize := 100, map := [] }
          eventListeners := [(5, 7), (6, 8)] } : StorageArea).forceClear.2) 6 8
      = [Message.ClearCache] :=
  (StorageArea.forceClear_invalidates ⟨[]⟩
    { localStorageNamespace := some 1, localStorageDatabase := some ⟨"o"⟩
      didImportItemsFromDatabase := true, securityOrigin := "o", quotaInBytes := 100
      storageMap := { quotaSize := 100, map := [] }
      eventListeners := [(5, 7), (6, 8)] } (by decide)).2.2.2.2.1 6 8 (by decide)

/-- C25: for every storage area and every sequence of setItem / removeItem /
clear / forceClear / items operations on it: (1) once `m_didImportItemsFromDatabase`
is true it stays true; (2) `importItems` is called at most once, and not at all
when the items were imported before; (3) for a storage area of no local storage
namespace the flag never changes and `importItems` is never called, and when it
has no backing store (as a storage area of a session storage namespace and a
clone have) none is ever opened or called, so that for them the flag stays false;
(4) each of items / setItem / removeItem / clear starts with
`openDatabaseAndImportItemsIfNeeded`, whose effects come first, and goes on as it
does on the storage area that call leaves, without another `importItems`; that
call imports, last, exactly when the storage area belongs to a local storage
namespace and has not imported; and `forceClear` neither imports nor changes the
flag. -/
theorem StorageArea.lazy_import (tracker : LocalStorageDatabaseTracker) (a : StorageArea)
    (ops : List StorageArea.Operation) :
    (∀ ops', (a.run tracker ops).didImportItemsFromDatabase = true →
        (a.run tracker (ops ++ ops')).didImportItemsFromDatabase = true)
    ∧ (a.runEffects tracker ops).countP Effect.isImport ≤ 1
    ∧ (a.didImportItemsFromDatabase = true →
        (a.runEffects tracker ops).countP Effect.isImport = 0)
    ∧ (a.localStorageNamespace = none →
        (a.run tracker ops).didImportItemsFromDatabase = a.didImportItemsFromDatabase
        ∧ (a.runEffects tracker ops).countP Effect.isImport = 0
        ∧ (a.localStorageDatabase = none →
            (a.run tracker ops).localStorageDatabase = none
            ∧ ∀ e ∈ a.runEffects tracker ops, e.isDatabase = false))
    ∧ (∀ securityOrigin quotaInBytes,
        ((StorageArea.create none securityOrigin quotaInBytes).run tracker
            ops).didImportItemsFromDatabase = false
        ∧ ∀ e ∈ (StorageArea.create none securityOrigin quotaInBytes).runEffects tracker ops,
            e.isDatabase = false)
    ∧ ((a.clone.1.run tracker ops).didImportItemsFromDatabase = false
        ∧ ∀ e ∈ a.clone.1.runEffects tracker ops, e.isDatabase = false)
    ∧ (∀ op, op.usesItems = true →
        a.effectsOf tracker op
            = (a.openDatabaseAndImportItemsIfNeeded tracker).2
              ++ (a.openDatabaseAndImportItemsIfNeeded tracker).1.effectsOf tracker op
        ∧ a.apply tracker op = (a.openDatabaseAndImportItemsIfNeeded tracker).1.apply tracker op
        ∧ (∀ e ∈ (a.openDatabaseAndImportItemsIfNeeded tracker).1.effectsOf tracker op,
            e.isImport = false))
    ∧ (∀ id, a.localStorageNamespace = some id →
        (a.openDatabaseAndImportItemsIfNeeded tracker).1.didImportItemsFromDatabase = true
        ∧ (a.openDatabaseAndImportItemsIfNeeded tracker).2
            = (if a.localStorageDatabase.isSome then []
                else [Effect.database a.securityOrigin .create])
              ++ (if a.didImportItemsFromDatabase then []
                else [Effect.database a.securityOrigin .importItems]))
    ∧ ((a.effectsOf tracker .forceClear).countP Effect.isImport = 0
        ∧ (a.apply tracker .forceClear).didImportItemsFromDatabase
            = a.didImportItemsFromDatabase) := by
  refine ⟨?_, StorageArea.countP_isImport_le tracker ops a,
    fun h => (StorageArea.countP_isImport_imported tracker ops a h).1, ?_, ?_, ?_, ?_, ?_, ?_⟩
  · intro ops' h
    rw [StorageArea.run_append]
    exact (StorageArea.countP_isImport_imported tracker ops' _ h).2
  · intro h
    obtain ⟨h1, _, h3⟩ := StorageArea.countP_isImport_session tracker ops a h
    exact ⟨h3, h1, fun hdb => StorageArea.isDatabase_session tracker ops a h hdb⟩
  · intro o q
    exact ⟨(StorageArea.countP_isImport_session tracker ops _ rfl).2.2,
      (StorageArea.isDatabase_session tracker ops _ rfl rfl).2⟩
  · exact ⟨(StorageArea.countP_isImport_session tracker ops a.clone.1 rfl).2.2,
      (StorageArea.isDatabase_session tracker ops a.clone.1 rfl rfl).2⟩
  · intro op hop
    obtain ⟨h1, h2, _, h4⟩ := StorageArea.apply_split tracker a op hop
    exact ⟨h1, h2, fun e he => StorageArea.afterOpen_isImport _ e (h4 e he)⟩
  · intro id hid
    obtain ⟨_, h2, _, h4⟩ := StorageArea.open_local tracker a id hid
    exact ⟨h2, h4⟩
  · refine ⟨?_, rfl⟩
    rw [StorageArea.countP_isImport_effectsOf]
    simp [StorageArea.Operation.usesItems]

/-- C26: in every state the manager reaches from `create` by requests that respect
the protocol of the binding table (a map is created for a pair that is not bound
yet), and so in every state reached without a failed assertion or use of a null
pointer, the listeners of each live storage area are a set and are exactly the
pairs `(connection, storageMapID)` the binding table maps to that storage area;
so an accepted write through a binding of the storage area sends a storage event
to a pair exactly when the pair is bound to the storage area. -/
theorem StorageManager.listeners_are_the_bindings
    (tracker : LocalStorageDatabaseTracker) (requests : List Request)
    (hprotocol : (StorageManager.create tracker).admissibleRun requests = true
      ∨ ∀ e ∈ ((StorageManager.create tracker).run requests).trace, e.isError = false)
    (p : Nat) (a : StorageArea)
    (ha : ((StorageManager.create tracker).run requests).storageArea p = some a) :
    a.eventListeners.Nodup
    ∧ (∀ c i, (c, i) ∈ a.eventListeners
        ↔ ((StorageManager.create tracker).run requests).findStorageArea c i = some p)
    ∧ ∀ c i src seed k v u,
        ((StorageManager.create tracker).run requests).findStorageArea c i = some p →
        (a.setItem ((StorageManager.create tracker).run requests).localStorageDatabaseTracker
            c src k v u).result = false →
        ∀ c' h,
          ((StorageManager.create tracker).run requests).findStorageArea c' h = some p
          ↔ ∃ i' k' o' n' u', Effect.send c' (.DispatchStorageEvent i' k' o' n' u') h
              ∈ ((StorageManager.create tracker).run requests).effectsSince
                  (((StorageManager.create tracker).run requests).setItem c i src seed k v u) := by
  have hc : ((StorageManager.create tracker).run requests).Consistent := by
    rcases hprotocol with h | h
    · exact StorageManager.consistent_run tracker requests h
    · exact StorageManager.consistent_of_clean tracker requests h
  generalize (StorageManager.create tracker).run requests = s at ha hc
  have hiff : ∀ c i, (c, i) ∈ a.eventListeners ↔ s.findStorageArea c i = some p := by
    intro c i
    constructor
    · exact hc.coherent.listenersBound p a ha c i
    · intro hf
      obtain ⟨a', ha', hm⟩ := hc.bindingsListen c i p hf
      rw [ha] at ha'
      cases ha'
      exact hm
  refine ⟨(hc.coherent.wellFormed.areasSound p a ha).1, hiff, ?_⟩
  intro c i src seed k v u hf hok c' h
  rw [StorageManager.setItem_eq s c i src seed k v u p a hf ha,
    StorageManager.effectsSince_storeOutcome, ← hiff]
  constructor
  · intro hm
    refine ⟨_, _, _, _, _, List.mem_append_left _
      ((StorageArea.setItem_event_mem _ a c src k v u hok c' h _ _ _ _ _).mpr
        ⟨hm, rfl, rfl, rfl, rfl, rfl⟩)⟩
  · rintro ⟨i', k', o', n', u', hm⟩
    rcases List.mem_append.mp hm with hm | hm
    · exact ((StorageArea.setItem_event_mem _ a c src k v u hok c' h i' k' o' n' u').mp hm).1
    · simp at hm

/-- Witness for C26: two connections bound to one persistent map; the listener
`(6, 8)` of the storage area at address 1 is bound to it. -/
theorem StorageManager.listeners_are_the_bindings_witness :
    ((StorageManager.create ⟨[]⟩).run
        [.createLocalStorageMap 5 7 1 "o", .createLocalStorageMap 6 8 1 "o"]).findStorageArea
        6 8 = some 1 :=
  ((StorageManager.listeners_are_the_bindings ⟨[]⟩
    [.createLocalStorageMap 5 7 1 "o", .createLocalStorageMap 6 8 1 "o"] (Or.inl (by decide)) 1
    { localStorageNamespace := some 1, localStorageDatabase := none
      didImportItemsFromDatabase := false, securityOrigin := "o", quotaInBytes := 5242880
      storageMap := { quotaSize := 5242880, map := [] }, eventListeners := [(5, 7), (6, 8)] }
    (by decide)).2.1 6 8).mp (by decide)

/-- C27: for a storage area whose listeners are a set, `dispatchEvents` sends each
listener `(c, h)` exactly one storage event, whose source field is the
`sourceStorageAreaID` argument when `c` is the source connection and 0
otherwise, whatever `h` is, and it sends nothing else; so two listeners
`(sourceConnection, h1)` and `(sourceConnection, h2)` of the source connection
both receive `sourceStorageAreaID`; and for an accepted `setItem` of the manager
through the binding `(sourceConnection, storageMapID)`, every listener of the
source connection receives the `sourceStorageAreaID` argument of the request,
not `storageMapID`. -/
theorem StorageArea.dispatchEvents_source_by_connection
    (a : StorageArea) (hset : a.eventListeners.Nodup)
    (sourceConnection : Connection) (sourceStorageAreaID : Nat)
    (key oldValue newValue : Option String) (urlString : String) :
    (∀ c h, (c, h) ∈ a.eventListeners →
        storageEventsTo (a.dispatchEvents sourceConnection sourceStorageAreaID key oldValue
            newValue urlString) c h
          = [Message.DispatchStorageEvent
              (if c = sourceConnection then sourceStorageAreaID else 0)
              key oldValue newValue urlString])
    ∧ (∀ e ∈ a.dispatchEvents sourceConnection sourceStorageAreaID key oldValue newValue
          urlString,
        ∃ c h, (c, h) ∈ a.eventListeners
          ∧ e = Effect.send c (.DispatchStorageEvent
              (if c = sourceConnection then sourceStorageAreaID else 0)
              key oldValue newValue urlString) h)
    ∧ (∀ h1 h2, (sourceConnection, h1) ∈ a.eventListeners →
        (sourceConnection, h2) ∈ a.eventListeners →
        storageEventsTo (a.dispatchEvents sourceConnection sourceStorageAreaID key oldValue
            newValue urlString) sourceConnection h1
          = [Message.DispatchStorageEvent sourceStorageAreaID key oldValue newValue urlString]
        ∧ storageEventsTo (a.dispatchEvents sourceConnection sourceStorageAreaID key oldValue
            newValue urlString) sourceConnection h2
          = [Message.DispatchStorageEvent sourceStorageAreaID key oldValue newValue urlString])
    ∧ (∀ (s : StorageManager) (storageMapID storageMapSeed address : Nat) (k v : String),
        s.findStorageArea sourceConnection storageMapID = some address →
        s.storageArea address = some a →
        (a.setItem s.localStorageDatabaseTracker sourceConnection sourceStorageAreaID
            k v urlString).result = false →
        ∀ h, (sourceConnection, h) ∈ a.eventListeners →
          storageEventsTo (s.effectsSince (s.setItem sourceConnection storageMapID
              sourceStorageAreaID storageMapSeed k v urlString)) sourceConnection h
            = [Message.DispatchStorageEvent sourceStorageAreaID (some k)
                (WTF.HashMap.get (a.items s.localStorageDatabaseTracker).result k) (some v)
                urlString]) := by
  have h1 : ∀ c h, (c, h) ∈ a.eventListeners →
      storageEventsTo (a.dispatchEvents sourceConnection sourceStorageAreaID key oldValue
          newValue urlString) c h
        = [Message.DispatchStorageEvent
            (if c = sourceConnection then sourceStorageAreaID else 0)
            key oldValue newValue urlString] := by
    intro c h hm
    rw [StorageArea.storageEventsTo_dispatchEvents a.eventListeners a rfl,
      StorageArea.countP_eq_one_of_nodup _ _ hset hm]
    rfl
  refine ⟨h1, ?_, ?_, ?_⟩
  · intro e he
    exact (StorageArea.dispatchEvents_mem a _ _ _ _ _ _ e).mp he
  · intro i1 i2 hm1 hm2
    have g1 := h1 sourceConnection i1 hm1
    have g2 := h1 sourceConnection i2 hm2
    rw [if_pos rfl] at g1 g2
    exact ⟨g1, g2⟩
  · intro s storageMapID storageMapSeed address k v hf ha hok h hm
    rw [StorageManager.setItem_eq s sourceConnection storageMapID sourceStorageAreaID
      storageMapSeed k v urlString address a hf ha, StorageManager.effectsSince_storeOutcome,
      storageEventsTo_append, StorageArea.storageEventsTo_setItem _ a _ _ _ _ _ hok,
      StorageArea.countP_eq_one_of_nodup _ _ hset hm]
    simp [storageEventsTo, Effect.storageEventTo]

/-- Witness for C27: connection 5 holds the listeners `(5, 7)` and `(5, 8)` of one
map and writes with source 9; the listener `(5, 8)` receives source 9. -/
theorem StorageArea.dispatchEvents_source_by_connection_witness :
    storageEventsTo
      (({ localStorageNamespace := none, localStorageDatabase := none
          didImportItemsFromDatabase := false, securityOrigin := "o", quotaInBytes := 100
          storageMap := { quotaSize := 100, map := [] }
          eventListeners := [(5, 7), (5, 8), (6, 7)] } : StorageArea).dispatchEvents 5 9
            (some "k") none (some "v") "u") 5 8
      = [Message.DispatchStorageEvent 9 (some "k") none (some "v") "u"] :=
  ((StorageArea.dispatchEvents_source_by_connection
    { localStorageNamespace := none, localStorageDatabase := none
      didImportItemsFromDatabase := false, securityOrigin := "o", quotaInBytes := 100
      storageMap := { quotaSize := 100, map := [] }
      eventListeners := [(5, 7), (5, 8), (6, 7)] } (by decide) 5 9
    (some "k") none (some "v") "u").2.2.1 7 8 (by decide) (by decide)).2

/-- C28: (1) for every storage area, `clone()` yields a storage area with the
same origin, the same `m_quotaInBytes`, the same storage map (so the same items,
which are those `items()` returns for a source whose backing store needs no
opening or import, as for every storage area of a session storage namespace),
no listener, no owning namespace, `m_didImportItemsFromDatabase` false and no
backing store. (2) In a well-formed state in which the session namespaces `S`
and `D` exist and `D` holds no storage area, whatever quota `D` was created
with, `cloneSessionStorageNamespaceInternal S D` makes `D` hold, for an origin
`S` holds a storage area for, the clone of that storage area; and when a pair
`(c, i)` is bound to it afterwards by `createSessionStorageMap`, every storage
event of a `setItem`, `removeItem` or `clear` made through that binding is
addressed to `(c, i)`, so to no other listener of the storage area of `S`. -/
theorem StorageManager.clone_keeps_source_fields_and_no_listener
    (s : StorageManager) (hwf : s.WellFormed) (S D : Nat) (nS nD : SessionStorageNamespace)
    (hS : WTF.HashMap.get s.sessionStorageNamespaces S = some nS)
    (hD : WTF.HashMap.get s.sessionStorageNamespaces D = some nD)
    (hE : nD.storageAreaMap = [])
    (o : SecurityOrigin) (pS : Nat) (hpS : WTF.HashMap.get nS.storageAreaMap o = some pS) :
    (∀ a : StorageArea,
        a.clone.1.securityOrigin = a.securityOrigin
        ∧ a.clone.1.quotaInBytes = a.quotaInBytes
        ∧ a.clone.1.storageMap = a.storageMap
        ∧ a.clone.1.eventListeners = []
        ∧ a.clone.1.localStorageNamespace = none
        ∧ a.clone.1.didImportItemsFromDatabase = false
        ∧ a.clone.1.localStorageDatabase = none
        ∧ ∀ t : LocalStorageDatabaseTracker,
            (a.clone.1.items t).result = a.storageMap.map
            ∧ (a.Opened → (a.clone.1.items t).result = (a.items t).result))
    ∧ ∃ aS pD nD',
        s.storageArea pS = some aS
        ∧ WTF.HashMap.get (s.cloneSessionStorageNamespaceInternal S D).sessionStorageNamespaces D
            = some nD'
        ∧ WTF.HashMap.get nD'.storageAreaMap o = some pD
        ∧ pD ≠ pS
        ∧ (s.cloneSessionStorageNamespaceInternal S D).storageArea pD = some aS.clone.1
        ∧ ∀ c i,
            ((s.cloneSessionStorageNamespaceInternal S D).createSessionStorageMap c i D o
              ).findStorageArea c i = some pD
            ∧ ∀ src seed k v u c' h i' k' o' n' u',
                (Effect.send c' (.DispatchStorageEvent i' k' o' n' u') h
                    ∈ ((s.cloneSessionStorageNamespaceInternal S D).createSessionStorageMap
                          c i D o).effectsSince
                        (((s.cloneSessionStorageNamespaceInternal S D).createSessionStorageMap
                          c i D o).setItem c i src seed k v u)
                  ∨ Effect.send c' (.DispatchStorageEvent i' k' o' n' u') h
                    ∈ ((s.cloneSessionStorageNamespaceInternal S D).createSessionStorageMap
                          c i D o).effectsSince
                        (((s.cloneSessionStorageNamespaceInternal S D).createSessionStorageMap
                          c i D o).removeItem c i src seed k u)
                  ∨ Effect.send c' (.DispatchStorageEvent i' k' o' n' u') h
                    ∈ ((s.cloneSessionStorageNamespaceInternal S D).createSessionStorageMap
                          c i D o).effectsSince
                        (((s.cloneSessionStorageNamespaceInternal S D).createSessionStorageMap
                          c i D o).clear c i src seed u)) →
                (c', h) = (c, i) := by
  constructor
  · intro a
    refine ⟨rfl, rfl, rfl, rfl, rfl, rfl, rfl, fun t => ⟨?_, fun ho => ?_⟩⟩
    · exact StorageArea.items_of_opened t a.clone.1 (Or.inl rfl)
    · rw [StorageArea.items_of_opened t a.clone.1 (Or.inl rfl), StorageArea.items_of_opened t a ho]
      rfl
  · have hP := StorageManager.cloneProgress_clone s hwf S D nS nD hS hD hE
    obtain ⟨n, hn, hnone, hsome⟩ := hP.target
    cases hpD : WTF.HashMap.get n.storageAreaMap o with
    | none =>
      rw [(hnone o).mp hpD] at hpS
      cases hpS
    | some pD =>
      obtain ⟨hle, pS', aS, h2, h3, h4⟩ := hsome o pD hpD
      rw [hpS] at h2
      cases h2
      have hne : pD ≠ pS := by
        have := hwf.heapBound pS aS h3
        omega
      refine ⟨aS, pD, n, h3, hn, hpD, hne, h4, ?_⟩
      intro c i
      obtain ⟨g1, g2, _⟩ := StorageManager.createSessionStorageMap_existing
        (s.cloneSessionStorageNamespaceInternal S D) c i D o n pD aS.clone.1 hn hpD h4
      refine ⟨g1, ?_⟩
      intro src seed k v u c' h i' k' o' n' u' hm
      have := StorageManager.storageEvents_of_mutation _ c i src seed k v u pD _ g1 g2
        c' h i' k' o' n' u' hm
      have this' : (c', h) ∈ WTF.HashSet.add ([] : WTF.HashSet (Connection × Nat)) (c, i) := this
      rcases (StorageManager.mem_hashSet_add _ _ _).mp this' with hl | hl
      · cases hl
      · exact hl

/-- Witness for C28: the session namespace 2 of `cloneQuotaExample` was created
with quota 50; the clone it receives from the namespace 1, at address 2, has the
quota 100 of its source. -/
theorem StorageManager.clone_keeps_source_fields_and_no_listener_witness :
    ((cloneQuotaExample.cloneSessionStorageNamespaceInternal 1 2).storageArea 2).map
        StorageArea.quotaInBytes = some 100
    ∧ (WTF.HashMap.get
          (cloneQuotaExample.cloneSessionStorageNamespaceInternal 1 2).sessionStorageNamespaces
          2).map SessionStorageNamespace.quotaInBytes = some 50 := by
  obtain ⟨aS, pD, nD', h1, h2, h3, _, h5, _⟩ :=
    (StorageManager.clone_keeps_source_fields_and_no_listener cloneQuotaExample
      (StorageManager.wellFormed_run _ _) 1 2 ⟨some 5, 100, [("o", 1)]⟩ ⟨some 6, 50, []⟩
      (by decide) (by decide) rfl "o" 1 (by decide)).2
  have e1 : cloneQuotaExample.storageArea 1
      = some { localStorageNamespace := none, localStorageDatabase := none
               didImportItemsFromDatabase := false, securityOrigin := "o", quotaInBytes := 100
               storageMap := { quotaSize := 100, map := [("k", "v")] }
               eventListeners := [(5, 7)] } := by decide
  have e2 : WTF.HashMap.get
      (cloneQuotaExample.cloneSessionStorageNamespaceInternal 1 2).sessionStorageNamespaces 2
      = some ⟨some 6, 50, [("o", 2)]⟩ := by decide
  rw [e1] at h1
  rw [e2] at h2
  cases h1
  cases h2
  cases h3
  rw [h5, e2]
  exact ⟨rfl, rfl⟩

/-- C29: for a storage area of a local storage namespace and each of items /
setItem / removeItem / clear: (1) after the call the backing store is open and
`m_didImportItemsFromDatabase` is true; (2) the effects of the call start with
`LocalStorageDatabase::create` when no backing store was open, followed by
`importItems` when the items were not imported, and no other `create` or
`importItems` follows; (3) a write rejected for quota, a remove of an absent key
and a clear of an empty map have exactly those effects and no other; (4) when
the items were imported, the call made after `forceClear` starts with
`LocalStorageDatabase::create`, calls no `importItems`, and again ends with the
backing store open and the flag true. -/
theorem StorageArea.backing_store_open_after_call
    (tracker : LocalStorageDatabaseTracker) (a : StorageArea) (id : Nat)
    (hns : a.localStorageNamespace = some id) (op : StorageArea.Operation)
    (hop : op.usesItems = true) :
    ((a.apply tracker op).localStorageDatabase.isSome = true
      ∧ (a.apply tracker op).didImportItemsFromDatabase = true)
    ∧ (∃ rest, a.effectsOf tracker op
          = (if a.localStorageDatabase.isSome then []
              else [Effect.database a.securityOrigin .create])
            ++ (if a.didImportItemsFromDatabase then []
              else [Effect.database a.securityOrigin .importItems])
            ++ rest
        ∧ ∀ o, Effect.database o .create ∉ rest ∧ Effect.database o .importItems ∉ rest)
    ∧ (∀ c i k v u,
        (a.setItem tracker c i k v u).result = true →
        (a.setItem tracker c i k v u).effects
          = (if a.localStorageDatabase.isSome then []
              else [Effect.database a.securityOrigin .create])
            ++ (if a.didImportItemsFromDatabase then []
              else [Effect.database a.securityOrigin .importItems]))
    ∧ (∀ c i k u,
        WTF.HashMap.get (a.items tracker).result k = none →
        (a.removeItem tracker c i k u).effects
          = (if a.localStorageDatabase.isSome then []
              else [Effect.database a.securityOrigin .create])
            ++ (if a.didImportItemsFromDatabase then []
              else [Effect.database a.securityOrigin .importItems]))
    ∧ (∀ c i u,
        (a.items tracker).result = [] →
        (a.clear tracker c i u).effects
          = (if a.localStorageDatabase.isSome then []
              else [Effect.database a.securityOrigin .create])
            ++ (if a.didImportItemsFromDatabase then []
              else [Effect.database a.securityOrigin .importItems]))
    ∧ (a.didImportItemsFromDatabase = true →
        (∃ rest, a.forceClear.1.effectsOf tracker op
            = Effect.database a.securityOrigin .create :: rest
          ∧ ∀ o, Effect.database o .create ∉ rest ∧ Effect.database o .importItems ∉ rest)
        ∧ (a.forceClear.1.apply tracker op).localStorageDatabase.isSome = true
        ∧ (a.forceClear.1.apply tracker op).didImportItemsFromDatabase = true) := by
  have hne : a.localStorageNamespace ≠ none := by
    rw [hns]
    exact fun h => (nomatch h)
  have fields : ∀ b : StorageArea, b.localStorageNamespace = some id →
      (b.apply tracker op).localStorageDatabase.isSome = true
      ∧ (b.apply tracker op).didImportItemsFromDatabase = true := by
    intro b hb
    have hbne : b.localStorageNamespace ≠ none := by
      rw [hb]
      exact fun h => (nomatch h)
    obtain ⟨h1, h2⟩ := (StorageArea.apply_fields tracker b op).2.2.2 hop hbne
    refine ⟨?_, h1⟩
    cases hdb : (b.apply tracker op).localStorageDatabase with
    | none => exact absurd hdb h2
    | some db => rfl
  have split : ∀ b : StorageArea, b.localStorageNamespace = some id →
      ∃ rest, b.effectsOf tracker op
          = (if b.localStorageDatabase.isSome then []
              else [Effect.database b.securityOrigin .create])
            ++ (if b.didImportItemsFromDatabase then []
              else [Effect.database b.securityOrigin .importItems])
            ++ rest
        ∧ ∀ o, Effect.database o .create ∉ rest ∧ Effect.database o .importItems ∉ rest := by
    intro b hb
    obtain ⟨h1, _, _, h4⟩ := StorageArea.apply_split tracker b op hop
    refine ⟨(b.openDatabaseAndImportItemsIfNeeded tracker).1.effectsOf tracker op, ?_, ?_⟩
    · rw [h1, (StorageArea.open_local tracker b id hb).2.2.2]
    · intro o
      constructor
      · intro he
        rcases h4 _ he with ⟨db, call, _, e, _, h6⟩ | ⟨c, m, h, e⟩
        · cases e
          exact h6 rfl
        · cases e
      · intro he
        rcases h4 _ he with ⟨db, call, _, e, h5, _⟩ | ⟨c, m, h, e⟩
        · cases e
          exact h5 rfl
        · cases e
  have hpre := (StorageArea.open_local tracker a id hns).2.2.2
  refine ⟨fields a hns, split a hns, ?_, ?_, ?_, ?_⟩
  · intro c i k v u hr
    by_cases hq : (a.openDatabaseAndImportItemsIfNeeded tracker).1.storageMap.quotaSize
        < serializedSize
            (WTF.HashMap.set (a.openDatabaseAndImportItemsIfNeeded tracker).1.storageMap.map k v)
    · rw [StorageArea.setItem_over tracker a c i k v u hq]
      exact hpre
    · rw [StorageArea.setItem_fits tracker a c i k v u hq] at hr
      cases hr
  · intro c i k u hg
    rw [StorageArea.removeItem_absent tracker a c i k u hg]
    exact hpre
  · intro c i u hl
    rw [StorageArea.clear_empty tracker a c i u hl]
    exact hpre
  · intro himp
    refine ⟨?_, fields a.forceClear.1 hns⟩
    obtain ⟨rest, h1, h2⟩ := split a.forceClear.1 hns
    refine ⟨rest, ?_, h2⟩
    rw [h1]
    simp [StorageArea.forceClear, himp]

/-- Witness for C29: a write of 16 bytes to a persistent map with quota 10 that
has not opened its backing store is rejected, and has opened and imported. -/
theorem StorageArea.backing_store_open_after_call_witness :
    (((StorageArea.create (some 1) "o" 10).apply ⟨[]⟩
        (.setItem 5 7 "key" "value" "u")).localStorageDatabase.isSome = true
      ∧ ((StorageArea.create (some 1) "o" 10).apply ⟨[]⟩
        (.setItem 5 7 "key" "value" "u")).didImportItemsFromDatabase = true)
    ∧ ((StorageArea.create (some 1) "o" 10).setItem ⟨[]⟩ 5 7 "key" "value" "u").effects
        = [Effect.database "o" .create, Effect.database "o" .importItems] :=
  have h := StorageArea.backing_store_open_after_call ⟨[]⟩ (StorageArea.create (some 1) "o" 10) 1
    rfl (.setItem 5 7 "key" "value" "u") rfl
  ⟨h.1, h.2.2.1 5 7 "key" "value" "u" (by decide)⟩

/-- C30: for a storage area whose listeners are a set, whose `items()` hold the
value `value` under `key`, and whose `items()` are within the quota of its
storage map, `setItem(key, value)` is not reported as quota-exceeded, leaves
`items()` as they were, sends each listener exactly one storage event, with the
key, old value `value` and new value `value`, and calls `setItem(key, value)` on
the backing store that is open after `openDatabaseAndImportItemsIfNeeded`, as
one is for every storage area of a local storage namespace. -/
theorem StorageArea.setItem_same_value_fans_out
    (tracker : LocalStorageDatabaseTracker) (a : StorageArea)
    (sourceConnection : Connection) (sourceStorageAreaID : Nat) (key value urlString : String)
    (hset : a.eventListeners.Nodup)
    (hheld : WTF.HashMap.get (a.items tracker).result key = some value)
    (hquota : serializedSize (a.items tracker).result
      ≤ (a.items tracker).area.storageMap.quotaSize) :
    (a.setItem tracker sourceConnection sourceStorageAreaID key value urlString).result = false
    ∧ ((a.setItem tracker sourceConnection sourceStorageAreaID key value urlString).area.items
          tracker).result = (a.items tracker).result
    ∧ (∀ c h, (c, h) ∈ a.eventListeners →
        storageEventsTo
            (a.setItem tracker sourceConnection sourceStorageAreaID key value urlString).effects
            c h
          = [Message.DispatchStorageEvent
              (if c = sourceConnection then sourceStorageAreaID else 0)
              (some key) (some value) (some value) urlString])
    ∧ (∀ db, (a.items tracker).area.localStorageDatabase = some db →
        Effect.database db.securityOrigin (.setItem key value)
          ∈ (a.setItem tracker sourceConnection sourceStorageAreaID key value urlString).effects)
    ∧ (a.localStorageNamespace ≠ none →
        ∃ db, (a.items tracker).area.localStorageDatabase = some db) := by
  rw [StorageArea.items_result] at hheld hquota
  rw [StorageArea.items_area] at hquota
  have hsame := WTF.HashMap.set_of_get _ _ _ hheld
  have hq : ¬ (a.openDatabaseAndImportItemsIfNeeded tracker).1.storageMap.quotaSize
      < serializedSize (WTF.HashMap.set
          (a.openDatabaseAndImportItemsIfNeeded tracker).1.storageMap.map key value) := by
    rw [hsame]
    omega
  have hok : (a.setItem tracker sourceConnection sourceStorageAreaID key value urlString).result
      = false := by
    rw [StorageArea.setItem_fits tracker a _ _ _ _ _ hq]
  refine ⟨hok, ?_, ?_, ?_, ?_⟩
  · rw [StorageArea.items_setItem, hok, StorageArea.items_result, hsame]
    rfl
  · intro c h hm
    rw [StorageArea.storageEventsTo_setItem _ a _ _ _ _ _ hok,
      StorageArea.countP_eq_one_of_nodup _ _ hset hm, StorageArea.items_result, hheld]
    rfl
  · intro db hdb
    rw [StorageArea.items_area] at hdb
    rw [StorageArea.setItem_fits tracker a _ _ _ _ _ hq]
    simp only
    apply List.mem_append_left
    apply List.mem_append_right
    exact StorageArea.writeThrough_mem _ _ db hdb
  · intro hne
    rw [StorageArea.items_area]
    cases hns : a.localStorageNamespace with
    | none => exact absurd hns hne
    | some id => exact ⟨_, (StorageArea.open_local tracker a id hns).1⟩

/-- Witness for C30: a persistent map that holds `(k, v)`, with an open backing
store and the listeners `(5, 7)` and `(6, 8)`, is written `(k, v)` again. -/
theorem StorageArea.setItem_same_value_fans_out_witness :
    storageEventsTo
      (({ localStorageNamespace := some 1, localStorageDatabase := some ⟨"o"⟩
          didImportItemsFromDatabase := true, securityOrigin := "o", quotaInBytes := 100
          storageMap := { quotaSize := 100, map := [("k", "v")] }
          eventListeners := [(5, 7), (6, 8)] } : StorageArea).setItem ⟨[]⟩ 5 7 "k" "v"
            "u").effects 6 8
      = [Message.DispatchStorageEvent (if 6 = 5 then 7 else 0) (some "k") (some "v") (some "v")
          "u"] :=
  (StorageArea.setItem_same_value_fans_out ⟨[]⟩
    { localStorageNamespace := some 1, localStorageDatabase := some ⟨"o"⟩
      didImportItemsFromDatabase := true, securityOrigin := "o", quotaInBytes := 100
      storageMap := { quotaSize := 100, map := [("k", "v")] }
      eventListeners := [(5, 7), (6, 8)] } 5 7 "k" "v" "u" (by decide) (by decide)
    (by decide)).2.2.1 6 8 (by decide)

end WebKit
